import Mathlib

/-!
# Bhilal: lexer and parser

A shallow embedding of `src/lexer.js` and `src/parser.js`.

* A JavaScript string is a sequence of UTF-16 code units. The input is kept as
  the list of its characters; a character outside the Basic Multilingual Plane
  is two code units (a surrogate pair), and where the code counts code units
  (the `column` counter) it counts for two (`utf16Length`). Such a character is
  accepted only inside a string literal and a comment.
* `Lexer.cursor` indexes a fixed input; the embedding keeps the part of the
  input from the cursor on (`rest`). A cursor moved past the end reads
  `undefined` exactly like a cursor at the end, so both are the empty `rest`.
* `throw` becomes an error result. Loops take a fuel argument; `none` /
  `outOfFuel` is the embedding running out of fuel, never a result of the code.
-/

namespace Bhilal

/-! ## Tokens -/

/-- The `type` field of a token. -/
inductive TokenType
  | KEYWORD | IDENTIFIER | NUMBER | STRING | OPERATOR | PUNCTUATION
  deriving DecidableEq, Repr

/-- The `value` field of a token. `str` is a JavaScript string. `num text` is
the number `parseFloat(text)`; the embedding keeps the consumed text. `inherited
key` is the object `aliases[key]` read through the prototype chain of the object
literal `aliases` (`aliases["constructor"]`, `aliases["toString"]`, ...): it is
truthy and is not a string. -/
inductive TokenValue
  | str (s : String)
  | num (text : String)
  | inherited (key : String)
  deriving DecidableEq, Repr

/-- A token `{ type, value, line, column }`. -/
structure Token where
  type : TokenType
  value : TokenValue
  line : Nat
  column : Nat
  deriving DecidableEq, Repr

/-- The two `throw` sites of `tokenize`: `Caractère inattendu: c` (lexer.js:229)
and `'!' inattendu, attendu '!='` (lexer.js:142). -/
inductive LexErrorKind
  | unexpectedChar (c : Char)
  | bangWithoutEq
  deriving DecidableEq, Repr

/-- The error thrown by `tokenize`; its message starts `[Ligne line, Col column]`. -/
structure LexError where
  line : Nat
  column : Nat
  kind : LexErrorKind
  deriving DecidableEq, Repr

deriving instance DecidableEq for Except

/-! ## Character classes -/

/-- The regular expression `/\s/` on one UTF-16 code unit. -/
def isSpace (c : Char) : Bool :=
  let n := c.toNat
  (9 ≤ n && n ≤ 13) || n == 32 || n == 160 || n == 5760 || (8192 ≤ n && n ≤ 8202)
    || n == 8232 || n == 8233 || n == 8239 || n == 8287 || n == 12288 || n == 65279

/-- The regular expression `/[a-zA-Z_]/`. -/
def isIdentStart (c : Char) : Bool := c.isAlpha || c == '_'

/-- The regular expression `/[a-zA-Z0-9_]/`. -/
def isIdentPart (c : Char) : Bool := c.isAlphanum || c == '_'

/-- The regular expression `/[0-9.]/`. -/
def isNumberPart (c : Char) : Bool := c.isDigit || c == '.'

/-- The regular expression `/[+*/()-]/`. -/
def isSingleOperator (c : Char) : Bool :=
  c == '+' || c == '*' || c == '/' || c == '(' || c == ')' || c == '-'

/-- The characters emitted as one-character PUNCTUATION tokens. -/
def isPunctuation (c : Char) : Bool :=
  c == ',' || c == ':' || c == '.' || c == '[' || c == ']' || c == '{' || c == '}'

/-! ## Keywords and aliases -/

/-- The array `keywords` (lexer.js:49-54). -/
def keywords : List String :=
  ["montre", "soit", "si", "sinon", "tantque", "faire", "fonction", "renvoie",
   "classe", "nouveau", "herite", "de",
   "prive", "public", "essaye", "attrape", "enfin", "lance", "abstrait", "interface",
   "inclure"]

/-- The own properties of the object `aliases` (lexer.js:57-82). -/
def aliases : List (String × String) :=
  [("print", "montre"), ("let", "soit"), ("if", "si"), ("else", "sinon"),
   ("while", "tantque"), ("do", "faire"), ("function", "fonction"),
   ("return", "renvoie"), ("class", "classe"), ("new", "nouveau"),
   ("inherits", "herite"), ("private", "prive"), ("public", "public"),
   ("try", "essaye"), ("catch", "attrape"), ("finally", "enfin"),
   ("throw", "lance"), ("abstract", "abstrait"), ("interface", "interface"),
   ("include", "inclure"), ("scan_ports", "scan_ports"), ("port_scan", "scan_ports"),
   ("http_request", "requete_http"), ("fetch", "requete_http")]

/-- The property names every object literal inherits from `Object.prototype`. -/
def objectPrototypeKeys : List String :=
  ["constructor", "__defineGetter__", "__defineSetter__", "hasOwnProperty",
   "__lookupGetter__", "__lookupSetter__", "isPrototypeOf", "propertyIsEnumerable",
   "toString", "valueOf", "__proto__", "toLocaleString"]

/-- The read `aliases[identifier]`: `none` is `undefined`. Every value it can
return (a non-empty string, a function, an object) is truthy. -/
def aliasLookup (identifier : String) : Option TokenValue :=
  match aliases.lookup identifier with
  | some v => some (.str v)
  | none => if identifier ∈ objectPrototypeKeys then some (.inherited identifier) else none

/-- Lines 85-87: `if (aliases[identifier]) identifier = aliases[identifier]`. -/
def applyAlias (identifier : String) : TokenValue :=
  match aliasLookup identifier with
  | some v => v
  | none => .str identifier

/-- The test `keywords.includes(identifier)`: strict equality with a string. -/
def isKeyword : TokenValue → Bool
  | .str s => decide (s ∈ keywords)
  | _ => false

/-- Lines 89-93: the token pushed for an identifier-shaped word. -/
def wordToken (word : List Char) (line column : Nat) : Token :=
  let identifier := applyAlias (String.mk word)
  if isKeyword identifier then ⟨.KEYWORD, identifier, line, column⟩
  else ⟨.IDENTIFIER, identifier, line, column⟩

/-! ## The lexer -/

/-- The number of UTF-16 code units of a text: the `length` of the JavaScript
string, two for a character outside the Basic Multilingual Plane. -/
def utf16Length (text : List Char) : Nat :=
  (text.map fun c => if c.toNat < 65536 then 1 else 2).sum

/-- The mutable state of `Lexer.tokenize`: the input from `cursor` on, the
counters `line` and `column`, and the array `tokens` in push order. -/
structure LexState where
  rest : List Char
  line : Nat
  column : Nat
  tokens : List Token
  deriving DecidableEq, Repr

/-- One iteration of the `while` loop of `tokenize` (lexer.js:16-229), entered
with `char = c` at the cursor and `cs` after it. -/
def scanOne (c : Char) (cs : List Char) (line column : Nat) (tokens : List Token) :
    Except LexError LexState :=
  if c = '\n' then
    .ok ⟨cs, line + 1, 1, tokens⟩
  else if isSpace c then
    .ok ⟨cs, line, column + 1, tokens⟩
  else if c = '#' then
    .ok ⟨(c :: cs).dropWhile (fun x => x != '\n'), line, column, tokens⟩
  else if isIdentStart c then
    let word := (c :: cs).takeWhile isIdentPart
    .ok ⟨(c :: cs).dropWhile isIdentPart, line, column + word.length,
      tokens ++ [wordToken word line column]⟩
  else if c.isDigit then
    let number := (c :: cs).takeWhile isNumberPart
    .ok ⟨(c :: cs).dropWhile isNumberPart, line, column + number.length,
      tokens ++ [⟨.NUMBER, .num (String.mk number), line, column⟩]⟩
  else if c = '"' then
    let string := cs.takeWhile (fun x => x != '"')
    .ok ⟨(cs.dropWhile (fun x => x != '"')).tail, line, column + 1 + utf16Length string + 1,
      tokens ++ [⟨.STRING, .str (String.mk string), line, column⟩]⟩
  else if c = '=' then
    if cs.head? = some '=' then
      .ok ⟨cs.tail, line, column + 2, tokens ++ [⟨.OPERATOR, .str "==", line, column⟩]⟩
    else
      .ok ⟨cs, line, column + 1, tokens ++ [⟨.OPERATOR, .str "=", line, column⟩]⟩
  else if c = '!' then
    if cs.head? = some '=' then
      .ok ⟨cs.tail, line, column + 2, tokens ++ [⟨.OPERATOR, .str "!=", line, column⟩]⟩
    else
      .error ⟨line, column, .bangWithoutEq⟩
  else if isPunctuation c then
    .ok ⟨cs, line, column + 1, tokens ++ [⟨.PUNCTUATION, .str (String.mk [c]), line, column⟩]⟩
  else if c = '<' then
    if cs.head? = some '=' then
      .ok ⟨cs.tail, line, column + 2, tokens ++ [⟨.OPERATOR, .str "<=", line, column⟩]⟩
    else
      .ok ⟨cs, line, column + 1, tokens ++ [⟨.OPERATOR, .str "<", line, column⟩]⟩
  else if c = '>' then
    if cs.head? = some '=' then
      .ok ⟨cs.tail, line, column + 2, tokens ++ [⟨.OPERATOR, .str ">=", line, column⟩]⟩
    else
      .ok ⟨cs, line, column + 1, tokens ++ [⟨.OPERATOR, .str ">", line, column⟩]⟩
  else if isSingleOperator c then
    .ok ⟨cs, line, column + 1, tokens ++ [⟨.OPERATOR, .str (String.mk [c]), line, column⟩]⟩
  else
    .error ⟨line, column, .unexpectedChar c⟩

/-- The `while (this.cursor < this.input.length)` loop of `tokenize`. -/
def lexLoop : Nat → LexState → Option (Except LexError (List Token))
  | _, ⟨[], _, _, tokens⟩ => some (.ok tokens)
  | 0, ⟨_ :: _, _, _, _⟩ => none
  | fuel + 1, ⟨c :: cs, line, column, tokens⟩ =>
    match scanOne c cs line column tokens with
    | .error e => some (.error e)
    | .ok s => lexLoop fuel s

/-- The state `new Lexer(input)` starts from. -/
def Lexer (input : String) : LexState := ⟨input.data, 1, 1, []⟩

/-- The method `Lexer.tokenize` of `new Lexer(input)`. Every iteration moves the
cursor, so `input.length` iterations are enough. -/
def tokenize (input : String) : Option (Except LexError (List Token)) :=
  lexLoop input.length (Lexer input)

/-! ## The syntax tree -/

/-- The nodes built by `Parser.createNode`, one constructor for each `type`,
with the `line` and `column` copied from the token handed to `createNode`.
`Program` is built without them. `visibility` and `isAbstract` are the fields
`parseClassDeclaration` and `parseStatement` set on a finished node; `none` is a
field left unset (`undefined`) or holding `null`. -/
inductive Node
  | Program (body : List Node)
  | VariableDeclaration (name : TokenValue) (value : Node) (line column : Nat)
  | ExpressionStatement (expression : Node) (line column : Nat)
  | PrintStatement (args : List Node) (line column : Nat)
  | IfStatement (condition : Node) (consequent : List Node) (alternate : Option (List Node))
      (line column : Nat)
  | WhileStatement (condition : Node) (body : List Node) (line column : Nat)
  | FunctionDeclaration (name : TokenValue) (params : List TokenValue) (body : List Node)
      (visibility : Option TokenValue) (line column : Nat)
  | ReturnStatement (argument : Node) (line column : Nat)
  | ClassDeclaration (name : TokenValue) (superClassName : Option TokenValue)
      (methods : List Node) (isAbstract : Bool) (line column : Nat)
  | InterfaceDeclaration (name : TokenValue) (methods : List Node) (line column : Nat)
  | TryStatement (block : List Node) (handler : Option (TokenValue × List Node))
      (finalizer : Option (List Node)) (line column : Nat)
  | ThrowStatement (argument : Node) (line column : Nat)
  | IncludeStatement (path : TokenValue) (line column : Nat)
  | CallExpression (callee : TokenValue) (args : List Node) (line column : Nat)
  | BinaryExpression (operator : TokenValue) (left right : Node) (line column : Nat)
  | AssignmentExpression (left right : Node) (line column : Nat)
  | Literal (value : TokenValue) (line column : Nat)
  | Identifier (name : TokenValue) (line column : Nat)
  | NewExpression (className : TokenValue) (line column : Nat)
  | ListLiteral (elements : List Node) (line column : Nat)
  | ObjectLiteral (pairs : List (TokenValue × Node)) (line column : Nat)
  | MemberExpression (object property : Node) (line column : Nat)

/-! ## The parser -/

/-- What `Parser` throws. `expected message line` is `new Error` with the text
`[Ligne line] message`; `line` is `none` where the source interpolates
`this.line`, a field a `Parser` does not have. `unexpectedExpression` is the
error of `parsePrimary` (parser.js:324), whose text ends with the token value.
`typeError` is the TypeError of reading a property of `undefined`, the result
of `peek()` or `eat()` at the end of the tokens. -/
inductive ParseError
  | expected (message : String) (line : Option Nat)
  | unexpectedExpression (value : TokenValue) (line : Nat)
  | typeError
  deriving DecidableEq, Repr

/-- The outcome of a parsing method: the returned value with the tokens from
the cursor on, or the error thrown. -/
inductive Res (α : Type)
  | ok (value : α) (rest : List Token)
  | fail (e : ParseError)
  | outOfFuel

/-- Sequencing: the continuation runs on a returned value, an error propagates. -/
def Res.bind {α β : Type} (r : Res α) (k : α → List Token → Res β) : Res β :=
  match r with
  | .ok a rest => k a rest
  | .fail e => .fail e
  | .outOfFuel => .outOfFuel

/-- The comparison `token.value === s` with a string `s`. -/
def Token.is (t : Token) (s : String) : Bool := decide (t.value = .str s)

/-- The test `this.peek() && this.peek().value === s`. -/
def peekIs (toks : List Token) (s : String) : Bool :=
  match toks with
  | [] => false
  | t :: _ => t.is s

/-- The test `this.peek() && this.peek().value !== "}"` of the body loops. -/
def peekIsNotClose (toks : List Token) : Bool :=
  match toks with
  | [] => false
  | t :: _ => !t.is "\x7d"

/-- The check `if (this.eat().value !== s) throw new Error(...)`, and the check
`if (this.peek().value !== s) throw new Error(...)` with the `this.eat()` after it. -/
def expect (s : String) (e : ParseError) (toks : List Token) : Res Unit :=
  match toks with
  | [] => .fail .typeError
  | t :: rest => if t.is s then .ok () rest else .fail e

/-- The check `if (!this.peek() || this.eat().value !== "}") throw new Error(...)`
that follows a body loop. -/
def closeBrace (e : ParseError) (toks : List Token) : Res Unit :=
  match toks with
  | [] => .fail e
  | t :: rest => if t.is "\x7d" then .ok () rest else .fail e

/-- The operators folded by the `while` loop of `parseExpression` (parser.js:263-270). -/
def binaryOperators : List String :=
  ["+", "-", "*", "/", "==", "!=", "<", ">", "<=", ">=", "."]

/-- The loop condition of `parseExpression` on the token at the cursor. -/
def Token.isBinaryOperator (t : Token) : Bool := binaryOperators.any (fun s => t.is s)

/-- The loop `while (this.peek().value === ",") { this.eat(); params.push(this.eat().value) }`
of `parseFunctionDeclaration`. -/
def paramsTail : List Token → Res (List TokenValue)
  | [] => .fail .typeError
  | t :: rest =>
    if t.is "," then
      match rest with
      | [] => .fail .typeError
      | p :: rest' => (paramsTail rest').bind fun ps r => .ok (p.value :: ps) r
    else .ok [] (t :: rest)

/-- The parameter list of `parseFunctionDeclaration` (parser.js:145-152), from
the token after `(`. -/
def parseParams (toks : List Token) : Res (List TokenValue) :=
  match toks with
  | [] => .fail .typeError
  | t :: rest =>
    if t.is ")" then .ok [] (t :: rest)
    else (paramsTail rest).bind fun ps r => .ok (t.value :: ps) r

/-- The method `parseIncludeStatement`. -/
def parseIncludeStatement (toks : List Token) : Res Node :=
  match toks with
  | [] => .fail .typeError
  | startToken :: r1 =>
    match r1 with
    | [] => .fail .typeError
    | pathToken :: r2 =>
      if pathToken.type ≠ .STRING then
        .fail (.expected "Chemin de fichier attendu (chaîne de caractères) après inclure"
          (some pathToken.line))
      else .ok (.IncludeStatement pathToken.value startToken.line startToken.column) r2

/-- The assignment `cls.isAbstract = true` of `parseStatement`. -/
def Node.markAbstract : Node → Node
  | .ClassDeclaration name superClassName methods _ line column =>
    .ClassDeclaration name superClassName methods true line column
  | n => n

mutual

/-- The method `parseStatement`. -/
def parseStatement : Nat → List Token → Res Node
  | 0, _ => .outOfFuel
  | fuel + 1, toks =>
    match toks with
    | [] => .fail .typeError
    | token :: rest =>
      if token.type = .KEYWORD ∧ token.is "soit" then parseVariableDeclaration fuel toks
      else if token.type = .KEYWORD ∧ token.is "montre" then parsePrintStatement fuel toks
      else if token.type = .KEYWORD ∧ token.is "si" then parseIfStatement fuel toks
      else if token.type = .KEYWORD ∧ token.is "tantque" then parseWhileStatement fuel toks
      else if token.type = .KEYWORD ∧ token.is "fonction" then parseFunctionDeclaration fuel toks
      else if token.type = .KEYWORD ∧ token.is "renvoie" then parseReturnStatement fuel toks
      else if token.type = .KEYWORD ∧ token.is "classe" then parseClassDeclaration fuel toks
      else if token.type = .KEYWORD ∧ token.is "abstrait" then
        match rest with
        | [] => .fail .typeError
        | next :: _ =>
          if next.is "classe" then
            (parseClassDeclaration fuel rest).bind fun cls r => .ok cls.markAbstract r
          else .fail (.expected "'classe' attendu après 'abstrait'" (some next.line))
      else if token.type = .KEYWORD ∧ token.is "interface" then
        parseInterfaceDeclaration fuel toks
      else if token.type = .KEYWORD ∧ token.is "essaye" then parseTryStatement fuel toks
      else if token.type = .KEYWORD ∧ token.is "lance" then parseThrowStatement fuel toks
      else if token.type = .KEYWORD ∧ token.is "inclure" then parseIncludeStatement toks
      else
        (parseExpression fuel toks).bind fun expr r =>
          .ok (.ExpressionStatement expr token.line token.column) r

/-- The loop `while (this.peek() && this.peek().value !== "}") body.push(this.parseStatement())`
shared by the bodies of `si`, `sinon`, `tantque`, `fonction` and `parseBlock`. -/
def parseStatements : Nat → List Token → Res (List Node)
  | 0, _ => .outOfFuel
  | fuel + 1, toks =>
    if peekIsNotClose toks then
      (parseStatement fuel toks).bind fun stmt r =>
        (parseStatements fuel r).bind fun stmts r' => .ok (stmt :: stmts) r'
    else .ok [] toks

/-- The method `parseVariableDeclaration`. -/
def parseVariableDeclaration : Nat → List Token → Res Node
  | 0, _ => .outOfFuel
  | fuel + 1, toks =>
    match toks with
    | [] => .fail .typeError
    | startToken :: r1 =>
      match r1 with
      | [] => .fail .typeError
      | identifier :: r2 =>
        if identifier.type ≠ .IDENTIFIER then
          .fail (.expected "Nom de variable attendu" (some identifier.line))
        else
          match r2 with
          | [] => .fail .typeError
          | operator :: r3 =>
            if operator.is "=" then
              (parseExpression fuel r3).bind fun value r =>
                .ok (.VariableDeclaration identifier.value value startToken.line
                  startToken.column) r
            else .fail (.expected "'=' attendu" (some operator.line))

/-- The method `parsePrintStatement`. -/
def parsePrintStatement : Nat → List Token → Res Node
  | 0, _ => .outOfFuel
  | fuel + 1, toks =>
    match toks with
    | [] => .fail .typeError
    | startToken :: r1 =>
      let hasParenthesis := peekIs r1 "("
      let r2 := if hasParenthesis then r1.tail else r1
      (parseExpression fuel r2).bind fun first r3 =>
        (printArgs fuel r3).bind fun more r4 =>
          let r5 := if hasParenthesis && peekIs r4 ")" then r4.tail else r4
          .ok (.PrintStatement (first :: more) startToken.line startToken.column) r5

/-- The loop of `parsePrintStatement` (parser.js:77-80) over `, <expr>`. -/
def printArgs : Nat → List Token → Res (List Node)
  | 0, _ => .outOfFuel
  | fuel + 1, toks =>
    match toks with
    | [] => .ok [] []
    | t :: rest =>
      if t.type = .PUNCTUATION ∧ t.is "," then
        (parseExpression fuel rest).bind fun arg r =>
          (printArgs fuel r).bind fun args r' => .ok (arg :: args) r'
      else .ok [] toks

/-- The method `parseIfStatement`. -/
def parseIfStatement : Nat → List Token → Res Node
  | 0, _ => .outOfFuel
  | fuel + 1, toks =>
    match toks with
    | [] => .fail .typeError
    | startToken :: r1 =>
      (parseExpression fuel r1).bind fun condition r2 =>
        (if peekIs r2 "\x7b" then
          (parseStatements fuel r2.tail).bind fun body r3 =>
            (closeBrace (.expected "'\x7d' attendu après le bloc si" (some startToken.line))
              r3).bind fun _ r4 => .ok body r4
        else
          (parseStatement fuel r2).bind fun stmt r3 => .ok [stmt] r3).bind fun consequent r5 =>
        (if peekIs r5 "sinon" then
          if peekIs r5.tail "\x7b" then
            (parseStatements fuel r5.tail.tail).bind fun body r6 =>
              (closeBrace (.expected "'\x7d' attendu après le bloc sinon" none) r6).bind
                fun _ r7 => .ok (some body) r7
          else
            (parseStatement fuel r5.tail).bind fun stmt r6 => .ok (some [stmt]) r6
        else .ok none r5).bind fun alternate r8 =>
        .ok (.IfStatement condition consequent alternate startToken.line startToken.column) r8

/-- The method `parseWhileStatement`. -/
def parseWhileStatement : Nat → List Token → Res Node
  | 0, _ => .outOfFuel
  | fuel + 1, toks =>
    match toks with
    | [] => .fail .typeError
    | startToken :: r1 =>
      (parseExpression fuel r1).bind fun condition r2 =>
        (if peekIs r2 "\x7b" then
          (parseStatements fuel r2.tail).bind fun body r3 =>
            (closeBrace (.expected "'\x7d' attendu à la fin du bloc tantque"
              (some startToken.line)) r3).bind fun _ r4 => .ok body r4
        else
          (parseStatement fuel r2).bind fun stmt r3 => .ok [stmt] r3).bind fun body r5 =>
        .ok (.WhileStatement condition body startToken.line startToken.column) r5

/-- The method `parseFunctionDeclaration`. -/
def parseFunctionDeclaration : Nat → List Token → Res Node
  | 0, _ => .outOfFuel
  | fuel + 1, toks =>
    match toks with
    | [] => .fail .typeError
    | startToken :: r1 =>
      match r1 with
      | [] => .fail .typeError
      | nameToken :: r2 =>
        if nameToken.type ≠ .IDENTIFIER then
          .fail (.expected "Nom de fonction attendu" (some nameToken.line))
        else
          (expect "(" (.expected "'(' attendu" none) r2).bind fun _ r3 =>
          (parseParams r3).bind fun params r4 =>
          (expect ")" (.expected "')' attendu" none) r4).bind fun _ r5 =>
          (expect "\x7b" (.expected "'\x7b' attendu pour le corps de la fonction" none) r5).bind
            fun _ r6 =>
          (parseStatements fuel r6).bind fun body r7 =>
          (closeBrace (.expected "'\x7d' attendu à la fin de la fonction" none) r7).bind
            fun _ r8 =>
          .ok (.FunctionDeclaration nameToken.value params body none startToken.line
            startToken.column) r8

/-- The method `parseReturnStatement`. -/
def parseReturnStatement : Nat → List Token → Res Node
  | 0, _ => .outOfFuel
  | fuel + 1, toks =>
    match toks with
    | [] => .fail .typeError
    | startToken :: r1 =>
      (parseExpression fuel r1).bind fun argument r =>
        .ok (.ReturnStatement argument startToken.line startToken.column) r

/-- The method `parseClassDeclaration`. -/
def parseClassDeclaration : Nat → List Token → Res Node
  | 0, _ => .outOfFuel
  | fuel + 1, toks =>
    match toks with
    | [] => .fail .typeError
    | startToken :: r1 =>
      match r1 with
      | [] => .fail .typeError
      | nameToken :: r2 =>
        if nameToken.type ≠ .IDENTIFIER then
          .fail (.expected "Nom de classe attendu" (some nameToken.line))
        else
          (if peekIs r2 "herite" then
            (expect "de" (.expected "'de' attendu après 'herite'" none) r2.tail).bind
              fun _ r3 =>
              match r3 with
              | [] => .fail .typeError
              | superToken :: r4 => .ok (some superToken.value) r4
          else .ok none r2).bind fun superClassName r5 =>
          (expect "\x7b" (.expected "'\x7b' attendu pour la classe" none) r5).bind fun _ r6 =>
          (classMembers fuel r6).bind fun methods r7 =>
          (closeBrace (.expected "'\x7d' attendu à la fin de la classe" none) r7).bind
            fun _ r8 =>
          .ok (.ClassDeclaration nameToken.value superClassName methods false
            startToken.line startToken.column) r8

/-- The member loop of `parseClassDeclaration` (parser.js:189-201). -/
def classMembers : Nat → List Token → Res (List Node)
  | 0, _ => .outOfFuel
  | fuel + 1, toks =>
    match toks with
    | [] => .ok [] []
    | t :: rest =>
      if t.is "\x7d" then .ok [] toks
      else
        let visibility := if t.is "prive" || t.is "public" then t.value else .str "public"
        let r1 := if t.is "prive" || t.is "public" then rest else toks
        (parseStatement fuel r1).bind fun member r2 =>
          match member with
          | .FunctionDeclaration name params body _ line column =>
            (classMembers fuel r2).bind fun members r3 =>
              .ok (.FunctionDeclaration name params body (some visibility) line column
                :: members) r3
          | _ =>
            match r2 with
            | [] => .fail .typeError
            | next :: _ =>
              .fail (.expected
                "Seules les fonctions sont autorisées dans les classes pour le moment"
                (some next.line))

/-- The method `parseTryStatement`. -/
def parseTryStatement : Nat → List Token → Res Node
  | 0, _ => .outOfFuel
  | fuel + 1, toks =>
    match toks with
    | [] => .fail .typeError
    | startToken :: r1 =>
      (parseBlock fuel r1).bind fun block r2 =>
        (if peekIs r2 "attrape" then
          (expect "(" (.expected "'(' attendu après attrape" none) r2.tail).bind fun _ r3 =>
            match r3 with
            | [] => .fail .typeError
            | paramToken :: r4 =>
              (expect ")" (.expected "')' attendu" none) r4).bind fun _ r5 =>
                (parseBlock fuel r5).bind fun body r6 => .ok (some (paramToken.value, body)) r6
        else .ok none r2).bind fun handler r7 =>
        (if peekIs r7 "enfin" then
          (parseBlock fuel r7.tail).bind fun body r8 => .ok (some body) r8
        else .ok none r7).bind fun finalizer r9 =>
        .ok (.TryStatement block handler finalizer startToken.line startToken.column) r9

/-- The method `parseThrowStatement`. -/
def parseThrowStatement : Nat → List Token → Res Node
  | 0, _ => .outOfFuel
  | fuel + 1, toks =>
    match toks with
    | [] => .fail .typeError
    | startToken :: r1 =>
      (parseExpression fuel r1).bind fun argument r =>
        .ok (.ThrowStatement argument startToken.line startToken.column) r

/-- The method `parseBlock`. -/
def parseBlock : Nat → List Token → Res (List Node)
  | 0, _ => .outOfFuel
  | fuel + 1, toks =>
    (expect "\x7b" (.expected "'\x7b' attendu" none) toks).bind fun _ r1 =>
      (parseStatements fuel r1).bind fun body r2 =>
        (closeBrace (.expected "'\x7d' attendu" none) r2).bind fun _ r3 => .ok body r3

/-- The method `parseExpression`. -/
def parseExpression : Nat → List Token → Res Node
  | 0, _ => .outOfFuel
  | fuel + 1, toks =>
    (parsePrimary fuel toks).bind fun left r1 =>
      match r1 with
      | [] => .ok left []
      | operatorToken :: r2 =>
        if operatorToken.is "=" then
          (parseExpression fuel r2).bind fun right r3 =>
            .ok (.AssignmentExpression left right operatorToken.line operatorToken.column) r3
        else binaryLoop fuel left r1

/-- The `while` loop of `parseExpression` (parser.js:263-274), entered with the
tree `left` built so far. -/
def binaryLoop : Nat → Node → List Token → Res Node
  | 0, _, _ => .outOfFuel
  | fuel + 1, left, toks =>
    match toks with
    | [] => .ok left []
    | operatorToken :: r1 =>
      if operatorToken.isBinaryOperator then
        (parsePrimary fuel r1).bind fun right r2 =>
          binaryLoop fuel
            (.BinaryExpression operatorToken.value left right operatorToken.line
              operatorToken.column) r2
      else .ok left toks

/-- The method `parsePrimary`. -/
def parsePrimary : Nat → List Token → Res Node
  | 0, _ => .outOfFuel
  | fuel + 1, toks =>
    match toks with
    | [] => .fail .typeError
    | token :: r1 =>
      if token.is "(" then
        (parseExpression fuel r1).bind fun expr r2 =>
          (expect ")" (.expected "')' attendu" (some token.line)) r2).bind fun _ r3 =>
            .ok expr r3
      else if token.type = .NUMBER then .ok (.Literal token.value token.line token.column) r1
      else if token.type = .STRING then .ok (.Literal token.value token.line token.column) r1
      else if token.type = .KEYWORD ∧ token.is "nouveau" then
        match r1 with
        | [] => .fail .typeError
        | nameToken :: r2 =>
          (expect "(" (.expected "'(' attendu" none) r2).bind fun _ r3 =>
            (expect ")" (.expected "')' attendu" none) r3).bind fun _ r4 =>
              .ok (.NewExpression nameToken.value token.line token.column) r4
      else if token.type = .IDENTIFIER then
        if peekIs r1 "(" then parseCallExpression fuel token r1
        else if peekIs r1 "[" then
          (parseExpression fuel r1.tail).bind fun index r2 =>
            (expect "]" (.expected "']' attendu" none) r2).bind fun _ r3 =>
              .ok (.MemberExpression (.Identifier token.value token.line token.column) index
                token.line token.column) r3
        else .ok (.Identifier token.value token.line token.column) r1
      else if token.is "[" then parseListLiteral fuel toks
      else if token.is "\x7b" then parseObjectLiteral fuel toks
      else .fail (.unexpectedExpression token.value token.line)

/-- The method `parseObjectLiteral`. -/
def parseObjectLiteral : Nat → List Token → Res Node
  | 0, _ => .outOfFuel
  | fuel + 1, toks =>
    match toks with
    | [] => .fail .typeError
    | startToken :: r1 =>
      (match r1 with
        | [] => .fail .typeError
        | t :: _ =>
          if t.is "\x7d" then .ok [] r1
          else
            (parseObjectPair fuel r1).bind fun pair r2 =>
              (objectPairsTail fuel r2).bind fun pairs r3 => .ok (pair :: pairs) r3 :
        Res (List (TokenValue × Node))).bind fun pairs r4 =>
        (expect "\x7d" (.expected "'\x7d' attendu à la fin de l'objet" (some startToken.line))
          r4).bind fun _ r5 =>
          .ok (.ObjectLiteral pairs startToken.line startToken.column) r5

/-- The method `parseObjectPair`. -/
def parseObjectPair : Nat → List Token → Res (TokenValue × Node)
  | 0, _ => .outOfFuel
  | fuel + 1, toks =>
    match toks with
    | [] => .fail .typeError
    | keyToken :: r1 =>
      if keyToken.type ≠ .IDENTIFIER ∧ keyToken.type ≠ .STRING then
        .fail (.expected "Clé d'objet attendue" (some keyToken.line))
      else
        (expect ":" (.expected "':' attendu après la clé" (some keyToken.line)) r1).bind
          fun _ r2 =>
          (parseExpression fuel r2).bind fun value r3 => .ok (keyToken.value, value) r3

/-- The loop `while (this.peek().value === ",")` of `parseObjectLiteral`. -/
def objectPairsTail : Nat → List Token → Res (List (TokenValue × Node))
  | 0, _ => .outOfFuel
  | fuel + 1, toks =>
    match toks with
    | [] => .fail .typeError
    | t :: rest =>
      if t.is "," then
        (parseObjectPair fuel rest).bind fun pair r =>
          (objectPairsTail fuel r).bind fun pairs r' => .ok (pair :: pairs) r'
      else .ok [] toks

/-- The method `parseCallExpression`, entered with the cursor on `(`. -/
def parseCallExpression : Nat → Token → List Token → Res Node
  | 0, _, _ => .outOfFuel
  | fuel + 1, calleeToken, toks =>
    (expressionList fuel ")" toks.tail).bind fun args r1 =>
      (expect ")" (.expected "')' attendu" (some calleeToken.line)) r1).bind fun _ r2 =>
        .ok (.CallExpression calleeToken.value args calleeToken.line calleeToken.column) r2

/-- The method `parseListLiteral`. -/
def parseListLiteral : Nat → List Token → Res Node
  | 0, _ => .outOfFuel
  | fuel + 1, toks =>
    match toks with
    | [] => .fail .typeError
    | startToken :: r1 =>
      (expressionList fuel "]" r1).bind fun elements r2 =>
        (expect "]" (.expected "']' attendu" (some startToken.line)) r2).bind fun _ r3 =>
          .ok (.ListLiteral elements startToken.line startToken.column) r3

/-- The argument and element lists of `parseCallExpression` and
`parseListLiteral`: `if (this.peek().value !== close) { push(parseExpression());
while (this.peek().value === ",") { this.eat(); push(parseExpression()) } }`. -/
def expressionList : Nat → String → List Token → Res (List Node)
  | 0, _, _ => .outOfFuel
  | fuel + 1, close, toks =>
    match toks with
    | [] => .fail .typeError
    | t :: _ =>
      if t.is close then .ok [] toks
      else
        (parseExpression fuel toks).bind fun first r =>
          (expressionsTail fuel r).bind fun more r' => .ok (first :: more) r'

/-- The loop `while (this.peek().value === ",") { this.eat(); push(parseExpression()) }`. -/
def expressionsTail : Nat → List Token → Res (List Node)
  | 0, _ => .outOfFuel
  | fuel + 1, toks =>
    match toks with
    | [] => .fail .typeError
    | t :: rest =>
      if t.is "," then
        (parseExpression fuel rest).bind fun e r =>
          (expressionsTail fuel r).bind fun es r' => .ok (e :: es) r'
      else .ok [] toks

/-- The method `parseInterfaceDeclaration`. -/
def parseInterfaceDeclaration : Nat → List Token → Res Node
  | 0, _ => .outOfFuel
  | fuel + 1, toks =>
    match toks with
    | [] => .fail .typeError
    | startToken :: r1 =>
      match r1 with
      | [] => .fail .typeError
      | nameToken :: r2 =>
        if nameToken.type ≠ .IDENTIFIER then
          .fail (.expected "Nom d'interface attendu" (some nameToken.line))
        else
          (expect "\x7b" (.expected "'\x7b' attendu" none) r2).bind fun _ r3 =>
          (interfaceMembers fuel r3).bind fun methods r4 =>
          .ok (.InterfaceDeclaration nameToken.value methods startToken.line
            startToken.column) r4.tail

/-- The member loop of `parseInterfaceDeclaration` (parser.js:391-398). -/
def interfaceMembers : Nat → List Token → Res (List Node)
  | 0, _ => .outOfFuel
  | fuel + 1, toks =>
    if peekIsNotClose toks then
      (parseStatement fuel toks).bind fun method r =>
        match method with
        | .FunctionDeclaration .. =>
          (interfaceMembers fuel r).bind fun methods r' => .ok (method :: methods) r'
        | _ =>
          .fail (.expected
            "Seules les déclarations de fonctions sont autorisées dans une interface" none)
    else .ok [] toks

end

/-- The loop `while (this.cursor < this.tokens.length) body.push(this.parseStatement())`
of `parse`. -/
def parseBody : Nat → List Token → Res (List Node)
  | 0, _ => .outOfFuel
  | fuel + 1, toks =>
    match toks with
    | [] => .ok [] []
    | _ :: _ =>
      (parseStatement fuel toks).bind fun stmt r =>
        (parseBody fuel r).bind fun stmts r' => .ok (stmt :: stmts) r'

/-- The method `parse` of `new Parser(tokens)`: the program, or the error thrown;
`none` when the fuel of the embedding runs out. -/
def parse (tokens : List Token) : Option (Except ParseError Node) :=
  match parseBody (8 * tokens.length + 8) tokens with
  | .ok body _ => some (.ok (.Program body))
  | .fail e => some (.error e)
  | .outOfFuel => none

/-! ## Reachable lexer states and source positions -/

/-- The states the loop of `tokenize` is in at the top of an iteration, for the
given input: the initial state, and the state after each completed iteration. -/
inductive Reaches (input : String) : LexState → Prop
  | start : Reaches input (Lexer input)
  | next {c : Char} {cs : List Char} {line column : Nat} {tokens : List Token} {s : LexState} :
      Reaches input ⟨c :: cs, line, column, tokens⟩ →
      scanOne c cs line column tokens = .ok s → Reaches input s

/-- The characters some branch of the loop of `tokenize` takes (lexer.js:18-227);
every other character falls through to the `throw` of line 229. -/
def accepted (c : Char) : Bool :=
  c == '\n' || isSpace c || c == '#' || isIdentStart c || c.isDigit || c == '"' || c == '='
    || c == '!' || isPunctuation c || c == '<' || c == '>' || isSingleOperator c

/-- Line of the character that follows `before` in a text, counted on the text
alone: 1 plus the number of newline characters before it. -/
def sourceLine (before : List Char) : Nat := 1 + before.count '\n'

/-- Column of the character that follows `before` in a text, counted on the text
alone: 1 plus the number of UTF-16 code units after the last newline before it
(or after the start of the text). -/
def sourceColumn (before : List Char) : Nat :=
  1 + utf16Length (before.reverse.takeWhile (fun x => x != '\n'))

/-- No STRING token of the list holds a newline: no string literal lexed so far
spans a line break. -/
def NoMultilineString (tokens : List Token) : Prop :=
  ∀ t ∈ tokens, t.type = .STRING → ∀ v, t.value = .str v → '\n' ∉ v.data

/-- The counters of a lexer state agree with the text consumed so far: as long
as no string literal lexed so far spans a line break, `line` is the line of the
character at the cursor, and so is `column`, unless the cursor is at the end of
the input or on a newline (the comment loop moves the cursor without counting
columns; it stops only there). -/
def PosInv (input : String) (s : LexState) : Prop :=
  ∃ before, input.data = before ++ s.rest ∧
    (NoMultilineString s.tokens →
      s.line = sourceLine before ∧
        (s.column = sourceColumn before ∨ s.rest = [] ∨ s.rest.head? = some '\n'))

/-! ## The front end -/

/-- What the first two steps of `runCode` (bhilal.js:12-15) throw: the error of
the lexer or the error of the parser. -/
inductive FrontError
  | lex (e : LexError)
  | parse (e : ParseError)
  deriving DecidableEq, Repr

/-- The first two steps of `runCode` (bhilal.js:12-15):
`new Parser(new Lexer(code).tokenize()).parse()`. -/
def parseSource (code : String) : Option (Except FrontError Node) :=
  match tokenize code with
  | none => none
  | some (.error e) => some (.error (.lex e))
  | some (.ok tokens) =>
    match parse tokens with
    | none => none
    | some (.error e) => some (.error (.parse e))
    | some (.ok ast) => some (.ok ast)

/-- A parsing method returns `value` and leaves `rest`, whatever the fuel of the
embedding from some amount on. -/
def Returns {α : Type} (p : Nat → List Token → Res α) (toks : List Token) (value : α)
    (rest : List Token) : Prop :=
  ∃ f0, ∀ f, f0 ≤ f → p f toks = .ok value rest

/-- The left-nested tree `((p0 o1 p1) o2 p2) ... on pn` over a first operand and
the following operator tokens with their operands; each node carries the
position of its operator token, as `createNode` gives it. -/
def leftNested (first : Node) (steps : List (Token × Node)) : Node :=
  steps.foldl
    (fun left step => .BinaryExpression step.1.value left step.2 step.1.line step.1.column)
    first

/-- The tokens `o1 p1 ... on pn` followed by `rest`: each `oi` is a token the
loop of `parseExpression` takes as a binary operator, and `parsePrimary` reads
the tokens after it as the primary `pi`. -/
inductive OperandRun : List Token → List (Token × Node) → List Token → Prop
  | done (rest : List Token) : OperandRun rest [] rest
  | step {op : Token} {toks toks' : List Token} {p : Node} {steps : List (Token × Node)}
      {rest : List Token} :
      op.isBinaryOperator = true → Returns parsePrimary toks p toks' →
      OperandRun toks' steps rest → OperandRun (op :: toks) ((op, p) :: steps) rest

/-! ## Values and the evaluator state

JavaScript numbers are doubles. The embedding computes with the safe integers
(absolute value at most `2^53`), on which `+ - *`, exact division and the
comparisons of doubles are exact. The other doubles (the finite ones by their
exact value, the two infinities and NaN) are values that a literal, an array or
a variable can hold and that `===` and the sort built-ins compare; arithmetic on
them, a host coercion and every other host behaviour the embedding does not
cover ends an evaluation with the signal `unsupported`, which is never a result
of the code. Arrays, objects and the `Environment` objects live in heaps and are
named by their index; function objects made by `instantiateClass` live in the
table `closures`. -/

/-- A language value at run time. `num` is a number that is a safe integer,
`double` a finite number that is not one (a fraction, or an integer beyond the
safe ones), given by its exact value, `infinity` is `Infinity` or `-Infinity`,
and `nan` is NaN. `ref` is an array or an object of the heap, `fn` a function
object of the table `closures`, `host` a host object the embedding does not look
into. -/
inductive Value
  | undefined
  | null
  | bool (b : Bool)
  | num (n : Int)
  | double (q : ℚ)
  | infinity (negative : Bool)
  | nan
  | str (s : String)
  | ref (address : Nat)
  | fn (id : Nat)
  | host (what : String)
  deriving DecidableEq, Repr

/-- An array or a plain object; the properties are kept in insertion order. -/
inductive Obj
  | array (elements : List Value)
  | object (properties : List (String × Value))
  deriving DecidableEq, Repr

/-- The class `Environment`: the object `variables` (here `vars`) and the `parent`
reference (an index into the heap of environments; `none` is `null`). -/
structure Environment where
  vars : List (String × Value)
  parent : Option Nat
  deriving DecidableEq, Repr

/-- An entry of `this.functions`: a built-in (`type: "BuiltIn"`), named here by
the key `setupBuiltIns` stores it under, or a FunctionDeclaration node. -/
inductive FunctionEntry
  | builtIn (name : String)
  | user (decl : Node)

/-- The fields of an `Evaluator` (`globalEnv` is the environment 0), the heaps,
what `console.log` has printed, and the files `fs` reads. -/
structure State where
  envs : List Environment
  env : Nat
  functions : List (String × FunctionEntry)
  classes : List (String × Node)
  heap : List Obj
  closures : List (Node × Nat)
  output : List (List Value)
  files : List (String × String)

/-- What leaves `evaluate` instead of a value: `returned` is a thrown
`ReturnValue`, `thrown` the object `type: "BhilalError"` of `lance`, `error` a
thrown `Error` with its message. `unsupported` and `outOfFuel` belong to the
embedding. -/
inductive Signal
  | returned (v : Value)
  | thrown (v : Value) (line : Nat)
  | error (message : String)
  | unsupported (what : String)
  | outOfFuel
  deriving DecidableEq, Repr

/-- The outcome of a step of the evaluator, with the state it leaves. -/
inductive Result (α : Type)
  | ok (a : α) (s : State)
  | stop (sig : Signal) (s : State)

/-- Sequencing: a signal propagates with the state at which it was raised. -/
def Result.bind {α β : Type} (r : Result α) (k : α → State → Result β) : Result β :=
  match r with
  | .ok a s => k a s
  | .stop sig s => .stop sig s

/-- The state a result leaves. -/
def Result.state {α : Type} : Result α → State
  | .ok _ s => s
  | .stop _ s => s

/-- The value of a normal completion. -/
def Result.value? {α : Type} : Result α → Option α
  | .ok a _ => some a
  | .stop _ _ => none

/-- The signal of an abrupt completion. -/
def Result.signal? {α : Type} : Result α → Option Signal
  | .ok _ _ => none
  | .stop sig _ => some sig

/-- The integers a double holds exactly. -/
def safeInteger (n : Int) : Bool := decide (-9007199254740992 ≤ n ∧ n ≤ 9007199254740992)

/-- A number result, when the embedding covers it. -/
def number (n : Int) : Option Value := if safeInteger n then some (.num n) else none

/-- The value of a run of decimal digits. -/
def digitsValue (ds : List Char) : Nat := ds.foldl (fun n c => 10 * n + (c.toNat - 48)) 0

/-- The host function `parseFloat` on the text of a NUMBER token (a digit, then
digits and dots): the digits before the first dot and the digits right after it
are read; `none` when the value is not a safe integer. -/
def parseFloat (text : String) : Option Int :=
  let whole := text.data.takeWhile Char.isDigit
  let rest := text.data.dropWhile Char.isDigit
  let fraction := if rest.head? = some '.' then rest.tail.takeWhile Char.isDigit else []
  if whole ≠ [] ∧ fraction.all (fun c => c == '0') ∧ safeInteger (digitsValue whole) then
    some (digitsValue whole)
  else none

/-- The host function `parseFloat` on the text of a NUMBER token whose value is
not a safe integer: the digits before the first dot and the `k` digits right
after it give the decimal number `n / 10^k`. It is read when a double holds it
exactly, which is when `5^k` divides `n`, within the 53 bits of a double:
`(n / 5^k) / 2^k`; `none` otherwise (`parseFloat` then rounds, which the
embedding does not follow). -/
def parseDouble (text : String) : Option ℚ :=
  let whole := text.data.takeWhile Char.isDigit
  let rest := text.data.dropWhile Char.isDigit
  let fraction := if rest.head? = some '.' then rest.tail.takeWhile Char.isDigit else []
  let n := digitsValue (whole ++ fraction)
  let k := fraction.length
  if whole ≠ [] ∧ 5 ^ k ∣ n ∧ n / 5 ^ k < 2 ^ 53 ∧ k ≤ 1022 then
    some (((n / 5 ^ k : Nat) : ℚ) / 2 ^ k)
  else none

/-- A token value as a run-time value (`node.value`, `node.name`, ...). -/
def TokenValue.toValue : TokenValue → Option Value
  | .str s => some (.str s)
  | .num text =>
    match parseFloat text with
    | some n => some (.num n)
    | none => (parseDouble text).map .double
  | .inherited key => some (.host ("aliases." ++ key))

/-- The host conversion of a value to a property key or to its text in a
template string. -/
def Value.toKey : Value → Option String
  | .undefined => some "undefined"
  | .null => some "null"
  | .bool b => some (if b then "true" else "false")
  | .num n => some (toString n)
  | .str s => some s
  | _ => none

/-- A name of the syntax tree as a property key. -/
def TokenValue.key (v : TokenValue) : Option String := v.toValue.bind Value.toKey

/-- Truthiness of a token value (`if (cls.superClassName)`, `node.right.name || ...`). -/
def TokenValue.truthy : TokenValue → Bool
  | .str s => s ≠ ""
  | .num text => parseFloat text ≠ some 0
  | .inherited _ => true

/-- Truthiness of a value. -/
def Value.truthy : Value → Bool
  | .undefined => false
  | .null => false
  | .bool b => b
  | .num n => n ≠ 0
  | .double q => q ≠ 0
  | .nan => false
  | .str s => s ≠ ""
  | _ => true

/-- The exact value of a finite number. -/
def Value.exact? : Value → Option ℚ
  | .num n => some n
  | .double q => some q
  | _ => none

/-- The comparison `left === right`: two numbers are equal when their values
are, and NaN is equal to nothing; other values are equal when they are the same
value (the same reference for an array, an object or a function). -/
def strictEquals (left right : Value) : Bool :=
  match left.exact?, right.exact? with
  | some a, some b => decide (a = b)
  | _, _ => decide (left ≠ .nan) && decide (left = right)

/-- A number other than NaN. -/
def Value.isOrdered : Value → Bool
  | .num _ => true
  | .double _ => true
  | .infinity _ => true
  | _ => false

/-- A number, NaN included. -/
def Value.isNumber (v : Value) : Bool := v.isOrdered || decide (v = .nan)

/-- The place of a number on the extended line of the rationals (`⊥` and `⊤` are
the two infinities); a value that is not an ordered number is given the place
of `-Infinity`. The comparators `(a, b) => a - b` and `(a, b) => b - a` of the
sort built-ins are negative, zero (or NaN, for two infinities of the same sign,
which the sort treats as zero) or positive as the place of the first argument is
below, the same as, or above that of the second: the difference of two finite
doubles has the sign of the exact difference. -/
def Value.sortKey : Value → WithBot (WithTop ℚ)
  | .num n => ((n : ℚ) : WithTop ℚ)
  | .double q => (q : WithTop ℚ)
  | .infinity false => ((⊤ : WithTop ℚ) : WithBot (WithTop ℚ))
  | _ => ⊥

/-- The assignment `d[k] = v` on an object used as a dictionary: an existing
key keeps its place. -/
def dictSet {α : Type} (d : List (String × α)) (k : String) (v : α) : List (String × α) :=
  if d.any (fun p => p.1 == k) then d.map (fun p => if p.1 == k then (k, v) else p)
  else d ++ [(k, v)]

/-- The text `[Ligne L, Col C] ` of a position; a missing field prints `undefined`. -/
def positionTag (line column : Option Nat) : String :=
  "[Ligne " ++ (line.map toString).getD "undefined" ++ ", Col "
    ++ (column.map toString).getD "undefined" ++ "] "

/-- The text `[Ligne L] `. -/
def lineTag (line : Nat) : String := "[Ligne " ++ toString line ++ "] "

/-! ## Environments -/

/-- Result of `Environment.get`: the value, or the throw of line 22. `invalid`
is a reference outside the heap or a parent chain longer than the fuel. -/
inductive Lookup
  | found (v : Value)
  | unbound
  | invalid
  deriving DecidableEq, Repr

/-- The test `name in this.variables`: an own property, or one inherited from
`Object.prototype`. -/
def Environment.has (e : Environment) (name : String) : Bool :=
  (e.vars.lookup name).isSome || decide (name ∈ objectPrototypeKeys)

/-- The read `this.variables[name]` when `name in this.variables`. -/
def Environment.read (e : Environment) (name : String) : Value :=
  (e.vars.lookup name).getD (.host ("Object.prototype." ++ name))

/-- The method `Environment.get` of the environment `id`. -/
def Environment.get : Nat → List Environment → Nat → String → Lookup
  | 0, _, _, _ => .invalid
  | fuel + 1, envs, id, name =>
    match envs[id]? with
    | none => .invalid
    | some e =>
      if e.has name then .found (e.read name)
      else
        match e.parent with
        | some p => Environment.get fuel envs p name
        | none => .unbound

/-- The method `Environment.define` of the environment `id`; `none` for the
name `__proto__`, which does not make a property, and for a reference outside
the heap. -/
def Environment.define (envs : List Environment) (id : Nat) (name : String) (value : Value) :
    Option (List Environment) :=
  if name = "__proto__" then none
  else
    match envs[id]? with
    | none => none
    | some e => some (envs.set id { e with vars := dictSet e.vars name value })

/-- Result of `Environment.assign`: the heap after the assignment, or the throw
of line 34. -/
inductive Assigned
  | done (envs : List Environment)
  | unbound
  | invalid

/-- The method `Environment.assign` of the environment `id`. -/
def Environment.assign : Nat → List Environment → Nat → String → Value → Assigned
  | 0, _, _, _, _ => .invalid
  | fuel + 1, envs, id, name, value =>
    match envs[id]? with
    | none => .invalid
    | some e =>
      if e.has name then
        match Environment.define envs id name value with
        | some envs' => .done envs'
        | none => .invalid
      else
        match e.parent with
        | some p => Environment.assign fuel envs p name value
        | none => .unbound

/-- The message of lines 22 and 34. -/
def unboundMessage (name : String) (line column : Option Nat) : String :=
  positionTag line column ++ "Variable non définie: " ++ name

/-- The fields `line` and `column` of a node. -/
def Node.position : Node → Option Nat × Option Nat
  | .Program _ => (none, none)
  | .VariableDeclaration _ _ l c => (some l, some c)
  | .ExpressionStatement _ l c => (some l, some c)
  | .PrintStatement _ l c => (some l, some c)
  | .IfStatement _ _ _ l c => (some l, some c)
  | .WhileStatement _ _ l c => (some l, some c)
  | .FunctionDeclaration _ _ _ _ l c => (some l, some c)
  | .ReturnStatement _ l c => (some l, some c)
  | .ClassDeclaration _ _ _ _ l c => (some l, some c)
  | .InterfaceDeclaration _ _ l c => (some l, some c)
  | .TryStatement _ _ _ l c => (some l, some c)
  | .ThrowStatement _ l c => (some l, some c)
  | .IncludeStatement _ l c => (some l, some c)
  | .CallExpression _ _ l c => (some l, some c)
  | .BinaryExpression _ _ _ l c => (some l, some c)
  | .AssignmentExpression _ _ l c => (some l, some c)
  | .Literal _ l c => (some l, some c)
  | .Identifier _ l c => (some l, some c)
  | .NewExpression _ l c => (some l, some c)
  | .ListLiteral _ l c => (some l, some c)
  | .ObjectLiteral _ l c => (some l, some c)
  | .MemberExpression _ _ l c => (some l, some c)

/-! ## Objects, arrays and built-ins -/

/-- The read `target[index]` on a value that is neither `undefined` nor `null`;
`none` where the host decides (inherited properties, properties of primitive
values other than the length of a string). -/
def getProperty (heap : List Obj) (target index : Value) : Option Value :=
  match target with
  | .ref a =>
    match heap[a]? with
    | some (.array elements) =>
      match index with
      | .num n => if 0 ≤ n then some (elements.getD n.toNat .undefined) else some .undefined
      | .str k => if k = "length" then some (.num elements.length) else none
      | _ => none
    | some (.object properties) =>
      match index.toKey with
      | none => none
      | some k =>
        match properties.lookup k with
        | some v => some v
        | none => if k ∈ objectPrototypeKeys then none else some .undefined
    | none => none
  | .str s =>
    match index with
    | .str k => if k = "length" then some (.num s.length) else none
    | _ => none
  | _ => none

/-- The read `left.__privateMethods__` of `evaluateMember`. -/
def privateMethodsOf (heap : List Obj) (left : Value) : Option Value :=
  match left with
  | .ref a =>
    match heap[a]? with
    | some (.array _) => some .undefined
    | some (.object properties) => some ((properties.lookup "__privateMethods__").getD .undefined)
    | none => none
  | .bool _ => some .undefined
  | .num _ => some .undefined
  | .str _ => some .undefined
  | .fn _ => some .undefined
  | _ => none

/-- The assignment `target[index] = value` on a value that is neither
`undefined` nor `null`; `none` where the host decides. -/
def setProperty (heap : List Obj) (target index value : Value) : Option (List Obj) :=
  match target with
  | .ref a =>
    match heap[a]? with
    | some (.array elements) =>
      match index with
      | .num n =>
        if 0 ≤ n ∧ n.toNat < elements.length then
          some (heap.set a (.array (elements.set n.toNat value)))
        else if n = elements.length then some (heap.set a (.array (elements ++ [value])))
        else none
      | _ => none
    | some (.object properties) =>
      match index.toKey with
      | none => none
      | some k =>
        if k = "__proto__" then none
        else some (heap.set a (.object (dictSet properties k value)))
    | none => none
  | _ => none

/-- The elements of an array of numbers. -/
def numbersOf : List Value → Option (List Int)
  | [] => some []
  | .num n :: rest => (numbersOf rest).map (n :: ·)
  | _ :: _ => none

/-- The method `setupBuiltIns`: the keys it gives `this.functions`. -/
def builtInNames : List String :=
  ["longueur", "aleatoire", "entre", "min", "max", "croissant", "decroissant", "lire",
   "ecrire", "date", "execute", "scan_ports", "requete_http", "dirbuster", "dns_resolve",
   "dns_bruteforce", "subnet_scan"]

/-- The message of the error `fs.readFileSync` throws for a missing file. -/
def readErrorMessage (path : String) : String :=
  "ENOENT: no such file or directory, open '" ++ path ++ "'"

/-- The call `func.fn(evaluatedArgs)` of a built-in. The built-ins that compute
on their arguments or on the files are embedded; the others (random numbers,
input, date, subprocesses, network) are `unsupported`. -/
def callBuiltIn (name : String) (args : List Value) (s : State) : Result Value :=
  let arg0 := args.getD 0 .undefined
  let arrayOf : Value → Option (List Value) := fun v =>
    match v with
    | .ref a => match s.heap[a]? with
      | some (.array elements) => some elements
      | _ => none
    | _ => none
  if name = "longueur" then
    match arg0 with
    | .str t => .ok (.num t.length) s
    | .ref a =>
      match s.heap[a]? with
      | some (.array elements) => .ok (.num elements.length) s
      | some (.object _) => .ok (.num 0) s
      | none => .stop (.unsupported "reference outside the heap") s
    | _ => .ok (.num 0) s
  else if name = "min" ∨ name = "max" then
    match arg0 with
    | .ref _ =>
      match arrayOf arg0 with
      | none => .ok .null s
      | some [] => .ok .null s
      | some (e :: es) =>
        match numbersOf (e :: es) with
        | some (n :: ns) =>
          .ok (.num (if name = "min" then ns.foldl min n else ns.foldl max n)) s
        | _ => .stop (.unsupported "Math.min or Math.max of values that are not numbers") s
    | _ => .ok .null s
  else if name = "croissant" ∨ name = "decroissant" then
    match arg0 with
    | .ref _ =>
      match arrayOf arg0 with
      | none => .ok arg0 s
      | some elements =>
        if elements.all Value.isOrdered then
          let sorted :=
            if name = "croissant" then
              elements.insertionSort (fun a b => a.sortKey ≤ b.sortKey)
            else elements.insertionSort (fun a b => b.sortKey ≤ a.sortKey)
          .ok (.ref s.heap.length) { s with heap := s.heap ++ [.array sorted] }
        else if elements.all Value.isNumber then
          .stop (.unsupported "sort with NaN: the order is the choice of the host") s
        else .stop (.unsupported "sort of values that are not numbers") s
    | _ => .ok arg0 s
  else if name = "lire" then
    match arg0 with
    | .str path =>
      match s.files.lookup path with
      | some text => .ok (.str text) s
      | none => .stop (.error (readErrorMessage path)) s
    | _ => .stop (.unsupported "lire of a path that is not a string") s
  else if name = "ecrire" then
    match arg0, args.getD 1 .undefined with
    | .str path, .str text => .ok (.bool true) { s with files := dictSet s.files path text }
    | _, _ => .stop (.unsupported "ecrire of values that are not strings") s
  else .stop (.unsupported ("built-in " ++ name)) s

/-! ## Classes -/

/-- The field `name` of a FunctionDeclaration node. -/
def Node.methodName : Node → Option TokenValue
  | .FunctionDeclaration name _ _ _ _ _ => some name
  | _ => none

/-- Lines 513-518 of `getAllMethods`: replace the method of the name of `method`
where it stands, or push `method`. -/
def replaceOrPush (methods : List Node) (method : Node) : List Node :=
  match methods.findIdx? (fun m => decide (m.methodName = method.methodName)) with
  | some i => methods.set i method
  | none => methods ++ [method]

/-- The body of the `forEach` of `getAllMethods` (evaluator.js:510-519) for one
method. `none` for a name that is a number (its comparison is the host's). -/
def overrideOrPush (methods : List Node) (method : Node) : Option (List Node) :=
  match method with
  | .FunctionDeclaration (.num _) _ _ _ _ _ => none
  | .FunctionDeclaration _ _ _ _ _ _ => some (replaceOrPush methods method)
  | _ => some methods

/-- The `forEach` of `getAllMethods` over the methods of the class. -/
def mergeMethods : List Node → List Node → Option (List Node)
  | methods, [] => some methods
  | methods, m :: rest => (overrideOrPush methods m).bind fun ms => mergeMethods ms rest

/-- Result of `getAllMethods`. `typeError` is the TypeError of
`cls.methods.forEach` (evaluator.js:510) on an entry that `this.classes`
inherits from `Object.prototype`: it passes the test `!cls` and has no
`methods`. -/
inductive Resolved
  | methods (list : List Node)
  | typeError
  | unsupported
  | outOfFuel

/-- The message of the host's TypeError for `cls.methods.forEach` when
`cls.methods` is `undefined`. -/
def forEachOfUndefined : String := "Cannot read properties of undefined (reading 'forEach')"

/-- The method `getAllMethods` on the class table `classes`. -/
def getAllMethods : Nat → List (String × Node) → String → Resolved
  | 0, _, _ => .outOfFuel
  | fuel + 1, classes, className =>
    match classes.lookup className with
    | none => if className ∈ objectPrototypeKeys then .typeError else .methods []
    | some (.ClassDeclaration _ superClassName own _ _ _) =>
      let inherited : Resolved :=
        match superClassName with
        | none => .methods []
        | some superName =>
          if superName.truthy then
            match superName.key with
            | none => .unsupported
            | some k => getAllMethods fuel classes k
          else .methods []
      match inherited with
      | .methods base =>
        match mergeMethods base own with
        | some ms => .methods ms
        | none => .unsupported
      | r => r
    | some _ => .unsupported

/-- The `forEach` of `instantiateClass` (evaluator.js:489-496) over the resolved
methods: `self` is the address of the instance. When an earlier method named
`__privateMethods__` has replaced the array of that name by its function, the
`push` of a `prive` method throws the host's TypeError. -/
def bindMethods (self : Nat) : List Node → State → Result Unit
  | [], s => .ok () s
  | method :: rest, s =>
    match method with
    | .FunctionDeclaration name _ _ visibility _ _ =>
      match name.toValue, name.key, s.heap[self]? with
      | some nameValue, some k, some (.object properties) =>
        let pushed : Option (List Obj) :=
          if visibility = some (.str "prive") then
            match properties.lookup "__privateMethods__" with
            | some (.ref a) =>
              match s.heap[a]? with
              | some (.array names) => some (s.heap.set a (.array (names ++ [nameValue])))
              | _ => none
            | _ => none
          else some s.heap
        match pushed with
        | none =>
          match properties.lookup "__privateMethods__" with
          | some (.fn _) =>
            .stop (.error "instance.__privateMethods__.push is not a function") s
          | _ => .stop (.unsupported "push on a value that is not an array") s
        | some heap1 =>
          if k = "__proto__" then .stop (.unsupported "method named __proto__") s
          else
            match heap1[self]? with
            | some (.object properties1) =>
              bindMethods self rest
                { s with
                  heap := heap1.set self
                    (.object (dictSet properties1 k (.fn s.closures.length)))
                  closures := s.closures ++ [(method, self)] }
            | _ => .stop (.unsupported "instance outside the heap") s
      | _, _, _ => .stop (.unsupported "method name that is not a string") s
    | _ => .stop (.unsupported "method that is not a function declaration") s

/-- The method `instantiateClass`. For a name that `this.classes` inherits from
`Object.prototype` the entry is a function or an object without `isAbstract`,
and `getAllMethods` throws its TypeError before the instance is stored. -/
def instantiateClass (fuel : Nat) (name : TokenValue) (line : Nat) (s : State) : Result Value :=
  match name.toValue, name.key with
  | some nameValue, some k =>
    match s.classes.lookup k with
    | none =>
      if k ∈ objectPrototypeKeys then .stop (.error forEachOfUndefined) s
      else .stop (.error (lineTag line ++ "Classe non définie: " ++ k)) s
    | some (.ClassDeclaration _ _ _ isAbstract _ _) =>
      if isAbstract then
        .stop (.error (lineTag line ++ "Impossible d'instancier la classe abstraite: " ++ k)) s
      else
        match getAllMethods fuel s.classes k with
        | .outOfFuel => .stop .outOfFuel s
        | .typeError => .stop (.error forEachOfUndefined) s
        | .unsupported => .stop (.unsupported "method resolution") s
        | .methods methods =>
          let privateList := s.heap.length
          let self := s.heap.length + 1
          let s1 := { s with heap := s.heap ++ [.array [],
            .object [("__class__", nameValue), ("__privateMethods__", .ref privateList)]] }
          (bindMethods self methods s1).bind fun _ s2 => .ok (.ref self) s2
    | some _ => .stop (.unsupported "class entry that is not a class declaration") s
  | _, _ => .stop (.unsupported "class name that is not a string") s

/-! ## The evaluator -/

/-- The `catch` of `evaluate` (evaluator.js:435-441): a `ReturnValue` and a
`BhilalError` pass; an `Error` whose message is not empty and does not start
with `[` gets the position of `node` in front of its message. -/
def annotate (node : Node) (r : Result Value) : Result Value :=
  match r with
  | .stop (.error message) s =>
    if message ≠ "" ∧ message.data.head? ≠ some '[' then
      .stop (.error (positionTag node.position.1 node.position.2 ++ message)) s
    else r
  | _ => r

/-- The loop `for (const stmt of stmts) this.evaluate(stmt)`. -/
def runStatements (ev : Node → State → Result Value) : List Node → State → Result Unit
  | [], s => .ok () s
  | stmt :: rest, s => (ev stmt s).bind fun _ s1 => runStatements ev rest s1

/-- The call `nodes.map(n => this.evaluate(n))`. -/
def evalAll (ev : Node → State → Result Value) : List Node → State → Result (List Value)
  | [], s => .ok [] s
  | n :: rest, s =>
    (ev n s).bind fun v s1 => (evalAll ev rest s1).bind fun vs s2 => .ok (v :: vs) s2

/-- The loop of `case "ObjectLiteral"` (evaluator.js:356-358). -/
def evalPairs (ev : Node → State → Result Value) :
    List (TokenValue × Node) → List (String × Value) → State → Result (List (String × Value))
  | [], acc, s => .ok acc s
  | (key, value) :: rest, acc, s =>
    (ev value s).bind fun v s1 =>
      match key.key with
      | none => .stop (.unsupported "object key that is not a string") s1
      | some k =>
        if k = "__proto__" then .stop (.unsupported "object key __proto__") s1
        else evalPairs ev rest (dictSet acc k v) s1

/-- The loop of `case "WhileStatement"`; `fuel` bounds the iterations. -/
def whileLoop (ev : Node → State → Result Value) :
    Nat → Node → List Node → State → Result Value
  | 0, _, _, s => .stop .outOfFuel s
  | fuel + 1, condition, body, s =>
    (ev condition s).bind fun c s1 =>
      if c.truthy then
        (runStatements ev body s1).bind fun _ s2 => whileLoop ev fuel condition body s2
      else .ok .undefined s1

/-- The `forEach` of `callFunction` (evaluator.js:457-459): one `define` for each
argument, under the parameter of the same rank; `func.params[i]` is `undefined`
past the last parameter. -/
def bindArguments :
    List TokenValue → List Value → List (String × Value) → Option (List (String × Value))
  | _, [], acc => some acc
  | [], v :: vs, acc => bindArguments [] vs (dictSet acc "undefined" v)
  | p :: ps, v :: vs, acc =>
    match p.key with
    | none => none
    | some k => if k = "__proto__" then none else bindArguments ps vs (dictSet acc k v)

/-- The `forEach` of `callMethod` (evaluator.js:529-531): one `define` for each
parameter; `args[i]` is `undefined` past the last argument. -/
def bindParameters :
    List TokenValue → List Value → List (String × Value) → Option (List (String × Value))
  | [], _, acc => some acc
  | p :: ps, vs, acc =>
    match p.key with
    | none => none
    | some k =>
      if k = "__proto__" then none
      else bindParameters ps vs.tail (dictSet acc k (vs.headD .undefined))

/-- Lines 461-475 of `callFunction` and 532-546 of `callMethod`: make the new
environment current, run the body, take the value of a `ReturnValue` as the
result, and make the previous environment current again. -/
def runBody (ev : Node → State → Result Value) (frame : List (String × Value))
    (body : List Node) (s : State) : Result Value :=
  let previousEnv := s.env
  let s1 := { s with envs := s.envs ++ [⟨frame, some 0⟩], env := s.envs.length }
  match runStatements ev body s1 with
  | .ok _ s2 => .ok .null { s2 with env := previousEnv }
  | .stop (.returned v) s2 => .ok v { s2 with env := previousEnv }
  | .stop sig s2 => .stop sig s2

/-- Lines 454-475 of `callFunction`, for a FunctionDeclaration `func` and the
evaluated arguments. -/
def callUser (ev : Node → State → Result Value) (func : Node) (args : List Value)
    (s : State) : Result Value :=
  match func with
  | .FunctionDeclaration _ params body _ _ _ =>
    match bindArguments params args [] with
    | none => .stop (.unsupported "parameter name that is not a string") s
    | some frame => runBody ev frame body s
  | _ => .stop (.unsupported "function entry that is not a function declaration") s

/-- The method `callMethod`. -/
def callMethod (ev : Node → State → Result Value) (methodNode : Node) (args : List Value)
    (self : Value) (s : State) : Result Value :=
  match methodNode with
  | .FunctionDeclaration _ params body _ _ _ =>
    match bindParameters params args [("ceci", self)] with
    | none => .stop (.unsupported "parameter name that is not a string") s
    | some frame => runBody ev frame body s
  | _ => .stop (.unsupported "method that is not a function declaration") s

/-- The method `callFunction`. -/
def callFunction (ev : Node → State → Result Value) (name : TokenValue) (args : List Node)
    (line : Nat) (s : State) : Result Value :=
  match name.key with
  | none => .stop (.unsupported "function name that is not a string") s
  | some k =>
    match s.functions.lookup k with
    | none =>
      if k ∈ objectPrototypeKeys then .stop (.unsupported "inherited function entry") s
      else .stop (.error (lineTag line ++ "Fonction non définie: " ++ k)) s
    | some func =>
      (evalAll ev args s).bind fun evaluatedArgs s1 =>
        match func with
        | .builtIn b => callBuiltIn b evaluatedArgs s1
        | .user decl => callUser ev decl evaluatedArgs s1

/-- The label `node.right.name || node.right.callee` of `evaluateMember`; `none`
is `undefined`. -/
def rightLabel : Node → Option TokenValue
  | .Identifier name _ _ => if name.truthy then some name else none
  | .FunctionDeclaration name _ _ _ _ _ => if name.truthy then some name else none
  | .VariableDeclaration name _ _ _ => if name.truthy then some name else none
  | .ClassDeclaration name _ _ _ _ _ => if name.truthy then some name else none
  | .InterfaceDeclaration name _ _ _ => if name.truthy then some name else none
  | .CallExpression callee _ _ _ => some callee
  | _ => none

/-- The text the host gives a template string for the value `aliases[key]`
inherited from `Object.prototype`: the source text of a native function (the
function `Object` for `constructor`, the function of the same name for the
other keys), and `[object Object]` for the object `aliases.__proto__`. -/
def inheritedText (key : String) : String :=
  if key = "__proto__" then "[object Object]"
  else "function " ++ (if key = "constructor" then "Object" else key)
    ++ "() \x7b [native code] \x7d"

/-- The method `evaluateMember`, for the node `left . right` of line `line`. -/
def evaluateMember (ev : Node → State → Result Value) (leftNode rightNode : Node)
    (line : Nat) (s : State) : Result Value :=
  (ev leftNode s).bind fun left s1 =>
    let label : Option Value :=
      match rightLabel rightNode with
      | none => some .undefined
      | some name => name.toValue
    let labelText : Option String :=
      match rightLabel rightNode with
      | some (.inherited key) => some (inheritedText key)
      | _ => label.bind Value.toKey
    match label, labelText with
    | some labelValue, some labelText =>
      if left = .undefined ∨ left = .null then
        .stop (.error (lineTag line ++ "Impossible d'accéder à '" ++ labelText
          ++ "' de null/undefined")) s1
      else
        match privateMethodsOf s1.heap left with
        | none => .stop (.unsupported "property of a host value") s1
        | some privateMethods =>
          let isPrivate : Option Bool :=
            if privateMethods.truthy then
              match privateMethods with
              | .ref a =>
                match s1.heap[a]? with
                | some (.array names) => some (names.contains labelValue)
                | _ => none
              | _ => none
            else some false
          match isPrivate with
          | none =>
            match privateMethods with
            | .fn _ => .stop (.error "left.__privateMethods__.includes is not a function") s1
            | _ => .stop (.unsupported "includes on a value that is not an array") s1
          | some true =>
            let currentCeci : Value :=
              match Environment.get s1.envs.length s1.envs s1.env "ceci" with
              | .found v => v
              | _ => .null
            if currentCeci ≠ left then
              .stop (.error (lineTag line ++ "La méthode '" ++ labelText
                ++ "' est privée et ne peut être accédée de l'extérieur.")) s1
            else callOrRead labelValue left s1
          | some false => callOrRead labelValue left s1
    | _, _ => .stop (.unsupported "member label that is not a string") s1
where
  /-- Lines 564-570: call the member when it is a function and the right side is
  a call, otherwise return it. -/
  callOrRead (labelValue left : Value) (s1 : State) : Result Value :=
    match getProperty s1.heap left labelValue with
    | none => .stop (.unsupported "property the host decides") s1
    | some (.fn id) =>
      match rightNode with
      | .CallExpression _ args _ _ =>
        (evalAll ev args s1).bind fun values s2 =>
          match s2.closures[id]? with
          | some (methodNode, self) => callMethod ev methodNode values (.ref self) s2
          | none => .stop (.unsupported "function object outside the table") s2
      | _ => .ok (.fn id) s1
    | some v => .ok v s1

/-- A text of which the host's conversion to a number is NaN for certain: one
that begins with an ASCII letter other than the `I` of `Infinity` is no numeric
literal. -/
def isNotNumeric (text : String) : Bool :=
  match text.data with
  | c :: _ => c.isAlpha && c != 'I'
  | [] => false

/-- The `switch` of `evaluateBinary` on two values. The operators `-`, `*` and
`/` convert a string operand to a number: NaN when the text is no numeric
literal (`"a" * 1`). -/
def binaryOperation (operator : TokenValue) (left right : Value) (line : Nat) (s : State) :
    Result Value :=
  let numeric (f : Int → Int → Option Value) : Result Value :=
    match left, right with
    | .num a, .num b =>
      match f a b with
      | some v => .ok v s
      | none => .stop (.unsupported "number that is not a safe integer") s
    | _, _ => .stop (.unsupported "host coercion of operands") s
  let coerced (f : Int → Int → Option Value) : Result Value :=
    match left, right with
    | .str a, .num _ => if isNotNumeric a then .ok .nan s else numeric f
    | .num _, .str b => if isNotNumeric b then .ok .nan s else numeric f
    | _, _ => numeric f
  let compare (onNumbers : Int → Int → Bool) (onStrings : String → String → Bool) :
      Result Value :=
    match left, right with
    | .num a, .num b => .ok (.bool (onNumbers a b)) s
    | .str a, .str b => .ok (.bool (onStrings a b)) s
    | _, _ => .stop (.unsupported "host coercion of operands") s
  if operator = .str "+" then
    match left, right with
    | .str a, .str b => .ok (.str (a ++ b)) s
    | _, _ => numeric fun a b => number (a + b)
  else if operator = .str "-" then coerced fun a b => number (a - b)
  else if operator = .str "*" then coerced fun a b => number (a * b)
  else if operator = .str "/" then
    if right = .num 0 then .stop (.error (lineTag line ++ "Division par zéro")) s
    else coerced fun a b => if b ∣ a then number (a / b) else none
  else if operator = .str "==" then .ok (.bool (strictEquals left right)) s
  else if operator = .str "!=" then .ok (.bool (!strictEquals left right)) s
  else if operator = .str "<" then
    compare (fun a b => decide (a < b)) (fun a b => decide (a.data < b.data))
  else if operator = .str ">" then
    compare (fun a b => decide (b < a)) (fun a b => decide (b.data < a.data))
  else if operator = .str "<=" then
    compare (fun a b => decide (a ≤ b)) (fun a b => decide (¬ b.data < a.data))
  else if operator = .str ">=" then
    compare (fun a b => decide (b ≤ a)) (fun a b => decide (¬ a.data < b.data))
  else .ok .undefined s

/-- The method `evaluateBinary`. -/
def evaluateBinary (ev : Node → State → Result Value) (operator : TokenValue)
    (leftNode rightNode : Node) (line : Nat) (s : State) : Result Value :=
  (ev leftNode s).bind fun left s1 =>
    (ev rightNode s1).bind fun right s2 => binaryOperation operator left right line s2

/-- The `try` and `catch` blocks of `case "TryStatement"` (evaluator.js:390-405):
the completion that is pending when the `finally` block is entered. -/
def tryAndCatch (ev : Node → State → Result Value) (block : List Node)
    (handler : Option (TokenValue × List Node)) (finalizer : Option (List Node))
    (s : State) : Result Unit :=
  let previousEnv := s.env
  let caught (errorValue : Value) (raised : Signal) (s1 : State) : Result Unit :=
    match handler with
    | some (param, body) =>
      match param.key with
      | none => .stop (.unsupported "catch parameter that is not a string") s1
      | some k =>
        if k = "__proto__" then .stop (.unsupported "catch parameter __proto__") s1
        else
          runStatements ev body
            { s1 with envs := s1.envs ++ [⟨[(k, errorValue)], some previousEnv⟩],
                      env := s1.envs.length }
    | none => if finalizer.isNone then .stop raised s1 else .ok () s1
  match runStatements ev block s with
  | .ok _ s1 => .ok () s1
  | .stop (.thrown v line) s1 => caught v (.thrown v line) s1
  | .stop (.error message) s1 => caught (.str message) (.error message) s1
  | .stop sig s1 => .stop sig s1

/-- The `finally` block of `case "TryStatement"` (evaluator.js:406-415), entered
with the pending completion: the finalizer runs in the environment of the entry;
when it completes, that environment is made current and the pending completion
goes on; when it raises, its own signal replaces the pending one. -/
def finishTry (ev : Node → State → Result Value) (finalizer : Option (List Node))
    (previousEnv : Nat) (pending : Result Unit) : Result Value :=
  match pending with
  | .stop (.unsupported what) s => .stop (.unsupported what) s
  | .stop .outOfFuel s => .stop .outOfFuel s
  | _ =>
    let resume (s : State) : Result Value :=
      match pending with
      | .ok _ _ => .ok .undefined { s with env := previousEnv }
      | .stop sig _ => .stop sig { s with env := previousEnv }
    match finalizer with
    | some statements =>
      match runStatements ev statements { pending.state with env := previousEnv } with
      | .ok _ s4 => resume s4
      | .stop sig s4 => .stop sig s4
    | none => resume pending.state

/-- The `case "TryStatement"` of `evaluate`. -/
def evalTry (ev : Node → State → Result Value) (block : List Node)
    (handler : Option (TokenValue × List Node)) (finalizer : Option (List Node))
    (s : State) : Result Value :=
  finishTry ev finalizer s.env (tryAndCatch ev block handler finalizer s)

/-- The message of the error `tokenize` throws. -/
def lexErrorMessage (e : LexError) : String :=
  positionTag (some e.line) (some e.column) ++
    match e.kind with
    | .unexpectedChar c => "Caractère inattendu: " ++ String.mk [c]
    | .bangWithoutEq => "'!' inattendu, attendu '!='"

/-- The message of the error `parse` throws; `none` for the TypeError, whose
text is the host's. -/
def parseErrorMessage : ParseError → Option String
  | .expected message line =>
    some ("[Ligne " ++ (line.map toString).getD "undefined" ++ "] " ++ message)
  | .unexpectedExpression value line =>
    value.key.map fun text => lineTag line ++ "Expression inattendue: " ++ text
  | .typeError => none

/-- The `case "IncludeStatement"` of `evaluate`: whatever the reading, the
lexer, the parser or the evaluation of the file throws is thrown again as an
`Error` whose text ends with the `message` field of what was caught
(`undefined` for a `ReturnValue` and for the object thrown by `lance`). -/
def evalInclude (ev : Node → State → Result Value) (path : TokenValue) (line : Nat)
    (s : State) : Result Value :=
  match path.key with
  | none => .stop (.unsupported "path that is not a string") s
  | some p =>
    let wrapped (message : String) : Signal :=
      .error (lineTag line ++ "Erreur lors de l'inclusion de '" ++ p ++ "': " ++ message)
    match s.files.lookup p with
    | none => .stop (wrapped (readErrorMessage p)) s
    | some code =>
      match tokenize code with
      | none => .stop .outOfFuel s
      | some (.error e) => .stop (wrapped (lexErrorMessage e)) s
      | some (.ok tokens) =>
        match parse tokens with
        | none => .stop .outOfFuel s
        | some (.error e) =>
          match parseErrorMessage e with
          | some message => .stop (wrapped message) s
          | none => .stop (.unsupported "message of a host TypeError") s
        | some (.ok ast) =>
          match ev ast s with
          | .ok _ s1 => .ok .undefined s1
          | .stop (.returned _) s1 => .stop (wrapped "undefined") s1
          | .stop (.thrown _ _) s1 => .stop (wrapped "undefined") s1
          | .stop (.error message) s1 => .stop (wrapped message) s1
          | .stop sig s1 => .stop sig s1

/-- The `switch` of `evaluate` (evaluator.js:303-434) with `ev` for the
recursive calls; `fuel` bounds the iterations of a `tantque`. A node type
without a `case` (InterfaceDeclaration) gives `undefined`. -/
def evalNode (ev : Node → State → Result Value) (fuel : Nat) (node : Node) (s : State) :
    Result Value :=
  match node with
  | .Program body => (runStatements ev body s).bind fun _ s1 => .ok .undefined s1
  | .VariableDeclaration name value _ _ =>
    let target := s.env
    (ev value s).bind fun v s1 =>
      match name.key.bind fun k => Environment.define s1.envs target k v with
      | some envs => .ok .undefined { s1 with envs := envs }
      | none => .stop (.unsupported "define of a name that is not a string") s1
  | .ExpressionStatement expression _ _ => ev expression s
  | .PrintStatement args _ _ =>
    (evalAll ev args s).bind fun values s1 =>
      .ok .undefined { s1 with output := s1.output ++ [values] }
  | .IfStatement condition consequent alternate _ _ =>
    (ev condition s).bind fun c s1 =>
      if c.truthy then (runStatements ev consequent s1).bind fun _ s2 => .ok .undefined s2
      else
        match alternate with
        | some statements =>
          (runStatements ev statements s1).bind fun _ s2 => .ok .undefined s2
        | none => .ok .undefined s1
  | .WhileStatement condition body _ _ => whileLoop ev fuel condition body s
  | .FunctionDeclaration name _ _ _ _ _ =>
    match name.key with
    | some k =>
      if k = "__proto__" then .stop (.unsupported "function named __proto__") s
      else .ok .undefined { s with functions := dictSet s.functions k (.user node) }
    | none => .stop (.unsupported "function name that is not a string") s
  | .ReturnStatement argument _ _ => (ev argument s).bind fun v s1 => .stop (.returned v) s1
  | .CallExpression callee args line _ => callFunction ev callee args line s
  | .BinaryExpression operator left right line _ =>
    if operator = .str "." then evaluateMember ev left right line s
    else evaluateBinary ev operator left right line s
  | .Literal value _ _ =>
    match value.toValue with
    | some v => .ok v s
    | none => .stop (.unsupported "number that is not a safe integer") s
  | .Identifier name line column =>
    match name.key with
    | none => .stop (.unsupported "variable name that is not a string") s
    | some k =>
      match Environment.get s.envs.length s.envs s.env k with
      | .found v => .ok v s
      | .unbound => .stop (.error (unboundMessage k (some line) (some column))) s
      | .invalid => .stop (.unsupported "environment outside the heap") s
  | .ListLiteral elements _ _ =>
    (evalAll ev elements s).bind fun values s1 =>
      .ok (.ref s1.heap.length) { s1 with heap := s1.heap ++ [.array values] }
  | .ObjectLiteral pairs _ _ =>
    (evalPairs ev pairs [] s).bind fun properties s1 =>
      .ok (.ref s1.heap.length) { s1 with heap := s1.heap ++ [.object properties] }
  | .MemberExpression object property line _ =>
    (ev object s).bind fun obj s1 =>
      (ev property s1).bind fun idx s2 =>
        if obj = .undefined ∨ obj = .null then
          .stop (.error (lineTag line
            ++ "Impossible d'accéder à une propriété de null/undefined")) s2
        else
          match getProperty s2.heap obj idx with
          | some v => .ok v s2
          | none => .stop (.unsupported "property the host decides") s2
  | .ClassDeclaration name _ _ _ _ _ =>
    match name.key with
    | some k =>
      if k = "__proto__" then .stop (.unsupported "class named __proto__") s
      else .ok .undefined { s with classes := dictSet s.classes k node }
    | none => .stop (.unsupported "class name that is not a string") s
  | .NewExpression className line _ => instantiateClass fuel className line s
  | .AssignmentExpression left right line column =>
    (ev right s).bind fun value s1 =>
      match left with
      | .Identifier name _ _ =>
        match name.key with
        | none => .stop (.unsupported "variable name that is not a string") s1
        | some k =>
          match Environment.assign s1.envs.length s1.envs s1.env k value with
          | .done envs => .ok value { s1 with envs := envs }
          | .unbound => .stop (.error (unboundMessage k (some line) (some column))) s1
          | .invalid => .stop (.unsupported "environment outside the heap") s1
      | .MemberExpression object property _ _ =>
        (ev object s1).bind fun obj s2 =>
          (ev property s2).bind fun prop s3 =>
            if obj = .null ∨ obj = .undefined then
              .stop (.error (lineTag line
                ++ "Impossible d'assigner à une propriété de null/undefined")) s3
            else
              match setProperty s3.heap obj prop value with
              | some heap => .ok value { s3 with heap := heap }
              | none => .stop (.unsupported "assignment the host decides") s3
      | _ => .stop (.error (lineTag line ++ "Cible d'assignation invalide")) s1
  | .ThrowStatement argument line _ =>
    (ev argument s).bind fun v s1 => .stop (.thrown v line) s1
  | .TryStatement block handler finalizer _ _ => evalTry ev block handler finalizer s
  | .IncludeStatement path line _ => evalInclude ev path line s
  | .InterfaceDeclaration _ _ _ _ => .ok .undefined s

/-- The method `evaluate`. -/
def evaluate : Nat → Node → State → Result Value
  | 0, _, s => .stop .outOfFuel s
  | fuel + 1, node, s => annotate node (evalNode (evaluate fuel) fuel node s)

/-- The state `new Evaluator()` starts from, with the files the host holds. -/
def Evaluator (files : List (String × String)) : State :=
  { envs := [⟨[], none⟩], env := 0,
    functions := builtInNames.map fun name => (name, .builtIn name),
    classes := [], heap := [], closures := [], output := [], files := files }

/-- The function `runCode` of bhilal.js up to its `catch`: tokenize, parse and
evaluate `code` in the state `s`. -/
def runCode (fuel : Nat) (code : String) (s : State) : Result Value :=
  match parseSource code with
  | none => .stop .outOfFuel s
  | some (.error (.lex e)) => .stop (.error (lexErrorMessage e)) s
  | some (.error (.parse e)) =>
    match parseErrorMessage e with
    | some message => .stop (.error message) s
    | none => .stop (.unsupported "message of a host TypeError") s
  | some (.ok ast) => evaluate fuel ast s

/-! ## Method resolution as the specification words it -/

/-- A node `getAllMethods` treats as a method: a FunctionDeclaration whose name
is not a number. -/
def Node.isMethod : Node → Bool
  | .FunctionDeclaration (.num _) _ _ _ _ _ => false
  | .FunctionDeclaration _ _ _ _ _ _ => true
  | _ => false

/-- The last declaration of the name in the list. -/
def lastDeclaration (own : List Node) (name : Option TokenValue) : Option Node :=
  (own.filter fun m => decide (m.methodName = name)).getLast?

/-- The names of a list, each at the place of its first occurrence. -/
def firstOccurrences : List (Option TokenValue) → List (Option TokenValue)
  | [] => []
  | k :: rest => k :: (firstOccurrences rest).filter fun x => decide (x ≠ k)

/-- Method resolution in the words of the specification: the resolved methods
of the superclass, each one that the class declares again replaced where it
stands by the last declaration of its name in the class, followed by the
methods of the class with new names, in the order of their first declaration
(each again by its last declaration). -/
def overrideInPlace (base own : List Node) : List Node :=
  base.map (fun b => (lastDeclaration own b.methodName).getD b) ++
    (firstOccurrences
      ((own.map Node.methodName).filter fun k => decide (k ∉ base.map Node.methodName))).filterMap
      (lastDeclaration own)

/-- Method resolution in the words of the specification, along a superclass
chain that ends: a class that is not in the table resolves to no method, a class
without superclass to its own methods, and a class with a superclass to the
resolved methods of the superclass overridden in place by its own. The methods
of a class are function declarations whose names are not numbers. -/
inductive Resolves (classes : List (String × Node)) : String → List Node → Prop
  | unknown {name : String} :
      classes.lookup name = none → name ∉ objectPrototypeKeys → Resolves classes name []
  | root {name : String} {cname : TokenValue} {superClassName : Option TokenValue}
      {own : List Node} {isAbstract : Bool} {line column : Nat} :
      classes.lookup name =
        some (.ClassDeclaration cname superClassName own isAbstract line column) →
      (∀ v, superClassName = some v → v.truthy = false) →
      (∀ m ∈ own, m.isMethod = true) →
      Resolves classes name (overrideInPlace [] own)
  | inherits {name superKey : String} {cname superName : TokenValue}
      {own base : List Node} {isAbstract : Bool} {line column : Nat} :
      classes.lookup name =
        some (.ClassDeclaration cname (some superName) own isAbstract line column) →
      superName.truthy = true → superName.key = some superKey →
      (∀ m ∈ own, m.isMethod = true) →
      Resolves classes superKey base → Resolves classes name (overrideInPlace base own)

/-! ## Words of the specification about calls and `essaye` -/

/-- The state in which the body of a call starts: a new environment holding
`frame`, whose parent is the global environment, is the current one. -/
def enterCall (frame : List (String × Value)) (s : State) : State :=
  { s with envs := s.envs ++ [⟨frame, some 0⟩], env := s.envs.length }

/-- The state in which a handler body starts: a new environment holding the
catch parameter, whose parent is the environment `previousEnv` of the entry of
the `essaye`, is the current one. -/
def enterCatch (k : String) (errorValue : Value) (previousEnv : Nat) (s : State) : State :=
  { s with envs := s.envs ++ [⟨[(k, errorValue)], some previousEnv⟩], env := s.envs.length }

/-- The finalizer body runs exactly once, from the state `s` with the
environment `previousEnv` made current; when it completes, evaluation goes on
with `resume` in the environment `previousEnv`; when it raises, its signal
leaves the construct. -/
def finalizerOnce (ev : Node → State → Result Value) (finalizer : List Node) (previousEnv : Nat)
    (s : State) (resume : State → Result Value) : Result Value :=
  match runStatements ev finalizer { s with env := previousEnv } with
  | .ok _ s4 => resume { s4 with env := previousEnv }
  | .stop sig s4 => .stop sig s4

/-- A signal that `essaye` treats as an error: the object thrown by `lance` or
an `Error`. -/
def Signal.isError : Signal → Bool
  | .thrown _ _ => true
  | .error _ => true
  | _ => false

/-- A signal of the code (not one of the embedding). -/
def Signal.isRaised : Signal → Bool
  | .returned _ => true
  | .thrown _ _ => true
  | .error _ => true
  | _ => false

/-- The value `attrape` binds for a signal that is an error: the value thrown by
`lance`, or the message of the `Error`. -/
def Signal.errorValue : Signal → Value
  | .thrown v _ => v
  | .error message => .str message
  | _ => .undefined


/-! ## Words of the specification about environments -/

/-- The frames of the chain of environments that starts at the frame `id`,
nearest first: the frame, then its parent, up to a frame without parent. -/
def Environment.chain : Nat → List Environment → Nat → List Nat
  | 0, _, _ => []
  | fuel + 1, envs, id =>
    match envs[id]? with
    | none => []
    | some e =>
      id :: match e.parent with
        | some p => Environment.chain fuel envs p
        | none => []

/-- The frame `id` starts a chain of environments: following the parents from
it leads, through frames of the heap and within `fuel` steps, to a frame without
parent (the root). -/
def Environment.rooted : Nat → List Environment → Nat → Bool
  | 0, _, _ => false
  | fuel + 1, envs, id =>
    match envs[id]? with
    | none => false
    | some e =>
      match e.parent with
      | none => true
      | some p => Environment.rooted fuel envs p

/-- The value the frame `id` binds to `name`, when it binds one. -/
def binding (envs : List Environment) (id : Nat) (name : String) : Option Value :=
  (envs[id]?).bind fun e => e.vars.lookup name

/-- The frame `id` defines `name`. -/
def defines (envs : List Environment) (name : String) (id : Nat) : Bool :=
  (binding envs id name).isSome

/-- The nearest frame of the chain from `id` that defines `name`. -/
def nearest (fuel : Nat) (envs : List Environment) (id : Nat) (name : String) : Option Nat :=
  (Environment.chain fuel envs id).find? (defines envs name)

/-- The heap of environments in which the frame `id` binds `name` to `value`
and nothing else is changed. -/
def rebind (envs : List Environment) (id : Nat) (name : String) (value : Value) :
    List Environment :=
  match envs[id]? with
  | some e => envs.set id { e with vars := dictSet e.vars name value }
  | none => envs


/-! ## Words of the specification about positions and comments -/

/-- The token `t` is the one the loop of `tokenize` pushes in the iteration that
starts at the offset `o` of the input: `o` is the offset of the first character
of the token. -/
def LexedAt (input : List Char) (t : Token) (o : Nat) : Prop :=
  ∃ c cs tokens s, input.drop o = c :: cs ∧
    scanOne c cs t.line t.column tokens = .ok s ∧ s.tokens = tokens ++ [t]

/-- The token lexed at the offset `o` carries the line and the column of the
character at that offset, counted on the text alone. -/
def PositionedAt (input : List Char) (t : Token) (o : Nat) : Prop :=
  LexedAt input t o ∧ t.line = sourceLine (input.take o) ∧
    t.column = sourceColumn (input.take o)

/-- Column of the character that follows `before` in a text, counted in
characters: 1 plus the number of characters after the last newline before it (or
after the start of the text). -/
def characterColumn (before : List Char) : Nat :=
  1 + (before.reverse.takeWhile (fun x => x != '\n')).length

/-- Where a scan of a source text stands: in code, in a comment, or in a string
literal. -/
inductive Mode
  | code
  | comment
  | string
  deriving DecidableEq, Repr

/-- The mode at the end of a text scanned from the mode `m`: a double quote opens
and closes a string literal, `#` opens a comment, a newline closes it. -/
def scanMode : Mode → List Char → Mode
  | m, [] => m
  | .code, c :: cs =>
    if c = '"' then scanMode .string cs
    else if c = '#' then scanMode .comment cs
    else scanMode .code cs
  | .comment, c :: cs => if c = '\n' then scanMode .code cs else scanMode .comment cs
  | .string, c :: cs => if c = '"' then scanMode .code cs else scanMode .string cs


/-! ## Words of the specification about instances -/

/-- The name of a method whose name is a string. -/
def Node.methodKey : Node → String
  | .FunctionDeclaration (.str name) _ _ _ _ _ => name
  | _ => ""

/-- The method is declared `prive`. -/
def Node.isPrivate : Node → Bool
  | .FunctionDeclaration _ _ _ visibility _ _ => decide (visibility = some (.str "prive"))
  | _ => false

/-- The two properties `instantiateClass` gives every instance, and the name
that does not make a property. -/
def reservedProperties : List String := ["__proto__", "__class__", "__privateMethods__"]

/-- A method whose name is a string other than the reserved property names. -/
def Node.plainMethod : Node → Bool
  | .FunctionDeclaration (.str name) _ _ _ _ _ => decide (name ∉ reservedProperties)
  | _ => false

/-- The properties of an instance after one callable per method was stored under
the name of the method: the k-th method gets the function object `base + k`. -/
def bindAll (base : Nat) : List Node → List (String × Value) → List (String × Value)
  | [], properties => properties
  | m :: rest, properties =>
    bindAll (base + 1) rest (dictSet properties m.methodKey (.fn base))

/-- The state after `nouveau` made an instance of the class `k` with the resolved
methods `ms`: the heap gets the array of the names of the `prive` methods and,
after it, the instance, tagged with the class and holding one callable per
method; the table of function objects gets one entry per method, bound to the
instance. -/
def withInstance (k : String) (ms : List Node) (s : State) : State :=
  { s with
    heap := s.heap ++
      [.array ((ms.filter Node.isPrivate).map fun m => .str m.methodKey),
       .object (bindAll s.closures.length ms
         [("__class__", .str k), ("__privateMethods__", .ref s.heap.length)])]
    closures := s.closures ++ ms.map fun m => (m, s.heap.length + 1) }


/-- A state that holds one instance (at the address 1) with the private method
`s`, whose body is `renvoie 1`. -/
def instanceExample : State :=
  { Evaluator [] with
    heap := [.array [.str "s"], .object [("__privateMethods__", .ref 0), ("s", .fn 0)]]
    closures := [(.FunctionDeclaration (.str "s") []
      [.ReturnStatement (.Literal (.num "1") 1 1) 1 1] (some (.str "prive")) 1 1, 1)] }


/-! ## Words of the specification about the totality of the parser -/

/-- A result of a parsing method on `n` tokens that is not the out-of-fuel value
of the embedding, and that, when it is a value, has consumed at least `consumed`
tokens. -/
def Res.good {α : Type} (r : Res α) (consumed n : Nat) : Prop :=
  match r with
  | .ok _ rest => rest.length + consumed ≤ n
  | .fail _ => True
  | .outOfFuel => False

/-- With fuel of at least eight units per token and `margin` more, the parsing
method `p` ends, and a value it returns has consumed at least `consumed`
tokens. -/
def Fuelled {α : Type} (p : Nat → List Token → Res α) (consumed margin fuel : Nat) : Prop :=
  ∀ toks, 8 * toks.length + margin ≤ fuel → (p fuel toks).good consumed toks.length

/-- Every method of the parser ends on the fuel `fuel`, when it is at least eight
units per token plus the margin of the method. -/
structure ParserFuelled (fuel : Nat) : Prop where
  primary : Fuelled parsePrimary 1 2 fuel
  expression : Fuelled parseExpression 1 3 fuel
  binary : ∀ left, Fuelled (fun f toks => binaryLoop f left toks) 0 1 fuel
  call : ∀ callee, Fuelled (fun f toks => parseCallExpression f callee toks) 1 5 fuel
  listLiteral : Fuelled parseListLiteral 1 1 fuel
  objectLiteral : Fuelled parseObjectLiteral 1 1 fuel
  pair : Fuelled parseObjectPair 1 1 fuel
  pairsTail : Fuelled objectPairsTail 0 1 fuel
  expressions : ∀ close, Fuelled (fun f toks => expressionList f close toks) 0 4 fuel
  expressionsTail : Fuelled expressionsTail 0 1 fuel
  statement : Fuelled parseStatement 1 4 fuel
  statements : Fuelled parseStatements 0 5 fuel
  variableDeclaration : Fuelled parseVariableDeclaration 1 1 fuel
  print : Fuelled parsePrintStatement 1 1 fuel
  printArgs : Fuelled printArgs 0 1 fuel
  ifStatement : Fuelled parseIfStatement 1 1 fuel
  whileStatement : Fuelled parseWhileStatement 1 1 fuel
  functionDeclaration : Fuelled parseFunctionDeclaration 1 1 fuel
  returnStatement : Fuelled parseReturnStatement 1 1 fuel
  classDeclaration : Fuelled parseClassDeclaration 1 1 fuel
  classMembers : Fuelled classMembers 0 5 fuel
  tryStatement : Fuelled parseTryStatement 1 1 fuel
  throwStatement : Fuelled parseThrowStatement 1 1 fuel
  block : Fuelled parseBlock 1 1 fuel
  interfaceDeclaration : Fuelled parseInterfaceDeclaration 1 1 fuel
  interfaceMembers : Fuelled interfaceMembers 0 5 fuel


/-! ## Words of the specification about call frames -/

/-- The frame `i` has in `after` the parent it has in `before`, and defines `x`
in `after` exactly when it does in `before`. -/
def sameFrame (x : String) (before after : List Environment) (i : Nat) : Prop :=
  (after[i]?).map (fun e => e.parent) = (before[i]?).map (fun e => e.parent) ∧
    defines after x i = defines before x i

/-- The evaluation is inside a call whose environment is the frame `b`: the
current environment is the frame `b` or one made after it, and the parent of
every frame from `b` on was made before the frame and is the global environment
or a frame from `b` on. -/
def Inside (b : Nat) (s : State) : Prop :=
  b ≤ s.env ∧ s.env < s.envs.length ∧
    ∀ (i : Nat) (e : Environment), b ≤ i → s.envs[i]? = some e →
      ∃ p, e.parent = some p ∧ p < i ∧ (p = 0 ∨ b ≤ p)

/-- From the state `s` to the state `t` no frame is lost, and every frame made
before the frame `b` keeps its parent and whether it defines `x`. -/
def Keeps (b : Nat) (x : String) (s t : State) : Prop :=
  s.envs.length ≤ t.envs.length ∧ ∀ i : Nat, i < b → sameFrame x s.envs t.envs i

/-- The step from `s` to the result `r` stays inside the call of frame `b` and
keeps the frames made before it. -/
def Confined {α : Type} (b : Nat) (x : String) (s : State) (r : Result α) : Prop :=
  Inside b r.state ∧ Keeps b x s r.state

/-- The declaration `fonction f() { soit x = 1 }`. -/
def declaresLocal : Node :=
  .FunctionDeclaration (.str "f") [] [.VariableDeclaration (.str "x") (.Literal (.num "1") 1 25) 1 16]
    none 1 1

/-- A state in the body of a call: the frame of the call (the frame 1) is the
current environment, and it binds `x` to 1. -/
def insideCallExample : State :=
  { Evaluator [] with envs := [⟨[], none⟩, ⟨[("x", .num 1)], some 0⟩], env := 1 }


/-! ## Words of the specification about inherited entries of the class table -/

/-- The superclass chain of the class `name` ends at a name that is not declared
and that every object inherits from `Object.prototype` (`toString`,
`constructor`, ...): `this.classes[name]` is then the inherited property. -/
inductive EndsInherited (classes : List (String × Node)) : String → Prop
  | here {name : String} :
      classes.lookup name = none → name ∈ objectPrototypeKeys → EndsInherited classes name
  | step {name superKey : String} {cname superName : TokenValue} {own : List Node}
      {isAbstract : Bool} {line column : Nat} :
      classes.lookup name =
        some (.ClassDeclaration cname (some superName) own isAbstract line column) →
      superName.truthy = true → superName.key = some superKey →
      EndsInherited classes superKey → EndsInherited classes name


/-! ## Words of the specification about function objects -/

/-- The table of function objects of the state `t` extends the one of `s`: every
function object of `s` is in `t` under the same number. -/
def Grows (s t : State) : Prop := ∃ added, t.closures = s.closures ++ added

/-- The class table of `classe A { fonction f() { } fonction g() { } }` and
`classe B herite de A { fonction f() { } }`. -/
def inheritanceExample : State :=
  { Evaluator [] with
    classes :=
      [("A", .ClassDeclaration (.str "A") none
          [.FunctionDeclaration (.str "f") [] [] none 1 1,
           .FunctionDeclaration (.str "g") [] [] none 1 2] false 1 1),
       ("B", .ClassDeclaration (.str "B") (some (.str "A"))
          [.FunctionDeclaration (.str "f") [] [] none 2 1] false 2 1)] }

/-- The state after `soit b = nouveau B()` and a second `nouveau B()` on the
class table of `inheritanceExample`: two instances, at the addresses 1 and 3,
and `b` bound to the first. -/
def twoInstancesExample : State :=
  { withInstance "B"
      [.FunctionDeclaration (.str "f") [] [] none 2 1,
       .FunctionDeclaration (.str "g") [] [] none 1 2]
      (withInstance "B"
        [.FunctionDeclaration (.str "f") [] [] none 2 1,
         .FunctionDeclaration (.str "g") [] [] none 1 2] inheritanceExample)
    with envs := [⟨[("b", .ref 1)], none⟩] }

/-! ## Words of the specification about sorted arrays -/

/-- The comparison `a <= b` of two numbers, as the claim on the sort built-ins
reads "ascending": it is false as soon as one of the two is NaN, and otherwise
the order of the values. A list is in ascending order when it is sorted by this
relation, in descending order when it is sorted by its converse. -/
def Value.lessEq (a b : Value) : Prop :=
  a.isOrdered = true ∧ b.isOrdered = true ∧ a.sortKey ≤ b.sortKey
/-! ## Lemmas on the lexer -/

theorem lexLoop_nil (fuel line column : Nat) (tokens : List Token) :
    lexLoop fuel ⟨[], line, column, tokens⟩ = some (.ok tokens) := by
  cases fuel <;> rfl

theorem lexLoop_cons (fuel : Nat) (c : Char) (cs : List Char) (line column : Nat)
    (tokens : List Token) :
    lexLoop (fuel + 1) ⟨c :: cs, line, column, tokens⟩ =
      match scanOne c cs line column tokens with
      | .error e => some (.error e)
      | .ok s => lexLoop fuel s := rfl

theorem takeWhile_ne_append (q : Char) (s rest : List Char) (h : q ∉ s) :
    (s ++ q :: rest).takeWhile (fun x => x != q) = s := by
  induction s with
  | nil => simp
  | cons a s ih =>
    simp only [List.mem_cons, not_or] at h
    have ha : (a != q) = true := by simpa [bne_iff_ne] using fun e => h.1 e.symm
    simp [List.takeWhile_cons, ha, ih h.2]

theorem dropWhile_ne_append (q : Char) (s rest : List Char) (h : q ∉ s) :
    (s ++ q :: rest).dropWhile (fun x => x != q) = q :: rest := by
  induction s with
  | nil => simp
  | cons a s ih =>
    simp only [List.mem_cons, not_or] at h
    have ha : (a != q) = true := by simpa [bne_iff_ne] using fun e => h.1 e.symm
    simp [List.dropWhile_cons, ha, ih h.2]

theorem takeWhile_ne_self (q : Char) (s : List Char) (h : q ∉ s) :
    s.takeWhile (fun x => x != q) = s := by
  induction s with
  | nil => simp
  | cons a s ih =>
    simp only [List.mem_cons, not_or] at h
    have ha : (a != q) = true := by simpa [bne_iff_ne] using fun e => h.1 e.symm
    simp [List.takeWhile_cons, ha, ih h.2]

theorem dropWhile_ne_self (q : Char) (s : List Char) (h : q ∉ s) :
    s.dropWhile (fun x => x != q) = [] := by
  induction s with
  | nil => simp
  | cons a s ih =>
    simp only [List.mem_cons, not_or] at h
    have ha : (a != q) = true := by simpa [bne_iff_ne] using fun e => h.1 e.symm
    simp [List.dropWhile_cons, ha, ih h.2]

/-- The branch of `scanOne` taken on an opening double quote (lexer.js:108-121). -/
theorem scanOne_quote (cs : List Char) (line column : Nat) (tokens : List Token) :
    scanOne '"' cs line column tokens =
      .ok ⟨(cs.dropWhile (fun x => x != '"')).tail, line,
        column + 1 + utf16Length (cs.takeWhile (fun x => x != '"')) + 1,
        tokens ++ [⟨.STRING, .str (String.mk (cs.takeWhile (fun x => x != '"'))), line, column⟩]⟩ := by
  simp [scanOne, isSpace, isIdentStart, Char.isAlpha, Char.isUpper, Char.isLower, Char.isDigit]

theorem tokenize_mk (cs : List Char) :
    tokenize (String.mk cs) = lexLoop cs.length ⟨cs, 1, 1, []⟩ := rfl

/-- C1 (code at the failing inputs): a string literal that is opened and never
closed does not make `tokenize` fail. For every text `s` without a double
quote, the source made of a double quote followed by `s` tokenizes to the single
STRING token with value `s`: the loop of lines 112-116 stops at the end of the
input and line 117 skips a closing quote that is not there. -/
theorem tokenize_unterminated_string (s : List Char) (h : '"' ∉ s) :
    tokenize (String.mk ('"' :: s)) =
      some (.ok [⟨.STRING, .str (String.mk s), 1, 1⟩]) := by
  rw [tokenize_mk, List.length_cons, lexLoop_cons, scanOne_quote]
  simp [takeWhile_ne_self _ _ h, dropWhile_ne_self _ _ h, lexLoop_nil]

theorem tokenize_unterminated_string_witness :
    '"' ∉ ['a', 'b', 'c'] ∧
      tokenize "\"abc" = some (.ok [⟨.STRING, .str "abc", 1, 1⟩]) :=
  ⟨by decide, tokenize_unterminated_string ['a', 'b', 'c'] (by decide)⟩

/-- C6: for every text `s` without a double quote (whatever else it holds: `#`,
backslashes, keywords, newlines), the source `"s"` tokenizes to exactly one
token, of type STRING, at line 1 column 1, whose value is `s` unchanged. -/
theorem tokenize_string_literal (s : List Char) (h : '"' ∉ s) :
    tokenize (String.mk ('"' :: s ++ ['"'])) =
      some (.ok [⟨.STRING, .str (String.mk s), 1, 1⟩]) := by
  rw [tokenize_mk]
  simp only [List.cons_append, List.length_cons, lexLoop_cons, scanOne_quote,
    takeWhile_ne_append _ _ _ h, dropWhile_ne_append _ _ _ h]
  simp [lexLoop_nil]

theorem tokenize_string_literal_witness :
    '"' ∉ ['#', ' ', 's', 'i', '\\', 'n', '\n'] ∧
      tokenize "\"# si\\n\n\"" = some (.ok [⟨.STRING, .str "# si\\n\n", 1, 1⟩]) :=
  ⟨by decide, tokenize_string_literal ['#', ' ', 's', 'i', '\\', 'n', '\n'] (by decide)⟩

/-- C3: for every entry `(k, v)` of the alias table, the one-word source `k`
tokenizes to exactly one token, the same as the one-word source `v` does (type
KEYWORD when `v` is a keyword, IDENTIFIER otherwise, value `v`), and the alias
substitution leaves `v` unchanged. -/
theorem alias_same_token_and_idempotent :
    ∀ p ∈ aliases,
      tokenize p.1 = some (.ok [⟨if p.2 ∈ keywords then .KEYWORD else .IDENTIFIER, .str p.2, 1, 1⟩])
        ∧ tokenize p.1 = tokenize p.2
        ∧ applyAlias p.2 = .str p.2 := by
  decide



theorem alias_same_token_and_idempotent_witness :
    ("print", "montre") ∈ aliases ∧
      tokenize "print" = some (.ok [⟨.KEYWORD, .str "montre", 1, 1⟩]) ∧
      tokenize "print" = tokenize "montre" ∧ applyAlias "montre" = .str "montre" :=
  ⟨by decide, alias_same_token_and_idempotent ("print", "montre") (by decide)⟩

theorem char_eq_iff (c d : Char) : c = d ↔ c.toNat = d.toNat := by
  constructor
  · rintro rfl; rfl
  · intro h
    rw [← Char.ofNat_toNat c, ← Char.ofNat_toNat d, h]

theorem isDigit_iff (c : Char) : c.isDigit = true ↔ 48 ≤ c.toNat ∧ c.toNat ≤ 57 := by
  simp [Char.isDigit, Char.toNat, UInt32.le_def, BitVec.le_def, UInt32.toNat]

theorem isAlpha_iff (c : Char) :
    c.isAlpha = true ↔ (65 ≤ c.toNat ∧ c.toNat ≤ 90) ∨ (97 ≤ c.toNat ∧ c.toNat ≤ 122) := by
  simp [Char.isAlpha, Char.isUpper, Char.isLower, Char.toNat, UInt32.le_def, BitVec.le_def,
    UInt32.toNat]

theorem isIdentStart_iff (c : Char) :
    isIdentStart c = true ↔
      (65 ≤ c.toNat ∧ c.toNat ≤ 90) ∨ (97 ≤ c.toNat ∧ c.toNat ≤ 122) ∨ c.toNat = 95 := by
  simp [isIdentStart, isAlpha_iff, char_eq_iff c '_', or_assoc]

theorem isSpace_iff (c : Char) :
    isSpace c = true ↔
      (9 ≤ c.toNat ∧ c.toNat ≤ 13) ∨ c.toNat = 32 ∨ c.toNat = 160 ∨ c.toNat = 5760 ∨
      (8192 ≤ c.toNat ∧ c.toNat ≤ 8202) ∨ c.toNat = 8232 ∨ c.toNat = 8233 ∨ c.toNat = 8239 ∨
      c.toNat = 8287 ∨ c.toNat = 12288 ∨ c.toNat = 65279 := by
  simp [isSpace, or_assoc]

theorem scanOne_word (c : Char) (cs : List Char) (line column : Nat) (tokens : List Token)
    (h : isIdentStart c = true) :
    scanOne c cs line column tokens =
      .ok ⟨(c :: cs).dropWhile isIdentPart, line,
        column + ((c :: cs).takeWhile isIdentPart).length,
        tokens ++ [wordToken ((c :: cs).takeWhile isIdentPart) line column]⟩ := by
  have h1 : c ≠ '\n' := by
    rw [isIdentStart_iff] at h; rw [Ne, char_eq_iff]; simp; omega
  have h2 : isSpace c = false := by
    rw [isIdentStart_iff] at h
    rw [Bool.eq_false_iff, Ne, isSpace_iff]; omega
  have h3 : c ≠ '#' := by
    rw [isIdentStart_iff] at h; rw [Ne, char_eq_iff]; simp; omega
  simp [scanOne, h1, h2, h3, h]

theorem isIdentPart_ne_newline (x : Char) (h : isIdentPart x = true) : x ≠ '\n' := by
  rintro rfl; exact absurd h (by decide)

theorem isNumberPart_ne_newline (x : Char) (h : isNumberPart x = true) : x ≠ '\n' := by
  rintro rfl; exact absurd h (by decide)

theorem isIdentStart_part (c : Char) (h : isIdentStart c = true) : isIdentPart c = true := by
  simp only [isIdentStart, isIdentPart, Char.isAlphanum, Bool.or_eq_true] at h ⊢
  rcases h with h | h
  · exact Or.inl (Or.inl h)
  · exact Or.inr h

theorem isDigit_numberPart (c : Char) (h : c.isDigit = true) : isNumberPart c = true := by
  simp [isNumberPart, h]

theorem dropWhile_head (p : Char → Bool) (l : List Char) :
    l.dropWhile p = [] ∨ ∃ a tl, l.dropWhile p = a :: tl ∧ p a = false := by
  induction l with
  | nil => simp
  | cons a l ih =>
    by_cases ha : p a = true
    · simpa [List.dropWhile_cons, ha] using ih
    · right; exact ⟨a, l, by simp [List.dropWhile_cons, ha], by simpa using ha⟩

theorem not_mem_takeWhile_ne (q : Char) (l : List Char) :
    q ∉ l.takeWhile (fun x => x != q) := by
  intro h
  have := List.mem_takeWhile_imp h
  simp at this

/-! ### Code units -/

theorem utf16Length_nil : utf16Length [] = 0 := rfl

theorem utf16Length_cons (a : Char) (l : List Char) :
    utf16Length (a :: l) = (if a.toNat < 65536 then 1 else 2) + utf16Length l := by
  simp [utf16Length]

theorem utf16Length_append (l r : List Char) :
    utf16Length (l ++ r) = utf16Length l + utf16Length r := by
  simp [utf16Length, List.sum_append]

theorem utf16Length_reverse (l : List Char) : utf16Length l.reverse = utf16Length l := by
  simp [utf16Length, List.sum_reverse]

/-- A text of the Basic Multilingual Plane has one code unit per character. -/
theorem utf16Length_eq_length (l : List Char) (h : ∀ a ∈ l, a.toNat < 65536) :
    utf16Length l = l.length := by
  induction l with
  | nil => rfl
  | cons a l ih =>
    rw [utf16Length_cons, if_pos (h a (by simp)), ih (fun b hb => h b (by simp [hb]))]
    simp only [List.length_cons]
    omega

theorem utf16Length_takeWhile (p : Char → Bool) (hp : ∀ a, p a = true → a.toNat < 65536)
    (l : List Char) : utf16Length (l.takeWhile p) = (l.takeWhile p).length :=
  utf16Length_eq_length _ fun a ha => hp a (List.mem_takeWhile_imp ha)

theorem bmp_of_isSpace (c : Char) (h : isSpace c = true) : c.toNat < 65536 := by
  rw [isSpace_iff] at h
  omega

theorem bmp_of_isIdentPart (c : Char) (h : isIdentPart c = true) : c.toNat < 65536 := by
  simp only [isIdentPart, Char.isAlphanum, Bool.or_eq_true, isAlpha_iff, isDigit_iff,
    beq_iff_eq, char_eq_iff c '_'] at h
  have : ('_' : Char).toNat = 95 := rfl
  omega

theorem bmp_of_isNumberPart (c : Char) (h : isNumberPart c = true) : c.toNat < 65536 := by
  simp only [isNumberPart, Bool.or_eq_true, isDigit_iff, beq_iff_eq, char_eq_iff c '.'] at h
  have : ('.' : Char).toNat = 46 := rfl
  omega

theorem bmp_of_isPunctuation (c : Char) (h : isPunctuation c = true) : c.toNat < 65536 := by
  simp only [isPunctuation, Bool.or_eq_true, beq_iff_eq] at h
  rcases h with ((((((h | h) | h) | h) | h) | h) | h) <;> subst h <;> decide

theorem bmp_of_isSingleOperator (c : Char) (h : isSingleOperator c = true) :
    c.toNat < 65536 := by
  simp only [isSingleOperator, Bool.or_eq_true, beq_iff_eq] at h
  rcases h with (((((h | h) | h) | h) | h) | h) <;> subst h <;> decide

theorem utf16Length_single (c : Char) (h : c.toNat < 65536) : utf16Length [c] = 1 := by
  rw [utf16Length_cons, if_pos h, utf16Length_nil]

theorem utf16Length_pair (c : Char) (h : c.toNat < 65536) : utf16Length [c, '='] = 2 := by
  rw [utf16Length_cons, if_pos h, utf16Length_single '=' (by decide)]

/-- What one iteration of the loop does to the state. -/
theorem scanOne_shape {c : Char} {cs : List Char} {line column : Nat} {tokens : List Token}
    {s : LexState} (h : scanOne c cs line column tokens = .ok s) :
    ∃ consumed new, c :: cs = consumed ++ s.rest ∧ consumed ≠ [] ∧ s.tokens = tokens ++ new ∧
      ((c = '\n' ∧ s.line = line + 1 ∧ s.column = 1 ∧ consumed = ['\n'] ∧ new = []) ∨
       (c ≠ '\n' ∧ s.line = line ∧
          (NoMultilineString new → '\n' ∉ consumed ∧
            (s.column = column + utf16Length consumed ∨ s.rest = [] ∨ s.rest.head? = some '\n')))) := by
  by_cases h1 : c = '\n'
  · rw [scanOne, if_pos h1] at h; cases h
    exact ⟨['\n'], [], by simp [h1], by simp, by simp, Or.inl ⟨h1, rfl, rfl, rfl, rfl⟩⟩
  rw [scanOne, if_neg h1] at h
  have hc : '\n' ∉ [c] := by simpa using Ne.symm h1
  by_cases h2 : isSpace c = true
  · rw [if_pos h2] at h; cases h
    exact ⟨[c], [], by simp, by simp, by simp, Or.inr ⟨h1, rfl, fun _ =>
      ⟨hc, Or.inl (by rw [utf16Length_single c (bmp_of_isSpace c h2)])⟩⟩⟩
  rw [if_neg h2] at h
  by_cases h3 : c = '#'
  · rw [if_pos h3] at h; cases h
    refine ⟨(c :: cs).takeWhile (fun x => x != '\n'), [], ?_, ?_, by simp,
      Or.inr ⟨h1, rfl, fun _ => ⟨not_mem_takeWhile_ne _ _, ?_⟩⟩⟩
    · simp [List.takeWhile_append_dropWhile]
    · simp [List.takeWhile_cons, h1]
    · right
      rcases dropWhile_head (fun x => x != '\n') (c :: cs) with e | ⟨a, tl, e, ha⟩
      · exact Or.inl e
      · right; simp only [e, List.head?_cons]; simp at ha; simp [ha]
  rw [if_neg h3] at h
  by_cases h4 : isIdentStart c = true
  · rw [if_pos h4] at h; cases h
    refine ⟨(c :: cs).takeWhile isIdentPart, _, ?_, ?_, rfl,
      Or.inr ⟨h1, rfl, fun _ => ⟨?_, Or.inl
        (by rw [utf16Length_takeWhile isIdentPart bmp_of_isIdentPart])⟩⟩⟩
    · simp [List.takeWhile_append_dropWhile]
    · simp [List.takeWhile_cons, isIdentStart_part c h4]
    · intro hm; exact isIdentPart_ne_newline _ (List.mem_takeWhile_imp hm) rfl
  rw [if_neg h4] at h
  by_cases h5 : c.isDigit = true
  · rw [if_pos h5] at h; cases h
    refine ⟨(c :: cs).takeWhile isNumberPart, _, ?_, ?_, rfl,
      Or.inr ⟨h1, rfl, fun _ => ⟨?_, Or.inl
        (by rw [utf16Length_takeWhile isNumberPart bmp_of_isNumberPart])⟩⟩⟩
    · simp [List.takeWhile_append_dropWhile]
    · simp [List.takeWhile_cons, isDigit_numberPart c h5]
    · intro hm; exact isNumberPart_ne_newline _ (List.mem_takeWhile_imp hm) rfl
  rw [if_neg h5] at h
  by_cases h6 : c = '"'
  · rw [if_pos h6] at h; cases h
    subst h6
    have hsplit := List.takeWhile_append_dropWhile (fun x => x != '"') cs
    refine ⟨'"' :: (cs.takeWhile (fun x => x != '"') ++
        (cs.dropWhile (fun x => x != '"')).take 1), _, ?_, by simp, rfl,
      Or.inr ⟨h1, rfl, fun hn => ?_⟩⟩
    · rcases dropWhile_head (fun x => x != '"') cs with e | ⟨a, tl, e, _⟩
      · simpa [e] using hsplit.symm
      · rw [e] at hsplit
        simp [e, hsplit]
    · have hstr : '\n' ∉ cs.takeWhile (fun x => x != '"') :=
        hn ⟨.STRING, .str (String.mk (cs.takeWhile (fun x => x != '"'))), line, column⟩
          (by simp) rfl _ rfl
      rcases dropWhile_head (fun x => x != '"') cs with e | ⟨a, tl, e, ha⟩
      · exact ⟨by simpa [e] using hstr, Or.inr (Or.inl (by simp [e]))⟩
      · have ha' : a = '"' := by simpa using ha
        subst ha'
        refine ⟨by simpa [e] using hstr, Or.inl ?_⟩
        simp only [e, List.take_succ_cons, List.take_zero, utf16Length_cons,
          utf16Length_append, utf16Length_nil]
        simp
        omega
  rw [if_neg h6] at h
  have two : ∀ {tl : List Char}, cs.head? = some '=' → cs.tail = tl → c :: cs = [c, '='] ++ tl := by
    intro tl e1 e2
    cases cs with
    | nil => simp at e1
    | cons a cs' => simp at e1 e2; simp [e1, e2]
  have hq : '\n' ∉ [c, '='] := by
    simp only [List.mem_cons, List.mem_singleton, not_or, List.not_mem_nil, or_false]
    exact ⟨Ne.symm h1, by decide⟩
  by_cases h7 : c = '='
  · rw [if_pos h7] at h
    have hbmp : c.toNat < 65536 := by subst h7; decide
    by_cases h8 : cs.head? = some '='
    · rw [if_pos h8] at h; cases h
      exact ⟨[c, '='], _, two h8 rfl, by simp, rfl, Or.inr ⟨h1, rfl, fun _ =>
        ⟨hq, Or.inl (by rw [utf16Length_pair c hbmp])⟩⟩⟩
    · rw [if_neg h8] at h; cases h
      exact ⟨[c], _, by simp, by simp, rfl, Or.inr ⟨h1, rfl, fun _ =>
        ⟨hc, Or.inl (by rw [utf16Length_single c hbmp])⟩⟩⟩
  rw [if_neg h7] at h
  by_cases h9 : c = '!'
  · rw [if_pos h9] at h
    have hbmp : c.toNat < 65536 := by subst h9; decide
    by_cases h8 : cs.head? = some '='
    · rw [if_pos h8] at h; cases h
      exact ⟨[c, '='], _, two h8 rfl, by simp, rfl, Or.inr ⟨h1, rfl, fun _ =>
        ⟨hq, Or.inl (by rw [utf16Length_pair c hbmp])⟩⟩⟩
    · rw [if_neg h8] at h; cases h
  rw [if_neg h9] at h
  by_cases h10 : isPunctuation c = true
  · rw [if_pos h10] at h; cases h
    have hbmp := bmp_of_isPunctuation c h10
    exact ⟨[c], _, by simp, by simp, rfl, Or.inr ⟨h1, rfl, fun _ =>
        ⟨hc, Or.inl (by rw [utf16Length_single c hbmp])⟩⟩⟩
  rw [if_neg h10] at h
  by_cases h11 : c = '<'
  · rw [if_pos h11] at h
    have hbmp : c.toNat < 65536 := by subst h11; decide
    by_cases h8 : cs.head? = some '='
    · rw [if_pos h8] at h; cases h
      exact ⟨[c, '='], _, two h8 rfl, by simp, rfl, Or.inr ⟨h1, rfl, fun _ =>
        ⟨hq, Or.inl (by rw [utf16Length_pair c hbmp])⟩⟩⟩
    · rw [if_neg h8] at h; cases h
      exact ⟨[c], _, by simp, by simp, rfl, Or.inr ⟨h1, rfl, fun _ =>
        ⟨hc, Or.inl (by rw [utf16Length_single c hbmp])⟩⟩⟩
  rw [if_neg h11] at h
  by_cases h12 : c = '>'
  · rw [if_pos h12] at h
    have hbmp : c.toNat < 65536 := by subst h12; decide
    by_cases h8 : cs.head? = some '='
    · rw [if_pos h8] at h; cases h
      exact ⟨[c, '='], _, two h8 rfl, by simp, rfl, Or.inr ⟨h1, rfl, fun _ =>
        ⟨hq, Or.inl (by rw [utf16Length_pair c hbmp])⟩⟩⟩
    · rw [if_neg h8] at h; cases h
      exact ⟨[c], _, by simp, by simp, rfl, Or.inr ⟨h1, rfl, fun _ =>
        ⟨hc, Or.inl (by rw [utf16Length_single c hbmp])⟩⟩⟩
  rw [if_neg h12] at h
  by_cases h13 : isSingleOperator c = true
  · rw [if_pos h13] at h; cases h
    have hbmp := bmp_of_isSingleOperator c h13
    exact ⟨[c], _, by simp, by simp, rfl, Or.inr ⟨h1, rfl, fun _ =>
        ⟨hc, Or.inl (by rw [utf16Length_single c hbmp])⟩⟩⟩
  · rw [if_neg h13] at h; cases h

theorem scanOne_rest_length {c : Char} {cs : List Char} {line column : Nat}
    {tokens : List Token} {s : LexState} (h : scanOne c cs line column tokens = .ok s) :
    s.rest.length ≤ cs.length := by
  obtain ⟨consumed, new, hsplit, hne, -, -⟩ := scanOne_shape h
  have hlen := congrArg List.length hsplit
  have : 0 < consumed.length := List.length_pos.mpr hne
  simp only [List.length_cons, List.length_append] at hlen
  omega

/-- Any fuel that covers the rest of the input gives the same result, which is
never the out-of-fuel value. -/
theorem lexLoop_fuel (f : Nat) : ∀ (s : LexState) (f' : Nat), s.rest.length ≤ f →
    s.rest.length ≤ f' → lexLoop f s = lexLoop f' s ∧ lexLoop f s ≠ none := by
  induction f with
  | zero =>
    intro s f' h0 _
    obtain ⟨rest, line, column, tokens⟩ := s
    have : rest = [] := List.length_eq_zero.mp (Nat.le_zero.mp h0)
    subst this
    simp [lexLoop_nil]
  | succ f ih =>
    intro s f' h0 h1
    obtain ⟨rest, line, column, tokens⟩ := s
    cases rest with
    | nil => simp [lexLoop_nil]
    | cons c cs =>
      cases f' with
      | zero => simp at h1
      | succ f' =>
        rw [lexLoop_cons, lexLoop_cons]
        cases hs : scanOne c cs line column tokens with
        | error e => simp
        | ok s' =>
          have hl := scanOne_rest_length hs
          simp only [List.length_cons] at h0 h1
          exact ih s' f' (by omega) (by omega)

theorem reaches_tokenize {input : String} {s : LexState} (h : Reaches input s) :
    tokenize input = lexLoop s.rest.length s := by
  induction h with
  | start => rfl
  | @next c cs line column tokens s' _ hs ih =>
    rw [ih]
    simp only [List.length_cons, lexLoop_cons, hs]
    exact (lexLoop_fuel _ s' _ (scanOne_rest_length hs) (le_refl _)).1

/-- The function `tokenize` is total: it returns tokens or an error. -/
theorem tokenize_ne_none (input : String) : tokenize input ≠ none :=
  (lexLoop_fuel input.length (Lexer input) input.length (le_refl _) (le_refl _)).2

/-- The tokens pushed so far stay at the front of the result. -/
theorem lexLoop_extends (f : Nat) : ∀ (s : LexState) (out : List Token),
    lexLoop f s = some (.ok out) → ∃ more, out = s.tokens ++ more := by
  induction f with
  | zero =>
    intro s out h
    obtain ⟨rest, line, column, tokens⟩ := s
    cases rest with
    | nil => rw [lexLoop_nil] at h; cases h; exact ⟨[], by simp⟩
    | cons c cs => simp [lexLoop] at h
  | succ f ih =>
    intro s out h
    obtain ⟨rest, line, column, tokens⟩ := s
    cases rest with
    | nil => rw [lexLoop_nil] at h; cases h; exact ⟨[], by simp⟩
    | cons c cs =>
      rw [lexLoop_cons] at h
      cases hs : scanOne c cs line column tokens with
      | error e => rw [hs] at h; cases h
      | ok s' =>
        rw [hs] at h
        obtain ⟨more, hmore⟩ := ih s' out h
        obtain ⟨_, new, _, _, htok, _⟩ := scanOne_shape hs
        exact ⟨new ++ more, by simp [hmore, htok]⟩

theorem sourceLine_append (before x : List Char) (h : '\n' ∉ x) :
    sourceLine (before ++ x) = sourceLine before := by
  simp [sourceLine, List.count_append, List.count_eq_zero.mpr h]

theorem sourceLine_newline (before : List Char) :
    sourceLine (before ++ ['\n']) = sourceLine before + 1 := by
  simp [sourceLine, List.count_append]; omega

theorem sourceColumn_newline (before : List Char) : sourceColumn (before ++ ['\n']) = 1 := by
  simp [sourceColumn, utf16Length_nil]

theorem takeWhile_append_all (p : Char → Bool) (l r : List Char) (h : ∀ a ∈ l, p a = true) :
    (l ++ r).takeWhile p = l ++ r.takeWhile p := by
  induction l with
  | nil => simp
  | cons a l ih =>
    have ha := h a (by simp)
    simp [List.takeWhile_cons, ha, ih (fun b hb => h b (by simp [hb]))]

theorem sourceColumn_append (before x : List Char) (h : '\n' ∉ x) :
    sourceColumn (before ++ x) = sourceColumn before + utf16Length x := by
  have hall : ∀ a ∈ x.reverse, (fun y => y != '\n') a = true := by
    intro a ha
    have : a ≠ '\n' := by rintro rfl; exact h (List.mem_reverse.mp ha)
    simpa using this
  simp only [sourceColumn, List.reverse_append, takeWhile_append_all _ _ _ hall,
    utf16Length_append, utf16Length_reverse]
  omega

theorem posInv_start (input : String) : PosInv input (Lexer input) :=
  ⟨[], by simp [Lexer], fun _ => ⟨rfl, Or.inl rfl⟩⟩

theorem posInv_step {input : String} {c : Char} {cs : List Char} {line column : Nat}
    {tokens : List Token} {s : LexState}
    (hinv : PosInv input ⟨c :: cs, line, column, tokens⟩)
    (hs : scanOne c cs line column tokens = .ok s) : PosInv input s := by
  obtain ⟨before, hin, hpos⟩ := hinv
  obtain ⟨consumed, new, hsplit, -, htok, hcase⟩ := scanOne_shape hs
  refine ⟨before ++ consumed, ?_, fun hn => ?_⟩
  · simp only [] at hin
    rw [hin, hsplit, List.append_assoc]
  · have hold : NoMultilineString tokens := fun t ht => hn t (by simp [htok, ht])
    have hnew : NoMultilineString new := fun t ht => hn t (by simp [htok, ht])
    obtain ⟨hl, hcol⟩ := hpos hold
    rcases hcase with ⟨_, h1, h2, h3, _⟩ | ⟨hc, h1, h2⟩
    · rw [h1, h2, h3, sourceLine_newline, sourceColumn_newline]
      exact ⟨by simpa using hl, Or.inl rfl⟩
    · obtain ⟨hno, hc3⟩ := h2 hnew
      have hcol' : column = sourceColumn before := by
        rcases hcol with h | h | h
        · exact h
        · simp at h
        · simp at h; exact absurd h hc
      rw [h1, sourceLine_append _ _ hno, sourceColumn_append _ _ hno]
      refine ⟨by simpa using hl, ?_⟩
      rcases hc3 with h | h | h
      · exact Or.inl (by rw [h, hcol'])
      · exact Or.inr (Or.inl h)
      · exact Or.inr (Or.inr h)

theorem reaches_posInv {input : String} {s : LexState} (h : Reaches input s) :
    PosInv input s := by
  induction h with
  | start => exact posInv_start input
  | next _ hs ih => exact posInv_step ih hs

theorem scanOne_unaccepted (c : Char) (cs : List Char) (line column : Nat)
    (tokens : List Token) (h : accepted c = false) :
    scanOne c cs line column tokens = .error ⟨line, column, .unexpectedChar c⟩ := by
  simp only [accepted, Bool.or_eq_false_iff, beq_eq_false_iff_ne, ne_eq] at h
  obtain ⟨⟨⟨⟨⟨⟨⟨⟨⟨⟨⟨h1, h2⟩, h3⟩, h4⟩, h5⟩, h6⟩, h7⟩, h8⟩, h9⟩, h10⟩, h11⟩, h12⟩ := h
  simp [scanOne, h1, h2, h3, h4, h5, h6, h7, h8, h9, h10, h11, h12]

theorem scanOne_bang (cs : List Char) (line column : Nat) (tokens : List Token)
    (h : cs.head? ≠ some '=') :
    scanOne '!' cs line column tokens = .error ⟨line, column, .bangWithoutEq⟩ := by
  simp [scanOne, isSpace, isIdentStart, Char.isAlpha, Char.isUpper, Char.isLower, Char.isDigit, h]

theorem reaches_error {input : String} {c : Char} {cs : List Char} {line column : Nat}
    {tokens : List Token} {e : LexError}
    (hreach : Reaches input ⟨c :: cs, line, column, tokens⟩)
    (hs : scanOne c cs line column tokens = .error e) : tokenize input = some (.error e) := by
  rw [reaches_tokenize hreach]
  simp only [List.length_cons, lexLoop_cons, hs]

/-- C2 (amended): wherever the loop of `tokenize` stands on a character that no
branch takes, or on a `!` that is not followed by `=`, `tokenize` fails, and the
error carries the lexer's `line` and `column` counters at that character. When no
string literal lexed before it spans a line break, these are the line and the
column of the character in the source text. -/
theorem tokenize_rejects (input : String) (before : List Char) (c : Char) (cs : List Char)
    (line column : Nat) (tokens : List Token)
    (hreach : Reaches input ⟨c :: cs, line, column, tokens⟩)
    (hsplit : input.data = before ++ c :: cs)
    (hbad : accepted c = false ∨ (c = '!' ∧ cs.head? ≠ some '=')) :
    tokenize input =
        some (.error ⟨line, column, if c = '!' then .bangWithoutEq else .unexpectedChar c⟩) ∧
      (NoMultilineString tokens → line = sourceLine before ∧ column = sourceColumn before) := by
  constructor
  · rcases hbad with h | ⟨rfl, h⟩
    · have hne : c ≠ '!' := by rintro rfl; exact absurd h (by decide)
      rw [if_neg hne]
      exact reaches_error hreach (scanOne_unaccepted c cs line column tokens h)
    · rw [if_pos rfl]
      exact reaches_error hreach (scanOne_bang cs line column tokens h)
  · intro hn
    obtain ⟨before', hin, hpos⟩ := reaches_posInv hreach
    have hb : before' = before := by
      rw [hsplit] at hin
      exact (List.append_cancel_right hin).symm
    subst hb
    obtain ⟨hl, hcol⟩ := hpos hn
    refine ⟨hl, ?_⟩
    have hnl : c ≠ '\n' := by
      rcases hbad with h | ⟨rfl, _⟩
      · rintro rfl; exact absurd h (by decide)
      · decide
    rcases hcol with h | h | h
    · exact h
    · simp at h
    · simp at h; exact absurd h hnl

theorem tokenize_rejects_witness :
    tokenize "a @" = some (.error ⟨1, 3, .unexpectedChar '@'⟩) ∧
      (NoMultilineString [⟨.IDENTIFIER, .str "a", 1, 1⟩] →
        1 = sourceLine ['a', ' '] ∧ 3 = sourceColumn ['a', ' ']) :=
  tokenize_rejects "a @" ['a', ' '] '@' [] 1 3 [⟨.IDENTIFIER, .str "a", 1, 1⟩]
    (@Reaches.next "a @" ' ' ['@'] 1 2 [⟨.IDENTIFIER, .str "a", 1, 1⟩] _
      (@Reaches.next "a @" 'a' [' ', '@'] 1 1 [] _ .start (by decide)) (by decide))
    rfl (Or.inl (by decide))

/-- C2 as stated fails after a string literal that spans a line break: in the
source made of a double quote, a newline, a double quote and `@`, the scan
reaches `@`, which is the second character of line 2, and the error reports
line 1, column 4. -/
theorem error_position_after_multiline_string :
    Reaches "\"\n\"@" ⟨['@'], 1, 4, [⟨.STRING, .str "\n", 1, 1⟩]⟩ ∧
      accepted '@' = false ∧
      tokenize "\"\n\"@" = some (.error ⟨1, 4, .unexpectedChar '@'⟩) ∧
      sourceLine ['"', '\n', '"'] = 2 ∧ sourceColumn ['"', '\n', '"'] = 2 :=
  ⟨@Reaches.next "\"\n\"@" '"' ['\n', '"', '@'] 1 1 [] _ .start (by decide), by decide,
    by decide, by decide, by decide⟩

theorem scanOne_number (c : Char) (cs : List Char) (line column : Nat) (tokens : List Token)
    (h : c.isDigit = true) :
    scanOne c cs line column tokens =
      .ok ⟨(c :: cs).dropWhile isNumberPart, line,
        column + ((c :: cs).takeWhile isNumberPart).length,
        tokens ++ [⟨.NUMBER, .num (String.mk ((c :: cs).takeWhile isNumberPart)), line, column⟩]⟩ := by
  have hd := (isDigit_iff c).mp h
  have h1 : c ≠ '\n' := by rw [Ne, char_eq_iff]; simp; omega
  have h2 : isSpace c = false := by rw [Bool.eq_false_iff, Ne, isSpace_iff]; omega
  have h3 : c ≠ '#' := by rw [Ne, char_eq_iff]; simp; omega
  have h4 : isIdentStart c = false := by rw [Bool.eq_false_iff, Ne, isIdentStart_iff]; omega
  simp [scanOne, h1, h2, h3, h4, h]

theorem takeWhile_all (p : Char → Bool) (l : List Char) (h : ∀ a ∈ l, p a = true) :
    l.takeWhile p = l := by
  simpa using takeWhile_append_all p l [] h

theorem dropWhile_all (p : Char → Bool) (l : List Char) (h : ∀ a ∈ l, p a = true) :
    l.dropWhile p = [] := by
  induction l with
  | nil => simp
  | cons a l ih =>
    simp [List.dropWhile_cons, h a (by simp), ih (fun b hb => h b (by simp [hb]))]

theorem wordToken_type (word : List Char) (line column : Nat) :
    (wordToken word line column).type =
      if isKeyword (applyAlias (String.mk word)) then .KEYWORD else .IDENTIFIER := by
  unfold wordToken
  split <;> simp_all

theorem wordToken_value (word : List Char) (line column : Nat) :
    (wordToken word line column).value = applyAlias (String.mk word) := by
  simp only [wordToken]
  split <;> rfl

/-- C4 (amended): the keyword array has 21 different words (not 16), and every
identifier-shaped word `w` (a letter or `_`, then letters, digits or `_`)
tokenizes to one token whose value is the alias-substituted spelling of `w` and
whose type is KEYWORD if and only if that spelling is a member of the keyword
array, and IDENTIFIER otherwise. -/
theorem keyword_classification :
    (keywords.length = 21 ∧ keywords.Nodup) ∧
    ∀ (c : Char) (cs : List Char), isIdentStart c = true → (∀ x ∈ cs, isIdentPart x = true) →
      ∃ t, tokenize (String.mk (c :: cs)) = some (.ok [t]) ∧
        t.value = applyAlias (String.mk (c :: cs)) ∧
        (t.type = .KEYWORD ↔ ∃ v, applyAlias (String.mk (c :: cs)) = .str v ∧ v ∈ keywords) ∧
        (t.type ≠ .KEYWORD → t.type = .IDENTIFIER) := by
  refine ⟨by decide, fun c cs hc hcs => ?_⟩
  have hall : ∀ x ∈ c :: cs, isIdentPart x = true := by
    intro x hx
    rcases List.mem_cons.mp hx with rfl | hx
    · exact isIdentStart_part _ hc
    · exact hcs x hx
  refine ⟨wordToken (c :: cs) 1 1, ?_, wordToken_value _ _ _, ?_, ?_⟩
  · rw [tokenize_mk, List.length_cons, lexLoop_cons, scanOne_word c cs 1 1 [] hc]
    simp [takeWhile_all _ _ hall, dropWhile_all _ _ hall, lexLoop_nil]
  · rw [wordToken_type]
    cases hv : applyAlias (String.mk (c :: cs)) with
    | str v => simp [isKeyword]
    | num v => simp [isKeyword]
    | inherited v => simp [isKeyword]
  · rw [wordToken_type]
    split <;> simp

theorem keyword_classification_witness :
    ∃ t, tokenize "print" = some (.ok [t]) ∧
      t.value = applyAlias "print" ∧
      (t.type = .KEYWORD ↔ ∃ v, applyAlias "print" = .str v ∧ v ∈ keywords) ∧
      (t.type ≠ .KEYWORD → t.type = .IDENTIFIER) :=
  keyword_classification.2 'p' ['r', 'i', 'n', 't'] (by decide) (by decide)

/-- C4 as stated fails: the keyword array holds 21 different words, not 16. -/
theorem keywords_not_sixteen : keywords.toFinset.card = 21 ∧ keywords.toFinset.card ≠ 16 := by
  decide
theorem wordToken_not_number (word : List Char) (line column : Nat) :
    (wordToken word line column).type ≠ .NUMBER := by
  rw [wordToken_type]; split <;> decide

/-- The tokens one iteration pushes: nothing of type NUMBER unless the character
at the cursor is a digit, and then the NUMBER token of the text of the maximal
run of digits and dots that starts there. -/
theorem scanOne_number_tokens {c : Char} {cs : List Char} {line column : Nat}
    {tokens : List Token} {s : LexState} (h : scanOne c cs line column tokens = .ok s) :
    ∀ x ∈ s.tokens, x ∈ tokens ∨ x.type ≠ .NUMBER ∨
      (c.isDigit = true ∧
        x = ⟨.NUMBER, .num (String.mk (c :: cs.takeWhile isNumberPart)), line, column⟩) := by
  have push : ∀ (tok : Token), tok.type ≠ .NUMBER → ∀ x ∈ tokens ++ [tok],
      x ∈ tokens ∨ x.type ≠ .NUMBER ∨
        (c.isDigit = true ∧
          x = ⟨.NUMBER, .num (String.mk (c :: cs.takeWhile isNumberPart)), line, column⟩) := by
    intro tok htok x hx
    rcases List.mem_append.mp hx with hx | hx
    · exact Or.inl hx
    · rw [List.mem_singleton] at hx; subst hx; exact Or.inr (Or.inl htok)
  by_cases h1 : c = '\n'
  · rw [scanOne, if_pos h1] at h; cases h; exact fun x hx => Or.inl hx
  rw [scanOne, if_neg h1] at h
  by_cases h2 : isSpace c = true
  · rw [if_pos h2] at h; cases h; exact fun x hx => Or.inl hx
  rw [if_neg h2] at h
  by_cases h3 : c = '#'
  · rw [if_pos h3] at h; cases h; exact fun x hx => Or.inl hx
  rw [if_neg h3] at h
  by_cases h4 : isIdentStart c = true
  · rw [if_pos h4] at h; cases h; exact push _ (wordToken_not_number _ _ _)
  rw [if_neg h4] at h
  by_cases h5 : c.isDigit = true
  · rw [if_pos h5] at h; cases h
    intro x hx
    rcases List.mem_append.mp hx with hx | hx
    · exact Or.inl hx
    · rw [List.mem_singleton] at hx
      refine Or.inr (Or.inr ⟨h5, ?_⟩)
      rw [hx]; simp [List.takeWhile_cons, isDigit_numberPart c h5]
  rw [if_neg h5] at h
  by_cases h6 : c = '"'
  · rw [if_pos h6] at h; cases h; exact push _ (by simp)
  rw [if_neg h6] at h
  by_cases h7 : c = '='
  · rw [if_pos h7] at h
    by_cases h8 : cs.head? = some '='
    · rw [if_pos h8] at h; cases h; exact push _ (by simp)
    · rw [if_neg h8] at h; cases h; exact push _ (by simp)
  rw [if_neg h7] at h
  by_cases h9 : c = '!'
  · rw [if_pos h9] at h
    by_cases h8 : cs.head? = some '='
    · rw [if_pos h8] at h; cases h; exact push _ (by simp)
    · rw [if_neg h8] at h; cases h
  rw [if_neg h9] at h
  by_cases h10 : isPunctuation c = true
  · rw [if_pos h10] at h; cases h; exact push _ (by simp)
  rw [if_neg h10] at h
  by_cases h11 : c = '<'
  · rw [if_pos h11] at h
    by_cases h8 : cs.head? = some '='
    · rw [if_pos h8] at h; cases h; exact push _ (by simp)
    · rw [if_neg h8] at h; cases h; exact push _ (by simp)
  rw [if_neg h11] at h
  by_cases h12 : c = '>'
  · rw [if_pos h12] at h
    by_cases h8 : cs.head? = some '='
    · rw [if_pos h8] at h; cases h; exact push _ (by simp)
    · rw [if_neg h8] at h; cases h; exact push _ (by simp)
  rw [if_neg h12] at h
  by_cases h13 : isSingleOperator c = true
  · rw [if_pos h13] at h; cases h; exact push _ (by simp)
  · rw [if_neg h13] at h; cases h

/-- A property of tokens that every iteration gives to the tokens it pushes holds
of all tokens of the result. -/
theorem lexLoop_tokens (P : Token → Prop)
    (hstep : ∀ (c : Char) (cs : List Char) (line column : Nat) (tokens : List Token)
      (s : LexState), scanOne c cs line column tokens = .ok s →
      ∀ x ∈ s.tokens, x ∈ tokens ∨ P x)
    (f : Nat) : ∀ (s : LexState) (out : List Token), lexLoop f s = some (.ok out) →
      (∀ x ∈ s.tokens, P x) → ∀ x ∈ out, P x := by
  induction f with
  | zero =>
    intro s out h hs
    obtain ⟨rest, line, column, tokens⟩ := s
    cases rest with
    | nil => rw [lexLoop_nil] at h; cases h; exact hs
    | cons c cs => simp [lexLoop] at h
  | succ f ih =>
    intro s out h hs
    obtain ⟨rest, line, column, tokens⟩ := s
    cases rest with
    | nil => rw [lexLoop_nil] at h; cases h; exact hs
    | cons c cs =>
      rw [lexLoop_cons] at h
      cases hsc : scanOne c cs line column tokens with
      | error e => rw [hsc] at h; cases h
      | ok s' =>
        rw [hsc] at h
        refine ih s' out h (fun x hx => ?_)
        rcases hstep c cs line column tokens s' hsc x hx with hx | hx
        · exact hs x hx
        · exact hx

/-- C5 (amended): the text a NUMBER token consumes is a digit followed by the
maximal run of digits and dots after it (the pattern `[0-9][0-9.]*`): every
NUMBER token of every successful tokenization holds such a text, wherever the
scan stands on a digit the token pushed consumes the whole run, and every text
of that shape, `1.2.3` and `1.` included, lexes as one NUMBER token. -/
theorem number_token_span :
    (∀ (input : String) (out : List Token), tokenize input = some (.ok out) →
      ∀ t ∈ out, t.type = .NUMBER →
        ∃ d ds, t.value = .num (String.mk (d :: ds)) ∧ d.isDigit = true ∧
          ∀ x ∈ ds, isNumberPart x = true) ∧
    (∀ (input : String) (d : Char) (cs : List Char) (line column : Nat) (tokens : List Token),
      Reaches input ⟨d :: cs, line, column, tokens⟩ → d.isDigit = true →
        Reaches input ⟨cs.dropWhile isNumberPart, line,
          column + (d :: cs.takeWhile isNumberPart).length,
          tokens ++ [⟨.NUMBER, .num (String.mk (d :: cs.takeWhile isNumberPart)), line, column⟩]⟩) ∧
    (∀ (d : Char) (ds : List Char), d.isDigit = true → (∀ x ∈ ds, isNumberPart x = true) →
      tokenize (String.mk (d :: ds)) =
        some (.ok [⟨.NUMBER, .num (String.mk (d :: ds)), 1, 1⟩])) := by
  refine ⟨fun input out h t ht hty => ?_, fun input d cs line column tokens hr hd => ?_,
    fun d ds hd hds => ?_⟩
  · have key := lexLoop_tokens
      (fun t => t.type = .NUMBER → ∃ d ds, t.value = .num (String.mk (d :: ds)) ∧
        d.isDigit = true ∧ ∀ x ∈ ds, isNumberPart x = true)
      (fun c cs line column tokens s hs x hx => by
        rcases scanOne_number_tokens hs x hx with hx | hx | ⟨hc, hx⟩
        · exact Or.inl hx
        · exact Or.inr (fun hty => absurd hty hx)
        · exact Or.inr (fun _ => ⟨c, cs.takeWhile isNumberPart, by rw [hx], hc,
            fun y hy => List.mem_takeWhile_imp hy⟩))
      input.length (Lexer input) out h (by simp [Lexer])
    exact key t ht hty
  · refine Reaches.next hr ?_
    rw [scanOne_number d cs line column tokens hd]
    simp [List.takeWhile_cons, List.dropWhile_cons, isDigit_numberPart d hd]
  · have hall : ∀ x ∈ d :: ds, isNumberPart x = true := by
      intro x hx
      rcases List.mem_cons.mp hx with rfl | hx
      · exact isDigit_numberPart _ hd
      · exact hds x hx
    rw [tokenize_mk, List.length_cons, lexLoop_cons, scanOne_number d ds 1 1 [] hd]
    simp [takeWhile_all _ _ hall, dropWhile_all _ _ hall, lexLoop_nil]

theorem number_token_span_witness :
    tokenize "1.2.3" = some (.ok [⟨.NUMBER, .num "1.2.3", 1, 1⟩]) :=
  number_token_span.2.2 '1' ['.', '2', '.', '3'] (by decide) (by decide)

/-- C5 as stated fails: `1.2.3` and `1.` each lex as a single NUMBER token whose
consumed text does not match `[0-9]+(\.[0-9]+)?`. -/
theorem number_with_two_dots_is_one_token :
    tokenize "1.2.3" = some (.ok [⟨.NUMBER, .num "1.2.3", 1, 1⟩]) ∧
      tokenize "1." = some (.ok [⟨.NUMBER, .num "1.", 1, 1⟩]) := by
  decide

theorem scanOne_less (cs : List Char) (line column : Nat) (tokens : List Token) :
    scanOne '<' cs line column tokens =
      if cs.head? = some '=' then
        .ok ⟨cs.tail, line, column + 2, tokens ++ [⟨.OPERATOR, .str "<=", line, column⟩]⟩
      else
        .ok ⟨cs, line, column + 1, tokens ++ [⟨.OPERATOR, .str "<", line, column⟩]⟩ := by
  simp [scanOne, isSpace, isIdentStart, isPunctuation, Char.isAlpha, Char.isUpper, Char.isLower,
    Char.isDigit]

theorem scanOne_greater (cs : List Char) (line column : Nat) (tokens : List Token) :
    scanOne '>' cs line column tokens =
      if cs.head? = some '=' then
        .ok ⟨cs.tail, line, column + 2, tokens ++ [⟨.OPERATOR, .str ">=", line, column⟩]⟩
      else
        .ok ⟨cs, line, column + 1, tokens ++ [⟨.OPERATOR, .str ">", line, column⟩]⟩ := by
  simp [scanOne, isSpace, isIdentStart, isPunctuation, Char.isAlpha, Char.isUpper, Char.isLower,
    Char.isDigit]

theorem getElem?_append_cons (l : List Token) (a : Token) (m : List Token) :
    (l ++ a :: m)[l.length]? = some a := by
  induction l with
  | nil => simp
  | cons b l ih => simpa using ih

theorem reaches_output {input : String} {s : LexState} {out : List Token}
    (hr : Reaches input s) (h : tokenize input = some (.ok out)) :
    ∃ more, out = s.tokens ++ more := by
  rw [reaches_tokenize hr] at h
  exact lexLoop_extends _ s out h

/-- C7: each of the sources `==`, `!=`, `<=`, `>=` tokenizes to exactly one
OPERATOR token with that value, and `===` to `==` followed by `=`. Wherever the
scan stands on `<` or `>`: when the next character is `=`, the two characters
are consumed and the two-character token is pushed; when the next character is
another one, or the input ends, only that one character is consumed and the
one-character OPERATOR token is pushed. The token pushed is the next token of
the result whenever the tokenization succeeds. -/
theorem two_character_operators_greedy :
    (∀ op ∈ ["==", "!=", "<=", ">="],
      tokenize op = some (.ok [⟨.OPERATOR, .str op, 1, 1⟩])) ∧
    tokenize "===" =
      some (.ok [⟨.OPERATOR, .str "==", 1, 1⟩, ⟨.OPERATOR, .str "=", 1, 3⟩]) ∧
    (∀ (input : String) (c : Char) (cs : List Char) (line column : Nat) (tokens out : List Token),
      Reaches input ⟨c :: cs, line, column, tokens⟩ → (c = '<' ∨ c = '>') →
      cs.head? ≠ some '=' →
        Reaches input
          ⟨cs, line, column + 1, tokens ++ [⟨.OPERATOR, .str (String.mk [c]), line, column⟩]⟩ ∧
        (tokenize input = some (.ok out) →
          out[tokens.length]? = some ⟨.OPERATOR, .str (String.mk [c]), line, column⟩)) ∧
    (∀ (input : String) (c : Char) (cs : List Char) (line column : Nat) (tokens out : List Token),
      Reaches input ⟨c :: '=' :: cs, line, column, tokens⟩ → (c = '<' ∨ c = '>') →
        Reaches input
          ⟨cs, line, column + 2,
            tokens ++ [⟨.OPERATOR, .str (String.mk [c, '=']), line, column⟩]⟩ ∧
        (tokenize input = some (.ok out) →
          out[tokens.length]? = some ⟨.OPERATOR, .str (String.mk [c, '=']), line, column⟩)) := by
  refine ⟨by decide, by decide, ?_, ?_⟩
  · intro input c cs line column tokens out hr hc hne
    have hnext : Reaches input
        ⟨cs, line, column + 1, tokens ++ [⟨.OPERATOR, .str (String.mk [c]), line, column⟩]⟩ := by
      refine Reaches.next hr ?_
      rcases hc with rfl | rfl
      · rw [scanOne_less, if_neg hne]
      · rw [scanOne_greater, if_neg hne]
    refine ⟨hnext, fun hout => ?_⟩
    obtain ⟨more, rfl⟩ := reaches_output hnext hout
    simp only [List.append_assoc, List.singleton_append]
    exact getElem?_append_cons _ _ _
  · intro input c cs line column tokens out hr hc
    have hnext : Reaches input
        ⟨cs, line, column + 2,
          tokens ++ [⟨.OPERATOR, .str (String.mk [c, '=']), line, column⟩]⟩ := by
      refine Reaches.next hr ?_
      rcases hc with rfl | rfl
      · rw [scanOne_less, if_pos (by simp)]; rfl
      · rw [scanOne_greater, if_pos (by simp)]; rfl
    refine ⟨hnext, fun hout => ?_⟩
    obtain ⟨more, rfl⟩ := reaches_output hnext hout
    simp only [List.append_assoc, List.singleton_append]
    exact getElem?_append_cons _ _ _

theorem two_character_operators_greedy_witness :
    Reaches "a<b" ⟨['b'], 1, 3, [⟨.IDENTIFIER, .str "a", 1, 1⟩, ⟨.OPERATOR, .str "<", 1, 2⟩]⟩ ∧
      (tokenize "a<b" = some (.ok [⟨.IDENTIFIER, .str "a", 1, 1⟩, ⟨.OPERATOR, .str "<", 1, 2⟩,
          ⟨.IDENTIFIER, .str "b", 1, 3⟩]) →
        [⟨.IDENTIFIER, .str "a", 1, 1⟩, ⟨.OPERATOR, .str "<", 1, 2⟩,
          (⟨.IDENTIFIER, .str "b", 1, 3⟩ : Token)][1]? = some ⟨.OPERATOR, .str "<", 1, 2⟩) :=
  two_character_operators_greedy.2.2.1 "a<b" '<' ['b'] 1 2 [⟨.IDENTIFIER, .str "a", 1, 1⟩] _
    (@Reaches.next "a<b" 'a' ['<', 'b'] 1 1 [] _ .start (by decide)) (Or.inl rfl) (by decide)


theorem parseExpression_succ (fuel : Nat) (toks : List Token) :
    parseExpression (fuel + 1) toks =
      (parsePrimary fuel toks).bind fun left r1 =>
        match r1 with
        | [] => .ok left []
        | operatorToken :: r2 =>
          if operatorToken.is "=" then
            (parseExpression fuel r2).bind fun right r3 =>
              .ok (.AssignmentExpression left right operatorToken.line operatorToken.column) r3
          else binaryLoop fuel left r1 := by
  rw [parseExpression]

theorem binaryLoop_succ (fuel : Nat) (left : Node) (toks : List Token) :
    binaryLoop (fuel + 1) left toks =
      match toks with
      | [] => .ok left []
      | operatorToken :: r1 =>
        if operatorToken.isBinaryOperator then
          (parsePrimary fuel r1).bind fun right r2 =>
            binaryLoop fuel
              (.BinaryExpression operatorToken.value left right operatorToken.line
                operatorToken.column) r2
        else .ok left toks := by
  cases toks <;> simp only [binaryLoop]

theorem parsePrimary_identifier (fuel : Nat) (t : Token) (rest : List Token)
    (hty : t.type = .IDENTIFIER) (hparen : t.is "(" = false)
    (hcall : peekIs rest "(" = false) (hindex : peekIs rest "[" = false) :
    parsePrimary (fuel + 1) (t :: rest) = .ok (.Identifier t.value t.line t.column) rest := by
  simp [parsePrimary, hty, hparen, hcall, hindex]

theorem parsePrimary_literal (fuel : Nat) (t : Token) (rest : List Token)
    (hty : t.type = .NUMBER ∨ t.type = .STRING) (hparen : t.is "(" = false) :
    parsePrimary (fuel + 1) (t :: rest) = .ok (.Literal t.value t.line t.column) rest := by
  rcases hty with hty | hty <;> simp [parsePrimary, hty, hparen]

theorem returns_of_succ {α : Type} {p : Nat → List Token → Res α} {toks : List Token}
    {value : α} {rest : List Token} (h : ∀ f, p (f + 1) toks = .ok value rest) :
    Returns p toks value rest :=
  ⟨1, fun f hf => by
    obtain ⟨k, rfl⟩ : ∃ k, f = k + 1 := ⟨f - 1, by omega⟩
    exact h k⟩

theorem isBinaryOperator_not_eq (t : Token) (h : t.isBinaryOperator = true) :
    t.is "=" = false := by
  simp only [Token.isBinaryOperator, binaryOperators, List.any_cons, List.any_nil,
    Bool.or_false, Bool.or_eq_true, Token.is, decide_eq_true_eq] at h
  simp only [Token.is, decide_eq_false_iff_not]
  intro he
  rw [he] at h
  simp at h

/-- The loop of `parseExpression` folds a run of operators and primaries to the left. -/
theorem binaryLoop_run {toks : List Token} {steps : List (Token × Node)} {rest : List Token}
    (hrun : OperandRun toks steps rest)
    (hstop : ∀ t, rest.head? = some t → t.isBinaryOperator = false) :
    ∀ left, Returns (fun f => binaryLoop f left) toks (leftNested left steps) rest := by
  induction hrun with
  | done rest =>
    intro left
    refine returns_of_succ (p := fun f => binaryLoop f left) (fun f => ?_)
    show binaryLoop (f + 1) left rest = _
    rw [binaryLoop_succ]
    cases rest with
    | nil => rfl
    | cons t r => simp [hstop t rfl, leftNested]
  | @step op toks toks' p steps rest hop hp _ ih =>
    intro left
    obtain ⟨f1, h1⟩ := hp
    obtain ⟨f2, h2⟩ := ih hstop (.BinaryExpression op.value left p op.line op.column)
    refine ⟨max f1 f2 + 1, fun f hf => ?_⟩
    obtain ⟨k, rfl⟩ : ∃ k, f = k + 1 := ⟨f - 1, by omega⟩
    show binaryLoop (k + 1) left (op :: toks) = _
    rw [binaryLoop_succ]
    simp only [hop, if_true]
    rw [h1 k (by omega)]
    simp only [Res.bind]
    have h2k := h2 k (by omega)
    simp only [] at h2k
    rw [h2k]
    simp [leftNested]

/-- C9: the expression grammar is flat and left-folded. When `parsePrimary` reads
`p0` and the tokens after it are a run `o1 p1 ... on pn` of operators among
`+ - * / == != < > <= >= .` each followed by a primary (with no `=` directly
after `p0`, and no such operator after `pn`), `parseExpression` returns the
left-nested tree `((p0 o1 p1) o2 p2) ... on pn`, whichever operators are used.
In particular `a + b.c` parses as `(a + b).c` and `1 + 2 * 3` as `(1 + 2) * 3`. -/
theorem expression_left_fold :
    (∀ (toks toks1 rest : List Token) (p0 : Node) (steps : List (Token × Node)),
      Returns parsePrimary toks p0 toks1 → OperandRun toks1 steps rest →
      peekIs toks1 "=" = false →
      (∀ t, rest.head? = some t → t.isBinaryOperator = false) →
      Returns parseExpression toks (leftNested p0 steps) rest) ∧
    parseSource "a + b.c" = some (.ok (.Program [.ExpressionStatement
      (.BinaryExpression (.str ".")
        (.BinaryExpression (.str "+") (.Identifier (.str "a") 1 1)
          (.Identifier (.str "b") 1 5) 1 3)
        (.Identifier (.str "c") 1 7) 1 6) 1 1])) ∧
    parseSource "1 + 2 * 3" = some (.ok (.Program [.ExpressionStatement
      (.BinaryExpression (.str "*")
        (.BinaryExpression (.str "+") (.Literal (.num "1") 1 1)
          (.Literal (.num "2") 1 5) 1 3)
        (.Literal (.num "3") 1 9) 1 7) 1 1])) := by
  refine ⟨fun toks toks1 rest p0 steps hp hrun heq hstop => ?_, rfl, rfl⟩
  obtain ⟨f1, h1⟩ := hp
  obtain ⟨f2, h2⟩ := binaryLoop_run hrun hstop p0
  refine ⟨max f1 f2 + 1, fun f hf => ?_⟩
  obtain ⟨k, rfl⟩ : ∃ k, f = k + 1 := ⟨f - 1, by omega⟩
  rw [parseExpression_succ, h1 k (by omega)]
  simp only [Res.bind]
  cases toks1 with
  | nil =>
    cases hrun
    rfl
  | cons t r =>
    have ht : t.is "=" = false := by simpa [peekIs] using heq
    have h2k := h2 k (by omega)
    simp only [] at h2k
    simp only [ht, Bool.false_eq_true, if_false]
    exact h2k

theorem expression_left_fold_witness :
    Returns parseExpression
      [⟨.NUMBER, .num "1", 1, 1⟩, ⟨.OPERATOR, .str "+", 1, 3⟩, ⟨.NUMBER, .num "2", 1, 5⟩,
        ⟨.OPERATOR, .str "*", 1, 7⟩, ⟨.NUMBER, .num "3", 1, 9⟩]
      (leftNested (.Literal (.num "1") 1 1)
        [(⟨.OPERATOR, .str "+", 1, 3⟩, .Literal (.num "2") 1 5),
          (⟨.OPERATOR, .str "*", 1, 7⟩, .Literal (.num "3") 1 9)]) [] :=
  expression_left_fold.1 _ _ [] _ _
    (returns_of_succ (fun _ => rfl))
    (.step rfl (returns_of_succ (fun _ => rfl))
      (.step rfl (returns_of_succ (fun _ => rfl)) (.done [])))
    rfl (fun t h => by simp at h)

theorem is_eq_not (t : Token) (s : String) (h : t.is "=" = true) (hs : s ≠ "=") :
    t.is s = false := by
  simp only [Token.is, decide_eq_true_eq] at h
  simp only [Token.is, h, decide_eq_false_iff_not]
  intro he
  injection he with he
  exact hs he.symm

/-- An identifier followed by `=` and an expression parses to the assignment of
that expression to the identifier. -/
theorem parseExpression_assign {a eq : Token} {toks rest : List Token} {e : Node}
    (hty : a.type = .IDENTIFIER) (hparen : a.is "(" = false) (heq : eq.is "=" = true)
    (he : Returns parseExpression toks e rest) :
    Returns parseExpression (a :: eq :: toks)
      (.AssignmentExpression (.Identifier a.value a.line a.column) e eq.line eq.column)
      rest := by
  obtain ⟨f1, h1⟩ := he
  refine ⟨f1 + 2, fun f hf => ?_⟩
  obtain ⟨k, rfl⟩ : ∃ k, f = k + 2 := ⟨f - 2, by omega⟩
  rw [parseExpression_succ,
    parsePrimary_identifier k a (eq :: toks) hty hparen
      (by simpa [peekIs] using is_eq_not eq "(" heq (by decide))
      (by simpa [peekIs] using is_eq_not eq "[" heq (by decide))]
  simp only [Res.bind, heq, if_true]
  rw [h1 (k + 1) (by omega)]

/-- C10: assignment is right-associative and takes a full expression on its
right. For identifier tokens `a`, `b` and tokens that `parseExpression` reads as
`e`: `a = e` parses to AssignmentExpression(a, e), `a = b = e` to
AssignmentExpression(a, AssignmentExpression(b, e)), and `a = p0 o1 p1` to
AssignmentExpression(a, BinaryExpression(o1, p0, p1)). -/
theorem assignment_right_associative :
    (∀ (a eq1 b eq2 : Token) (toks rest : List Token) (e : Node),
      a.type = .IDENTIFIER → a.is "(" = false → eq1.is "=" = true →
      b.type = .IDENTIFIER → b.is "(" = false → eq2.is "=" = true →
      Returns parseExpression toks e rest →
      Returns parseExpression (a :: eq1 :: b :: eq2 :: toks)
        (.AssignmentExpression (.Identifier a.value a.line a.column)
          (.AssignmentExpression (.Identifier b.value b.line b.column) e eq2.line eq2.column)
          eq1.line eq1.column) rest) ∧
    (∀ (a eq o1 : Token) (toks toks' rest : List Token) (p0 p1 : Node),
      a.type = .IDENTIFIER → a.is "(" = false → eq.is "=" = true →
      Returns parsePrimary toks p0 (o1 :: toks') → o1.isBinaryOperator = true →
      Returns parsePrimary toks' p1 rest →
      (∀ t, rest.head? = some t → t.isBinaryOperator = false) →
      Returns parseExpression (a :: eq :: toks)
        (.AssignmentExpression (.Identifier a.value a.line a.column)
          (.BinaryExpression o1.value p0 p1 o1.line o1.column) eq.line eq.column) rest) ∧
    parseSource "a = b = 1" = some (.ok (.Program [.ExpressionStatement
      (.AssignmentExpression (.Identifier (.str "a") 1 1)
        (.AssignmentExpression (.Identifier (.str "b") 1 5) (.Literal (.num "1") 1 9) 1 7)
        1 3) 1 1])) ∧
    parseSource "a = 1 + 2" = some (.ok (.Program [.ExpressionStatement
      (.AssignmentExpression (.Identifier (.str "a") 1 1)
        (.BinaryExpression (.str "+") (.Literal (.num "1") 1 5) (.Literal (.num "2") 1 9) 1 7)
        1 3) 1 1])) := by
  refine ⟨fun a eq1 b eq2 toks rest e ha ha' h1 hb hb' h2 he => ?_,
    fun a eq o1 toks toks' rest p0 p1 ha ha' heq hp0 ho hp1 hstop => ?_, rfl, rfl⟩
  · exact parseExpression_assign ha ha' h1 (parseExpression_assign hb hb' h2 he)
  · refine parseExpression_assign ha ha' heq ?_
    exact expression_left_fold.1 toks (o1 :: toks') rest p0 [(o1, p1)] hp0
      (.step ho hp1 (.done rest))
      (by simpa [peekIs] using isBinaryOperator_not_eq o1 ho) hstop

theorem assignment_right_associative_witness :
    Returns parseExpression
      [⟨.IDENTIFIER, .str "a", 1, 1⟩, ⟨.OPERATOR, .str "=", 1, 3⟩,
        ⟨.IDENTIFIER, .str "b", 1, 5⟩, ⟨.OPERATOR, .str "=", 1, 7⟩, ⟨.NUMBER, .num "1", 1, 9⟩]
      (.AssignmentExpression (.Identifier (.str "a") 1 1)
        (.AssignmentExpression (.Identifier (.str "b") 1 5) (.Literal (.num "1") 1 9) 1 7)
        1 3) [] :=
  assignment_right_associative.1 ⟨.IDENTIFIER, .str "a", 1, 1⟩ ⟨.OPERATOR, .str "=", 1, 3⟩
    ⟨.IDENTIFIER, .str "b", 1, 5⟩ ⟨.OPERATOR, .str "=", 1, 7⟩ [⟨.NUMBER, .num "1", 1, 9⟩] []
    (.Literal (.num "1") 1 9) rfl rfl rfl rfl rfl rfl
    (⟨2, fun f hf => by
      obtain ⟨k, rfl⟩ : ∃ k, f = k + 2 := ⟨f - 2, by omega⟩
      rfl⟩)

/-- The tokens of the program `soit x = "s"`. -/
theorem tokenize_soit_string (s : List Char) (h : '"' ∉ s) :
    tokenize (String.mk ("soit x = \"".data ++ s ++ ['"'])) =
      some (.ok [⟨.KEYWORD, .str "soit", 1, 1⟩, ⟨.IDENTIFIER, .str "x", 1, 6⟩,
        ⟨.OPERATOR, .str "=", 1, 8⟩, ⟨.STRING, .str (String.mk s), 1, 10⟩]) := by
  have r1 := @Reaches.next (String.mk ("soit x = \"".data ++ s ++ ['"']))
    's' ('o' :: 'i' :: 't' :: ' ' :: 'x' :: ' ' :: '=' :: ' ' :: '"' :: (s ++ ['"'])) 1 1 []
    ⟨' ' :: 'x' :: ' ' :: '=' :: ' ' :: '"' :: (s ++ ['"']), 1, 5,
      [⟨.KEYWORD, .str "soit", 1, 1⟩]⟩ .start rfl
  have r2 := @Reaches.next _ _ _ _ _ _
    ⟨'x' :: ' ' :: '=' :: ' ' :: '"' :: (s ++ ['"']), 1, 6,
      [⟨.KEYWORD, .str "soit", 1, 1⟩]⟩ r1 rfl
  have r3 := @Reaches.next _ _ _ _ _ _
    ⟨' ' :: '=' :: ' ' :: '"' :: (s ++ ['"']), 1, 7,
      [⟨.KEYWORD, .str "soit", 1, 1⟩, ⟨.IDENTIFIER, .str "x", 1, 6⟩]⟩ r2 rfl
  have r4 := @Reaches.next _ _ _ _ _ _
    ⟨'=' :: ' ' :: '"' :: (s ++ ['"']), 1, 8,
      [⟨.KEYWORD, .str "soit", 1, 1⟩, ⟨.IDENTIFIER, .str "x", 1, 6⟩]⟩ r3 rfl
  have r5 := @Reaches.next _ _ _ _ _ _
    ⟨' ' :: '"' :: (s ++ ['"']), 1, 9,
      [⟨.KEYWORD, .str "soit", 1, 1⟩, ⟨.IDENTIFIER, .str "x", 1, 6⟩,
        ⟨.OPERATOR, .str "=", 1, 8⟩]⟩ r4 rfl
  have r6 := @Reaches.next _ _ _ _ _ _
    ⟨'"' :: (s ++ ['"']), 1, 10,
      [⟨.KEYWORD, .str "soit", 1, 1⟩, ⟨.IDENTIFIER, .str "x", 1, 6⟩,
        ⟨.OPERATOR, .str "=", 1, 8⟩]⟩ r5 rfl
  have r7 := @Reaches.next _ _ _ _ _ _
    ⟨[], 1, 10 + 1 + utf16Length s + 1,
      [⟨.KEYWORD, .str "soit", 1, 1⟩, ⟨.IDENTIFIER, .str "x", 1, 6⟩,
        ⟨.OPERATOR, .str "=", 1, 8⟩, ⟨.STRING, .str (String.mk s), 1, 10⟩]⟩ r6
    (by rw [scanOne_quote, takeWhile_ne_append _ _ _ h, dropWhile_ne_append _ _ _ h]; rfl)
  rw [reaches_tokenize r7]
  rfl

/-- C8 (code at the failing input, and at every other one): tokenizing and
parsing `soit x = "("` throws a TypeError, because `parsePrimary` compares the
value of the STRING token with `(` before it looks at the token type and then
reads an expression after it. For every other text `s` without a double quote,
`soit x = "s"` parses to the single VariableDeclaration of `x` whose value is
the Literal `s`. -/
theorem string_literal_parse :
    parseSource "soit x = \"(\"" = some (.error (.parse .typeError)) ∧
    ∀ s : List Char, '"' ∉ s → s ≠ ['('] →
      parseSource (String.mk ("soit x = \"".data ++ s ++ ['"'])) =
        some (.ok (.Program
          [.VariableDeclaration (.str "x") (.Literal (.str (String.mk s)) 1 10) 1 1])) := by
  refine ⟨rfl, fun s h hne => ?_⟩
  have hs : (String.mk s = "(") = False := by
    simp only [eq_iff_iff, iff_false]
    intro he
    exact hne (congrArg String.data he)
  simp only [parseSource, tokenize_soit_string s h, parse, List.length_cons, List.length_nil]
  simp [parseBody, parseStatement, parseVariableDeclaration, parseExpression, parsePrimary,
    Res.bind, Token.is, hs]

theorem string_literal_parse_witness :
    parseSource "soit x = \"a+b\"" =
      some (.ok (.Program
        [.VariableDeclaration (.str "x") (.Literal (.str "a+b") 1 10) 1 1])) :=
  string_literal_parse.2 ['a', '+', 'b'] (by decide) (by decide)

/-- C11 (code at the failing input, and at its siblings): an interface body that
is opened and never closed does not make `parse` fail: `interface I` followed by
an opening brace parses to an InterfaceDeclaration without methods, because
`parseInterfaceDeclaration` ends with an unchecked `this.eat()` (parser.js:399).
The bodies of `si`, `sinon`, `tantque`, `fonction`, `classe`, `essaye`, `attrape`
and `enfin` are checked: left open at the end of the input, each makes `parse`
throw, and the check `closeBrace` they share fails on every input that has
ended. -/
theorem unclosed_body :
    parseSource "interface I \x7b" =
      some (.ok (.Program [.InterfaceDeclaration (.str "I") [] 1 1])) ∧
    parseSource "si x \x7b" =
      some (.error (.parse (.expected "'\x7d' attendu après le bloc si" (some 1)))) ∧
    parseSource "si x \x7b \x7d sinon \x7b" =
      some (.error (.parse (.expected "'\x7d' attendu après le bloc sinon" none))) ∧
    parseSource "tantque x \x7b" =
      some (.error (.parse (.expected "'\x7d' attendu à la fin du bloc tantque" (some 1)))) ∧
    parseSource "fonction f() \x7b" =
      some (.error (.parse (.expected "'\x7d' attendu à la fin de la fonction" none))) ∧
    parseSource "classe A \x7b" =
      some (.error (.parse (.expected "'\x7d' attendu à la fin de la classe" none))) ∧
    parseSource "essaye \x7b" =
      some (.error (.parse (.expected "'\x7d' attendu" none))) ∧
    parseSource "essaye \x7b \x7d attrape (e) \x7b" =
      some (.error (.parse (.expected "'\x7d' attendu" none))) ∧
    parseSource "essaye \x7b \x7d enfin \x7b" =
      some (.error (.parse (.expected "'\x7d' attendu" none))) ∧
    (∀ e : ParseError, closeBrace e [] = .fail e) :=
  ⟨rfl, rfl, rfl, rfl, rfl, rfl, rfl, rfl, rfl, fun _ => rfl⟩
theorem overrideOrPush_method (methods : List Node) (m : Node) (h : m.isMethod = true) :
    overrideOrPush methods m = some (replaceOrPush methods m) := by
  cases m <;> simp [Node.isMethod] at h
  case FunctionDeclaration name params body vis line col =>
    cases name <;> simp [Node.isMethod] at h <;> rfl

theorem mergeMethods_foldl (own : List Node) (h : ∀ m ∈ own, m.isMethod = true) :
    ∀ base, mergeMethods base own = some (own.foldl replaceOrPush base) := by
  induction own with
  | nil => intro base; rfl
  | cons m rest ih =>
    intro base
    rw [mergeMethods, overrideOrPush_method _ _ (h m (by simp))]
    simp only [Option.bind_some, List.foldl_cons]
    exact ih (fun x hx => h x (by simp [hx])) _

theorem replaceOrPush_nil (x : Node) : replaceOrPush [] x = [x] := rfl

theorem replaceOrPush_cons (a : Node) (l : List Node) (x : Node) :
    replaceOrPush (a :: l) x =
      if a.methodName = x.methodName then x :: l else a :: replaceOrPush l x := by
  unfold replaceOrPush
  by_cases ha : a.methodName = x.methodName
  · simp [List.findIdx?_cons, ha]
  · rcases hf : List.findIdx? (fun m => decide (m.methodName = x.methodName)) l with _ | i
    · simp [List.findIdx?_cons, ha, hf]
    · simp [List.findIdx?_cons, ha, hf]

/-- The names of the methods of a list. -/
theorem names_replaceOrPush (l : List Node) (x : Node) :
    (replaceOrPush l x).map Node.methodName =
      if x.methodName ∈ l.map Node.methodName then l.map Node.methodName
      else l.map Node.methodName ++ [x.methodName] := by
  induction l with
  | nil => simp [replaceOrPush_nil]
  | cons a l ih =>
    rw [replaceOrPush_cons]
    by_cases ha : a.methodName = x.methodName
    · simp [ha]
    · have hne : ¬ x.methodName = a.methodName := fun e => ha e.symm
      simp only [ha, if_false, List.map_cons, ih, List.mem_cons, hne, false_or]
      split_ifs <;> simp

/-- The first method of a name in a list. -/
theorem find_replaceOrPush (l : List Node) (x : Node) (k : Option TokenValue) :
    (replaceOrPush l x).find? (fun m => decide (m.methodName = k)) =
      if x.methodName = k then some x else l.find? (fun m => decide (m.methodName = k)) := by
  induction l with
  | nil => by_cases hk : x.methodName = k <;> simp [replaceOrPush_nil, List.find?_cons, hk]
  | cons a l ih =>
    rw [replaceOrPush_cons]
    by_cases ha : a.methodName = x.methodName
    · by_cases hk : x.methodName = k
      · simp [ha, hk, List.find?_cons]
      · have : ¬ a.methodName = k := fun e => hk (ha ▸ e)
        simp [ha, hk, List.find?_cons]
    · simp only [ha, if_false, List.find?_cons, ih]
      by_cases hk : x.methodName = k
      · have : ¬ a.methodName = k := fun e => ha (e.trans hk.symm)
        simp [hk, this]
      · simp [hk]
theorem firstOccurrences_filter (p : Option TokenValue → Bool) (l : List (Option TokenValue)) :
    firstOccurrences (l.filter p) = (firstOccurrences l).filter p := by
  induction l with
  | nil => rfl
  | cons k rest ih =>
    by_cases hk : p k = true
    · simp only [List.filter_cons, hk, if_true, firstOccurrences, ih, List.filter_filter]
      congr 1
      apply List.filter_congr
      intro x _
      exact Bool.and_comm _ _
    · simp only [List.filter_cons, hk, Bool.false_eq_true, if_false, firstOccurrences, ih,
        List.filter_filter]
      apply List.filter_congr
      intro x _
      by_cases hx : x = k
      · subst hx; simp [hk]
      · simp [hx]

theorem mem_firstOccurrences (l : List (Option TokenValue)) (k : Option TokenValue) :
    k ∈ firstOccurrences l ↔ k ∈ l := by
  induction l with
  | nil => simp [firstOccurrences]
  | cons a rest ih =>
    simp only [firstOccurrences, List.mem_cons, List.mem_filter, ih, decide_eq_true_eq]
    by_cases hk : k = a <;> simp [hk]

theorem nodup_firstOccurrences (l : List (Option TokenValue)) : (firstOccurrences l).Nodup := by
  induction l with
  | nil => simp [firstOccurrences]
  | cons a rest ih =>
    simp only [firstOccurrences, List.nodup_cons, List.mem_filter, decide_eq_true_eq]
    exact ⟨fun h => h.2 rfl, ih.filter _⟩

theorem names_foldl (own : List Node) : ∀ base : List Node,
    (own.foldl replaceOrPush base).map Node.methodName =
      base.map Node.methodName ++
        firstOccurrences ((own.map Node.methodName).filter
          fun k => decide (k ∉ base.map Node.methodName)) := by
  induction own with
  | nil => intro base; simp [firstOccurrences]
  | cons x rest ih =>
    intro base
    rw [List.foldl_cons, ih, names_replaceOrPush]
    by_cases hx : x.methodName ∈ base.map Node.methodName
    · simp only [hx, if_true, List.map_cons, List.filter_cons, not_true_eq_false,
        decide_False, Bool.false_eq_true, if_false]
    · simp only [hx, if_false, List.map_cons, List.filter_cons, not_false_eq_true,
        decide_True, if_true, firstOccurrences, List.append_assoc, List.singleton_append]
      congr 2
      rw [← firstOccurrences_filter]
      congr 1
      rw [List.filter_filter]
      apply List.filter_congr
      intro k _
      by_cases hk : k = x.methodName
      · subst hk; simp
      · simp [hk]
theorem lastDeclaration_cons (x : Node) (rest : List Node) (k : Option TokenValue) :
    lastDeclaration (x :: rest) k =
      (lastDeclaration rest k).orElse fun _ => if x.methodName = k then some x else none := by
  unfold lastDeclaration
  by_cases hx : x.methodName = k
  · simp only [List.filter_cons, hx, decide_True, if_true]
    cases hf : List.filter (fun m => decide (m.methodName = k)) rest with
    | nil => simp
    | cons a l =>
      simp only [List.getLast?_cons_cons]
      rw [List.getLast?_eq_getLast _ (List.cons_ne_nil a l)]
      rfl
  · simp only [List.filter_cons, hx, decide_False, Bool.false_eq_true, if_false]
    cases (List.filter (fun m => decide (m.methodName = k)) rest).getLast? <;> rfl

theorem find_foldl (own : List Node) (k : Option TokenValue) : ∀ base : List Node,
    (own.foldl replaceOrPush base).find? (fun m => decide (m.methodName = k)) =
      (lastDeclaration own k).orElse
        fun _ => base.find? (fun m => decide (m.methodName = k)) := by
  induction own with
  | nil => intro base; simp [lastDeclaration]
  | cons x rest ih =>
    intro base
    rw [List.foldl_cons, ih, find_replaceOrPush, lastDeclaration_cons]
    cases lastDeclaration rest k with
    | some v => rfl
    | none =>
      by_cases hx : x.methodName = k <;> simp [hx]

/-- A list of methods with different names is given by its names and by the
method found under each name. -/
theorem eq_filterMap_find (l : List Node) (h : (l.map Node.methodName).Nodup) :
    l = (l.map Node.methodName).filterMap
      fun k => l.find? (fun m => decide (m.methodName = k)) := by
  induction l with
  | nil => rfl
  | cons a rest ih =>
    simp only [List.map_cons, List.nodup_cons] at h
    simp only [List.map_cons, List.filterMap_cons, List.find?_cons, decide_True]
    congr 1
    conv_lhs => rw [ih h.2]
    apply List.filterMap_congr
    intro k hk
    have : ¬ a.methodName = k := fun e => h.1 (e ▸ hk)
    simp [this]

theorem find_of_mem (l : List Node) (h : (l.map Node.methodName).Nodup) (b : Node)
    (hb : b ∈ l) : l.find? (fun m => decide (m.methodName = b.methodName)) = some b := by
  induction l with
  | nil => simp at hb
  | cons a rest ih =>
    simp only [List.map_cons, List.nodup_cons] at h
    rcases List.mem_cons.mp hb with rfl | hb'
    · simp [List.find?_cons]
    · have : ¬ a.methodName = b.methodName :=
        fun e => h.1 (e ▸ List.mem_map_of_mem _ hb')
      simp [List.find?_cons, this, ih h.2 hb']

theorem find_none_of_not_mem (l : List Node) (k : Option TokenValue)
    (h : k ∉ l.map Node.methodName) :
    l.find? (fun m => decide (m.methodName = k)) = none := by
  rw [List.find?_eq_none]
  intro x hx
  simp only [decide_eq_true_eq]
  rintro rfl
  exact h (List.mem_map_of_mem _ hx)

/-- The fold of `getAllMethods` over the methods of a class is the override in
place of the specification. -/
theorem foldl_eq_overrideInPlace (base own : List Node)
    (h : (base.map Node.methodName).Nodup) :
    own.foldl replaceOrPush base = overrideInPlace base own := by
  have hnames := names_foldl own base
  have hnodup : ((own.foldl replaceOrPush base).map Node.methodName).Nodup := by
    rw [hnames, List.nodup_append]
    refine ⟨h, nodup_firstOccurrences _, ?_⟩
    intro k hk hk'
    rw [mem_firstOccurrences, List.mem_filter] at hk'
    simp only [decide_eq_true_eq] at hk'
    exact hk'.2 hk
  rw [eq_filterMap_find _ hnodup, hnames, List.filterMap_append, overrideInPlace]
  congr 1
  · rw [List.filterMap_map]
    rw [← List.filterMap_eq_map]
    apply List.filterMap_congr
    intro b hb
    simp only [Function.comp, find_foldl, find_of_mem base h b hb]
    cases lastDeclaration own b.methodName <;> rfl
  · apply List.filterMap_congr
    intro k hk
    rw [mem_firstOccurrences, List.mem_filter] at hk
    simp only [decide_eq_true_eq] at hk
    rw [find_foldl, find_none_of_not_mem base k hk.2]
    cases lastDeclaration own k <;> rfl
theorem nodup_overrideInPlace (base own : List Node) (h : (base.map Node.methodName).Nodup) :
    ((overrideInPlace base own).map Node.methodName).Nodup := by
  rw [← foldl_eq_overrideInPlace base own h, names_foldl, List.nodup_append]
  refine ⟨h, nodup_firstOccurrences _, ?_⟩
  intro k hk hk'
  rw [mem_firstOccurrences, List.mem_filter] at hk'
  simp only [decide_eq_true_eq] at hk'
  exact hk'.2 hk

theorem resolves_nodup {classes : List (String × Node)} {name : String} {ms : List Node}
    (h : Resolves classes name ms) : (ms.map Node.methodName).Nodup := by
  induction h with
  | unknown _ _ => simp
  | root _ _ _ => exact nodup_overrideInPlace _ _ (by simp)
  | inherits _ _ _ _ _ ih => exact nodup_overrideInPlace _ _ ih

/-- Along a superclass chain that ends, enough fuel makes `getAllMethods` return
the resolved methods. -/
theorem getAllMethods_resolves (classes : List (String × Node)) (name : String)
    (ms : List Node) (h : Resolves classes name ms) :
    ∃ f0, ∀ f, f0 ≤ f → getAllMethods f classes name = .methods ms := by
  induction h with
  | @unknown name hl hp =>
    refine ⟨1, fun f hf => ?_⟩
    obtain ⟨k, rfl⟩ : ∃ k, f = k + 1 := ⟨f - 1, by omega⟩
    simp [getAllMethods, hl, hp]
  | @root name cname superClassName own isAbstract line column hl hs hown =>
    refine ⟨1, fun f hf => ?_⟩
    obtain ⟨k, rfl⟩ : ∃ k, f = k + 1 := ⟨f - 1, by omega⟩
    have hmerge := mergeMethods_foldl own hown []
    rw [foldl_eq_overrideInPlace [] own (by simp)] at hmerge
    cases superClassName with
    | none => simp [getAllMethods, hl, hmerge]
    | some v => simp [getAllMethods, hl, hs v rfl, hmerge]
  | @inherits name superKey cname superName own base isAbstract line column hl ht hk hown hres ih =>
    obtain ⟨f1, h1⟩ := ih
    refine ⟨f1 + 1, fun f hf => ?_⟩
    obtain ⟨k, rfl⟩ : ∃ k, f = k + 1 := ⟨f - 1, by omega⟩
    have hmerge := mergeMethods_foldl own hown base
    rw [foldl_eq_overrideInPlace base own (resolves_nodup hres)] at hmerge
    simp [getAllMethods, hl, ht, hk, h1 k (by omega), hmerge]

/-- C20: along a superclass chain that ends, `getAllMethods(C)` returns (given
enough fuel, which the length of the chain bounds) the resolved methods of the
superclass of `C` (none when `C` has no superclass), in which every method that
`C` declares again is replaced where it stands by the last declaration of its
name in `C`, followed by the methods of `C` with new names in the order of their
declaration. -/
theorem method_resolution (classes : List (String × Node)) (name : String) (ms : List Node)
    (h : Resolves classes name ms) :
    ∃ f0, ∀ f, f0 ≤ f → getAllMethods f classes name = .methods ms :=
  getAllMethods_resolves classes name ms h

theorem method_resolution_witness :
    ∃ f0, ∀ f, f0 ≤ f →
      getAllMethods f
        [("A", .ClassDeclaration (.str "A") none
            [.FunctionDeclaration (.str "f") [] [] (some (.str "public")) 1 1,
             .FunctionDeclaration (.str "g") [] [] (some (.str "public")) 2 1] false 1 1),
         ("B", .ClassDeclaration (.str "B") (some (.str "A"))
            [.FunctionDeclaration (.str "h") [] [] (some (.str "public")) 5 1,
             .FunctionDeclaration (.str "f") [] [] (some (.str "public")) 6 1] false 4 1)]
        "B" =
      .methods
        [.FunctionDeclaration (.str "f") [] [] (some (.str "public")) 6 1,
         .FunctionDeclaration (.str "g") [] [] (some (.str "public")) 2 1,
         .FunctionDeclaration (.str "h") [] [] (some (.str "public")) 5 1] :=
  method_resolution _ "B" _
    (@Resolves.inherits _ "B" "A" (.str "B") (.str "A")
      [.FunctionDeclaration (.str "h") [] [] (some (.str "public")) 5 1,
       .FunctionDeclaration (.str "f") [] [] (some (.str "public")) 6 1]
      (overrideInPlace []
        [.FunctionDeclaration (.str "f") [] [] (some (.str "public")) 1 1,
         .FunctionDeclaration (.str "g") [] [] (some (.str "public")) 2 1])
      false 4 1 rfl rfl rfl (by simp [Node.isMethod])
      (@Resolves.root _ "A" (.str "A") none
        [.FunctionDeclaration (.str "f") [] [] (some (.str "public")) 1 1,
         .FunctionDeclaration (.str "g") [] [] (some (.str "public")) 2 1]
        false 1 1 rfl (by simp) (by simp [Node.isMethod])))
theorem evaluate_succ (fuel : Nat) (node : Node) (s : State) :
    evaluate (fuel + 1) node s = annotate node (evalNode (evaluate fuel) fuel node s) := rfl

theorem runBody_eq (ev : Node → State → Result Value) (frame : List (String × Value))
    (body : List Node) (s : State) :
    runBody ev frame body s =
      match runStatements ev body (enterCall frame s) with
      | .ok _ s2 => .ok .null { s2 with env := s.env }
      | .stop (.returned v) s2 => .ok v { s2 with env := s.env }
      | .stop sig s2 => .stop sig s2 := rfl

theorem runStatements_append_stop (ev : Node → State → Result Value) (pre post : List Node)
    (stmt : Node) (s s1 s2 : State) (sig : Signal)
    (hpre : runStatements ev pre s = .ok () s1) (hstmt : ev stmt s1 = .stop sig s2) :
    runStatements ev (pre ++ stmt :: post) s = .stop sig s2 := by
  induction pre generalizing s with
  | nil =>
    simp only [runStatements] at hpre
    cases hpre
    simp [runStatements, hstmt, Result.bind]
  | cons a pre ih =>
    simp only [runStatements, List.cons_append] at hpre ⊢
    cases ha : ev a s with
    | ok v sa =>
      rw [ha] at hpre
      simp only [Result.bind] at hpre ⊢
      exact ih sa hpre
    | stop sg sa =>
      rw [ha] at hpre
      simp [Result.bind] at hpre

theorem evalTry_eq (ev : Node → State → Result Value) (block : List Node)
    (handler : Option (TokenValue × List Node)) (finalizer : Option (List Node)) (s : State) :
    evalTry ev block handler finalizer s =
      finishTry ev finalizer s.env (tryAndCatch ev block handler finalizer s) := rfl

theorem finishTry_ok (ev : Node → State → Result Value) (F : List Node) (prev : Nat)
    (s1 : State) :
    finishTry ev (some F) prev (.ok () s1) =
      finalizerOnce ev F prev s1 fun s4 => .ok .undefined s4 := rfl

theorem finishTry_stop (ev : Node → State → Result Value) (F : List Node) (prev : Nat)
    (sig : Signal) (s1 : State) (h : sig.isRaised = true) :
    finishTry ev (some F) prev (.stop sig s1) =
      finalizerOnce ev F prev s1 fun s4 => .stop sig s4 := by
  cases sig <;> simp [Signal.isRaised] at h <;> rfl

theorem tryAndCatch_ok (ev : Node → State → Result Value) (block : List Node)
    (handler : Option (TokenValue × List Node)) (finalizer : Option (List Node))
    (s s1 : State) (h : runStatements ev block s = .ok () s1) :
    tryAndCatch ev block handler finalizer s = .ok () s1 := by
  simp [tryAndCatch, h]

theorem tryAndCatch_returned (ev : Node → State → Result Value) (block : List Node)
    (handler : Option (TokenValue × List Node)) (finalizer : Option (List Node))
    (s s1 : State) (v : Value) (h : runStatements ev block s = .stop (.returned v) s1) :
    tryAndCatch ev block handler finalizer s = .stop (.returned v) s1 := by
  simp [tryAndCatch, h]

theorem tryAndCatch_caught (ev : Node → State → Result Value) (block body : List Node)
    (param : TokenValue) (k : String) (finalizer : Option (List Node))
    (s s1 : State) (sig : Signal) (h : runStatements ev block s = .stop sig s1)
    (herr : sig.isError = true) (hk : param.key = some k) (hp : k ≠ "__proto__") :
    tryAndCatch ev block (some (param, body)) finalizer s =
      runStatements ev body (enterCatch k sig.errorValue s.env s1) := by
  cases sig <;> simp [Signal.isError] at herr <;>
    simp [tryAndCatch, h, hk, hp, enterCatch, Signal.errorValue]

theorem tryAndCatch_unhandled (ev : Node → State → Result Value) (block : List Node)
    (finalizer : Option (List Node))
    (s s1 : State) (sig : Signal) (h : runStatements ev block s = .stop sig s1)
    (herr : sig.isError = true) :
    tryAndCatch ev block none finalizer s =
      if finalizer.isNone then .stop sig s1 else .ok () s1 := by
  cases sig <;> simp [Signal.isError] at herr <;> simp [tryAndCatch, h]

/-! ## Dictionaries and parameter binding -/

theorem lookup_map_set {α : Type} (d : List (String × α)) (k : String) (v : α) (k' : String) :
    (d.map fun p => if p.1 == k then (k, v) else p).lookup k' =
      if k' = k then (d.lookup k).map (fun _ => v) else d.lookup k' := by
  induction d with
  | nil => simp
  | cons a d ih =>
    obtain ⟨a1, a2⟩ := a
    rw [List.map_cons]
    by_cases h1 : a1 = k
    · subst h1
      rw [if_pos (by simp), List.lookup_cons, List.lookup_cons]
      by_cases h2 : k' = a1
      · subst h2
        simp
      · have h3 : (k' == a1) = false := by simpa using h2
        rw [h3, ih, if_neg h2, if_neg h2, List.lookup_cons, h3]
    · have h1b : ¬ ((a1, a2).1 == k) = true := by simpa using h1
      rw [if_neg h1b, List.lookup_cons, ih]
      by_cases h2 : k' = k
      · subst h2
        have h3 : (k' == a1) = false := by simpa using fun h => h1 h.symm
        rw [h3, if_pos rfl, if_pos rfl, List.lookup_cons, h3]
      · rw [if_neg h2, if_neg h2, List.lookup_cons]

theorem lookup_append_single {α : Type} (d : List (String × α)) (k : String) (v : α)
    (k' : String) :
    (d ++ [(k, v)]).lookup k' =
      match d.lookup k' with
      | some w => some w
      | none => if k' = k then some v else none := by
  induction d with
  | nil =>
    by_cases h : k' = k
    · subst h; simp [List.lookup]
    · have h3 : (k' == k) = false := by simpa using h
      simp [List.lookup, h3, h]
  | cons a d ih =>
    obtain ⟨a1, a2⟩ := a
    by_cases h4 : k' = a1
    · subst h4; simp [List.lookup]
    · have h3 : (k' == a1) = false := by simpa using h4
      simp [List.lookup, h3, ih]

theorem any_key_iff {α : Type} (d : List (String × α)) (k : String) :
    (d.any fun p => p.1 == k) = (d.lookup k).isSome := by
  induction d with
  | nil => simp
  | cons a d ih =>
    obtain ⟨a1, a2⟩ := a
    by_cases h : k = a1
    · subst h; simp [List.lookup]
    · have h3 : (k == a1) = false := by simpa using h
      have h5 : (a1 == k) = false := by simpa using fun e => h e.symm
      simp [List.lookup, h3, h5, ih]

/-- The assignment `d[k] = v` makes `k` read `v` and leaves every other key. -/
theorem lookup_dictSet {α : Type} (d : List (String × α)) (k : String) (v : α) (k' : String) :
    (dictSet d k v).lookup k' = if k' = k then some v else d.lookup k' := by
  unfold dictSet
  rw [any_key_iff]
  cases hd : d.lookup k with
  | none =>
    simp only [Option.isSome_none, Bool.false_eq_true, if_false, lookup_append_single]
    by_cases h : k' = k
    · subst h; simp [hd]
    · simp only [h, if_false]
      cases d.lookup k' <;> rfl
  | some w =>
    simp only [Option.isSome_some, if_true, lookup_map_set, hd, Option.map_some']

theorem length_dictSet_le {α : Type} (d : List (String × α)) (k : String) (v : α) :
    (dictSet d k v).length ≤ d.length + 1 := by
  unfold dictSet
  split <;> simp

/-- Lines 457-459 of `callFunction`: at most one name is bound for each argument. -/
theorem bindArguments_length (params : List TokenValue) (args : List Value) :
    ∀ (acc frame : List (String × Value)), bindArguments params args acc = some frame →
      frame.length ≤ acc.length + args.length := by
  induction args generalizing params with
  | nil =>
    intro acc frame h
    cases params <;> simp [bindArguments] at h <;> subst h <;> simp
  | cons v vs ih =>
    intro acc frame h
    cases params with
    | nil =>
      simp only [bindArguments] at h
      have := ih [] _ _ h
      have := length_dictSet_le acc "undefined" v
      simp only [List.length_cons]; omega
    | cons p ps =>
      simp only [bindArguments] at h
      cases hk : p.key with
      | none => simp [hk] at h
      | some k =>
        simp only [hk] at h
        by_cases hp : k = "__proto__"
        · simp [hp] at h
        · simp only [hp, if_false] at h
          have := ih ps _ _ h
          have := length_dictSet_le acc k v
          simp only [List.length_cons]; omega

/-- Lines 529-531 of `callMethod`: a key that is bound stays bound. -/
theorem bindParameters_mono (params : List TokenValue) :
    ∀ (args : List Value) (acc frame : List (String × Value)),
      bindParameters params args acc = some frame →
      ∀ k, (acc.lookup k).isSome = true → (frame.lookup k).isSome = true := by
  induction params with
  | nil =>
    intro args acc frame h k hk
    simp only [bindParameters, Option.some.injEq] at h
    subst h; exact hk
  | cons p ps ih =>
    intro args acc frame h k hk
    simp only [bindParameters] at h
    cases hp : p.key with
    | none => simp [hp] at h
    | some kp =>
      simp only [hp] at h
      by_cases hq : kp = "__proto__"
      · simp [hq] at h
      · simp only [hq, if_false] at h
        refine ih _ _ _ h k ?_
        rw [lookup_dictSet]
        split
        · rfl
        · exact hk

/-- Lines 529-531 of `callMethod`: every parameter is bound, whatever the number
of arguments. -/
theorem bindParameters_binds (params : List TokenValue) :
    ∀ (args : List Value) (acc frame : List (String × Value)),
      bindParameters params args acc = some frame →
      ∀ p ∈ params, ∃ k, p.key = some k ∧ (frame.lookup k).isSome = true := by
  induction params with
  | nil => intro args acc frame _ p hp; simp at hp
  | cons q ps ih =>
    intro args acc frame h p hp
    simp only [bindParameters] at h
    cases hq : q.key with
    | none => simp [hq] at h
    | some kq =>
      simp only [hq] at h
      by_cases hproto : kq = "__proto__"
      · simp [hproto] at h
      · simp only [hproto, if_false] at h
        rcases List.mem_cons.1 hp with rfl | hmem
        · refine ⟨kq, hq, bindParameters_mono ps _ _ _ h kq ?_⟩
          rw [lookup_dictSet]; simp
        · exact ih _ _ _ h p hmem

/-! ## Calls -/

/-- C13: a call with fewer arguments than parameters. `callFunction` binds one
name for each argument (evaluator.js:457), so in `f(1)` for
`fonction f(a, b) { renvoie b }` the environment of the call holds `a` only and
reading `b` is an unbound-variable error, where the claim says the absent value
is read. `callMethod` (evaluator.js:529) binds one name for each parameter: the
same body as a method returns the absent value, and every parameter of a method
is bound whatever the number of arguments. -/
theorem missing_parameters :
    (runCode 50 "fonction f(a, b) \x7b renvoie b \x7d\nmontre f(1)" (Evaluator [])).signal?
        = some (.error "[Ligne 1, Col 28] Variable non définie: b")
    ∧ (runCode 50 "fonction f(a, b) \x7b renvoie b \x7d\nmontre f(1)" (Evaluator [])).state.output
        = []
    ∧ bindArguments [.str "a", .str "b"] [.num 1] [] = some [("a", .num 1)]
    ∧ (∀ params args frame, bindArguments params args [] = some frame →
        frame.length ≤ args.length)
    ∧ (runCode 50
        "classe K \x7b fonction f(a, b) \x7b renvoie b \x7d \x7d\nsoit k = nouveau K()\nmontre k.f(1)"
        (Evaluator [])).state.output = [[.undefined]]
    ∧ bindParameters [.str "a", .str "b"] [.num 1] [("ceci", .ref 1)]
        = some [("ceci", .ref 1), ("a", .num 1), ("b", .undefined)]
    ∧ (∀ params args self frame, bindParameters params args [("ceci", self)] = some frame →
        ∀ p ∈ params, ∃ k, p.key = some k ∧ (frame.lookup k).isSome = true) := by
  refine ⟨by decide, by decide, by decide, ?_, by decide, by decide, ?_⟩
  · intro params args frame h
    simpa using bindArguments_length params args [] frame h
  · intro params args self frame h
    exact bindParameters_binds params args _ frame h

/-- The environment that is current when a call returns a value is the one that
was current before the call (evaluator.js:474 and 545). -/
theorem runBody_ok_env (ev : Node → State → Result Value) (frame : List (String × Value))
    (body : List Node) (s s2 : State) (v : Value)
    (h : runBody ev frame body s = .ok v s2) : s2.env = s.env := by
  rw [runBody_eq] at h
  split at h
  · cases h; rfl
  · cases h; rfl
  · cases h

/-- An error of the body leaves the call with the state of the body: the
assignment `this.env = previousEnv` is not reached. -/
theorem runBody_stop (ev : Node → State → Result Value) (frame : List (String × Value))
    (body : List Node) (s s2 : State) (sig : Signal)
    (h : runStatements ev body (enterCall frame s) = .stop sig s2)
    (hsig : sig.isError = true) : runBody ev frame body s = .stop sig s2 := by
  rw [runBody_eq, h]
  cases sig <;> simp [Signal.isError] at hsig <;> rfl

/-- C14: the current environment after a call. When the body completes or
executes `renvoie`, the environment that was current before the call is current
again. When the body raises an error (of `lance`, or internal), the call is
left by the `throw e` of evaluator.js:470 (541 for a method) and the assignment
`this.env = previousEnv` of line 474 (545) is skipped: in
`fonction f() { soit x = 1 lance 1 }` then `f()` the environment of the call
stays current, and in the interactive mode, which keeps the evaluator, a later
`montre x` prints the local `x` of `f`. -/
theorem env_after_call :
    (∀ ev frame body s s2 v, runBody ev frame body s = .ok v s2 → s2.env = s.env)
    ∧ (Evaluator []).env = 0
    ∧ (runCode 50 "fonction f() \x7b soit x = 1\nlance 1 \x7d\nf()" (Evaluator [])).signal?
        = some (.thrown (.num 1) 2)
    ∧ (runCode 50 "fonction f() \x7b soit x = 1\nlance 1 \x7d\nf()" (Evaluator [])).state.env = 1
    ∧ (runCode 50 "montre x"
        (runCode 50 "fonction f() \x7b soit x = 1\nlance 1 \x7d\nf()"
          (Evaluator [])).state).state.output = [[.num 1]]
    ∧ (runCode 50 "fonction f() \x7b renvoie y \x7d\nf()" (Evaluator [])).signal?
        = some (.error "[Ligne 1, Col 24] Variable non définie: y")
    ∧ (runCode 50 "fonction f() \x7b renvoie y \x7d\nf()" (Evaluator [])).state.env = 1
    ∧ (runCode 50
        "classe K \x7b fonction m() \x7b lance 1 \x7d \x7d\nsoit k = nouveau K()\nk.m()"
        (Evaluator [])).state.env = 1 := by
  refine ⟨?_, rfl, by decide, by decide, by decide, by decide, by decide, by decide⟩
  intro ev frame body s s2 v h
  exact runBody_ok_env ev frame body s s2 v h

/-- C15 (as amended): the result of a call. The statements of the body run in
order; the first signal a statement raises ends the body, the statements after
it do not run; a `renvoie` raises the signal `returned` with the value of its
argument, which an enclosing `si` or `tantque` passes on without running the
rest of its body; the call yields the value of the signal that leaves the body,
and the null value when the body completes. -/
theorem call_result :
    (∀ (ev : Node → State → Result Value) (pre post : List Node) (stmt : Node)
        (s s1 s2 : State) (sig : Signal),
        runStatements ev pre s = .ok () s1 → ev stmt s1 = .stop sig s2 →
        runStatements ev (pre ++ stmt :: post) s = .stop sig s2)
    ∧ (∀ (fuel : Nat) (argument : Node) (line column : Nat) (s s1 : State) (v : Value),
        evaluate fuel argument s = .ok v s1 →
        evaluate (fuel + 1) (.ReturnStatement argument line column) s = .stop (.returned v) s1)
    ∧ (∀ (fuel : Nat) (condition : Node) (consequent : List Node)
        (alternate : Option (List Node)) (line column : Nat) (s s1 s2 : State) (c v : Value),
        evaluate fuel condition s = .ok c s1 → c.truthy = true →
        runStatements (evaluate fuel) consequent s1 = .stop (.returned v) s2 →
        evaluate (fuel + 1) (.IfStatement condition consequent alternate line column) s
          = .stop (.returned v) s2)
    ∧ (∀ (fuel : Nat) (condition : Node) (body : List Node) (line column : Nat)
        (s s1 s2 : State) (c v : Value),
        evaluate (fuel + 1) condition s = .ok c s1 → c.truthy = true →
        runStatements (evaluate (fuel + 1)) body s1 = .stop (.returned v) s2 →
        evaluate (fuel + 2) (.WhileStatement condition body line column) s
          = .stop (.returned v) s2)
    ∧ (∀ (ev : Node → State → Result Value) (frame : List (String × Value))
        (body : List Node) (s s2 : State) (v : Value),
        runStatements ev body (enterCall frame s) = .stop (.returned v) s2 →
        runBody ev frame body s = .ok v { s2 with env := s.env })
    ∧ (∀ (ev : Node → State → Result Value) (frame : List (String × Value))
        (body : List Node) (s s2 : State),
        runStatements ev body (enterCall frame s) = .ok () s2 →
        runBody ev frame body s = .ok .null { s2 with env := s.env })
    ∧ (runCode 50 "fonction carre(n) \x7b renvoie n * n \x7d\nmontre carre(4)"
        (Evaluator [])).state.output = [[.num 16]]
    ∧ (runCode 50
        "fonction f(n) \x7b si n > 0 \x7b renvoie 1\nmontre 7 \x7d\nmontre 8\nrenvoie 2 \x7d\nmontre f(1)"
        (Evaluator [])).state.output = [[.num 1]]
    ∧ (runCode 50
        "fonction f() \x7b tantque 1 \x7b renvoie 1\nmontre 7 \x7d\nmontre 8 \x7d\nmontre f()"
        (Evaluator [])).state.output = [[.num 1]]
    ∧ (runCode 50 "fonction f() \x7b soit a = 1 \x7d\nmontre f()"
        (Evaluator [])).state.output = [[.null]] := by
  refine ⟨?_, ?_, ?_, ?_, ?_, ?_, by decide, by decide, by decide, by decide⟩
  · intro ev pre post stmt s s1 s2 sig hpre hstmt
    exact runStatements_append_stop ev pre post stmt s s1 s2 sig hpre hstmt
  · intro fuel argument line column s s1 v h
    simp [evaluate_succ, evalNode, h, Result.bind, annotate]
  · intro fuel condition consequent alternate line column s s1 s2 c v hc ht hb
    simp [evaluate_succ, evalNode, hc, ht, hb, Result.bind, annotate]
  · intro fuel condition body line column s s1 s2 c v hc ht hb
    rw [evaluate_succ]
    simp [evalNode, whileLoop, hc, ht, hb, Result.bind, annotate]
  · intro ev frame body s s2 v h
    rw [runBody_eq, h]
  · intro ev frame body s s2 h
    rw [runBody_eq, h]

/-- C15, counterexample: the first `renvoie` executed in the body of `f` is
`renvoie 1`, and the call yields 2: the `enfin` block runs after it and its own
`renvoie` replaces the first one. -/
theorem return_replaced_by_finalizer :
    (runCode 50
      "fonction f() \x7b essaye \x7b renvoie 1 \x7d enfin \x7b renvoie 2 \x7d \x7d\nmontre f()"
      (Evaluator [])).state.output = [[.num 2]] := by decide

theorem call_result_witness :
    runStatements (evaluate 5) [.ReturnStatement (.Literal (.num "1") 1 9) 1 1]
        (enterCall [] (Evaluator []))
      = .stop (.returned (.num 1)) (enterCall [] (Evaluator []))
    ∧ runBody (evaluate 5) [] [.ReturnStatement (.Literal (.num "1") 1 9) 1 1] (Evaluator [])
      = .ok (.num 1) { enterCall [] (Evaluator []) with env := (Evaluator []).env } :=
  ⟨rfl, call_result.2.2.2.2.1 (evaluate 5) [] _ (Evaluator []) _ (.num 1) rfl⟩

/-! ## `essaye`, `attrape`, `enfin` -/

theorem evaluate_try (fuel : Nat) (block : List Node)
    (handler : Option (TokenValue × List Node)) (finalizer : Option (List Node))
    (line column : Nat) (s : State) :
    evaluate (fuel + 1) (.TryStatement block handler finalizer line column) s =
      annotate (.TryStatement block handler finalizer line column)
        (evalTry (evaluate fuel) block handler finalizer s) := rfl

theorem evalTry_returned (ev : Node → State → Result Value) (block F : List Node)
    (handler : Option (TokenValue × List Node)) (s s1 : State) (v : Value)
    (h : runStatements ev block s = .stop (.returned v) s1) :
    evalTry ev block handler (some F) s =
      finalizerOnce ev F s.env s1 fun s4 => .stop (.returned v) s4 := by
  rw [evalTry_eq, tryAndCatch_returned ev block handler (some F) s s1 v h,
    finishTry_stop ev F s.env (.returned v) s1 rfl]

theorem evalTry_ok (ev : Node → State → Result Value) (block F : List Node)
    (handler : Option (TokenValue × List Node)) (s s1 : State)
    (h : runStatements ev block s = .ok () s1) :
    evalTry ev block handler (some F) s =
      finalizerOnce ev F s.env s1 fun s4 => .ok .undefined s4 := by
  rw [evalTry_eq, tryAndCatch_ok ev block handler (some F) s s1 h, finishTry_ok]

theorem evalTry_unhandled (ev : Node → State → Result Value) (block F : List Node)
    (s s1 : State) (sig : Signal)
    (h : runStatements ev block s = .stop sig s1) (herr : sig.isError = true) :
    evalTry ev block none (some F) s =
      finalizerOnce ev F s.env s1 fun s4 => .ok .undefined s4 := by
  rw [evalTry_eq, tryAndCatch_unhandled ev block (some F) s s1 sig h herr]
  simp only [Option.isNone_some, Bool.false_eq_true, if_false]
  rw [finishTry_ok]

theorem evalTry_caught (ev : Node → State → Result Value) (block body : List Node)
    (param : TokenValue) (k : String) (finalizer : Option (List Node))
    (s s1 : State) (sig : Signal) (h : runStatements ev block s = .stop sig s1)
    (herr : sig.isError = true) (hk : param.key = some k) (hp : k ≠ "__proto__") :
    evalTry ev block (some (param, body)) finalizer s =
      finishTry ev finalizer s.env
        (runStatements ev body (enterCatch k sig.errorValue s.env s1)) := by
  rw [evalTry_eq, tryAndCatch_caught ev block body param k finalizer s s1 sig h herr hk hp]

theorem finalizerOnce_ok (ev : Node → State → Result Value) (F : List Node) (prev : Nat)
    (s s4 : State) (resume : State → Result Value)
    (h : runStatements ev F { s with env := prev } = .ok () s4) :
    finalizerOnce ev F prev s resume = resume { s4 with env := prev } := by
  simp [finalizerOnce, h]

/-- C16 (as amended): a function body `essaye { renvoie v } attrape (e) { C }
enfin { F }` in which `v` evaluates to a value and `F` completes: the `essaye`
runs `F` exactly once and then goes on with the Return of that value, whatever
the handler is (`C` is not run), and the call yields the value of `v`. -/
theorem return_through_try (fuel : Nat) (argument : Node) (line column : Nat)
    (param : TokenValue) (C F : List Node) (tryLine tryColumn : Nat)
    (frame : List (String × Value)) (s s1 s4 : State) (v : Value)
    (hv : evaluate fuel argument (enterCall frame s) = .ok v s1)
    (hF : runStatements (evaluate (fuel + 1)) F { s1 with env := (enterCall frame s).env }
      = .ok () s4) :
    evalTry (evaluate (fuel + 1)) [.ReturnStatement argument line column] (some (param, C))
        (some F) (enterCall frame s)
      = finalizerOnce (evaluate (fuel + 1)) F (enterCall frame s).env s1
          (fun s4 => .stop (.returned v) s4)
    ∧ runBody (evaluate (fuel + 2)) frame
          [.TryStatement [.ReturnStatement argument line column] (some (param, C)) (some F)
            tryLine tryColumn] s
        = .ok v { s4 with env := s.env } := by
  have hblock : runStatements (evaluate (fuel + 1)) [.ReturnStatement argument line column]
      (enterCall frame s) = .stop (.returned v) s1 := by
    simp [runStatements, evaluate_succ, evalNode, hv, Result.bind, annotate]
  have htry := evalTry_returned (evaluate (fuel + 1)) _ F (some (param, C)) _ s1 v hblock
  refine ⟨htry, ?_⟩
  rw [runBody_eq]
  simp only [runStatements, evaluate_try, htry,
    finalizerOnce_ok _ F _ s1 s4 _ hF, annotate, Result.bind]

theorem return_through_try_witness :
    evalTry (evaluate 3) [.ReturnStatement (.Literal (.num "1") 1 1) 1 1]
        (some (.str "e", [.PrintStatement [] 1 1])) (some []) (enterCall [] (Evaluator []))
      = finalizerOnce (evaluate 3) [] (enterCall [] (Evaluator [])).env
          (enterCall [] (Evaluator [])) (fun s4 => .stop (.returned (.num 1)) s4)
    ∧ runBody (evaluate 4) []
          [.TryStatement [.ReturnStatement (.Literal (.num "1") 1 1) 1 1]
            (some (.str "e", [.PrintStatement [] 1 1])) (some []) 1 1] (Evaluator [])
        = .ok (.num 1) { enterCall [] (Evaluator []) with env := (Evaluator []).env } :=
  return_through_try 2 (.Literal (.num "1") 1 1) 1 1 (.str "e") [.PrintStatement [] 1 1] [] 1 1
    [] (Evaluator []) (enterCall [] (Evaluator [])) (enterCall [] (Evaluator [])) (.num 1)
    rfl rfl

/-- C16, counterexample: the body of `f` has the form of the claim with `v` the
number 1, and the call yields 2: the Return that `F` raises replaces the one of
the `essaye` block. -/
theorem finalizer_return_wins :
    (runCode 50
      "fonction f() \x7b essaye \x7b renvoie 1 \x7d attrape (e) \x7b montre \"c\" \x7d enfin \x7b renvoie 2 \x7d \x7d\nmontre f()"
      (Evaluator [])).state.output = [[.num 2]] := by decide

/-- C17: a TryStatement with a finalizer `F` runs `F` exactly once, from the
state the earlier blocks leave and in the environment of the entry, on each
path: the block completes; the block raises an error and the handler body
completes; the handler body raises; there is no handler and the block raises. -/
theorem finalizer_runs_once (ev : Node → State → Result Value) (block F : List Node)
    (s : State) :
    (∀ handler s1, runStatements ev block s = .ok () s1 →
      evalTry ev block handler (some F) s
        = finalizerOnce ev F s.env s1 fun s4 => .ok .undefined s4)
    ∧ (∀ param C k sig s1 s2, runStatements ev block s = .stop sig s1 → sig.isError = true →
      param.key = some k → k ≠ "__proto__" →
      runStatements ev C (enterCatch k sig.errorValue s.env s1) = .ok () s2 →
      evalTry ev block (some (param, C)) (some F) s
        = finalizerOnce ev F s.env s2 fun s4 => .ok .undefined s4)
    ∧ (∀ param C k sig s1 raised s2, runStatements ev block s = .stop sig s1 →
      sig.isError = true → param.key = some k → k ≠ "__proto__" →
      runStatements ev C (enterCatch k sig.errorValue s.env s1) = .stop raised s2 →
      raised.isRaised = true →
      evalTry ev block (some (param, C)) (some F) s
        = finalizerOnce ev F s.env s2 fun s4 => .stop raised s4)
    ∧ (∀ sig s1, runStatements ev block s = .stop sig s1 → sig.isError = true →
      evalTry ev block none (some F) s
        = finalizerOnce ev F s.env s1 fun s4 => .ok .undefined s4) := by
  refine ⟨?_, ?_, ?_, ?_⟩
  · intro handler s1 h
    exact evalTry_ok ev block F handler s s1 h
  · intro param C k sig s1 s2 h herr hk hp hC
    rw [evalTry_caught ev block C param k (some F) s s1 sig h herr hk hp, hC, finishTry_ok]
  · intro param C k sig s1 raised s2 h herr hk hp hC hr
    rw [evalTry_caught ev block C param k (some F) s s1 sig h herr hk hp, hC,
      finishTry_stop ev F s.env raised s2 hr]
  · intro sig s1 h herr
    exact evalTry_unhandled ev block F s s1 sig h herr

theorem finalizer_runs_once_witness :
    runStatements (evaluate 3) [.ThrowStatement (.Literal (.num "1") 1 1) 1 1] (Evaluator [])
      = .stop (.thrown (.num 1) 1) (Evaluator [])
    ∧ evalTry (evaluate 3) [.ThrowStatement (.Literal (.num "1") 1 1) 1 1] none
        (some [.PrintStatement [] 1 1]) (Evaluator [])
      = finalizerOnce (evaluate 3) [.PrintStatement [] 1 1] (Evaluator []).env (Evaluator [])
          fun s4 => .ok .undefined s4 :=
  ⟨rfl, (finalizer_runs_once (evaluate 3) [.ThrowStatement (.Literal (.num "1") 1 1) 1 1]
    [.PrintStatement [] 1 1] (Evaluator [])).2.2.2 (.thrown (.num 1) 1) (Evaluator []) rfl rfl⟩

theorem finishTry_none_stop (ev : Node → State → Result Value) (prev : Nat) (sig : Signal)
    (s1 : State) (h : sig.isRaised = true) :
    finishTry ev none prev (.stop sig s1) = .stop sig { s1 with env := prev } := by
  cases sig <;> simp [Signal.isRaised] at h <;> rfl

/-- C18 (as amended): in `essaye { B } enfin { F }` without handler, when `B`
raises an error (of `lance`, or internal), `F` runs exactly once and the error
is dropped: when `F` completes, the TryStatement completes and the statements
after it run. The error leaves the TryStatement when there is neither a handler
nor a finalizer. -/
theorem error_dropped_without_handler (ev : Node → State → Result Value) (B F : List Node)
    (s s1 s4 : State) (sig : Signal)
    (hB : runStatements ev B s = .stop sig s1) (herr : sig.isError = true)
    (hF : runStatements ev F { s1 with env := s.env } = .ok () s4) :
    evalTry ev B none (some F) s = finalizerOnce ev F s.env s1 (fun s4 => .ok .undefined s4)
    ∧ evalTry ev B none (some F) s = .ok .undefined { s4 with env := s.env }
    ∧ evalTry ev B none none s = .stop sig { s1 with env := s.env } := by
  have h1 := evalTry_unhandled ev B F s s1 sig hB herr
  refine ⟨h1, ?_, ?_⟩
  · rw [h1, finalizerOnce_ok ev F s.env s1 s4 _ hF]
  · rw [evalTry_eq, tryAndCatch_unhandled ev B none s s1 sig hB herr]
    simp only [Option.isNone_none, if_true]
    exact finishTry_none_stop ev s.env sig s1
      (by cases sig <;> simp_all [Signal.isError, Signal.isRaised])

theorem error_dropped_without_handler_witness :
    evalTry (evaluate 3) [.ThrowStatement (.Literal (.num "1") 1 1) 1 1] none (some [])
          (Evaluator [])
        = finalizerOnce (evaluate 3) [] (Evaluator []).env (Evaluator [])
            (fun s4 => .ok .undefined s4)
    ∧ evalTry (evaluate 3) [.ThrowStatement (.Literal (.num "1") 1 1) 1 1] none (some [])
          (Evaluator []) = .ok .undefined { Evaluator [] with env := (Evaluator []).env }
    ∧ evalTry (evaluate 3) [.ThrowStatement (.Literal (.num "1") 1 1) 1 1] none none
          (Evaluator [])
        = .stop (.thrown (.num 1) 1) { Evaluator [] with env := (Evaluator []).env } :=
  error_dropped_without_handler (evaluate 3)
    [.ThrowStatement (.Literal (.num "1") 1 1) 1 1] [] (Evaluator []) (Evaluator [])
    (Evaluator []) (.thrown (.num 1) 1) rfl rfl rfl

/-- C18, counterexample: `B` raises a user error, `F` runs, and the program goes
on with the statement after the construct: no error leaves the TryStatement.
The same holds for the internal error of the unbound variable `y`. -/
theorem try_finally_swallows_error :
    (runCode 50 "essaye \x7b lance 1 \x7d enfin \x7b montre \"f\" \x7d\nmontre \"after\""
        (Evaluator [])).signal? = none
    ∧ (runCode 50 "essaye \x7b lance 1 \x7d enfin \x7b montre \"f\" \x7d\nmontre \"after\""
        (Evaluator [])).state.output = [[.str "f"], [.str "after"]]
    ∧ (runCode 50 "essaye \x7b montre y \x7d enfin \x7b montre \"f\" \x7d\nmontre \"after\""
        (Evaluator [])).signal? = none
    ∧ (runCode 50 "essaye \x7b montre y \x7d enfin \x7b montre \"f\" \x7d\nmontre \"after\""
        (Evaluator [])).state.output = [[.str "f"], [.str "after"]] := by
  refine ⟨by decide, by decide, by decide, by decide⟩

/-- The catch parameter reads the error value in the environment of the handler. -/
theorem get_enterCatch (k : String) (v : Value) (prev : Nat) (s : State) :
    Environment.get (enterCatch k v prev s).envs.length (enterCatch k v prev s).envs
      (enterCatch k v prev s).env k = .found v := by
  simp [enterCatch, Environment.get, Environment.has, Environment.read, List.lookup]

/-- C19: in `essaye { B } attrape (e) { C }` (with or without `enfin`), when `B`
raises an error, `C` runs in a new environment, child of the one of the entry,
in which `e` is bound to the error value: the value `v` itself for the user
error of `lance v`, whatever value `v` is, and the text of the message for an
internal error. Reading `e` there yields that value. -/
theorem catch_binding (ev : Node → State → Result Value) (B C : List Node)
    (param : TokenValue) (k : String) (finalizer : Option (List Node)) (s s1 : State)
    (sig : Signal) (hB : runStatements ev B s = .stop sig s1) (herr : sig.isError = true)
    (hk : param.key = some k) (hp : k ≠ "__proto__") :
    evalTry ev B (some (param, C)) finalizer s
      = finishTry ev finalizer s.env
          (runStatements ev C (enterCatch k sig.errorValue s.env s1))
    ∧ (∀ fuel line column,
      evaluate (fuel + 1) (.Identifier param line column)
          (enterCatch k sig.errorValue s.env s1)
        = .ok sig.errorValue (enterCatch k sig.errorValue s.env s1))
    ∧ (∀ v line, (Signal.thrown v line).errorValue = v)
    ∧ (∀ message, (Signal.error message).errorValue = .str message) := by
  refine ⟨evalTry_caught ev B C param k finalizer s s1 sig hB herr hk hp, ?_,
    fun _ _ => rfl, fun _ => rfl⟩
  intro fuel line column
  simp [evaluate_succ, evalNode, hk, get_enterCatch, annotate]

theorem catch_binding_witness :
    evalTry (evaluate 3) [.ThrowStatement (.Literal (.num "5") 1 1) 1 1]
        (some (.str "e", [.PrintStatement [.Identifier (.str "e") 1 1] 1 1])) none
        (Evaluator [])
      = finishTry (evaluate 3) none (Evaluator []).env
          (runStatements (evaluate 3) [.PrintStatement [.Identifier (.str "e") 1 1] 1 1]
            (enterCatch "e" (Signal.thrown (.num 5) 1).errorValue (Evaluator []).env
              (Evaluator [])))
    ∧ (∀ fuel line column,
      evaluate (fuel + 1) (.Identifier (.str "e") line column)
          (enterCatch "e" (Signal.thrown (.num 5) 1).errorValue (Evaluator []).env
            (Evaluator []))
        = .ok (Signal.thrown (.num 5) 1).errorValue
            (enterCatch "e" (Signal.thrown (.num 5) 1).errorValue (Evaluator []).env
              (Evaluator [])))
    ∧ (∀ v line, (Signal.thrown v line).errorValue = v)
    ∧ (∀ message, (Signal.error message).errorValue = .str message) :=
  catch_binding (evaluate 3) [.ThrowStatement (.Literal (.num "5") 1 1) 1 1]
    [.PrintStatement [.Identifier (.str "e") 1 1] 1 1] (.str "e") "e"
    none (Evaluator []) (Evaluator []) (.thrown (.num 5) 1) rfl rfl rfl (by decide)

/-! ## Error messages -/

theorem data_append (a b : String) : (a ++ b).data = a.data ++ b.data := rfl

theorem lineTag_head (line : Nat) (rest : String) :
    (lineTag line ++ rest).data.head? = some '[' := by
  simp [lineTag, data_append]

theorem positionTag_head (line column : Option Nat) (rest : String) :
    (positionTag line column ++ rest).data.head? = some '[' := by
  simp [positionTag, data_append]

theorem annotate_bracket (node : Node) (message : String) (s : State)
    (h : message.data.head? = some '[') :
    annotate node (.stop (.error message) s) = .stop (.error message) s := by
  simp [annotate, h]

theorem annotate_lineTag (node : Node) (line : Nat) (rest : String) (s : State) :
    annotate node (.stop (.error (lineTag line ++ rest)) s)
      = .stop (.error (lineTag line ++ rest)) s :=
  annotate_bracket node _ s (lineTag_head line rest)

theorem annotate_annotate (outer inner : Node) (r : Result Value) :
    annotate outer (annotate inner r) = annotate inner r := by
  cases r with
  | ok v s => rfl
  | stop sig s =>
    cases sig with
    | error message =>
      by_cases h : message ≠ "" ∧ message.data.head? ≠ some '['
      · have : annotate inner (.stop (.error message) s)
            = .stop (.error (positionTag inner.position.1 inner.position.2 ++ message)) s := by
          simp only [annotate]
          rw [if_pos h]
        rw [this]
        exact annotate_bracket outer _ s (positionTag_head _ _ _)
      · have : annotate inner (.stop (.error message) s) = .stop (.error message) s := by
          simp only [annotate]
          rw [if_neg h]
        rw [this]
        simp only [annotate]
        rw [if_neg h]
    | _ => rfl

theorem annotate_evaluate (outer : Node) (fuel : Nat) (node : Node) (s : State) :
    annotate outer (evaluate fuel node s) = evaluate fuel node s := by
  cases fuel with
  | zero => rfl
  | succ n => rw [evaluate_succ, annotate_annotate]

/-- C27: the `catch` of `evaluate`. Every call of `evaluate` passes what its
`switch` raises through `annotate` with its own node; a user error of `lance`
and a Return pass unchanged; an internal error whose message starts with `[`,
as every position tag does, passes unchanged; an internal error whose message
is not empty and does not start with `[` gets the tag `[Ligne L, Col C] ` of
that node in front; and what leaves a call of `evaluate` is never changed by
the `catch` of an outer call: the node of the innermost call is the one whose
position is added, once. -/
theorem error_annotation :
    (∀ fuel node s,
      evaluate (fuel + 1) node s = annotate node (evalNode (evaluate fuel) fuel node s))
    ∧ (∀ node v line s, annotate node (.stop (.thrown v line) s) = .stop (.thrown v line) s)
    ∧ (∀ node v s, annotate node (.stop (.returned v) s) = .stop (.returned v) s)
    ∧ (∀ node message s, message.data.head? = some '[' →
        annotate node (.stop (.error message) s) = .stop (.error message) s)
    ∧ (∀ node line column rest s,
        annotate node (.stop (.error (positionTag line column ++ rest)) s)
          = .stop (.error (positionTag line column ++ rest)) s)
    ∧ (∀ node message s, message ≠ "" → message.data.head? ≠ some '[' →
        annotate node (.stop (.error message) s)
          = .stop (.error (positionTag node.position.1 node.position.2 ++ message)) s)
    ∧ (∀ outer fuel node s, annotate outer (evaluate fuel node s) = evaluate fuel node s)
    ∧ positionTag (some 2) (some 10) = "[Ligne 2, Col 10] "
    ∧ (runCode 50
        "classe A \x7b fonction __privateMethods__() \x7b \x7d prive fonction s() \x7b \x7d \x7d\nsoit o = nouveau A()"
        (Evaluator [])).signal?
        = some (.error "[Ligne 2, Col 10] instance.__privateMethods__.push is not a function")
    := by
  refine ⟨fun _ _ _ => rfl, fun _ _ _ _ => rfl, fun _ _ _ => rfl, ?_, ?_, ?_, ?_,
    by decide, by decide⟩
  · intro node message s h
    exact annotate_bracket node message s h
  · intro node line column rest s
    exact annotate_bracket node _ s (positionTag_head line column rest)
  · intro node message s h1 h2
    simp only [annotate]
    rw [if_pos ⟨h1, h2⟩]
  · intro outer fuel node s
    exact annotate_evaluate outer fuel node s

theorem error_annotation_witness :
    annotate (.Literal (.str "x") 2 10)
        (.stop (.error "instance.__privateMethods__.push is not a function") (Evaluator []))
      = .stop (.error (positionTag (Node.Literal (.str "x") 2 10).position.1
          (Node.Literal (.str "x") 2 10).position.2
          ++ "instance.__privateMethods__.push is not a function")) (Evaluator []) :=
  error_annotation.2.2.2.2.2.1 (.Literal (.str "x") 2 10)
    "instance.__privateMethods__.push is not a function" (Evaluator []) (by decide) (by decide)

/-- C26 (as amended): a BinaryExpression `/` whose operands evaluate and whose
right operand evaluates to 0 fails with the error `[Ligne L] Division par zéro`,
where `L` is the line of the expression: the message holds the line only, and
being tagged it passes the `catch` of `evaluate` unchanged. -/
theorem division_by_zero (fuel : Nat) (left right : Node) (line column : Nat)
    (s s1 s2 : State) (a : Value)
    (hl : evaluate fuel left s = .ok a s1) (hr : evaluate fuel right s1 = .ok (.num 0) s2) :
    evaluate (fuel + 1) (.BinaryExpression (.str "/") left right line column) s
      = .stop (.error (lineTag line ++ "Division par zéro")) s2 := by
  rw [evaluate_succ]
  have : evalNode (evaluate fuel) fuel (.BinaryExpression (.str "/") left right line column) s
      = .stop (.error (lineTag line ++ "Division par zéro")) s2 := by
    simp [evalNode, evaluateBinary, hl, hr, Result.bind, binaryOperation]
  rw [this, annotate_lineTag]

theorem division_by_zero_witness :
    evaluate 2 (.BinaryExpression (.str "/") (.Literal (.num "1") 1 8) (.Literal (.num "0") 1 10)
        1 9) (Evaluator [])
      = .stop (.error (lineTag 1 ++ "Division par zéro")) (Evaluator []) :=
  division_by_zero 1 (.Literal (.num "1") 1 8) (.Literal (.num "0") 1 10) 1 9
    (Evaluator []) (Evaluator []) (Evaluator []) (.num 1) rfl rfl

/-- C26, counterexample: the message of the error of `montre 1/0` is
`[Ligne 1] Division par zéro`; it holds no comma, while every message of the form
`[Ligne L, Col C] ...` holds one: no column is in it. -/
theorem division_message_has_no_column :
    (runCode 50 "montre 1/0" (Evaluator [])).signal?
        = some (.error "[Ligne 1] Division par zéro")
    ∧ ',' ∉ "[Ligne 1] Division par zéro".data
    ∧ ∀ line column rest, ',' ∈ (positionTag line column ++ rest).data := by
  refine ⟨by decide, by decide, ?_⟩
  intro line column rest
  simp [positionTag, data_append]

set_option maxRecDepth 100000 in
theorem null_receiver_example :
    (runCode 50 "fonction f() \x7b \x7d\nsoit r = f()\nr.m(g())" (Evaluator [])).signal?
      = some (.error "[Ligne 3] Impossible d'accéder à 'm' de null/undefined") := by decide

/-- C25 (as amended): a member access `r.m` or a call `r.m(...)` whose receiver
evaluates to the absent or the null value fails, in the state the receiver
leaves: no argument is evaluated, whatever the arguments are. For a member name
that is a string the error is
`[Ligne L] Impossible d'accéder à 'm' de null/undefined`; for a name every
object inherits from `Object.prototype` (`constructor`, `toString`, ...), of
which the lexer makes the inherited value, the message holds the host's text of
that value in the place of the name. In the program `fonction f() { }`,
`soit r = f()`, `r.m(g())` the function `g`, which is not defined, is not
called. -/
theorem null_receiver (fuel : Nat) (receiver : Node) (member : String) (line column : Nat)
    (s s1 : State) (r : Value)
    (hr : evaluate fuel receiver s = .ok r s1) (hnull : r = .undefined ∨ r = .null)
    (hm : member ≠ "") :
    (∀ args callLine callColumn,
      evaluate (fuel + 1)
          (.BinaryExpression (.str ".") receiver
            (.CallExpression (.str member) args callLine callColumn) line column) s
        = .stop (.error (lineTag line ++ "Impossible d'accéder à '" ++ member
            ++ "' de null/undefined")) s1)
    ∧ (∀ memberLine memberColumn,
      evaluate (fuel + 1)
          (.BinaryExpression (.str ".") receiver
            (.Identifier (.str member) memberLine memberColumn) line column) s
        = .stop (.error (lineTag line ++ "Impossible d'accéder à '" ++ member
            ++ "' de null/undefined")) s1)
    ∧ (∀ key args callLine callColumn,
      evaluate (fuel + 1)
          (.BinaryExpression (.str ".") receiver
            (.CallExpression (.inherited key) args callLine callColumn) line column) s
        = .stop (.error (lineTag line ++ "Impossible d'accéder à '" ++ inheritedText key
            ++ "' de null/undefined")) s1)
    ∧ (∀ key memberLine memberColumn,
      evaluate (fuel + 1)
          (.BinaryExpression (.str ".") receiver
            (.Identifier (.inherited key) memberLine memberColumn) line column) s
        = .stop (.error (lineTag line ++ "Impossible d'accéder à '" ++ inheritedText key
            ++ "' de null/undefined")) s1)
    ∧ (runCode 50 "fonction f() \x7b \x7d\nsoit r = f()\nr.m(g())" (Evaluator [])).signal?
        = some (.error "[Ligne 3] Impossible d'accéder à 'm' de null/undefined") := by
  have key : ∀ right, rightLabel right = some (.str member) →
      evaluate (fuel + 1) (.BinaryExpression (.str ".") receiver right line column) s
        = .stop (.error (lineTag line ++ "Impossible d'accéder à '" ++ member
            ++ "' de null/undefined")) s1 := by
    intro right hlabel
    rw [evaluate_succ]
    have : evalNode (evaluate fuel) fuel
        (.BinaryExpression (.str ".") receiver right line column) s
        = .stop (.error (lineTag line ++ ("Impossible d'accéder à '" ++ member
            ++ "' de null/undefined"))) s1 := by
      simp [evalNode, evaluateMember, hr, Result.bind, hlabel, TokenValue.toValue,
        Value.toKey, hnull, String.append_assoc]
    rw [this, annotate_lineTag]
    simp only [String.append_assoc]
  have inherited : ∀ right k, rightLabel right = some (.inherited k) →
      evaluate (fuel + 1) (.BinaryExpression (.str ".") receiver right line column) s
        = .stop (.error (lineTag line ++ "Impossible d'accéder à '" ++ inheritedText k
            ++ "' de null/undefined")) s1 := by
    intro right k hlabel
    rw [evaluate_succ]
    have : evalNode (evaluate fuel) fuel
        (.BinaryExpression (.str ".") receiver right line column) s
        = .stop (.error (lineTag line ++ ("Impossible d'accéder à '" ++ inheritedText k
            ++ "' de null/undefined"))) s1 := by
      simp [evalNode, evaluateMember, hr, Result.bind, hlabel, TokenValue.toValue,
        Value.toKey, hnull, String.append_assoc]
    rw [this, annotate_lineTag]
    simp only [String.append_assoc]
  refine ⟨fun args callLine callColumn => key _ rfl, fun memberLine memberColumn => key _ ?_,
    fun k args callLine callColumn => inherited _ k rfl,
    fun k memberLine memberColumn => inherited _ k (by simp [rightLabel, TokenValue.truthy]),
    null_receiver_example⟩
  simp [rightLabel, TokenValue.truthy, hm]

/-- C25, witness: the access `r.m` and the call `r.m(...)` where `r` is bound to
the null value. -/
theorem null_receiver_witness :
    (∀ args callLine callColumn,
      evaluate 2
          (.BinaryExpression (.str ".") (.Identifier (.str "r") 1 1)
            (.CallExpression (.str "m") args callLine callColumn) 1 2)
          { Evaluator [] with envs := [⟨[("r", .null)], none⟩] }
        = .stop (.error (lineTag 1 ++ "Impossible d'accéder à '" ++ "m"
            ++ "' de null/undefined")) { Evaluator [] with envs := [⟨[("r", .null)], none⟩] })
    ∧ (∀ memberLine memberColumn,
      evaluate 2
          (.BinaryExpression (.str ".") (.Identifier (.str "r") 1 1)
            (.Identifier (.str "m") memberLine memberColumn) 1 2)
          { Evaluator [] with envs := [⟨[("r", .null)], none⟩] }
        = .stop (.error (lineTag 1 ++ "Impossible d'accéder à '" ++ "m"
            ++ "' de null/undefined")) { Evaluator [] with envs := [⟨[("r", .null)], none⟩] }) :=
  ⟨(null_receiver 1 (.Identifier (.str "r") 1 1) "m" 1 2
      { Evaluator [] with envs := [⟨[("r", .null)], none⟩] }
      { Evaluator [] with envs := [⟨[("r", .null)], none⟩] } .null rfl (Or.inr rfl)
      (by decide)).1,
    (null_receiver 1 (.Identifier (.str "r") 1 1) "m" 1 2
      { Evaluator [] with envs := [⟨[("r", .null)], none⟩] }
      { Evaluator [] with envs := [⟨[("r", .null)], none⟩] } .null rfl (Or.inr rfl)
      (by decide)).2.1⟩

set_option maxRecDepth 100000 in
/-- C25, counterexample: in `r.constructor` the lexer replaces the member name by
the value `aliases["constructor"]`, which every object inherits; with a receiver
that is absent the access fails, and the message of the error holds the host's
text of that value, the function `Object`: the name `constructor` of the
accessed member is not in it. -/
theorem inherited_member_not_named :
    tokenize "r.constructor"
      = some (.ok [⟨.IDENTIFIER, .str "r", 1, 1⟩, ⟨.PUNCTUATION, .str ".", 1, 2⟩,
          ⟨.IDENTIFIER, .inherited "constructor", 1, 3⟩])
    ∧ (runCode 50 "fonction f() \x7b \x7d\nsoit r = f()\nr.constructor" (Evaluator [])).signal?
      = some (.error
          "[Ligne 3] Impossible d'accéder à 'function Object() \x7b [native code] \x7d' de null/undefined")
    ∧ ¬ ("constructor".data <:+:
          "[Ligne 3] Impossible d'accéder à 'function Object() \x7b [native code] \x7d' de null/undefined".data) := by
  refine ⟨by decide, by decide, by decide⟩

/-- C30: an IfStatement whose condition evaluates to `c` runs the statements of
the consequent, in order and once, when `c` is truthy; otherwise the statements
of the alternate when there is one, and nothing when there is none; it runs
nothing else. The program `soit x = 10` then
`si x > 5 { montre "big" } sinon { montre "small" }` prints `big` and nothing
else. -/
theorem if_statement (fuel : Nat) (condition : Node) (consequent : List Node)
    (alternate : Option (List Node)) (line column : Nat) (s s1 : State) (c : Value)
    (hc : evaluate fuel condition s = .ok c s1) :
    evaluate (fuel + 1) (.IfStatement condition consequent alternate line column) s
      = annotate (.IfStatement condition consequent alternate line column)
          (if c.truthy then
            (runStatements (evaluate fuel) consequent s1).bind fun _ s2 => .ok .undefined s2
          else
            match alternate with
            | some statements =>
              (runStatements (evaluate fuel) statements s1).bind fun _ s2 => .ok .undefined s2
            | none => .ok .undefined s1)
    ∧ (runCode 50
        "soit x = 10\nsi x > 5 \x7b montre \"big\" \x7d sinon \x7b montre \"small\" \x7d"
        (Evaluator [])).state.output = [[.str "big"]] := by
  refine ⟨?_, by decide⟩
  rw [evaluate_succ]
  simp only [evalNode, hc, Result.bind]

theorem if_statement_witness :
    evaluate 3 (.IfStatement (.Literal (.num "0") 1 4) [.PrintStatement [] 1 8]
        (some [.PrintStatement [] 1 20, .PrintStatement [] 1 30]) 1 1) (Evaluator [])
      = annotate (.IfStatement (.Literal (.num "0") 1 4) [.PrintStatement [] 1 8]
          (some [.PrintStatement [] 1 20, .PrintStatement [] 1 30]) 1 1)
          (if (Value.num 0).truthy then
            (runStatements (evaluate 2) [.PrintStatement [] 1 8] (Evaluator [])).bind
              fun _ s2 => .ok .undefined s2
          else
            match some [Node.PrintStatement [] 1 20, .PrintStatement [] 1 30] with
            | some statements =>
              (runStatements (evaluate 2) statements (Evaluator [])).bind
                fun _ s2 => .ok .undefined s2
            | none => .ok .undefined (Evaluator []))
    ∧ (runCode 50
        "soit x = 10\nsi x > 5 \x7b montre \"big\" \x7d sinon \x7b montre \"small\" \x7d"
        (Evaluator [])).state.output = [[.str "big"]] :=
  if_statement 2 (.Literal (.num "0") 1 4) [.PrintStatement [] 1 8]
    (some [.PrintStatement [] 1 20, .PrintStatement [] 1 30]) 1 1 (Evaluator []) (Evaluator [])
    (.num 0) rfl

/-! ## Built-ins and assignment targets -/

theorem sort_of_ordered (name : String) (s : State) (a : Nat) (elements : List Value)
    (hname : name = "croissant" ∨ name = "decroissant")
    (h : s.heap[a]? = some (.array elements))
    (hnum : ∀ v ∈ elements, v.isOrdered = true) :
    callBuiltIn name [.ref a] s
      = .ok (.ref s.heap.length)
          { s with heap := s.heap ++ [.array
              (if name = "croissant" then
                elements.insertionSort (fun x y => x.sortKey ≤ y.sortKey)
              else elements.insertionSort (fun x y => y.sortKey ≤ x.sortKey))] } := by
  have hall : elements.all Value.isOrdered = true := by
    rw [List.all_eq_true]
    exact hnum
  rcases hname with rfl | rfl
  · simp [callBuiltIn, h, hall]
  · simp [callBuiltIn, h, hall]

theorem ascending_of_ordered (elements : List Value)
    (hnum : ∀ v ∈ elements, v.isOrdered = true) :
    (elements.insertionSort (fun x y => x.sortKey ≤ y.sortKey)).Sorted Value.lessEq := by
  have hs := @List.sorted_insertionSort Value (fun x y => x.sortKey ≤ y.sortKey) _
      ⟨fun x y => le_total x.sortKey y.sortKey⟩ ⟨fun _ _ _ hab hbc => le_trans hab hbc⟩ elements
  refine List.Pairwise.imp_of_mem ?_ hs
  intro x y hx hy hxy
  exact ⟨hnum x ((List.perm_insertionSort _ elements).mem_iff.mp hx),
    hnum y ((List.perm_insertionSort _ elements).mem_iff.mp hy), hxy⟩

theorem descending_of_ordered (elements : List Value)
    (hnum : ∀ v ∈ elements, v.isOrdered = true) :
    (elements.insertionSort (fun x y => y.sortKey ≤ x.sortKey)).Sorted
      (fun x y => Value.lessEq y x) := by
  have hs := @List.sorted_insertionSort Value (fun x y => y.sortKey ≤ x.sortKey) _
      ⟨fun x y => le_total y.sortKey x.sortKey⟩ ⟨fun _ _ _ hab hbc => le_trans hbc hab⟩ elements
  refine List.Pairwise.imp_of_mem ?_ hs
  intro x y hx hy hxy
  exact ⟨hnum y ((List.perm_insertionSort _ elements).mem_iff.mp hy),
    hnum x ((List.perm_insertionSort _ elements).mem_iff.mp hx), hxy⟩

theorem sortKey_num_le (m n : Int) :
    (Value.num m).sortKey ≤ (Value.num n).sortKey ↔ m ≤ n := by
  simp [Value.sortKey]

theorem sortKey_double_le (p q : ℚ) :
    (Value.double p).sortKey ≤ (Value.double q).sortKey ↔ p ≤ q := by
  simp [Value.sortKey]

theorem sortKey_num_double (n : Int) (q : ℚ) :
    (Value.num n).sortKey ≤ (Value.double q).sortKey ↔ (n : ℚ) ≤ q := by
  simp [Value.sortKey]

theorem sortKey_double_num (q : ℚ) (n : Int) :
    (Value.double q).sortKey ≤ (Value.num n).sortKey ↔ q ≤ (n : ℚ) := by
  simp [Value.sortKey]

theorem sortKey_below (v : Value) : (Value.infinity true).sortKey ≤ v.sortKey := by
  simp [Value.sortKey]

theorem sortKey_double_below (q : ℚ) :
    ¬ (Value.double q).sortKey ≤ (Value.infinity true).sortKey := by
  simp [Value.sortKey]

theorem sortKey_num_below (n : Int) :
    ¬ (Value.num n).sortKey ≤ (Value.infinity true).sortKey := by
  simp [Value.sortKey]

/-- On integers the order of the sort keys is the order of the integers. -/
theorem map_num_sort (xs : List Int) :
    (xs.map Value.num).insertionSort (fun x y => x.sortKey ≤ y.sortKey)
      = (xs.insertionSort (fun x y => x ≤ y)).map Value.num :=
  (List.map_insertionSort (fun x y => x ≤ y) (fun x y => x.sortKey ≤ y.sortKey) Value.num xs
    (fun a _ b _ => (sortKey_num_le a b).symm)).symm

/-- The literal `2.5` is the double 5/2. -/
theorem literal_fraction : TokenValue.toValue (.num "2.5") = some (.double (5 / 2)) := by
  have h : TokenValue.toValue (.num "2.5") = some (.double (((25 / 5 ^ 1 : Nat) : ℚ) / 2 ^ 1)) :=
    rfl
  rw [h]
  norm_num

/-- An array with a NaN and another number has no ascending order. -/
theorem no_order_with_nan (l : List Value) (hp : l.Perm [.nan, .num 1]) :
    ¬ l.Sorted Value.lessEq := by
  intro hs
  have h1 : Value.nan ∈ l := hp.mem_iff.mpr (by simp)
  have h2 : Value.num 1 ∈ l := hp.mem_iff.mpr (by simp)
  have hsym : l.Pairwise (fun x y => Value.lessEq x y ∨ Value.lessEq y x) :=
    List.Pairwise.imp (fun h => Or.inl h) hs
  have := List.Pairwise.forall (fun x y h => h.symm) hsym h1 h2 (by decide)
  rcases this with h | h
  · exact absurd h.1 (by decide)
  · exact absurd h.2.1 (by decide)

set_option maxRecDepth 100000 in
/-- C31 (amended): for an array `elements` of numbers other than NaN at the
address `a` (integers, fractions, the two infinities), `croissant` returns a new
array holding a permutation of `elements` in ascending order and `decroissant`
one in descending order; the heap the call leaves is the heap before it with the
new array appended, so the argument array is as before. On integers the order is
the order of the integers; the literal `2.5` is the double 5/2, and the array
`[2.5, 2, -Infinity, 1.5]` is sorted to `[-Infinity, 1.5, 2, 2.5]`. -/
theorem sort_builtins (s : State) (a : Nat) (elements : List Value)
    (h : s.heap[a]? = some (.array elements))
    (hnum : ∀ v ∈ elements, v.isOrdered = true) :
    callBuiltIn "croissant" [.ref a] s
      = .ok (.ref s.heap.length)
          { s with heap := s.heap
              ++ [.array (elements.insertionSort (fun x y => x.sortKey ≤ y.sortKey))] }
    ∧ (elements.insertionSort (fun x y => x.sortKey ≤ y.sortKey)).Perm elements
    ∧ (elements.insertionSort (fun x y => x.sortKey ≤ y.sortKey)).Sorted Value.lessEq
    ∧ callBuiltIn "decroissant" [.ref a] s
      = .ok (.ref s.heap.length)
          { s with heap := s.heap
              ++ [.array (elements.insertionSort (fun x y => y.sortKey ≤ x.sortKey))] }
    ∧ (elements.insertionSort (fun x y => y.sortKey ≤ x.sortKey)).Perm elements
    ∧ (elements.insertionSort (fun x y => y.sortKey ≤ x.sortKey)).Sorted
        (fun x y => Value.lessEq y x)
    ∧ (∀ extra : Obj, (s.heap ++ [extra])[a]? = some (.array elements))
    ∧ (∀ xs : List Int,
        (∀ v ∈ xs.map Value.num, v.isOrdered = true)
        ∧ (xs.map Value.num).insertionSort (fun x y => x.sortKey ≤ y.sortKey)
          = (xs.insertionSort (fun x y => x ≤ y)).map Value.num)
    ∧ TokenValue.toValue (.num "2.5") = some (.double (5 / 2))
    ∧ [Value.double (5 / 2), .num 2, .infinity true, .double (3 / 2)].insertionSort
          (fun x y => x.sortKey ≤ y.sortKey)
        = [.infinity true, .double (3 / 2), .num 2, .double (5 / 2)]
    ∧ (runCode 50 "soit xs = [3, 1, 2]\nmontre croissant(xs)\nmontre xs" (Evaluator [])).state.heap
        = [.array [.num 3, .num 1, .num 2], .array [.num 1, .num 2, .num 3]]
    ∧ (runCode 50 "soit xs = [3, 1, 2]\nmontre croissant(xs)\nmontre xs" (Evaluator [])).state.output
        = [[.ref 1], [.ref 0]] := by
  have hlt : a < s.heap.length := by
    rcases Nat.lt_or_ge a s.heap.length with hlt | hge
    · exact hlt
    · rw [List.getElem?_eq_none hge] at h; cases h
  refine ⟨?_, List.perm_insertionSort _ elements, ascending_of_ordered elements hnum, ?_,
    List.perm_insertionSort _ elements, descending_of_ordered elements hnum, ?_, ?_,
    literal_fraction, ?_, ?_, by decide⟩
  · exact sort_of_ordered "croissant" s a elements (Or.inl rfl) h hnum
  · exact sort_of_ordered "decroissant" s a elements (Or.inr rfl) h hnum
  · intro extra
    rw [List.getElem?_append_left hlt, h]
  · intro xs
    refine ⟨?_, map_num_sort xs⟩
    intro v hv
    obtain ⟨x, _, rfl⟩ := List.mem_map.mp hv
    rfl
  · norm_num [List.insertionSort, List.orderedInsert, sortKey_double_le, sortKey_num_double,
      sortKey_double_num, sortKey_below, sortKey_double_below, sortKey_num_below]
  · decide

theorem sort_builtins_witness :
    callBuiltIn "croissant" [.ref 0]
        { Evaluator [] with
          heap := [.array [.double (5 / 2), .num 2, .infinity true, .double (3 / 2)]] }
      = .ok (.ref 1)
          { Evaluator [] with
            heap := [.array [.double (5 / 2), .num 2, .infinity true, .double (3 / 2)]]
              ++ [.array ([Value.double (5 / 2), .num 2, .infinity true,
                    .double (3 / 2)].insertionSort (fun x y => x.sortKey ≤ y.sortKey))] }
    ∧ ([Value.double (5 / 2), .num 2, .infinity true, .double (3 / 2)].insertionSort
        (fun x y => x.sortKey ≤ y.sortKey)).Sorted Value.lessEq :=
  have hnum : ∀ v ∈ [Value.double (5 / 2), .num 2, .infinity true, .double (3 / 2)],
      v.isOrdered = true := by
    intro v hv
    simp only [List.mem_cons, List.mem_singleton, List.not_mem_nil, or_false] at hv
    rcases hv with rfl | rfl | rfl | rfl <;> rfl
  have all := sort_builtins
    { Evaluator [] with
      heap := [.array [.double (5 / 2), .num 2, .infinity true, .double (3 / 2)]] } 0
    [.double (5 / 2), .num 2, .infinity true, .double (3 / 2)] rfl hnum
  ⟨all.1, all.2.2.1⟩

set_option maxRecDepth 100000 in
/-- C31 fails as stated: a list of numbers may hold NaN. The program
`soit xs = ["a" * 1, 1]` builds the array `[NaN, 1]`; as neither `NaN <= 1` nor
`1 <= NaN` holds, no permutation of it is in ascending order, whatever
`croissant(xs)` returns. With the comparator `a - b` yielding NaN, the order of
the result is left to the host, and the embedding does not choose one. -/
theorem nan_has_no_ascending_order :
    (runCode 50 "soit xs = [\"a\" * 1, 1]" (Evaluator [])).state.heap
        = [.array [.nan, .num 1]]
    ∧ (∀ l : List Value, l.Perm [.nan, .num 1] → ¬ l.Sorted Value.lessEq)
    ∧ (∀ l : List Value, l.Perm [.nan, .num 1] → ¬ l.Sorted (fun x y => Value.lessEq y x))
    ∧ (runCode 50 "soit xs = [\"a\" * 1, 1]\nmontre croissant(xs)" (Evaluator [])).signal?
        = some (.unsupported "sort with NaN: the order is the choice of the host") := by
  refine ⟨by decide, no_order_with_nan, ?_, by decide⟩
  intro l hp hs
  have hr : l.reverse.Sorted Value.lessEq := by
    have := List.pairwise_reverse.mpr hs
    exact this
  exact no_order_with_nan l.reverse ((List.reverse_perm l).trans hp) hr

/-- A node that is neither an Identifier nor a MemberExpression. -/
theorem invalid_target_cases (ev : Node → State → Result Value) (fuel : Nat)
    (left right : Node) (line column : Nat) (s s1 : State) (v : Value)
    (hr : ev right s = .ok v s1)
    (hid : ∀ name l c, left ≠ .Identifier name l c)
    (hmem : ∀ object property l c, left ≠ .MemberExpression object property l c) :
    evalNode ev fuel (.AssignmentExpression left right line column) s
      = .stop (.error (lineTag line ++ "Cible d'assignation invalide")) s1 := by
  cases left with
  | Identifier name l c => exact absurd rfl (hid name l c)
  | MemberExpression object property l c => exact absurd rfl (hmem object property l c)
  | _ => simp [evalNode, hr, Result.bind]

/-- C36: an AssignmentExpression whose left side is neither an Identifier nor a
MemberExpression, and whose right side (which is evaluated first) evaluates to a
value, fails with the error `[Ligne L] Cible d'assignation invalide`, in the
state the right side leaves: the assignment itself changes no environment, no
object and prints nothing. The programs `5 = 3` and `f() = 1` fail this way. -/
theorem invalid_assignment_target (fuel : Nat) (left right : Node) (line column : Nat)
    (s s1 : State) (v : Value)
    (hr : evaluate fuel right s = .ok v s1)
    (hid : ∀ name l c, left ≠ .Identifier name l c)
    (hmem : ∀ object property l c, left ≠ .MemberExpression object property l c) :
    evaluate (fuel + 1) (.AssignmentExpression left right line column) s
      = .stop (.error (lineTag line ++ "Cible d'assignation invalide")) s1
    ∧ (runCode 50 "5 = 3" (Evaluator [])).signal?
        = some (.error "[Ligne 1] Cible d'assignation invalide")
    ∧ (runCode 50 "f() = 1" (Evaluator [])).signal?
        = some (.error "[Ligne 1] Cible d'assignation invalide")
    ∧ (runCode 50 "5 = 3" (Evaluator [])).state.envs = (Evaluator []).envs := by
  refine ⟨?_, by decide, by decide, by decide⟩
  rw [evaluate_succ, invalid_target_cases (evaluate fuel) fuel left right line column s s1 v hr
    hid hmem, annotate_lineTag]

theorem invalid_assignment_target_witness :
    evaluate 2 (.AssignmentExpression (.Literal (.num "5") 1 1) (.Literal (.num "3") 1 5) 1 3)
        (Evaluator [])
      = .stop (.error (lineTag 1 ++ "Cible d'assignation invalide")) (Evaluator [])
    ∧ (runCode 50 "5 = 3" (Evaluator [])).signal?
        = some (.error "[Ligne 1] Cible d'assignation invalide")
    ∧ (runCode 50 "f() = 1" (Evaluator [])).signal?
        = some (.error "[Ligne 1] Cible d'assignation invalide")
    ∧ (runCode 50 "5 = 3" (Evaluator [])).state.envs = (Evaluator []).envs :=
  invalid_assignment_target 1 (.Literal (.num "5") 1 1) (.Literal (.num "3") 1 5) 1 3
    (Evaluator []) (Evaluator []) (.num 3) rfl (fun _ _ _ h => by cases h)
    (fun _ _ _ _ h => by cases h)

/-! ## Environments -/

theorem has_eq_defines (envs : List Environment) (id : Nat) (e : Environment) (name : String)
    (he : envs[id]? = some e) (hn : name ∉ objectPrototypeKeys) :
    e.has name = defines envs name id := by
  simp [Environment.has, defines, binding, he, hn]

theorem read_of_binding (envs : List Environment) (id : Nat) (e : Environment) (name : String)
    (v : Value) (he : envs[id]? = some e) (hb : binding envs id name = some v) :
    e.read name = v := by
  simp [binding, he] at hb
  simp [Environment.read, hb]

/-- The method `get` walks the chain to the nearest frame that defines the name. -/
theorem get_eq_nearest (name : String) (hn : name ∉ objectPrototypeKeys)
    (envs : List Environment) :
    ∀ (fuel id : Nat), Environment.rooted fuel envs id = true →
      Environment.get fuel envs id name =
        match (nearest fuel envs id name).bind fun j => binding envs j name with
        | some v => .found v
        | none => .unbound := by
  intro fuel
  induction fuel with
  | zero => intro id h; simp [Environment.rooted] at h
  | succ fuel ih =>
    intro id h
    simp only [Environment.rooted] at h
    cases he : envs[id]? with
    | none => simp [he] at h
    | some e =>
      simp only [he] at h
      simp only [Environment.get, he, nearest, Environment.chain, List.find?_cons]
      rw [has_eq_defines envs id e name he hn]
      cases hd : defines envs name id with
      | true =>
        simp only [if_true]
        have : ∃ v, binding envs id name = some v := by
          simpa [defines, Option.isSome_iff_exists] using hd
        obtain ⟨v, hv⟩ := this
        simp [hv, read_of_binding envs id e name v he hv]
      | false =>
        simp only [Bool.false_eq_true, if_false]
        cases hp : e.parent with
        | none => simp
        | some p =>
          simp only [hp] at h
          simpa [nearest] using ih p h

theorem find?_eq_none_iff_chain (envs : List Environment) (name : String) (l : List Nat) :
    l.find? (defines envs name) = none ↔ ∀ j ∈ l, defines envs name j = false := by
  simp [List.find?_eq_none]

theorem nearest_binding (fuel : Nat) (envs : List Environment) (id : Nat) (name : String)
    (j : Nat) (h : nearest fuel envs id name = some j) :
    ∃ v, binding envs j name = some v := by
  have := List.find?_some h
  simpa [defines, Option.isSome_iff_exists] using this


theorem lookup_mem {α : Type} (d : List (String × α)) (k : String) (v : α)
    (h : d.lookup k = some v) : (k, v) ∈ d := by
  induction d with
  | nil => simp at h
  | cons a d ih =>
    obtain ⟨a1, a2⟩ := a
    rw [List.lookup_cons] at h
    by_cases hk : k = a1
    · subst hk
      simp at h
      subst h
      simp
    · have h3 : (k == a1) = false := by simpa using hk
      rw [h3] at h
      exact List.mem_cons_of_mem _ (ih h)

/-- A word of the source never becomes a string that names a property of
`Object.prototype`: `aliases[identifier]` replaces such a word by the inherited
value. -/
theorem applyAlias_str (w k : String) (h : applyAlias w = .str k) :
    k ∉ objectPrototypeKeys := by
  unfold applyAlias aliasLookup at h
  cases hl : aliases.lookup w with
  | some v =>
    simp only [hl] at h
    cases h
    have hmem := lookup_mem aliases w k hl
    have hall : ∀ p ∈ aliases, p.2 ∉ objectPrototypeKeys := by decide
    exact hall _ hmem
  | none =>
    simp only [hl] at h
    by_cases hw : w ∈ objectPrototypeKeys
    · simp [hw] at h
    · simp only [hw, if_false] at h
      cases h
      exact hw

/-- C28: on a chain of environments, and for a name that is a string the lexer
produces (none is a property of `Object.prototype`), `Environment.get` returns
the value that the nearest frame of the chain defining the name binds to it, and
fails with the unbound-variable error exactly when no frame of the chain, the
root included, defines the name. -/
theorem get_nearest_binding (fuel : Nat) (envs : List Environment) (id : Nat) (name : String)
    (hroot : Environment.rooted fuel envs id = true) (hn : name ∉ objectPrototypeKeys) :
    (∀ j, nearest fuel envs id name = some j →
      ∃ v, binding envs j name = some v ∧ Environment.get fuel envs id name = .found v)
    ∧ (Environment.get fuel envs id name = .unbound ↔
        ∀ j ∈ Environment.chain fuel envs id, defines envs name j = false)
    ∧ (∀ line column s, s.envs = envs → s.env = id → fuel = envs.length →
        (∀ j ∈ Environment.chain fuel envs id, defines envs name j = false) →
        evaluate 1 (.Identifier (.str name) line column) s
          = .stop (.error (positionTag (some line) (some column)
              ++ "Variable non définie: " ++ name)) s)
    ∧ (∀ word line column k, (wordToken word line column).value = .str k →
        k ∉ objectPrototypeKeys) := by
  have hget := get_eq_nearest name hn envs fuel id hroot
  have hunbound : Environment.get fuel envs id name = .unbound ↔
      ∀ j ∈ Environment.chain fuel envs id, defines envs name j = false := by
    rw [hget, ← find?_eq_none_iff_chain]
    cases hnear : nearest fuel envs id name with
    | none => simpa [nearest] using hnear
    | some j =>
      obtain ⟨v, hv⟩ := nearest_binding fuel envs id name j hnear
      have hne : List.find? (defines envs name) (Environment.chain fuel envs id) ≠ none := by
        rw [show List.find? (defines envs name) (Environment.chain fuel envs id)
          = nearest fuel envs id name from rfl, hnear]
        simp
      simp [hv, hne]
  refine ⟨?_, hunbound, ?_, ?_⟩
  · intro j hj
    obtain ⟨v, hv⟩ := nearest_binding fuel envs id name j hj
    exact ⟨v, hv, by rw [hget, hj]; simp [hv]⟩
  · intro line column s hs hid hfuel hnone
    subst hs hid
    have hu := hunbound.2 hnone
    rw [hfuel] at hu
    rw [evaluate_succ]
    simp only [evalNode, TokenValue.key, TokenValue.toValue, Option.bind, Value.toKey, hu,
      unboundMessage]
    exact annotate_bracket _ _ _ (by
      rw [String.append_assoc]; exact positionTag_head _ _ _)
  · intro word line column k hk
    exact applyAlias_str (String.mk word) k (by rw [← wordToken_value word line column]; exact hk)

theorem get_nearest_binding_witness :
    ∃ v, binding [⟨[("x", .num 1)], none⟩, ⟨[("y", .num 2)], some 0⟩] 0 "x" = some v
      ∧ Environment.get 2 [⟨[("x", .num 1)], none⟩, ⟨[("y", .num 2)], some 0⟩] 1 "x"
        = .found v :=
  (get_nearest_binding 2 [⟨[("x", .num 1)], none⟩, ⟨[("y", .num 2)], some 0⟩] 1 "x" rfl
    (by decide)).1 0 rfl

theorem define_eq_rebind (envs : List Environment) (id : Nat) (name : String) (value : Value)
    (e : Environment) (he : envs[id]? = some e) (hn : name ≠ "__proto__") :
    Environment.define envs id name value = some (rebind envs id name value) := by
  simp [Environment.define, rebind, he, hn]

theorem length_rebind (envs : List Environment) (id : Nat) (name : String) (value : Value) :
    (rebind envs id name value).length = envs.length := by
  unfold rebind
  split <;> simp

/-- The bindings of a heap of environments after one binding was set. -/
theorem binding_rebind (envs : List Environment) (id : Nat) (name : String) (value : Value)
    (hid : id < envs.length) (i : Nat) (k : String) :
    binding (rebind envs id name value) i k =
      if i = id ∧ k = name then some value else binding envs i k := by
  have he : envs[id]? = some envs[id] := List.getElem?_eq_getElem hid
  simp only [rebind, he, binding]
  by_cases hi : i = id
  · subst hi
    rw [List.getElem?_set_self hid]
    simp only [Option.some_bind, lookup_dictSet, true_and, he]
  · rw [List.getElem?_set_ne (fun h => hi h.symm)]
    simp [hi]

theorem parent_rebind (envs : List Environment) (id : Nat) (name : String) (value : Value)
    (i : Nat) :
    ((rebind envs id name value)[i]?).map Environment.parent
      = (envs[i]?).map Environment.parent := by
  unfold rebind
  cases he : envs[id]? with
  | none => rfl
  | some e =>
    simp only
    by_cases hi : i = id
    · subst hi
      have hid : i < envs.length := by
        rcases Nat.lt_or_ge i envs.length with h | h
        · exact h
        · rw [List.getElem?_eq_none h] at he; cases he
      rw [List.getElem?_set_self hid, he]
      rfl
    · rw [List.getElem?_set_ne (fun h => hi h.symm)]

/-- The method `assign` walks the chain to the nearest frame that defines the
name and sets the binding there. -/
theorem assign_eq_nearest (name : String) (value : Value) (hn : name ∉ objectPrototypeKeys)
    (envs : List Environment) :
    ∀ (fuel id : Nat), Environment.rooted fuel envs id = true →
      Environment.assign fuel envs id name value =
        match nearest fuel envs id name with
        | some j => .done (rebind envs j name value)
        | none => .unbound := by
  have hproto : name ≠ "__proto__" := by
    intro h; apply hn; rw [h]; decide
  intro fuel
  induction fuel with
  | zero => intro id h; simp [Environment.rooted] at h
  | succ fuel ih =>
    intro id h
    simp only [Environment.rooted] at h
    cases he : envs[id]? with
    | none => simp [he] at h
    | some e =>
      simp only [he] at h
      simp only [Environment.assign, he, nearest, Environment.chain, List.find?_cons]
      rw [has_eq_defines envs id e name he hn]
      cases hd : defines envs name id with
      | true =>
        simp only [if_true, define_eq_rebind envs id name value e he hproto]
      | false =>
        simp only [Bool.false_eq_true, if_false]
        cases hp : e.parent with
        | none => simp
        | some p =>
          simp only [hp] at h
          simpa [nearest] using ih p h

/-- C37: on a chain of environments, and for a name that is a string the lexer
produces, `Environment.assign(n, v)` sets the binding of `n` in the nearest frame
of the chain that defines `n`: afterwards that frame binds `n` to `v`, every
other binding of every frame is as before, no frame defines a name it did not
define, and the parents are as before. When no frame of the chain defines `n`
the result is the unbound-variable error, which carries no changed heap.
`Environment.define(n, v)` sets the binding of `n` in the frame it is called on
and changes nothing else. -/
theorem assign_frame (fuel : Nat) (envs : List Environment) (id : Nat) (n : String)
    (v : Value) (hroot : Environment.rooted fuel envs id = true)
    (hn : n ∉ objectPrototypeKeys) :
    (∀ j, nearest fuel envs id n = some j →
      Environment.assign fuel envs id n v = .done (rebind envs j n v)
      ∧ binding (rebind envs j n v) j n = some v
      ∧ (∀ i k, ¬ (i = j ∧ k = n) → binding (rebind envs j n v) i k = binding envs i k)
      ∧ (∀ i k, defines (rebind envs j n v) k i = defines envs k i)
      ∧ (∀ i : Nat, ((rebind envs j n v)[i]?).map Environment.parent
            = (envs[i]?).map Environment.parent)
      ∧ (rebind envs j n v).length = envs.length)
    ∧ (nearest fuel envs id n = none → Environment.assign fuel envs id n v = .unbound)
    ∧ (∀ e, envs[id]? = some e →
      Environment.define envs id n v = some (rebind envs id n v)
      ∧ binding (rebind envs id n v) id n = some v
      ∧ (∀ i k, ¬ (i = id ∧ k = n) → binding (rebind envs id n v) i k = binding envs i k)) := by
  have hassign := assign_eq_nearest n v hn envs fuel id hroot
  have hproto : n ≠ "__proto__" := by
    intro h; apply hn; rw [h]; decide
  have hlt : ∀ j e, envs[j]? = some e → j < envs.length := by
    intro j e he
    rcases Nat.lt_or_ge j envs.length with h | h
    · exact h
    · rw [List.getElem?_eq_none h] at he; cases he
  refine ⟨?_, ?_, ?_⟩
  · intro j hj
    obtain ⟨w, hw⟩ := nearest_binding fuel envs id n j hj
    have hjlt : j < envs.length := by
      cases he : envs[j]? with
      | none => simp [binding, he] at hw
      | some e => exact hlt j e he
    refine ⟨by rw [hassign, hj], ?_, ?_, ?_, parent_rebind envs j n v, length_rebind envs j n v⟩
    · rw [binding_rebind envs j n v hjlt]; simp
    · intro i k hik
      rw [binding_rebind envs j n v hjlt, if_neg hik]
    · intro i k
      simp only [defines]
      rw [binding_rebind envs j n v hjlt]
      by_cases hik : i = j ∧ k = n
      · obtain ⟨rfl, rfl⟩ := hik
        simp [hw]
      · rw [if_neg hik]
  · intro hnone
    rw [hassign, hnone]
  · intro e he
    have hid := hlt id e he
    refine ⟨define_eq_rebind envs id n v e he hproto, ?_, ?_⟩
    · rw [binding_rebind envs id n v hid]; simp
    · intro i k hik
      rw [binding_rebind envs id n v hid, if_neg hik]

theorem assign_frame_witness :
    Environment.assign 2 [⟨[("x", .num 1)], none⟩, ⟨[("y", .num 2)], some 0⟩] 1 "x" (.num 5)
        = .done (rebind [⟨[("x", .num 1)], none⟩, ⟨[("y", .num 2)], some 0⟩] 0 "x" (.num 5))
    ∧ rebind [⟨[("x", .num 1)], none⟩, ⟨[("y", .num 2)], some 0⟩] 0 "x" (.num 5)
        = [⟨[("x", .num 5)], none⟩, ⟨[("y", .num 2)], some 0⟩] :=
  ⟨((assign_frame 2 [⟨[("x", .num 1)], none⟩, ⟨[("y", .num 2)], some 0⟩] 1 "x" (.num 5) rfl
    (by decide)).1 0 rfl).1, by decide⟩

/-! ## `inclure` -/

/-- C29: `inclure`. When the code of the file completes, the statement leaves the
state that evaluating the program of the file in place leaves (`splices`). A
`lance v` or a `renvoie v` of the file does not leave the statement as it is: the
`catch` of evaluator.js:429-431 throws every caught object again as
`new Error(... e.message)`, and for the object of `lance` and for a ReturnValue
`e.message` is `undefined`. With the file `inc.bh` holding `lance 5`, the handler
of `essaye { inclure "inc.bh" } attrape (e) { montre e }` prints the text of that
Error, while with the statement in place it prints 5; with the file holding
`renvoie 1`, the call of `fonction f() { inclure "inc.bh" renvoie 2 }` fails,
while with the statement in place it returns 1. -/
theorem include_wraps_signals :
    (∀ (ev : Node → State → Result Value) (path : TokenValue) (p : String) (line : Nat)
        (s s1 : State) (code : String) (tokens : List Token) (ast : Node) (v : Value),
        path.key = some p → s.files.lookup p = some code →
        tokenize code = some (.ok tokens) → parse tokens = some (.ok ast) →
        ev ast s = .ok v s1 → evalInclude ev path line s = .ok .undefined s1)
    ∧ (runCode 50 "inclure \"inc.bh\"\nmontre x" (Evaluator [("inc.bh", "soit x = 1\nmontre 2")])
        ).state.output = [[.num 2], [.num 1]]
    ∧ (runCode 50 "inclure \"inc.bh\"" (Evaluator [("inc.bh", "lance 5")])).signal?
        = some (.error "[Ligne 1] Erreur lors de l'inclusion de 'inc.bh': undefined")
    ∧ (runCode 50 "lance 5" (Evaluator [("inc.bh", "lance 5")])).signal?
        = some (.thrown (.num 5) 1)
    ∧ (runCode 50 "essaye \x7b inclure \"inc.bh\" \x7d attrape (e) \x7b montre e \x7d"
        (Evaluator [("inc.bh", "lance 5")])).state.output
        = [[.str "[Ligne 1] Erreur lors de l'inclusion de 'inc.bh': undefined"]]
    ∧ (runCode 50 "essaye \x7b lance 5 \x7d attrape (e) \x7b montre e \x7d"
        (Evaluator [("inc.bh", "lance 5")])).state.output = [[.num 5]]
    ∧ (runCode 50 "fonction f() \x7b inclure \"inc.bh\"\nrenvoie 2 \x7d\nmontre f()"
        (Evaluator [("inc.bh", "renvoie 1")])).signal?
        = some (.error "[Ligne 1] Erreur lors de l'inclusion de 'inc.bh': undefined")
    ∧ (runCode 50 "fonction f() \x7b renvoie 1\nrenvoie 2 \x7d\nmontre f()"
        (Evaluator [("inc.bh", "renvoie 1")])).state.output = [[.num 1]] := by
  refine ⟨?_, by decide, by decide, by decide, by decide, by decide, by decide, by decide⟩
  intro ev path p line s s1 code tokens ast v hp hf ht hparse hev
  simp [evalInclude, hp, hf, ht, hparse, hev]

/-! ## Statements of the grammar -/

theorem is_of_value (t : Token) (a b : String) (h : t.is a = true) (hab : a ≠ b) :
    t.is b = false := by
  simp only [Token.is, decide_eq_true_eq] at h
  simp [Token.is, h, hab]

theorem not_binary_of_eq (t : Token) (h : t.is "=" = true) : t.isBinaryOperator = false := by
  cases hb : t.isBinaryOperator with
  | false => rfl
  | true => rw [isBinaryOperator_not_eq t hb] at h; cases h

theorem binary_of_dot (t : Token) (h : t.is "." = true) : t.isBinaryOperator = true := by
  simp only [Token.is, decide_eq_true_eq] at h
  simp [Token.isBinaryOperator, binaryOperators, Token.is, h]

theorem parseBody_cons (fuel : Nat) (t : Token) (toks : List Token) :
    parseBody (fuel + 1) (t :: toks) =
      (parseStatement fuel (t :: toks)).bind fun stmt r =>
        (parseBody fuel r).bind fun stmts r' => .ok (stmt :: stmts) r' := by
  rw [parseBody]

/-- C39: a statement that starts `a . b =`, for identifiers `a` and `b`, does not
parse: the loop of `parseExpression` folds `a . b` and stops at `=`, which then
starts the next statement and is refused by `parsePrimary` with the error
`Expression inattendue: =`, whatever follows. The bracket form `a[i] = e` parses
to an AssignmentExpression whose left side is the MemberExpression of `a` and
`i`. -/
theorem dotted_assignment_rejected (a dot b eq : Token) (rest : List Token)
    (ha : a.type = .IDENTIFIER) (hb : b.type = .IDENTIFIER)
    (ha1 : a.is "(" = false) (hb1 : b.is "(" = false)
    (hdot : dot.is "." = true) (heq : eq.is "=" = true) (heqt : eq.type = .OPERATOR) :
    parse (a :: dot :: b :: eq :: rest)
      = some (.error (.unexpectedExpression eq.value eq.line))
    ∧ (∀ (fuel : Nat) (lbracket rbracket : Token) (toks toks2 rest2 : List Token)
        (index right : Node),
        lbracket.is "[" = true → rbracket.is "]" = true →
        parseExpression fuel toks = .ok index (rbracket :: eq :: toks2) →
        parseExpression (fuel + 1) toks2 = .ok right rest2 →
        parseExpression (fuel + 2) (a :: lbracket :: toks)
          = .ok (.AssignmentExpression
              (.MemberExpression (.Identifier a.value a.line a.column) index a.line a.column)
              right eq.line eq.column) rest2)
    ∧ parseSource "ceci.nom = n"
        = some (.error (.parse (.unexpectedExpression (.str "=") 1)))
    ∧ parseSource "a[\"b\"] = 1"
        = some (.ok (.Program [.ExpressionStatement
            (.AssignmentExpression
              (.MemberExpression (.Identifier (.str "a") 1 1) (.Literal (.str "b") 1 3) 1 1)
              (.Literal (.num "1") 1 10) 1 8) 1 1])) := by
  have hdot1 : dot.is "(" = false := is_of_value dot "." "(" hdot (by decide)
  have hdot2 : dot.is "[" = false := is_of_value dot "." "[" hdot (by decide)
  have hdot3 : dot.is "=" = false := is_of_value dot "." "=" hdot (by decide)
  have heq1 : eq.is "(" = false := is_of_value eq "=" "(" heq (by decide)
  have heq2 : eq.is "[" = false := is_of_value eq "=" "[" heq (by decide)
  have heq3 : eq.is "\x7b" = false := is_of_value eq "=" "\x7b" heq (by decide)
  have heq4 : eq.is "\x7d" = false := is_of_value eq "=" "\x7d" heq (by decide)
  refine ⟨?_, ?_, rfl, rfl⟩
  · obtain ⟨n, hn⟩ : ∃ n, 8 * (a :: dot :: b :: eq :: rest).length + 8 = n + 6 :=
      ⟨8 * rest.length + 34, by simp only [List.length_cons]; omega⟩
    have hprim_a : ∀ f, parsePrimary (f + 1) (a :: dot :: b :: eq :: rest)
        = .ok (.Identifier a.value a.line a.column) (dot :: b :: eq :: rest) :=
      fun f => parsePrimary_identifier f a _ ha ha1 (by simp [peekIs, hdot1])
        (by simp [peekIs, hdot2])
    have hprim_b : ∀ f, parsePrimary (f + 1) (b :: eq :: rest)
        = .ok (.Identifier b.value b.line b.column) (eq :: rest) :=
      fun f => parsePrimary_identifier f b _ hb hb1 (by simp [peekIs, heq1])
        (by simp [peekIs, heq2])
    have hexpr : parseExpression (n + 4) (a :: dot :: b :: eq :: rest)
        = .ok (.BinaryExpression dot.value (.Identifier a.value a.line a.column)
            (.Identifier b.value b.line b.column) dot.line dot.column) (eq :: rest) := by
      rw [parseExpression_succ, hprim_a]
      simp only [Res.bind, hdot3, Bool.false_eq_true, if_false]
      rw [binaryLoop_succ]
      simp only [binary_of_dot dot hdot, if_true, hprim_b, Res.bind]
      rw [binaryLoop_succ]
      simp only [not_binary_of_eq eq heq, Bool.false_eq_true, if_false]
    have hstmt1 : parseStatement (n + 5) (a :: dot :: b :: eq :: rest)
        = .ok (.ExpressionStatement (.BinaryExpression dot.value
            (.Identifier a.value a.line a.column) (.Identifier b.value b.line b.column)
            dot.line dot.column) a.line a.column) (eq :: rest) := by
      simp [parseStatement, ha, hexpr, Res.bind]
    have hstmt2 : parseStatement (n + 4) (eq :: rest)
        = .fail (.unexpectedExpression eq.value eq.line) := by
      simp [parseStatement, heqt, parseExpression, parsePrimary, heq1, heq2, heq3, Res.bind]
    have hbody : parseBody (n + 6) (a :: dot :: b :: eq :: rest)
        = .fail (.unexpectedExpression eq.value eq.line) := by
      rw [parseBody_cons, hstmt1]
      simp only [Res.bind]
      rw [parseBody_cons, hstmt2]
      rfl
    simp only [parse, hn, hbody]
  · intro fuel lbracket rbracket toks toks2 rest2 index right hopen hclose hindex hright
    have hopen1 : lbracket.is "(" = false := is_of_value lbracket "[" "(" hopen (by decide)
    rw [parseExpression_succ]
    have hprim : parsePrimary (fuel + 1) (a :: lbracket :: toks)
        = .ok (.MemberExpression (.Identifier a.value a.line a.column) index a.line a.column)
            (eq :: toks2) := by
      simp [parsePrimary, ha, ha1, peekIs, hopen, hopen1, hindex, Res.bind, expect, hclose]
    rw [hprim]
    simp only [Res.bind, heq, if_true, hright]

theorem dotted_assignment_rejected_witness :
    parse [⟨.IDENTIFIER, .str "ceci", 1, 1⟩, ⟨.PUNCTUATION, .str ".", 1, 5⟩,
        ⟨.IDENTIFIER, .str "nom", 1, 6⟩, ⟨.OPERATOR, .str "=", 1, 10⟩,
        ⟨.IDENTIFIER, .str "n", 1, 12⟩]
      = some (.error (.unexpectedExpression (Token.mk .OPERATOR (.str "=") 1 10).value
          (Token.mk .OPERATOR (.str "=") 1 10).line)) :=
  (dotted_assignment_rejected ⟨.IDENTIFIER, .str "ceci", 1, 1⟩ ⟨.PUNCTUATION, .str ".", 1, 5⟩
    ⟨.IDENTIFIER, .str "nom", 1, 6⟩ ⟨.OPERATOR, .str "=", 1, 10⟩
    [⟨.IDENTIFIER, .str "n", 1, 12⟩] rfl rfl rfl rfl rfl rfl rfl).1

theorem printArgs_none (fuel : Nat) (toks : List Token)
    (h : ∀ t r, toks = t :: r → ¬ (t.type = .PUNCTUATION ∧ t.is "," = true)) :
    printArgs (fuel + 1) toks = .ok [] toks := by
  cases toks with
  | nil => simp [printArgs]
  | cons t r =>
    have := h t r rfl
    simp only [printArgs]
    rw [if_neg this]

/-- C35 (as amended): for an expression `E` that does not begin with `(` and is
parsed to the tree `ast` up to the tokens that follow it (which do not start
with a comma), the statement `montre E` parses to one PrintStatement whose
arguments are `[ast]`, and leaves the tokens that follow; and for every
expression `E`, beginning with `(` or not, that is parsed to `ast` up to a
closing parenthesis, `montre (E)` parses to the PrintStatement of the arguments
`[ast]` and leaves the tokens after the parenthesis. -/
theorem print_statement (fuel : Nat) (start lparen rparen : Token)
    (tokensE following : List Token) (ast : Node)
    (hstart : start.type = .KEYWORD ∧ start.is "montre" = true)
    (hl : lparen.is "(" = true) (hr : rparen.is ")" = true) :
    (parseExpression (fuel + 1) (tokensE ++ following) = .ok ast following →
      peekIs (tokensE ++ following) "(" = false →
      (∀ t r, following = t :: r → ¬ (t.type = .PUNCTUATION ∧ t.is "," = true)) →
      parseStatement (fuel + 3) (start :: (tokensE ++ following))
        = .ok (.PrintStatement [ast] start.line start.column) following)
    ∧ (parseExpression (fuel + 1) (tokensE ++ rparen :: following)
          = .ok ast (rparen :: following) →
      parseStatement (fuel + 3) (start :: lparen :: (tokensE ++ rparen :: following))
        = .ok (.PrintStatement [ast] start.line start.column) following) := by
  have hsoit : start.is "soit" = false := is_of_value start "montre" "soit" hstart.2 (by decide)
  have hrc : ¬ (rparen.type = .PUNCTUATION ∧ rparen.is "," = true) := by
    rw [is_of_value rparen ")" "," hr (by decide)]
    simp
  constructor
  · intro hplain hfirst hcomma
    have h1 : parsePrintStatement (fuel + 2) (start :: (tokensE ++ following))
        = .ok (.PrintStatement [ast] start.line start.column) following := by
      simp only [parsePrintStatement, hfirst, Bool.false_eq_true, if_false, hplain, Res.bind,
        printArgs_none fuel following hcomma, Bool.false_and]
    simp only [parseStatement, hstart, hsoit, and_self, and_false, if_true, if_false,
      Bool.false_eq_true, h1]
  · intro hparen
    have h2 : parsePrintStatement (fuel + 2)
        (start :: lparen :: (tokensE ++ rparen :: following))
        = .ok (.PrintStatement [ast] start.line start.column) following := by
      simp only [parsePrintStatement, peekIs, hl, if_true, List.tail_cons, hparen, Res.bind,
        printArgs_none fuel (rparen :: following)
          (fun t r h => by cases h; exact hrc), hr, Bool.and_self]
    simp only [parseStatement, hstart, hsoit, and_self, and_false, if_true, if_false,
      Bool.false_eq_true, h2]

/-- C35, witness: `montre 1` and `montre (1)` give the arguments `[1]`, and
`montre ((1 + 2) * 3)`, whose argument begins with `(`, gives the one argument
`(1 + 2) * 3`. -/
theorem print_statement_witness :
    parseStatement 4 (⟨.KEYWORD, .str "montre", 1, 1⟩ :: ([⟨.NUMBER, .num "1", 1, 8⟩] ++ []))
      = .ok (.PrintStatement [.Literal (.num "1") 1 8] (Token.mk .KEYWORD (.str "montre") 1 1).line
          (Token.mk .KEYWORD (.str "montre") 1 1).column) []
    ∧ parseStatement 4 (⟨.KEYWORD, .str "montre", 1, 1⟩ :: ⟨.OPERATOR, .str "(", 1, 7⟩
        :: ([⟨.NUMBER, .num "1", 1, 8⟩] ++ ⟨.OPERATOR, .str ")", 1, 9⟩ :: []))
      = .ok (.PrintStatement [.Literal (.num "1") 1 8] (Token.mk .KEYWORD (.str "montre") 1 1).line
          (Token.mk .KEYWORD (.str "montre") 1 1).column) []
    ∧ tokenize "montre ((1 + 2) * 3)" = some (.ok
        (⟨.KEYWORD, .str "montre", 1, 1⟩ :: ⟨.OPERATOR, .str "(", 1, 8⟩
          :: ([⟨.OPERATOR, .str "(", 1, 9⟩, ⟨.NUMBER, .num "1", 1, 10⟩,
               ⟨.OPERATOR, .str "+", 1, 12⟩, ⟨.NUMBER, .num "2", 1, 14⟩,
               ⟨.OPERATOR, .str ")", 1, 15⟩, ⟨.OPERATOR, .str "*", 1, 17⟩,
               ⟨.NUMBER, .num "3", 1, 19⟩] ++ ⟨.OPERATOR, .str ")", 1, 20⟩ :: [])))
    ∧ parseStatement 12 (⟨.KEYWORD, .str "montre", 1, 1⟩ :: ⟨.OPERATOR, .str "(", 1, 8⟩
        :: ([⟨.OPERATOR, .str "(", 1, 9⟩, ⟨.NUMBER, .num "1", 1, 10⟩,
             ⟨.OPERATOR, .str "+", 1, 12⟩, ⟨.NUMBER, .num "2", 1, 14⟩,
             ⟨.OPERATOR, .str ")", 1, 15⟩, ⟨.OPERATOR, .str "*", 1, 17⟩,
             ⟨.NUMBER, .num "3", 1, 19⟩] ++ ⟨.OPERATOR, .str ")", 1, 20⟩ :: []))
      = .ok (.PrintStatement
          [.BinaryExpression (.str "*")
            (.BinaryExpression (.str "+") (.Literal (.num "1") 1 10) (.Literal (.num "2") 1 14)
              1 12)
            (.Literal (.num "3") 1 19) 1 17]
          (Token.mk .KEYWORD (.str "montre") 1 1).line
          (Token.mk .KEYWORD (.str "montre") 1 1).column) [] :=
  ⟨(print_statement 1 ⟨.KEYWORD, .str "montre", 1, 1⟩ ⟨.OPERATOR, .str "(", 1, 7⟩
      ⟨.OPERATOR, .str ")", 1, 9⟩ [⟨.NUMBER, .num "1", 1, 8⟩] [] (.Literal (.num "1") 1 8)
      ⟨rfl, rfl⟩ rfl rfl).1 rfl rfl (fun _ _ h => by cases h),
    (print_statement 1 ⟨.KEYWORD, .str "montre", 1, 1⟩ ⟨.OPERATOR, .str "(", 1, 7⟩
      ⟨.OPERATOR, .str ")", 1, 9⟩ [⟨.NUMBER, .num "1", 1, 8⟩] [] (.Literal (.num "1") 1 8)
      ⟨rfl, rfl⟩ rfl rfl).2 rfl,
    by decide,
    (print_statement 9 ⟨.KEYWORD, .str "montre", 1, 1⟩ ⟨.OPERATOR, .str "(", 1, 8⟩
      ⟨.OPERATOR, .str ")", 1, 20⟩
      [⟨.OPERATOR, .str "(", 1, 9⟩, ⟨.NUMBER, .num "1", 1, 10⟩,
       ⟨.OPERATOR, .str "+", 1, 12⟩, ⟨.NUMBER, .num "2", 1, 14⟩,
       ⟨.OPERATOR, .str ")", 1, 15⟩, ⟨.OPERATOR, .str "*", 1, 17⟩,
       ⟨.NUMBER, .num "3", 1, 19⟩] []
      (.BinaryExpression (.str "*")
        (.BinaryExpression (.str "+") (.Literal (.num "1") 1 10) (.Literal (.num "2") 1 14)
          1 12)
        (.Literal (.num "3") 1 19) 1 17)
      ⟨rfl, rfl⟩ rfl rfl).2 rfl⟩

/-- C35, counterexample: `parseExpression` accepts `(1 + 2) * 3` in full, and the
statement `montre (1 + 2) * 3` does not parse: the parenthesis is taken for the
one around the argument list, the arguments end at `)`, and `*` is refused as
the start of the next statement. -/
theorem print_of_parenthesised_expression :
    (∃ toks ast, tokenize "(1 + 2) * 3" = some (.ok toks)
      ∧ parseExpression 20 toks = .ok ast [])
    ∧ parseSource "montre (1 + 2) * 3"
        = some (.error (.parse (.unexpectedExpression (.str "*") 1))) :=
  ⟨⟨_, _, rfl, rfl⟩, rfl⟩

/-- Along a superclass chain that ends at an undeclared name inherited from
`Object.prototype`, enough fuel makes `getAllMethods` throw its TypeError. -/
theorem getAllMethods_endsInherited (classes : List (String × Node)) (name : String)
    (h : EndsInherited classes name) :
    ∃ f0, ∀ f, f0 ≤ f → getAllMethods f classes name = .typeError := by
  induction h with
  | @here name hl hp =>
    refine ⟨1, fun f hf => ?_⟩
    obtain ⟨k, rfl⟩ : ∃ k, f = k + 1 := ⟨f - 1, by omega⟩
    simp [getAllMethods, hl, hp]
  | @step name superKey cname superName own isAbstract line column hl ht hk _ ih =>
    obtain ⟨f1, h1⟩ := ih
    refine ⟨f1 + 1, fun f hf => ?_⟩
    obtain ⟨k, rfl⟩ : ∃ k, f = k + 1 := ⟨f - 1, by omega⟩
    simp [getAllMethods, hl, ht, hk, h1 k (by omega)]

/-- C40 (as amended): along superclass chains that end, the list
`getAllMethods(C)` returns (given enough fuel) holds no two methods of the same
name, also when a class declares a name more than once; and a class whose
superclass name is not in the class table and is not a name that every object
inherits from `Object.prototype` resolves, without error, to its own methods.
When the chain ends at an undeclared name of `Object.prototype`, `getAllMethods`
throws a TypeError. -/
theorem resolved_names_distinct (classes : List (String × Node)) (name : String)
    (ms : List Node) (h : Resolves classes name ms) :
    (∃ f0, ∀ f, f0 ≤ f → getAllMethods f classes name = .methods ms)
    ∧ (ms.map Node.methodName).Nodup
    ∧ (∀ (cname superName : TokenValue) (superKey : String) (own : List Node)
        (isAbstract : Bool) (line column : Nat),
        classes.lookup name
          = some (.ClassDeclaration cname (some superName) own isAbstract line column) →
        superName.truthy = true → superName.key = some superKey →
        classes.lookup superKey = none → superKey ∉ objectPrototypeKeys →
        (∀ m ∈ own, m.isMethod = true) →
        ∀ f, getAllMethods (f + 2) classes name = .methods (overrideInPlace [] own))
    ∧ (∀ other : String, EndsInherited classes other →
        ∃ f0, ∀ f, f0 ≤ f → getAllMethods f classes other = .typeError) := by
  refine ⟨getAllMethods_resolves classes name ms h, resolves_nodup h, ?_,
    getAllMethods_endsInherited classes⟩
  intro cname superName superKey own isAbstract line column hl ht hk hsup hproto hown f
  have hmerge := mergeMethods_foldl own hown []
  rw [foldl_eq_overrideInPlace [] own (by simp)] at hmerge
  simp [getAllMethods, hl, ht, hk, hsup, hproto, hmerge]

/-- C40, witness: the class `B` declares `f` twice and names the superclass
`Z`, which is not declared: its resolved methods are the last declaration of
`f` alone. -/
theorem resolved_names_distinct_witness :
    (∃ f0, ∀ f, f0 ≤ f →
      getAllMethods f
        [("B", .ClassDeclaration (.str "B") (some (.str "Z"))
            [.FunctionDeclaration (.str "f") [] [] (some (.str "public")) 2 1,
             .FunctionDeclaration (.str "f") [] [] (some (.str "public")) 3 1] false 1 1)]
        "B"
      = .methods (overrideInPlace []
          [.FunctionDeclaration (.str "f") [] [] (some (.str "public")) 2 1,
           .FunctionDeclaration (.str "f") [] [] (some (.str "public")) 3 1]))
    ∧ overrideInPlace []
          [.FunctionDeclaration (.str "f") [] [] (some (.str "public")) 2 1,
           .FunctionDeclaration (.str "f") [] [] (some (.str "public")) 3 1]
        = [.FunctionDeclaration (.str "f") [] [] (some (.str "public")) 3 1] :=
  ⟨(resolved_names_distinct
        [("B", .ClassDeclaration (.str "B") (some (.str "Z"))
            [.FunctionDeclaration (.str "f") [] [] (some (.str "public")) 2 1,
             .FunctionDeclaration (.str "f") [] [] (some (.str "public")) 3 1] false 1 1)]
        "B" _
    (@Resolves.inherits
      [("B", .ClassDeclaration (.str "B") (some (.str "Z"))
            [.FunctionDeclaration (.str "f") [] [] (some (.str "public")) 2 1,
             .FunctionDeclaration (.str "f") [] [] (some (.str "public")) 3 1] false 1 1)]
      "B" "Z" (.str "B") (.str "Z")
      [.FunctionDeclaration (.str "f") [] [] (some (.str "public")) 2 1,
           .FunctionDeclaration (.str "f") [] [] (some (.str "public")) 3 1]
      [] false 1 1 rfl rfl rfl (by simp [Node.isMethod])
      (@Resolves.unknown
        [("B", .ClassDeclaration (.str "B") (some (.str "Z"))
            [.FunctionDeclaration (.str "f") [] [] (some (.str "public")) 2 1,
             .FunctionDeclaration (.str "f") [] [] (some (.str "public")) 3 1] false 1 1)]
        "Z" rfl (by decide)))).1, by rfl⟩

set_option maxRecDepth 100000 in
/-- C40, counterexample: the class `B` of the program
`classe B herite de "toString" { fonction f() { renvoie 1 } }` names a
superclass that is not in the class table, and `getAllMethods` does not resolve
it to its own methods: `this.classes["toString"]` is the function every object
inherits, which has no `methods`, and the `forEach` throws a TypeError. -/
theorem inherited_superclass_name_throws :
    (∃ own line column,
      (runCode 50
        "classe B herite de \"toString\" \x7b fonction f() \x7b renvoie 1 \x7d \x7d"
        (Evaluator [])).state.classes.lookup "B"
        = some (.ClassDeclaration (.str "B") (some (.str "toString")) own false line column))
    ∧ (runCode 50
        "classe B herite de \"toString\" \x7b fonction f() \x7b renvoie 1 \x7d \x7d"
        (Evaluator [])).state.classes.lookup "toString" = none
    ∧ (∀ f, getAllMethods (f + 2)
        (runCode 50
          "classe B herite de \"toString\" \x7b fonction f() \x7b renvoie 1 \x7d \x7d"
          (Evaluator [])).state.classes "B" = .typeError) := by
  have h1 : ∃ own line column,
      (runCode 50
        "classe B herite de \"toString\" \x7b fonction f() \x7b renvoie 1 \x7d \x7d"
        (Evaluator [])).state.classes.lookup "B"
        = some (.ClassDeclaration (.str "B") (some (.str "toString")) own false line column) :=
    ⟨_, _, _, rfl⟩
  have h2 : (runCode 50
        "classe B herite de \"toString\" \x7b fonction f() \x7b renvoie 1 \x7d \x7d"
        (Evaluator [])).state.classes.lookup "toString" = none := by rfl
  refine ⟨h1, h2, fun f => ?_⟩
  obtain ⟨own, line, column, hl⟩ := h1
  simp [getAllMethods, hl, h2, TokenValue.truthy, TokenValue.key, TokenValue.toValue,
    Value.toKey, objectPrototypeKeys]

/-! ## Positions of the tokens -/

/-- An iteration of the loop of `tokenize` pushes no token or one token, which
carries the counters `line` and `column` of the start of the iteration. -/
theorem scanOne_pushes {c : Char} {cs : List Char} {line column : Nat} {tokens : List Token}
    {s : LexState} (h : scanOne c cs line column tokens = .ok s) :
    s.tokens = tokens ∨
      ∃ t, s.tokens = tokens ++ [t] ∧ t.line = line ∧ t.column = column ∧ c ≠ '\n' := by
  by_cases h1 : c = '\n'
  · rw [scanOne, if_pos h1] at h; cases h; exact Or.inl rfl
  rw [scanOne, if_neg h1] at h
  by_cases h2 : isSpace c = true
  · rw [if_pos h2] at h; cases h; exact Or.inl rfl
  rw [if_neg h2] at h
  by_cases h3 : c = '#'
  · rw [if_pos h3] at h; cases h; exact Or.inl rfl
  rw [if_neg h3] at h
  by_cases h4 : isIdentStart c = true
  · rw [if_pos h4] at h; cases h
    refine Or.inr ⟨_, rfl, ?_, ?_, h1⟩ <;> simp only [wordToken] <;> split <;> rfl
  rw [if_neg h4] at h
  by_cases h5 : c.isDigit = true
  · rw [if_pos h5] at h; cases h; exact Or.inr ⟨_, rfl, rfl, rfl, h1⟩
  rw [if_neg h5] at h
  by_cases h6 : c = '"'
  · rw [if_pos h6] at h; cases h; exact Or.inr ⟨_, rfl, rfl, rfl, h1⟩
  rw [if_neg h6] at h
  by_cases h7 : c = '='
  · rw [if_pos h7] at h
    by_cases h8 : cs.head? = some '='
    · rw [if_pos h8] at h; cases h; exact Or.inr ⟨_, rfl, rfl, rfl, h1⟩
    · rw [if_neg h8] at h; cases h; exact Or.inr ⟨_, rfl, rfl, rfl, h1⟩
  rw [if_neg h7] at h
  by_cases h9 : c = '!'
  · rw [if_pos h9] at h
    by_cases h8 : cs.head? = some '='
    · rw [if_pos h8] at h; cases h; exact Or.inr ⟨_, rfl, rfl, rfl, h1⟩
    · rw [if_neg h8] at h; cases h
  rw [if_neg h9] at h
  by_cases h10 : isPunctuation c = true
  · rw [if_pos h10] at h; cases h; exact Or.inr ⟨_, rfl, rfl, rfl, h1⟩
  rw [if_neg h10] at h
  by_cases h11 : c = '<'
  · rw [if_pos h11] at h
    by_cases h8 : cs.head? = some '='
    · rw [if_pos h8] at h; cases h; exact Or.inr ⟨_, rfl, rfl, rfl, h1⟩
    · rw [if_neg h8] at h; cases h; exact Or.inr ⟨_, rfl, rfl, rfl, h1⟩
  rw [if_neg h11] at h
  by_cases h12 : c = '>'
  · rw [if_pos h12] at h
    by_cases h8 : cs.head? = some '='
    · rw [if_pos h8] at h; cases h; exact Or.inr ⟨_, rfl, rfl, rfl, h1⟩
    · rw [if_neg h8] at h; cases h; exact Or.inr ⟨_, rfl, rfl, rfl, h1⟩
  rw [if_neg h12] at h
  by_cases h13 : isSingleOperator c = true
  · rw [if_pos h13] at h; cases h; exact Or.inr ⟨_, rfl, rfl, rfl, h1⟩
  · rw [if_neg h13] at h; cases h

theorem scanOne_string (body cs : List Char) (line column : Nat) (tokens : List Token)
    (h : '"' ∉ body) :
    scanOne '"' (body ++ '"' :: cs) line column tokens
      = .ok ⟨cs, line, column + 1 + utf16Length body + 1,
          tokens ++ [⟨.STRING, .str (String.mk body), line, column⟩]⟩ := by
  rw [scanOne_quote, takeWhile_ne_append '"' body _ h, dropWhile_ne_append '"' body _ h]
  rfl

/-- C32: a string literal is consumed without touching the line counter,
whatever characters it holds, newlines included: after the literal the counter
`line` is the one of the opening quote and `column` is the column of the opening
quote plus the number of code units consumed (the body and the two quotes; a
character of the Basic Multilingual Plane is one code unit, so that in a source
without other characters this is the number of characters). The next iteration
that pushes a token gives it these counters: in the source `"a<newline>b" t` the
token `t` is on line 1, column 7. A newline outside a string literal adds one to
`line` and sets `column` to 1. -/
theorem string_newline_keeps_line :
    (∀ (body cs : List Char) (line column : Nat) (tokens : List Token), '"' ∉ body →
      scanOne '"' (body ++ '"' :: cs) line column tokens
        = .ok ⟨cs, line, column + 1 + utf16Length body + 1,
            tokens ++ [⟨.STRING, .str (String.mk body), line, column⟩]⟩)
    ∧ (∀ body : List Char, (∀ a ∈ body, a.toNat < 65536) → utf16Length body = body.length)
    ∧ (∀ (c : Char) (cs : List Char) (line column : Nat) (tokens : List Token)
        (s : LexState), scanOne c cs line column tokens = .ok s →
        s.tokens = tokens ∨
          ∃ t, s.tokens = tokens ++ [t] ∧ t.line = line ∧ t.column = column ∧ c ≠ '\n')
    ∧ (∀ (cs : List Char) (line column : Nat) (tokens : List Token),
        scanOne '\n' cs line column tokens = .ok ⟨cs, line + 1, 1, tokens⟩)
    ∧ tokenize "\"a\nb\" t"
        = some (.ok [⟨.STRING, .str "a\nb", 1, 1⟩, ⟨.IDENTIFIER, .str "t", 1, 7⟩])
    ∧ tokenize "x\n t"
        = some (.ok [⟨.IDENTIFIER, .str "x", 1, 1⟩, ⟨.IDENTIFIER, .str "t", 2, 2⟩]) := by
  refine ⟨scanOne_string, utf16Length_eq_length,
    fun c cs line column tokens s h => scanOne_pushes h, ?_, by decide, by decide⟩
  intro cs line column tokens
  simp [scanOne]

theorem string_newline_keeps_line_witness :
    scanOne '"' (['a', '\n', 'b'] ++ '"' :: [' ', 't']) 1 1 []
      = .ok ⟨[' ', 't'], 1, 1 + 1 + utf16Length ['a', '\n', 'b'] + 1,
          [] ++ [⟨.STRING, .str (String.mk ['a', '\n', 'b']), 1, 1⟩]⟩ :=
  string_newline_keeps_line.1 ['a', '\n', 'b'] [' ', 't'] 1 1 [] (by decide)

/-- A successful tokenization ends in a reachable state without input left, whose
tokens are the result. -/
theorem lexLoop_final (input : String) (out : List Token) (f : Nat) :
    ∀ s : LexState, Reaches input s → lexLoop f s = some (.ok out) →
      ∃ s', Reaches input s' ∧ s'.rest = [] ∧ s'.tokens = out := by
  induction f with
  | zero =>
    intro s hr h
    obtain ⟨rest, line, column, tokens⟩ := s
    cases rest with
    | nil => rw [lexLoop_nil] at h; cases h; exact ⟨_, hr, rfl, rfl⟩
    | cons c cs => simp [lexLoop] at h
  | succ f ih =>
    intro s hr h
    obtain ⟨rest, line, column, tokens⟩ := s
    cases rest with
    | nil => rw [lexLoop_nil] at h; cases h; exact ⟨_, hr, rfl, rfl⟩
    | cons c cs =>
      rw [lexLoop_cons] at h
      cases hs : scanOne c cs line column tokens with
      | error e => rw [hs] at h; cases h
      | ok s' =>
        rw [hs] at h
        exact ih s' (.next hr hs) h

theorem take_of_split (l before rest : List Char) (h : l = before ++ rest) :
    l.take (l.length - rest.length) = before ∧ l.drop (l.length - rest.length) = rest := by
  subst h
  simp

/-- The tokens of a reachable state, each with the offset it was lexed at. -/
theorem reaches_positioned {input : String} {s : LexState} (h : Reaches input s) :
    NoMultilineString s.tokens →
      ∃ offsets : List Nat, List.Forall₂ (PositionedAt input.data) s.tokens offsets
        ∧ offsets.Sorted (fun a b => a < b)
        ∧ ∀ o ∈ offsets, o + s.rest.length < input.data.length := by
  induction h with
  | start => intro _; exact ⟨[], by simp [Lexer], by simp, by simp⟩
  | @next c cs line column tokens s' hr hs ih =>
    intro hn
    obtain ⟨consumed, new, hsplit, hne, htok, -⟩ := scanOne_shape hs
    have hold : NoMultilineString tokens := fun t ht => hn t (by simp [htok, ht])
    obtain ⟨offsets, hall, hsorted, hlt⟩ := ih hold
    obtain ⟨before, hin, hpos⟩ := reaches_posInv hr
    simp only [] at hin hpos
    have hlen : s'.rest.length < (c :: cs).length := by
      have := scanOne_rest_length hs
      simp only [List.length_cons]; omega
    rcases scanOne_pushes hs with hsame | ⟨t, ht, hline, hcol, hc⟩
    · refine ⟨offsets, by rw [hsame]; exact hall, hsorted, fun o ho => ?_⟩
      have := hlt o ho
      simp only [] at this
      omega
    · obtain ⟨hl, hcolumn⟩ := hpos hold
      have hcolumn' : column = sourceColumn before := by
        rcases hcolumn with h | h | h
        · exact h
        · simp at h
        · simp at h; exact absurd h hc
      obtain ⟨htake, hdrop⟩ := take_of_split input.data before (c :: cs) hin
      refine ⟨offsets ++ [input.data.length - (c :: cs).length], ?_, ?_, ?_⟩
      · rw [ht]
        refine List.rel_append hall (List.Forall₂.cons ⟨⟨c, cs, tokens, s', hdrop, ?_, ht⟩, ?_, ?_⟩
          List.Forall₂.nil)
        · rw [hline, hcol]; exact hs
        · rw [htake, hline, hl]
        · rw [htake, hcol, hcolumn']
      · rw [List.Sorted, List.pairwise_append]
        refine ⟨hsorted, by simp, fun a ha b hb => ?_⟩
        have := hlt a ha
        simp only [List.mem_singleton] at hb
        simp only [] at this
        subst hb
        omega
      · intro o ho
        have hin_len : input.data.length = before.length + (c :: cs).length := by
          rw [hin, List.length_append]
        rcases List.mem_append.1 ho with ho | ho
        · have := hlt o ho
          simp only [] at this
          omega
        · simp only [List.mem_singleton] at ho
          subst ho
          omega

theorem sourceColumn_eq_characterColumn (before : List Char)
    (h : ∀ a ∈ before, a.toNat < 65536) : sourceColumn before = characterColumn before := by
  unfold sourceColumn characterColumn
  rw [utf16Length_eq_length]
  intro a ha
  exact h a (List.mem_reverse.mp ((List.takeWhile_sublist _).subset ha))

/-- C33 (as amended): in a successful tokenization in which no string literal
spans a newline, the tokens are lexed at increasing offsets of the source (they
are in source order), and each token carries the line and column of its first
character: the line is 1 plus the number of newlines before it, the column 1
plus the number of UTF-16 code units between the last newline before it (or the
start of the input) and it. In a source without a character outside the Basic
Multilingual Plane this is 1 plus the number of characters. -/
theorem token_positions (input : String) (tokens : List Token)
    (h : tokenize input = some (.ok tokens)) (hn : NoMultilineString tokens) :
    (∃ offsets : List Nat, List.Forall₂ (PositionedAt input.data) tokens offsets
      ∧ offsets.Sorted (fun a b => a < b))
    ∧ ((∀ a ∈ input.data, a.toNat < 65536) →
        ∀ o : Nat, sourceColumn (input.data.take o) = characterColumn (input.data.take o)) := by
  obtain ⟨s, hr, -, htok⟩ := lexLoop_final input tokens input.length (Lexer input) .start h
  obtain ⟨offsets, hall, hsorted, -⟩ := reaches_positioned hr (by rw [htok]; exact hn)
  exact ⟨⟨offsets, by rw [← htok]; exact hall, hsorted⟩, fun hb o =>
    sourceColumn_eq_characterColumn _ fun a ha => hb a (List.mem_of_mem_take ha)⟩

/-- C33, witness: the two tokens of the source `x`, newline, space, `t`. -/
theorem token_positions_witness :
    ∃ offsets : List Nat,
      List.Forall₂ (PositionedAt "x\n t".data)
        [⟨.IDENTIFIER, .str "x", 1, 1⟩, ⟨.IDENTIFIER, .str "t", 2, 2⟩] offsets
      ∧ offsets.Sorted (fun a b => a < b) :=
  (token_positions "x\n t" [⟨.IDENTIFIER, .str "x", 1, 1⟩, ⟨.IDENTIFIER, .str "t", 2, 2⟩]
    (by decide) (by
      intro t ht hty
      simp only [List.mem_cons, List.mem_singleton, List.not_mem_nil, or_false] at ht
      rcases ht with rfl | rfl <;> cases hty)).1

/-- C33, counterexample: the source made of a string literal that holds the one
character U+1F600, a space and `x`. Four characters stand before `x` on its
line, yet the token `x` is reported at column 6 and not 5: the character
U+1F600 is two UTF-16 code units, and the lexer counts code units. -/
theorem astral_character_counts_twice :
    tokenize (String.mk ['"', Char.ofNat 128512, '"', ' ', 'x'])
      = some (.ok [⟨.STRING, .str (String.mk [Char.ofNat 128512]), 1, 1⟩,
          ⟨.IDENTIFIER, .str "x", 1, 6⟩])
    ∧ characterColumn ['"', Char.ofNat 128512, '"', ' '] = 5
    ∧ sourceColumn ['"', Char.ofNat 128512, '"', ' '] = 6
    ∧ '\n' ∉ ['"', Char.ofNat 128512, '"', ' '] := by
  refine ⟨by decide, by decide, by decide, by decide⟩

/-! ## Comments -/

theorem takeWhile_append_stop (p : Char → Bool) (l : List Char) (x : Char) (X : List Char)
    (hx : p x = false) : (l ++ x :: X).takeWhile p = l.takeWhile p := by
  induction l with
  | nil => simp [List.takeWhile_cons, hx]
  | cons a l ih =>
    simp only [List.cons_append, List.takeWhile_cons]
    cases p a <;> simp [ih]

theorem dropWhile_append_stop (p : Char → Bool) (l : List Char) (x : Char) (X : List Char)
    (hx : p x = false) : (l ++ x :: X).dropWhile p = l.dropWhile p ++ x :: X := by
  induction l with
  | nil => simp [List.dropWhile_cons, hx]
  | cons a l ih =>
    simp only [List.cons_append, List.dropWhile_cons]
    cases p a <;> simp [ih]

theorem length_dropWhile_le (p : Char → Bool) (l : List Char) :
    (l.dropWhile p).length ≤ l.length := by
  induction l with
  | nil => simp
  | cons a l ih =>
    simp only [List.dropWhile_cons]
    split
    · simp only [List.length_cons]; omega
    · simp

theorem scanMode_code_cons (c : Char) (cs : List Char) (h1 : c ≠ '"') (h2 : c ≠ '#') :
    scanMode .code (c :: cs) = scanMode .code cs := by
  simp [scanMode, h1, h2]

theorem scanMode_dropWhile (p : Char → Bool) (hp : ∀ x, p x = true → x ≠ '"' ∧ x ≠ '#')
    (l : List Char) : scanMode .code (l.dropWhile p) = scanMode .code l := by
  induction l with
  | nil => rfl
  | cons a l ih =>
    simp only [List.dropWhile_cons]
    cases ha : p a with
    | true =>
      simp only [if_true]
      rw [ih, scanMode_code_cons a l (hp a ha).1 (hp a ha).2]
    | false => simp

theorem isIdentPart_plain (x : Char) (h : isIdentPart x = true) : x ≠ '"' ∧ x ≠ '#' := by
  constructor <;> (intro e; subst e; revert h; decide)

theorem isNumberPart_plain (x : Char) (h : isNumberPart x = true) : x ≠ '"' ∧ x ≠ '#' := by
  constructor <;> (intro e; subst e; revert h; decide)

/-- A comment scanned to its end: a text without newline leaves the mode
`comment`, and the text after a newline is scanned as code. -/
theorem scanMode_comment (a : List Char) (h : '\n' ∉ a) (b : List Char) :
    scanMode .comment (a ++ '\n' :: b) = scanMode .code b := by
  induction a with
  | nil => simp [scanMode]
  | cons x a ih =>
    have hx : x ≠ '\n' := fun e => h (by simp [e])
    have ha : '\n' ∉ a := fun e => h (by simp [e])
    simp [scanMode, hx, ih ha]

theorem scanMode_string (a : List Char) (h : '"' ∉ a) (b : List Char) :
    scanMode .string (a ++ '"' :: b) = scanMode .code b := by
  induction a with
  | nil => simp [scanMode]
  | cons x a ih =>
    have hx : x ≠ '"' := fun e => h (by simp [e])
    have ha : '"' ∉ a := fun e => h (by simp [e])
    simp [scanMode, hx, ih ha]

theorem scanMode_string_open (a : List Char) (h : '"' ∉ a) :
    scanMode .string a = .string := by
  induction a with
  | nil => rfl
  | cons x a ih =>
    have hx : x ≠ '"' := fun e => h (by simp [e])
    have ha : '"' ∉ a := fun e => h (by simp [e])
    simp [scanMode, hx, ih ha]

theorem split_at_first (q : Char) (l : List Char) (h : q ∈ l) :
    ∃ a b, l = a ++ q :: b ∧ q ∉ a := by
  induction l with
  | nil => simp at h
  | cons x l ih =>
    by_cases hx : x = q
    · exact ⟨[], l, by simp [hx], by simp⟩
    · have : q ∈ l := by
        rcases List.mem_cons.1 h with e | e
        · exact absurd e.symm hx
        · exact e
      obtain ⟨a, b, hab, hqa⟩ := ih this
      refine ⟨x :: a, b, by simp [hab], ?_⟩
      simp only [List.mem_cons, not_or]
      exact ⟨fun e => hx e.symm, hqa⟩

theorem scanOne_hash (cs : List Char) (line column : Nat) (tokens : List Token) :
    scanOne '#' cs line column tokens
      = .ok ⟨('#' :: cs).dropWhile (fun x => x != '\n'), line, column, tokens⟩ := by
  simp [scanOne, isSpace]

theorem head?_append_stop (l : List Char) (x : Char) (X : List Char) (hx : x ≠ '=') :
    ((l ++ x :: X).head? = some '=') ↔ (l.head? = some '=') := by
  cases l with
  | nil => simp [hx]
  | cons a l => simp

theorem dropWhile_ne_prefix (q : Char) (s Y : List Char) (h : q ∉ s) :
    (s ++ Y).dropWhile (fun x => x != q) = Y.dropWhile (fun x => x != q) := by
  induction s with
  | nil => rfl
  | cons a s ih =>
    simp only [List.mem_cons, not_or] at h
    have ha : (a != q) = true := by simpa [bne_iff_ne] using fun e => h.1 e.symm
    simp [List.dropWhile_cons, ha, ih h.2]

theorem tail_append_stop (l : List Char) (Y : List Char) (h : l ≠ []) :
    (l ++ Y).tail = l.tail ++ Y := by
  cases l with
  | nil => exact absurd rfl h
  | cons a l => rfl

/-- The branches `=`, `<`, `>` of the loop, in front of a comment or a newline. -/
theorem two_char_split (r : List Char) :
    (r.head? = some '=' ∧ ∃ r2, r = '=' :: r2) ∨ r.head? ≠ some '=' := by
  cases r with
  | nil => right; simp
  | cons a r =>
    by_cases h : a = '='
    · left; exact ⟨by simp [h], r, by simp [h]⟩
    · right; simpa using h

/-- One iteration of the loop started inside a text that is followed by `#` or by
a newline: what it does is the same for both, and but for a comment that runs to
the end of the text it stops inside the text. -/
theorem scanOne_before_break (ch : Char) (r : List Char) (line column : Nat)
    (tokens : List Token) (hmode : scanMode .code (ch :: r) ≠ .string) :
    (∃ e, ∀ x X, (x = '#' ∨ x = '\n') →
        scanOne ch (r ++ x :: X) line column tokens = .error e)
    ∨ (∃ r1 line1 column1 tokens1, r1.length ≤ r.length ∧ scanMode .code r1 ≠ .string ∧
        ∀ x X, (x = '#' ∨ x = '\n') →
          scanOne ch (r ++ x :: X) line column tokens
            = .ok ⟨r1 ++ x :: X, line1, column1, tokens1⟩)
    ∨ (∀ x X, (x = '#' ∨ x = '\n') →
          scanOne ch (r ++ x :: X) line column tokens
            = .ok ⟨(x :: X).dropWhile (fun y => y != '\n'), line, column, tokens⟩) := by
  have hxeq : ∀ x : Char, (x = '#' ∨ x = '\n') → x ≠ '=' := by
    intro x hx; rcases hx with rfl | rfl <;> decide
  by_cases hq : ch = '"'
  · -- a string literal: it closes inside the text
    subst hq
    have hin : '"' ∈ r := by
      by_contra hnot
      apply hmode
      simp only [scanMode, if_true]
      exact scanMode_string_open r hnot
    obtain ⟨a, b, hab, hqa⟩ := split_at_first '"' r hin
    right; left
    refine ⟨b, line, column + 1 + utf16Length a + 1,
      tokens ++ [⟨.STRING, .str (String.mk a), line, column⟩], ?_, ?_, ?_⟩
    · rw [hab]; simp only [List.length_append, List.length_cons]; omega
    · have : scanMode .code ('"' :: r) = scanMode .code b := by
        simp only [scanMode, if_true]
        rw [hab, scanMode_string a hqa b]
      rw [← this]; exact hmode
    · intro x X _
      rw [hab, List.append_assoc, List.cons_append]
      exact scanOne_string a (b ++ x :: X) line column tokens hqa
  by_cases hh : ch = '#'
  · subst hh
    by_cases hnl : '\n' ∈ r
    · obtain ⟨a, b, hab, hna⟩ := split_at_first '\n' r hnl
      right; left
      refine ⟨'\n' :: b, line, column, tokens, ?_, ?_, ?_⟩
      · rw [hab]; simp only [List.length_append, List.length_cons]; omega
      · have h1 : scanMode .code ('#' :: r) = scanMode .code b := by
          have h0 : scanMode .code ('#' :: r) = scanMode .comment r := by
            simp [scanMode]
          rw [h0, hab, scanMode_comment a hna b]
        have h2 : scanMode .code ('\n' :: b) = scanMode .code b :=
          scanMode_code_cons '\n' b (by decide) (by decide)
        rw [h2, ← h1]; exact hmode
      · intro x X _
        rw [scanOne_hash, hab]
        have : '#' :: (a ++ '\n' :: b ++ x :: X) = ('#' :: a) ++ '\n' :: (b ++ x :: X) := by
          simp
        rw [this, dropWhile_ne_append '\n' ('#' :: a) _ (by
          simp only [List.mem_cons, not_or]; exact ⟨by decide, hna⟩)]
        simp
    · right; right
      intro x X _
      rw [scanOne_hash]
      have : '#' :: (r ++ x :: X) = ('#' :: r) ++ x :: X := by simp
      rw [this, dropWhile_ne_prefix '\n' ('#' :: r) _ (by
        simp only [List.mem_cons, not_or]; exact ⟨by decide, hnl⟩)]
  -- every other character leaves the mode `code`
  have hplain : scanMode .code (ch :: r) = scanMode .code r := scanMode_code_cons ch r hq hh
  have hr : scanMode .code r ≠ .string := by rw [← hplain]; exact hmode
  by_cases h1 : ch = '\n'
  · right; left
    refine ⟨r, line + 1, 1, tokens, le_refl _, hr, fun x X _ => ?_⟩
    rw [scanOne, if_pos h1]
  by_cases h2 : isSpace ch = true
  · right; left
    refine ⟨r, line, column + 1, tokens, le_refl _, hr, fun x X _ => ?_⟩
    rw [scanOne, if_neg h1, if_pos h2]
  by_cases h4 : isIdentStart ch = true
  · right; left
    refine ⟨(ch :: r).dropWhile isIdentPart, line,
      column + ((ch :: r).takeWhile isIdentPart).length,
      tokens ++ [wordToken ((ch :: r).takeWhile isIdentPart) line column], ?_, ?_, ?_⟩
    · simp only [List.dropWhile_cons, isIdentStart_part ch h4, if_true]
      exact length_dropWhile_le _ _
    · rw [scanMode_dropWhile isIdentPart isIdentPart_plain]; exact hmode
    · intro x X hx
      have hpx : isIdentPart x = false := by rcases hx with rfl | rfl <;> decide
      rw [scanOne, if_neg h1, if_neg h2, if_neg hh, if_pos h4]
      have e : ch :: (r ++ x :: X) = (ch :: r) ++ x :: X := by simp
      simp only [e, takeWhile_append_stop isIdentPart (ch :: r) x X hpx,
        dropWhile_append_stop isIdentPart (ch :: r) x X hpx]
  by_cases h5 : ch.isDigit = true
  · right; left
    refine ⟨(ch :: r).dropWhile isNumberPart, line,
      column + ((ch :: r).takeWhile isNumberPart).length,
      tokens ++ [⟨.NUMBER, .num (String.mk ((ch :: r).takeWhile isNumberPart)), line, column⟩],
      ?_, ?_, ?_⟩
    · simp only [List.dropWhile_cons, isDigit_numberPart ch h5, if_true]
      exact length_dropWhile_le _ _
    · rw [scanMode_dropWhile isNumberPart isNumberPart_plain]; exact hmode
    · intro x X hx
      have hpx : isNumberPart x = false := by rcases hx with rfl | rfl <;> decide
      rw [scanOne, if_neg h1, if_neg h2, if_neg hh, if_neg h4, if_pos h5]
      have e : ch :: (r ++ x :: X) = (ch :: r) ++ x :: X := by simp
      simp only [e, takeWhile_append_stop isNumberPart (ch :: r) x X hpx,
        dropWhile_append_stop isNumberPart (ch :: r) x X hpx]
  -- the branches that look at the next character
  have htwo : ∀ (value1 value2 : String),
      (∀ x X, (x = '#' ∨ x = '\n') →
        scanOne ch (r ++ x :: X) line column tokens =
          if (r ++ x :: X).head? = some '=' then
            .ok ⟨(r ++ x :: X).tail, line, column + 2,
              tokens ++ [⟨.OPERATOR, .str value2, line, column⟩]⟩
          else
            .ok ⟨r ++ x :: X, line, column + 1,
              tokens ++ [⟨.OPERATOR, .str value1, line, column⟩]⟩) →
      ∃ r1 line1 column1 tokens1, r1.length ≤ r.length ∧ scanMode .code r1 ≠ .string ∧
        ∀ x X, (x = '#' ∨ x = '\n') →
          scanOne ch (r ++ x :: X) line column tokens
            = .ok ⟨r1 ++ x :: X, line1, column1, tokens1⟩ := by
    intro value1 value2 hscan
    rcases two_char_split r with ⟨hhead, r2, hr2⟩ | hhead
    · refine ⟨r2, line, column + 2, tokens ++ [⟨.OPERATOR, .str value2, line, column⟩],
        by rw [hr2]; simp, ?_, fun x X hx => ?_⟩
      · have : scanMode .code r = scanMode .code r2 := by
          rw [hr2]; exact scanMode_code_cons '=' r2 (by decide) (by decide)
        rw [← this]; exact hr
      · rw [hscan x X hx, if_pos ((head?_append_stop r x X (hxeq x hx)).2 hhead), hr2]
        rfl
    · refine ⟨r, line, column + 1, tokens ++ [⟨.OPERATOR, .str value1, line, column⟩],
        le_refl _, hr, fun x X hx => ?_⟩
      rw [hscan x X hx, if_neg (fun h => hhead ((head?_append_stop r x X (hxeq x hx)).1 h))]
  by_cases h7 : ch = '='
  · right; left
    exact htwo "=" "==" (fun x X _ => by
      rw [scanOne, if_neg h1, if_neg h2, if_neg hh, if_neg h4, if_neg h5, if_neg hq, if_pos h7])
  by_cases h9 : ch = '!'
  · rcases two_char_split r with ⟨hhead, r2, hr2⟩ | hhead
    · right; left
      refine ⟨r2, line, column + 2, tokens ++ [⟨.OPERATOR, .str "!=", line, column⟩],
        by rw [hr2]; simp, ?_, fun x X hx => ?_⟩
      · have : scanMode .code r = scanMode .code r2 := by
          rw [hr2]; exact scanMode_code_cons '=' r2 (by decide) (by decide)
        rw [← this]; exact hr
      · rw [scanOne, if_neg h1, if_neg h2, if_neg hh, if_neg h4, if_neg h5, if_neg hq,
          if_neg h7, if_pos h9,
          if_pos ((head?_append_stop r x X (hxeq x hx)).2 hhead), hr2]
        rfl
    · left
      refine ⟨⟨line, column, .bangWithoutEq⟩, fun x X hx => ?_⟩
      rw [scanOne, if_neg h1, if_neg h2, if_neg hh, if_neg h4, if_neg h5, if_neg hq,
        if_neg h7, if_pos h9,
        if_neg (fun h => hhead ((head?_append_stop r x X (hxeq x hx)).1 h))]
  by_cases h10 : isPunctuation ch = true
  · right; left
    refine ⟨r, line, column + 1,
      tokens ++ [⟨.PUNCTUATION, .str (String.mk [ch]), line, column⟩], le_refl _, hr,
      fun x X _ => ?_⟩
    rw [scanOne, if_neg h1, if_neg h2, if_neg hh, if_neg h4, if_neg h5, if_neg hq,
      if_neg h7, if_neg h9, if_pos h10]
  by_cases h11 : ch = '<'
  · right; left
    exact htwo "<" "<=" (fun x X _ => by
      rw [scanOne, if_neg h1, if_neg h2, if_neg hh, if_neg h4, if_neg h5, if_neg hq,
        if_neg h7, if_neg h9, if_neg h10, if_pos h11])
  by_cases h12 : ch = '>'
  · right; left
    exact htwo ">" ">=" (fun x X _ => by
      rw [scanOne, if_neg h1, if_neg h2, if_neg hh, if_neg h4, if_neg h5, if_neg hq,
        if_neg h7, if_neg h9, if_neg h10, if_neg h11, if_pos h12])
  by_cases h13 : isSingleOperator ch = true
  · right; left
    refine ⟨r, line, column + 1,
      tokens ++ [⟨.OPERATOR, .str (String.mk [ch]), line, column⟩], le_refl _, hr,
      fun x X _ => ?_⟩
    rw [scanOne, if_neg h1, if_neg h2, if_neg hh, if_neg h4, if_neg h5, if_neg hq,
      if_neg h7, if_neg h9, if_neg h10, if_neg h11, if_neg h12, if_pos h13]
  · left
    refine ⟨⟨line, column, .unexpectedChar ch⟩, fun x X _ => ?_⟩
    rw [scanOne, if_neg h1, if_neg h2, if_neg hh, if_neg h4, if_neg h5, if_neg hq,
      if_neg h7, if_neg h9, if_neg h10, if_neg h11, if_neg h12, if_neg h13]

/-- The loop of `tokenize` on a text followed by a comment and on the same text
followed by the newline that ends the comment. -/
theorem lexLoop_comment (c t : List Char) (hc : '\n' ∉ c) (n : Nat) :
    ∀ (r : List Char), r.length ≤ n → scanMode .code r ≠ .string →
      ∀ (line column : Nat) (tokens : List Token) (f1 f2 : Nat),
        (r ++ '#' :: (c ++ '\n' :: t)).length ≤ f1 → (r ++ '\n' :: t).length ≤ f2 →
        lexLoop f1 ⟨r ++ '#' :: (c ++ '\n' :: t), line, column, tokens⟩
          = lexLoop f2 ⟨r ++ '\n' :: t, line, column, tokens⟩ := by
  have hdrop1 : ('#' :: (c ++ '\n' :: t)).dropWhile (fun y => y != '\n') = '\n' :: t := by
    have : '#' :: (c ++ '\n' :: t) = ('#' :: c) ++ '\n' :: t := by simp
    rw [this]
    exact dropWhile_ne_append '\n' ('#' :: c) t (by
      simp only [List.mem_cons, not_or]; exact ⟨by decide, hc⟩)
  have hdrop2 : ('\n' :: t).dropWhile (fun y => y != '\n') = '\n' :: t := by
    simp [List.dropWhile_cons]
  have hsame : ∀ (line column : Nat) (tokens : List Token) (g1 g2 : Nat),
      ('\n' :: t).length ≤ g1 → ('\n' :: t).length ≤ g2 →
      lexLoop g1 ⟨'\n' :: t, line, column, tokens⟩ = lexLoop g2 ⟨'\n' :: t, line, column, tokens⟩ :=
    fun line column tokens g1 g2 h1 h2 => (lexLoop_fuel g1 _ g2 h1 h2).1
  induction n with
  | zero =>
    intro r hr hmode line column tokens f1 f2 hf1 hf2
    have : r = [] := List.length_eq_zero.mp (Nat.le_zero.mp hr)
    subst this
    simp only [List.nil_append, List.length_cons] at hf1 hf2 ⊢
    obtain ⟨g1, rfl⟩ : ∃ g, f1 = g + 1 := ⟨f1 - 1, by omega⟩
    rw [lexLoop_cons, scanOne_hash, hdrop1]
    simp only [List.length_append, List.length_cons] at hf1
    exact hsame line column tokens g1 f2 (by simp only [List.length_cons]; omega)
      (by simp only [List.length_cons]; omega)
  | succ n ih =>
    intro r hr hmode line column tokens f1 f2 hf1 hf2
    cases r with
    | nil =>
      simp only [List.nil_append, List.length_cons] at hf1 hf2 ⊢
      obtain ⟨g1, rfl⟩ : ∃ g, f1 = g + 1 := ⟨f1 - 1, by omega⟩
      rw [lexLoop_cons, scanOne_hash, hdrop1]
      simp only [List.length_append, List.length_cons] at hf1
      exact hsame line column tokens g1 f2 (by simp only [List.length_cons]; omega)
        (by simp only [List.length_cons]; omega)
    | cons ch r =>
      simp only [List.cons_append, List.length_cons, List.length_append] at hf1 hf2 hr ⊢
      obtain ⟨g1, rfl⟩ : ∃ g, f1 = g + 1 := ⟨f1 - 1, by omega⟩
      obtain ⟨g2, rfl⟩ : ∃ g, f2 = g + 1 := ⟨f2 - 1, by omega⟩
      rw [lexLoop_cons, lexLoop_cons]
      rcases scanOne_before_break ch r line column tokens hmode with
        ⟨e, he⟩ | ⟨r1, line1, column1, tokens1, hlen, hm1, hok⟩ | hcomment
      · rw [he '#' _ (Or.inl rfl), he '\n' _ (Or.inr rfl)]
      · rw [hok '#' _ (Or.inl rfl), hok '\n' _ (Or.inr rfl)]
        exact ih r1 (by omega) hm1 line1 column1 tokens1 g1 g2
          (by simp only [List.length_append, List.length_cons]; omega)
          (by simp only [List.length_append, List.length_cons]; omega)
      · rw [hcomment '#' _ (Or.inl rfl), hcomment '\n' _ (Or.inr rfl), hdrop1, hdrop2]
        exact hsame line column tokens g1 g2 (by simp only [List.length_cons]; omega)
          (by simp only [List.length_cons]; omega)

/-- C34: a comment produces no token and does not change the others. For every
text `s` that does not end inside a string literal, every comment text `c`
without newline and every text `t`, the source `s # c <newline> t` tokenizes to
the same result (the same tokens with the same lines and columns, or the same
error) as the source `s <newline> t`. -/
theorem comment_transparent (s c t : List Char) (hs : scanMode .code s ≠ .string)
    (hc : '\n' ∉ c) :
    tokenize (String.mk (s ++ '#' :: (c ++ '\n' :: t)))
      = tokenize (String.mk (s ++ '\n' :: t)) := by
  simp only [tokenize, Lexer]
  exact lexLoop_comment c t hc s.length s (le_refl _) hs 1 1 [] _ _ (le_refl _) (le_refl _)

theorem comment_transparent_witness :
    tokenize (String.mk ("soit x = \"a#b\" ".data ++ '#' :: (" note \"".data ++ '\n' :: "montre x".data)))
      = tokenize (String.mk ("soit x = \"a#b\" ".data ++ '\n' :: "montre x".data)) :=
  comment_transparent "soit x = \"a#b\" ".data " note \"".data "montre x".data (by decide)
    (by decide)

/-! ## Instances -/

theorem getElem?_lt {α : Type} (l : List α) (i : Nat) (x : α) (h : l[i]? = some x) :
    i < l.length := by
  rcases Nat.lt_or_ge i l.length with hlt | hge
  · exact hlt
  · rw [List.getElem?_eq_none hge] at h; cases h

theorem set_same {α : Type} (l : List α) (i : Nat) (x : α) (h : l[i]? = some x) :
    l.set i x = l := by
  apply List.ext_getElem?
  intro j
  by_cases hj : i = j
  · subst hj
    rw [List.getElem?_set_self (getElem?_lt l i x h), h]
  · rw [List.getElem?_set_ne hj]

theorem set_chain {α : Type} (l : List α) (a self : Nat) (A1 A2 P1 P2 : α) :
    (((l.set a A1).set self P1).set a A2).set self P2 = (l.set a A2).set self P2 := by
  apply List.ext_getElem?
  intro j
  by_cases h1 : self = j
  · subst h1
    simp [List.getElem?_set]
  · by_cases h2 : a = j
    · subst h2
      simp [List.getElem?_set, h1]
    · simp [List.getElem?_set, h1, h2]

theorem set_chain2 {α : Type} (l : List α) (a self : Nat) (P1 A2 P2 : α) :
    ((l.set self P1).set a A2).set self P2 = (l.set a A2).set self P2 := by
  apply List.ext_getElem?
  intro j
  by_cases h1 : self = j
  · subst h1
    simp [List.getElem?_set]
  · by_cases h2 : a = j
    · subst h2
      simp [List.getElem?_set, h1]
    · simp [List.getElem?_set, h1, h2]

/-- The `forEach` of `instantiateClass` over methods with plain names: every
`prive` name is pushed on the array of private names, and every method is stored
on the instance under its name, as a new function object bound to the instance. -/
theorem bindMethods_ok (self a : Nat) (hne : a ≠ self) (ms : List Node) :
    ∀ (s : State) (properties : List (String × Value)) (names : List Value),
      (∀ m ∈ ms, m.plainMethod = true) →
      s.heap[self]? = some (.object properties) →
      properties.lookup "__privateMethods__" = some (.ref a) →
      s.heap[a]? = some (.array names) →
      bindMethods self ms s = .ok ()
        { s with
          heap := (s.heap.set a
              (.array (names ++ (ms.filter Node.isPrivate).map fun m => .str m.methodKey))).set
            self (.object (bindAll s.closures.length ms properties))
          closures := s.closures ++ ms.map fun m => (m, self) } := by
  induction ms with
  | nil =>
    intro s properties names _ hself _ ha
    simp only [bindMethods, List.filter_nil, List.map_nil, List.append_nil, bindAll]
    rw [set_same s.heap a _ ha, set_same s.heap self _ hself]
  | cons m rest ih =>
    intro s properties names hplain hself hpriv ha
    have hm := hplain m (by simp)
    have hrest : ∀ x ∈ rest, x.plainMethod = true := fun x hx => hplain x (by simp [hx])
    have hselflt := getElem?_lt _ _ _ hself
    have halt := getElem?_lt _ _ _ ha
    cases m with
    | FunctionDeclaration name params body visibility line column =>
      cases name with
      | str nm =>
        simp only [Node.plainMethod, reservedProperties, decide_eq_true_eq, List.mem_cons,
          List.mem_singleton, List.not_mem_nil, or_false, not_or] at hm
        obtain ⟨hm1, hm2, hm3⟩ := hm
        by_cases hv : visibility = some (.str "prive")
        · -- a private method
          subst hv
          have hself1 : (s.heap.set a (.array (names ++ [.str nm])))[self]?
              = some (.object properties) := by
            rw [List.getElem?_set_ne hne, hself]
          have step := ih
            { s with
              heap := (s.heap.set a (.array (names ++ [.str nm]))).set self
                (.object (dictSet properties nm (.fn s.closures.length)))
              closures := s.closures ++
                [(.FunctionDeclaration (.str nm) params body (some (.str "prive")) line column, self)] }
            (dictSet properties nm (.fn s.closures.length)) (names ++ [.str nm]) hrest
            (by simp only []; rw [List.getElem?_set_self (by simpa using hselflt)])
            (by rw [lookup_dictSet, if_neg (fun e => hm3 e.symm)]; exact hpriv)
            (by
              simp only []
              rw [List.getElem?_set_ne (fun e => hne e.symm),
                List.getElem?_set_self halt])
          simp only [bindMethods, TokenValue.toValue, TokenValue.key, Option.bind,
            Value.toKey, hself, if_true, hpriv, ha, hm1, if_false, hself1]
          rw [step]
          simp only [List.length_append, List.length_singleton, Node.isPrivate,
            decide_True, List.filter_cons_of_pos, List.map_cons, Node.methodKey, bindAll,
            List.append_assoc, List.singleton_append]
          rw [set_chain s.heap a self]
        · -- a public method
          have step := ih
            { s with
              heap := s.heap.set self
                (.object (dictSet properties nm (.fn s.closures.length)))
              closures := s.closures ++
                [(.FunctionDeclaration (.str nm) params body visibility line column, self)] }
            (dictSet properties nm (.fn s.closures.length)) names hrest
            (by simp only []; rw [List.getElem?_set_self hselflt])
            (by rw [lookup_dictSet, if_neg (fun e => hm3 e.symm)]; exact hpriv)
            (by simp only []; rw [List.getElem?_set_ne (fun e => hne e.symm), ha])
          simp only [bindMethods, TokenValue.toValue, TokenValue.key, Option.bind,
            Value.toKey, hself, hv, if_false, hm1]
          rw [step]
          simp only [List.length_append, List.length_singleton, Node.isPrivate, hv,
            decide_False, Bool.false_eq_true, not_false_eq_true, List.filter_cons_of_neg,
            Node.methodKey, bindAll, List.map_cons, List.append_assoc, List.singleton_append]
          rw [set_chain2 s.heap a self]
      | num _ => simp [Node.plainMethod] at hm
      | inherited _ => simp [Node.plainMethod] at hm
    | _ => simp [Node.plainMethod] at hm

theorem getElem?_appended_first {α : Type} (l : List α) (x y : α) :
    (l ++ [x, y])[l.length]? = some x := by
  rw [List.getElem?_append_right (le_refl _)]
  simp

theorem getElem?_appended_second {α : Type} (l : List α) (x y : α) :
    (l ++ [x, y])[l.length + 1]? = some y := by
  rw [List.getElem?_append_right (by omega)]
  simp

theorem set_two_appended {α : Type} (l : List α) (x y x1 y1 : α) :
    ((l ++ [x, y]).set l.length x1).set (l.length + 1) y1 = l ++ [x1, y1] := by
  apply List.ext_getElem?
  intro j
  rcases Nat.lt_trichotomy j l.length with h | h | h
  · have h1 : l.length + 1 ≠ j := by omega
    have h2 : l.length ≠ j := by omega
    rw [List.getElem?_set_ne h1, List.getElem?_set_ne h2, List.getElem?_append_left h,
      List.getElem?_append_left h]
  · subst h
    have h1 : l.length + 1 ≠ l.length := by omega
    rw [List.getElem?_set_ne h1, List.getElem?_set_self (by simp), getElem?_appended_first]
  · by_cases h3 : j = l.length + 1
    · subst h3
      rw [List.getElem?_set_self (by simp), getElem?_appended_second]
    · have h1 : l.length + 1 ≠ j := fun e => h3 e.symm
      have h2 : l.length ≠ j := by omega
      rw [List.getElem?_set_ne h1, List.getElem?_set_ne h2,
        List.getElem?_eq_none (by simp; omega), List.getElem?_eq_none (by simp; omega)]

/-- The method `instantiateClass` on a class that is declared and not abstract,
whose resolved methods have plain names. -/
theorem instantiateClass_ok (fuel : Nat) (k : String) (line : Nat) (s : State)
    (cname : TokenValue) (superClassName : Option TokenValue) (own ms : List Node)
    (declLine declColumn : Nat)
    (hclass : s.classes.lookup k
      = some (.ClassDeclaration cname superClassName own false declLine declColumn))
    (hms : getAllMethods fuel s.classes k = .methods ms)
    (hplain : ∀ m ∈ ms, m.plainMethod = true) :
    instantiateClass fuel (.str k) line s
      = .ok (.ref (s.heap.length + 1)) (withInstance k ms s) := by
  have hbind := bindMethods_ok (s.heap.length + 1) s.heap.length (by omega) ms
    { s with heap := s.heap ++ [.array [],
        .object [("__class__", .str k), ("__privateMethods__", .ref s.heap.length)]] }
    [("__class__", .str k), ("__privateMethods__", .ref s.heap.length)] [] hplain
    (getElem?_appended_second _ _ _)
    (by simp [List.lookup])
    (getElem?_appended_first _ _ _)
  simp only [instantiateClass, TokenValue.toValue, TokenValue.key, Option.bind, Value.toKey,
    hclass, Bool.false_eq_true, if_false, hms, hbind, Result.bind]
  simp only [set_two_appended, List.nil_append, withInstance]

theorem lookup_bindAll_other (ms : List Node) :
    ∀ (base : Nat) (properties : List (String × Value)) (key : String),
      key ∉ ms.map Node.methodKey →
      (bindAll base ms properties).lookup key = properties.lookup key := by
  induction ms with
  | nil => intro base properties key _; rfl
  | cons m rest ih =>
    intro base properties key hkey
    simp only [List.map_cons, List.mem_cons, not_or] at hkey
    rw [bindAll, ih _ _ _ hkey.2, lookup_dictSet, if_neg hkey.1]

/-- The property stored for the method of rank `i`, when the names differ. -/
theorem lookup_bindAll (ms : List Node) :
    ∀ (base : Nat) (properties : List (String × Value)) (i : Nat) (m : Node),
      (ms.map Node.methodKey).Nodup → ms[i]? = some m →
      (bindAll base ms properties).lookup m.methodKey = some (.fn (base + i)) := by
  induction ms with
  | nil => intro base properties i m _ h; simp at h
  | cons x rest ih =>
    intro base properties i m hnodup h
    simp only [List.map_cons, List.nodup_cons] at hnodup
    cases i with
    | zero =>
      simp only [List.getElem?_cons_zero, Option.some.injEq] at h
      subst h
      rw [bindAll, lookup_bindAll_other rest _ _ _ hnodup.1, lookup_dictSet, if_pos rfl]
      rfl
    | succ j =>
      simp only [List.getElem?_cons_succ] at h
      rw [bindAll, ih (base + 1) _ j m hnodup.2 h]
      congr 2
      omega

theorem plainMethod_name (m : Node) (h : m.plainMethod = true) :
    m.methodName = some (.str m.methodKey) := by
  cases m with
  | FunctionDeclaration name params body visibility line column =>
    cases name <;> simp_all [Node.plainMethod, Node.methodName, Node.methodKey]
  | _ => simp [Node.plainMethod] at h

theorem nodup_methodKey (ms : List Node) (hplain : ∀ m ∈ ms, m.plainMethod = true)
    (h : (ms.map Node.methodName).Nodup) : (ms.map Node.methodKey).Nodup := by
  have : ms.map Node.methodName = (ms.map Node.methodKey).map fun k => some (.str k) := by
    rw [List.map_map]
    apply List.map_congr_left
    intro m hm
    exact plainMethod_name m (hplain m hm)
  rw [this] at h
  exact List.Nodup.of_map _ h

/-- The instance `nouveau` builds: its tag, its private names, and for each
resolved method the callable stored under the name of the method. -/
theorem withInstance_facts (k : String) (ms : List Node) (s : State)
    (hplain : ∀ m ∈ ms, m.plainMethod = true) (hnodup : (ms.map Node.methodName).Nodup) :
    ∃ properties,
      (withInstance k ms s).heap[s.heap.length + 1]? = some (.object properties)
      ∧ (withInstance k ms s).heap[s.heap.length]?
          = some (.array ((ms.filter Node.isPrivate).map fun m => .str m.methodKey))
      ∧ properties.lookup "__class__" = some (.str k)
      ∧ properties.lookup "__privateMethods__" = some (.ref s.heap.length)
      ∧ (∀ (i : Nat) (m : Node), ms[i]? = some m →
          properties.lookup m.methodKey = some (.fn (s.closures.length + i))
          ∧ (withInstance k ms s).closures[s.closures.length + i]?
              = some (m, s.heap.length + 1)) := by
  have hreserved : ∀ key ∈ reservedProperties, key ∉ ms.map Node.methodKey := by
    intro key hkey hmem
    obtain ⟨m, hm, rfl⟩ := List.mem_map.1 hmem
    have := hplain m hm
    cases m with
    | FunctionDeclaration name params body visibility line column =>
      cases name <;> simp_all [Node.plainMethod, Node.methodKey]
    | _ => simp [Node.plainMethod] at this
  refine ⟨_, getElem?_appended_second _ _ _, getElem?_appended_first _ _ _, ?_, ?_, ?_⟩
  · rw [lookup_bindAll_other ms _ _ _ (hreserved _ (by simp [reservedProperties]))]
    simp [List.lookup]
  · rw [lookup_bindAll_other ms _ _ _ (hreserved _ (by simp [reservedProperties]))]
    simp [List.lookup]
  · intro i m hi
    refine ⟨lookup_bindAll ms _ _ i m (nodup_methodKey ms hplain hnodup) hi, ?_⟩
    simp only [withInstance]
    rw [List.getElem?_append_right (by omega)]
    simp [hi]

/-- The call `x.m(args)` of a method the instance holds: when the method is not
private, or `ceci` is the instance, the arguments are evaluated and `callMethod`
runs the method the function object was made for. -/
theorem evaluateMember_call (ev : Node → State → Result Value) (leftNode : Node)
    (name : String) (args : List Node) (callLine callColumn line : Nat) (s s1 s2 : State)
    (self a id owner : Nat) (properties : List (String × Value)) (names values : List Value)
    (m : Node)
    (hleft : ev leftNode s = .ok (.ref self) s1)
    (hself : s1.heap[self]? = some (.object properties))
    (hpriv : properties.lookup "__privateMethods__" = some (.ref a))
    (ha : s1.heap[a]? = some (.array names))
    (hguard : names.contains (.str name) = true →
      Environment.get s1.envs.length s1.envs s1.env "ceci" = .found (.ref self))
    (hprop : properties.lookup name = some (.fn id))
    (hargs : evalAll ev args s1 = .ok values s2)
    (hclosure : s2.closures[id]? = some (m, owner)) :
    evaluateMember ev leftNode (.CallExpression (.str name) args callLine callColumn) line s
      = callMethod ev m values (.ref owner) s2 := by
  have hcall : evaluateMember.callOrRead ev
      (.CallExpression (.str name) args callLine callColumn) (.str name) (.ref self) s1
      = callMethod ev m values (.ref owner) s2 := by
    simp [evaluateMember.callOrRead, getProperty, hself, Value.toKey, hprop, hargs,
      Result.bind, hclosure]
  cases hc : decide (Value.str name ∈ names) with
  | false =>
    simp [evaluateMember, hleft, Result.bind, rightLabel, TokenValue.toValue, Value.toKey,
      privateMethodsOf, hself, hpriv, Value.truthy, ha, hc, hcall]
  | true =>
    have hin : names.contains (.str name) = true := by simpa using hc
    simp [evaluateMember, hleft, Result.bind, rightLabel, TokenValue.toValue, Value.toKey,
      privateMethodsOf, hself, hpriv, Value.truthy, ha, hc, hguard hin, hcall]

/-- The guard of `evaluateMember`: a private member, reached while `ceci` is not
bound to the receiver. -/
theorem evaluateMember_private (ev : Node → State → Result Value) (leftNode rightNode : Node)
    (name : String) (line : Nat) (s s1 : State)
    (self a : Nat) (properties : List (String × Value)) (names : List Value)
    (hlabel : rightLabel rightNode = some (.str name))
    (hleft : ev leftNode s = .ok (.ref self) s1)
    (hself : s1.heap[self]? = some (.object properties))
    (hpriv : properties.lookup "__privateMethods__" = some (.ref a))
    (ha : s1.heap[a]? = some (.array names))
    (hname : names.contains (.str name) = true)
    (hceci : Environment.get s1.envs.length s1.envs s1.env "ceci" ≠ .found (.ref self)) :
    evaluateMember ev leftNode rightNode line s
      = .stop (.error (lineTag line ++ "La méthode '" ++ name
          ++ "' est privée et ne peut être accédée de l'extérieur.")) s1 := by
  have hne : (match Environment.get s1.envs.length s1.envs s1.env "ceci" with
      | .found v => v
      | _ => Value.null) ≠ .ref self := by
    cases hg : Environment.get s1.envs.length s1.envs s1.env "ceci" with
    | found v =>
      simp only
      intro e
      exact hceci (by rw [hg, e])
    | unbound => simp
    | invalid => simp
  simp only [evaluateMember, hleft, Result.bind, hlabel, TokenValue.toValue, Option.bind,
    Value.toKey, privateMethodsOf, hself, hpriv, Option.getD, Value.truthy, ha, hname]
  simp [hne]

theorem find_overrideInPlace (base own : List Node) (h : (base.map Node.methodName).Nodup)
    (k : Option TokenValue) :
    (overrideInPlace base own).find? (fun m => decide (m.methodName = k)) =
      (lastDeclaration own k).orElse
        fun _ => base.find? (fun m => decide (m.methodName = k)) := by
  rw [← foldl_eq_overrideInPlace base own h, find_foldl]

/-- In a list of methods with different names, the method found under a name is
the only one of that name. -/
theorem unique_of_find (l : List Node) (h : (l.map Node.methodName).Nodup)
    (k : Option TokenValue) (x : Node)
    (hx : l.find? (fun m => decide (m.methodName = k)) = some x) :
    x ∈ l ∧ ∀ m ∈ l, m.methodName = k → m = x := by
  refine ⟨List.mem_of_find?_eq_some hx, fun m hm hk => ?_⟩
  have := find_of_mem l h m hm
  rw [hk, hx] at this
  exact (Option.some.inj this).symm

theorem private_names_of_public (ms : List Node) (hkeys : (ms.map Node.methodKey).Nodup)
    (m : Node) (hm : m ∈ ms) (hpub : m.isPrivate = false) :
    ((ms.filter Node.isPrivate).map fun x => Value.str x.methodKey).contains
      (.str m.methodKey) = false := by
  rw [Bool.eq_false_iff]
  intro hc
  simp only [List.contains_iff_exists_mem_beq, List.mem_map, List.mem_filter, beq_iff_eq]
    at hc
  obtain ⟨_, ⟨x, ⟨hx, hxp⟩, rfl⟩, hkey⟩ := hc
  have hkey' : m.methodKey = x.methodKey := by
    simpa using hkey
  have : m = x := List.inj_on_of_nodup_map hkeys hm hx hkey'
  subst this
  rw [hpub] at hxp
  cases hxp


/-! ## The table of function objects only grows -/

theorem grows_refl (s : State) : Grows s s := ⟨[], by simp⟩

theorem grows_trans {s s1 s2 : State} (h1 : Grows s s1) (h2 : Grows s1 s2) : Grows s s2 := by
  obtain ⟨l1, e1⟩ := h1
  obtain ⟨l2, e2⟩ := h2
  exact ⟨l1 ++ l2, by rw [e2, e1, List.append_assoc]⟩

theorem grows_of_closures {s t : State} (h : t.closures = s.closures) : Grows s t :=
  ⟨[], by simp [h]⟩

theorem grows_same {α : Type} {s : State} (r : Result α) (h : r.state.closures = s.closures) :
    Grows s r.state := ⟨[], by simp [h]⟩

theorem grows_bind {α β : Type} {s : State} {r : Result α} {k : α → State → Result β}
    (hr : Grows s r.state) (hk : ∀ a s1, Grows s1 (k a s1).state) :
    Grows s (r.bind k).state := by
  cases r with
  | ok a s1 => exact grows_trans hr (hk a s1)
  | stop sig s1 => exact hr

/-- A function object of a state is still there, under its number, in a state
whose table extends it. -/
theorem grows_getElem? {s t : State} (h : Grows s t) (id : Nat) (e : Node × Nat)
    (he : s.closures[id]? = some e) : t.closures[id]? = some e := by
  obtain ⟨l, hl⟩ := h
  rw [hl, List.getElem?_append_left (List.getElem?_eq_some_iff.mp he).1]
  exact he

theorem callBuiltIn_closures (name : String) (args : List Value) (s : State) :
    (callBuiltIn name args s).state.closures = s.closures := by
  unfold callBuiltIn
  simp only []
  repeat' split
  all_goals rfl

theorem binaryOperation_same (operator : TokenValue) (left right : Value) (line : Nat)
    (s : State) : (binaryOperation operator left right line s).state = s := by
  unfold binaryOperation
  lift_lets
  intro numeric coerced compare
  have hn : ∀ f, (numeric f).state = s := by
    intro f
    simp only [numeric]
    repeat' split
    all_goals rfl
  have hk : ∀ f, (coerced f).state = s := by
    intro f
    simp only [coerced]
    repeat' split
    all_goals first | rfl | exact hn _
  have hc : ∀ f g, (compare f g).state = s := by
    intro f g
    simp only [compare]
    repeat' split
    all_goals rfl
  by_cases h1 : operator = .str "+"
  · rw [if_pos h1]
    split
    · rfl
    · exact hn _
  rw [if_neg h1]
  by_cases h2 : operator = .str "-"
  · rw [if_pos h2]
    exact hk _
  rw [if_neg h2]
  by_cases h3 : operator = .str "*"
  · rw [if_pos h3]
    exact hk _
  rw [if_neg h3]
  by_cases h4 : operator = .str "/"
  · rw [if_pos h4]
    by_cases h0 : right = .num 0
    · rw [if_pos h0]
      rfl
    · rw [if_neg h0]
      exact hk _
  rw [if_neg h4]
  by_cases h5 : operator = .str "=="
  · rw [if_pos h5]
    rfl
  rw [if_neg h5]
  by_cases h6 : operator = .str "!="
  · rw [if_pos h6]
    rfl
  rw [if_neg h6]
  by_cases h7 : operator = .str "<"
  · rw [if_pos h7]
    exact hc _ _
  rw [if_neg h7]
  by_cases h8 : operator = .str ">"
  · rw [if_pos h8]
    exact hc _ _
  rw [if_neg h8]
  by_cases h9 : operator = .str "<="
  · rw [if_pos h9]
    exact hc _ _
  rw [if_neg h9]
  by_cases h10 : operator = .str ">="
  · rw [if_pos h10]
    exact hc _ _
  rw [if_neg h10]
  rfl

theorem bindMethods_grows (self : Nat) : ∀ (ms : List Node) (s : State),
    Grows s (bindMethods self ms s).state := by
  intro ms
  induction ms with
  | nil => intro s; exact grows_refl s
  | cons m rest ih =>
    intro s
    unfold bindMethods
    repeat' split
    all_goals first
      | exact grows_refl s
      | exact grows_trans ⟨[_], rfl⟩ (ih _)
      | skip
    all_goals dsimp only
    all_goals repeat' split
    all_goals first
      | exact grows_refl s
      | exact grows_trans ⟨[_], rfl⟩ (ih _)

theorem instantiateClass_grows (fuel : Nat) (name : TokenValue) (line : Nat) (s : State) :
    Grows s (instantiateClass fuel name line s).state := by
  unfold instantiateClass
  repeat' split
  all_goals first
    | exact grows_refl s
    | exact grows_bind (grows_trans (grows_of_closures rfl) (bindMethods_grows _ _ _))
        (fun _ s2 => grows_refl s2)

theorem grows_runStatements {ev : Node → State → Result Value}
    (hev : ∀ node s, Grows s (ev node s).state) :
    ∀ (stmts : List Node) (s : State), Grows s (runStatements ev stmts s).state := by
  intro stmts
  induction stmts with
  | nil => intro s; exact grows_refl s
  | cons stmt rest ih =>
    intro s
    unfold runStatements
    exact grows_bind (hev stmt s) fun _ s1 => ih s1

theorem grows_evalAll {ev : Node → State → Result Value}
    (hev : ∀ node s, Grows s (ev node s).state) :
    ∀ (nodes : List Node) (s : State), Grows s (evalAll ev nodes s).state := by
  intro nodes
  induction nodes with
  | nil => intro s; exact grows_refl s
  | cons n rest ih =>
    intro s
    unfold evalAll
    exact grows_bind (hev n s) fun v s1 => grows_bind (ih s1) fun vs s2 => grows_refl s2

theorem grows_evalPairs {ev : Node → State → Result Value}
    (hev : ∀ node s, Grows s (ev node s).state) :
    ∀ (pairs : List (TokenValue × Node)) (acc : List (String × Value)) (s : State),
      Grows s (evalPairs ev pairs acc s).state := by
  intro pairs
  induction pairs with
  | nil => intro acc s; exact grows_refl s
  | cons pair rest ih =>
    intro acc s
    obtain ⟨key, value⟩ := pair
    unfold evalPairs
    refine grows_bind (hev value s) fun v s1 => ?_
    dsimp only
    split
    · exact grows_refl s1
    · split
      · exact grows_refl s1
      · exact ih _ s1

theorem grows_whileLoop {ev : Node → State → Result Value}
    (hev : ∀ node s, Grows s (ev node s).state) (condition : Node) (body : List Node) :
    ∀ (fuel : Nat) (s : State), Grows s (whileLoop ev fuel condition body s).state := by
  intro fuel
  induction fuel with
  | zero => intro s; exact grows_refl s
  | succ n ih =>
    intro s
    unfold whileLoop
    refine grows_bind (hev condition s) fun c s1 => ?_
    dsimp only
    split
    · exact grows_bind (grows_runStatements hev body s1) fun _ s2 => ih s2
    · exact grows_refl s1

theorem grows_runBody {ev : Node → State → Result Value}
    (hev : ∀ node s, Grows s (ev node s).state) (frame : List (String × Value))
    (body : List Node) (s : State) : Grows s (runBody ev frame body s).state := by
  have hr := grows_runStatements hev body (enterCall frame s)
  rw [runBody_eq]
  revert hr
  generalize runStatements ev body (enterCall frame s) = r
  intro hr
  have hs : ∀ t, Grows (enterCall frame s) t → Grows s t := fun t h => h
  cases r with
  | ok u s2 => exact hs _ hr
  | stop sig s2 => cases sig <;> exact hs _ hr

theorem grows_callUser {ev : Node → State → Result Value}
    (hev : ∀ node s, Grows s (ev node s).state) (func : Node) (args : List Value)
    (s : State) : Grows s (callUser ev func args s).state := by
  unfold callUser
  split
  · split
    · exact grows_refl s
    · exact grows_runBody hev _ _ s
  · exact grows_refl s

theorem grows_callMethod {ev : Node → State → Result Value}
    (hev : ∀ node s, Grows s (ev node s).state) (methodNode : Node) (args : List Value)
    (self : Value) (s : State) : Grows s (callMethod ev methodNode args self s).state := by
  unfold callMethod
  split
  · split
    · exact grows_refl s
    · exact grows_runBody hev _ _ s
  · exact grows_refl s

theorem grows_callFunction {ev : Node → State → Result Value}
    (hev : ∀ node s, Grows s (ev node s).state) (name : TokenValue) (args : List Node)
    (line : Nat) (s : State) : Grows s (callFunction ev name args line s).state := by
  unfold callFunction
  split
  · exact grows_refl s
  · split
    · split <;> exact grows_refl s
    · refine grows_bind (grows_evalAll hev args s) fun values s1 => ?_
      split
      · exact grows_same _ (callBuiltIn_closures _ _ _)
      · exact grows_callUser hev _ _ s1

theorem grows_callOrRead {ev : Node → State → Result Value}
    (hev : ∀ node s, Grows s (ev node s).state) (rightNode : Node)
    (labelValue left : Value) (s1 : State) :
    Grows s1 (evaluateMember.callOrRead ev rightNode labelValue left s1).state := by
  unfold evaluateMember.callOrRead
  split
  · exact grows_refl s1
  · split
    · refine grows_bind (grows_evalAll hev _ s1) fun values s2 => ?_
      split
      · exact grows_callMethod hev _ _ _ s2
      · exact grows_refl s2
    · exact grows_refl s1
  · exact grows_refl s1

theorem grows_evaluateMember {ev : Node → State → Result Value}
    (hev : ∀ node s, Grows s (ev node s).state) (leftNode rightNode : Node)
    (line : Nat) (s : State) : Grows s (evaluateMember ev leftNode rightNode line s).state := by
  unfold evaluateMember
  refine grows_bind (hev leftNode s) fun left s1 => ?_
  dsimp only
  repeat' split
  all_goals first
    | exact grows_refl s1
    | exact grows_callOrRead hev _ _ _ s1

theorem grows_evaluateBinary {ev : Node → State → Result Value}
    (hev : ∀ node s, Grows s (ev node s).state) (operator : TokenValue)
    (leftNode rightNode : Node) (line : Nat) (s : State) :
    Grows s (evaluateBinary ev operator leftNode rightNode line s).state := by
  unfold evaluateBinary
  refine grows_bind (hev leftNode s) fun left s1 =>
    grows_bind (hev rightNode s1) fun right s2 => ?_
  rw [binaryOperation_same]
  exact grows_refl s2

theorem grows_tryAndCatch {ev : Node → State → Result Value}
    (hev : ∀ node s, Grows s (ev node s).state) (block : List Node)
    (handler : Option (TokenValue × List Node)) (finalizer : Option (List Node)) (s : State) :
    Grows s (tryAndCatch ev block handler finalizer s).state := by
  have hr := grows_runStatements hev block s
  have hcaught : ∀ (errorValue : Value) (raised : Signal) (s1 : State), Grows s s1 →
      Grows s
        (match handler with
          | some (param, body) =>
            match param.key with
            | none => .stop (.unsupported "catch parameter that is not a string") s1
            | some k =>
              if k = "__proto__" then .stop (.unsupported "catch parameter __proto__") s1
              else
                runStatements ev body
                  { s1 with envs := s1.envs ++ [⟨[(k, errorValue)], some s.env⟩],
                            env := s1.envs.length }
          | none => if finalizer.isNone then .stop raised s1 else .ok () s1 :
            Result Unit).state := by
    intro errorValue raised s1 h1
    split
    · split
      · exact h1
      · split
        · exact h1
        · exact grows_trans h1 (grows_trans (grows_of_closures rfl) (grows_runStatements hev _ _))
    · split
      · exact h1
      · exact h1
  unfold tryAndCatch
  dsimp only
  revert hr
  generalize runStatements ev block s = r
  intro hr
  cases r with
  | ok u s1 => exact hr
  | stop sig s1 =>
    cases sig with
    | thrown v line => exact hcaught v _ s1 hr
    | error message => exact hcaught _ _ s1 hr
    | _ => exact hr

theorem grows_finishTry {ev : Node → State → Result Value}
    (hev : ∀ node s, Grows s (ev node s).state) (finalizer : Option (List Node))
    (previousEnv : Nat) (s : State) (pending : Result Unit) (hp : Grows s pending.state) :
    Grows s (finishTry ev finalizer previousEnv pending).state := by
  have hfin : ∀ (statements : List Node) (s1 : State), Grows s s1 →
      Grows s (runStatements ev statements { s1 with env := previousEnv }).state :=
    fun statements s1 h1 =>
      grows_trans h1 (grows_trans (grows_of_closures rfl) (grows_runStatements hev statements _))
  unfold finishTry
  cases pending with
  | ok u s1 =>
    dsimp only
    cases finalizer with
    | none => exact hp
    | some statements =>
      dsimp only [Result.state]
      have h := hfin statements s1 hp
      revert h
      generalize runStatements ev statements _ = r
      intro h
      cases r with
      | ok u4 s4 => exact h
      | stop sig4 s4 => exact h
  | stop sig s1 =>
    cases sig with
    | unsupported what => exact hp
    | outOfFuel => exact hp
    | _ =>
      dsimp only
      cases finalizer with
      | none => exact hp
      | some statements =>
        dsimp only [Result.state]
        have h := hfin statements s1 hp
        revert h
        generalize runStatements ev statements _ = r
        intro h
        cases r with
        | ok u4 s4 => exact h
        | stop sig4 s4 => exact h

theorem grows_evalInclude {ev : Node → State → Result Value}
    (hev : ∀ node s, Grows s (ev node s).state) (path : TokenValue) (line : Nat)
    (s : State) : Grows s (evalInclude ev path line s).state := by
  unfold evalInclude
  split
  · exact grows_refl s
  · dsimp only
    split
    · exact grows_refl s
    · split
      · exact grows_refl s
      · exact grows_refl s
      · split
        · exact grows_refl s
        · split <;> exact grows_refl s
        · rename_i ast _
          have h := hev ast s
          revert h
          generalize ev ast s = r
          intro h
          cases r with
          | ok v s1 => exact h
          | stop sig s1 => cases sig <;> exact h

theorem grows_evalNode {ev : Node → State → Result Value}
    (hev : ∀ node s, Grows s (ev node s).state) (fuel : Nat) (node : Node) (s : State) :
    Grows s (evalNode ev fuel node s).state := by
  cases node with
  | Program body =>
    simp only [evalNode]
    exact grows_bind (grows_runStatements hev body s) fun _ s1 => grows_refl s1
  | VariableDeclaration name value line column =>
    simp only [evalNode]
    refine grows_bind (hev value s) fun v s1 => ?_
    split
    · exact (grows_of_closures rfl)
    · exact grows_refl s1
  | ExpressionStatement expression line column =>
    simp only [evalNode]
    exact hev expression s
  | PrintStatement args line column =>
    simp only [evalNode]
    exact grows_bind (grows_evalAll hev args s) fun _ s1 => (grows_of_closures rfl)
  | IfStatement condition consequent alternate line column =>
    simp only [evalNode]
    refine grows_bind (hev condition s) fun c s1 => ?_
    split
    · exact grows_bind (grows_runStatements hev consequent s1) fun _ s2 => grows_refl s2
    · split
      · exact grows_bind (grows_runStatements hev _ s1) fun _ s2 => grows_refl s2
      · exact grows_refl s1
  | WhileStatement condition body line column =>
    simp only [evalNode]
    exact grows_whileLoop hev condition body fuel s
  | FunctionDeclaration name params body visibility line column =>
    simp only [evalNode]
    split
    · split
      · exact grows_refl s
      · exact (grows_of_closures rfl)
    · exact grows_refl s
  | ReturnStatement argument line column =>
    simp only [evalNode]
    exact grows_bind (hev argument s) fun _ s1 => grows_refl s1
  | ClassDeclaration name superClassName methods isAbstract line column =>
    simp only [evalNode]
    split
    · split
      · exact grows_refl s
      · exact (grows_of_closures rfl)
    · exact grows_refl s
  | InterfaceDeclaration name methods line column =>
    simp only [evalNode]
    exact grows_refl s
  | TryStatement block handler finalizer line column =>
    simp only [evalNode]
    exact grows_finishTry hev finalizer s.env s _ (grows_tryAndCatch hev block handler finalizer s)
  | ThrowStatement argument line column =>
    simp only [evalNode]
    exact grows_bind (hev argument s) fun _ s1 => grows_refl s1
  | IncludeStatement path line column =>
    simp only [evalNode]
    exact grows_evalInclude hev path line s
  | CallExpression callee args line column =>
    simp only [evalNode]
    exact grows_callFunction hev callee args line s
  | BinaryExpression operator left right line column =>
    simp only [evalNode]
    split
    · exact grows_evaluateMember hev left right line s
    · exact grows_evaluateBinary hev operator left right line s
  | AssignmentExpression left right line column =>
    simp only [evalNode]
    refine grows_bind (hev right s) fun value s1 => ?_
    split
    · split
      · exact grows_refl s1
      · split
        · exact (grows_of_closures rfl)
        · exact grows_refl s1
        · exact grows_refl s1
    · refine grows_bind (hev _ s1) fun obj s2 => grows_bind (hev _ s2) fun prop s3 => ?_
      split
      · exact grows_refl s3
      · split
        · exact (grows_of_closures rfl)
        · exact grows_refl s3
    · exact grows_refl s1
  | Literal value line column =>
    simp only [evalNode]
    split <;> exact grows_refl s
  | Identifier name line column =>
    simp only [evalNode]
    split
    · exact grows_refl s
    · split <;> exact grows_refl s
  | NewExpression className line column =>
    simp only [evalNode]
    exact instantiateClass_grows _ _ _ _
  | ListLiteral elements line column =>
    simp only [evalNode]
    exact grows_bind (grows_evalAll hev elements s) fun _ s1 => (grows_of_closures rfl)
  | ObjectLiteral pairs line column =>
    simp only [evalNode]
    exact grows_bind (grows_evalPairs hev pairs [] s) fun _ s1 => (grows_of_closures rfl)
  | MemberExpression object property line column =>
    simp only [evalNode]
    refine grows_bind (hev object s) fun obj s1 => grows_bind (hev property s1) fun idx s2 => ?_
    split
    · exact grows_refl s2
    · split <;> exact grows_refl s2

theorem annotate_same (node : Node) (r : Result Value) : (annotate node r).state = r.state := by
  unfold annotate
  split
  · split <;> rfl
  · rfl

/-- Evaluation takes no function object out of the table and renumbers none. -/
theorem grows_evaluate : ∀ (fuel : Nat) (node : Node) (s : State),
    Grows s (evaluate fuel node s).state := by
  intro fuel
  induction fuel with
  | zero => intro node s; exact grows_refl s
  | succ n ih =>
    intro node s
    rw [evaluate_succ, annotate_same]
    exact grows_evalNode ih n node s

set_option maxRecDepth 100000 in
theorem animal_example :
    (runCode 50
        "classe Animal \x7b fonction parler() \x7b renvoie \"...\" \x7d \x7d\nclasse Chien herite de Animal \x7b fonction parler() \x7b renvoie \"Wouf\" \x7d \x7d\nsoit a = nouveau Chien()\nmontre a.parler()"
        (Evaluator [])).state.output = [[.str "Wouf"]] := by decide

set_option maxRecDepth 100000 in
theorem inherited_example :
    (runCode 50
        "classe A \x7b fonction f() \x7b renvoie 1 \x7d fonction g() \x7b renvoie 2 \x7d \x7d\nclasse B herite de A \x7b fonction f() \x7b renvoie 3 \x7d \x7d\nsoit b = nouveau B()\nmontre b.f()\nmontre b.g()"
        (Evaluator [])).state.output = [[.num 3], [.num 2]] := by decide

set_option maxRecDepth 100000 in
theorem two_instances_example :
    (runCode 50
        "classe A \x7b fonction f() \x7b renvoie 1 \x7d fonction g() \x7b renvoie 2 \x7d \x7d\nclasse B herite de A \x7b fonction f() \x7b renvoie 3 \x7d \x7d\nsoit b = nouveau B()\nsoit c = nouveau B()\nmontre b.f()\nmontre b.g()"
        (Evaluator [])).state.output = [[.num 3], [.num 2]] := by decide

/-- C21: a class `B` that inherits from `A`. The resolved methods of `B` hold,
for a name that `B` declares, the declaration of `B` (its last one) and no
other method of that name, so not the one of `A`; for a name that only the
resolved methods of `A` hold, that method of `A`. `nouveau B()` stores one
callable per resolved method on the instance, and the call `x.f(args)` on the
instance runs, through `callMethod`, the resolved method named `f` with `ceci`
bound to the instance (a method declared `prive` where `ceci` is the instance,
which is what the guard of private methods asks): in every later state in which
the instance still holds under the names `f` and `__privateMethods__` what
`nouveau` stored, its array of private names is as `nouveau` left it, and the
table of function objects extends the one `nouveau` left, which every
evaluation keeps (other instances made since add to the table). The
Animal/Chien program prints `Wouf`; with the classes `A` of `f` and `g` and `B`
of `f`, the calls `b.f()` and `b.g()` print 3 and 2, also after a second
instance of `B` was made. -/
theorem override_dispatch (s : State) (k superKey : String) (cname superName : TokenValue)
    (own base : List Node) (declLine declColumn : Nat)
    (hclass : s.classes.lookup k
      = some (.ClassDeclaration cname (some superName) own false declLine declColumn))
    (htruthy : superName.truthy = true) (hkey : superName.key = some superKey)
    (hown : ∀ m ∈ own, m.isMethod = true)
    (hbase : Resolves s.classes superKey base)
    (hplain : ∀ m ∈ overrideInPlace base own, m.plainMethod = true) :
    (∃ f0, ∀ f, f0 ≤ f → ∀ line, instantiateClass f (.str k) line s
        = .ok (.ref (s.heap.length + 1)) (withInstance k (overrideInPlace base own) s))
    ∧ (∀ name mB, lastDeclaration own name = some mB →
        mB ∈ overrideInPlace base own
        ∧ ∀ m ∈ overrideInPlace base own, m.methodName = name → m = mB)
    ∧ (∀ name mA, lastDeclaration own name = none → mA ∈ base → mA.methodName = name →
        mA ∈ overrideInPlace base own
        ∧ ∀ m ∈ overrideInPlace base own, m.methodName = name → m = mA)
    ∧ (∀ (ev : Node → State → Result Value) (leftNode : Node) (args : List Node)
        (callLine callColumn line : Nat) (s0 s1 s2 : State) (values : List Value) (m : Node)
        (properties1 : List (String × Value)),
        m ∈ overrideInPlace base own →
        (m.isPrivate = true →
          Environment.get s1.envs.length s1.envs s1.env "ceci"
            = .found (.ref (s.heap.length + 1))) →
        ev leftNode s0 = .ok (.ref (s.heap.length + 1)) s1 →
        s1.heap[s.heap.length + 1]? = some (.object properties1) →
        (∀ properties0,
          (withInstance k (overrideInPlace base own) s).heap[s.heap.length + 1]?
            = some (.object properties0) →
          properties1.lookup m.methodKey = properties0.lookup m.methodKey
          ∧ properties1.lookup "__privateMethods__"
              = properties0.lookup "__privateMethods__") →
        s1.heap[s.heap.length]?
          = (withInstance k (overrideInPlace base own) s).heap[s.heap.length]? →
        evalAll ev args s1 = .ok values s2 →
        Grows (withInstance k (overrideInPlace base own) s) s2 →
        evaluateMember ev leftNode (.CallExpression (.str m.methodKey) args callLine callColumn)
            line s0
          = callMethod ev m values (.ref (s.heap.length + 1)) s2)
    ∧ (∀ (fuel : Nat) (node : Node) (st : State), Grows st (evaluate fuel node st).state)
    ∧ (∀ s1 s2 s3 : State, Grows s1 s2 → Grows s2 s3 → Grows s1 s3)
    ∧ (runCode 50
        "classe Animal \x7b fonction parler() \x7b renvoie \"...\" \x7d \x7d\nclasse Chien herite de Animal \x7b fonction parler() \x7b renvoie \"Wouf\" \x7d \x7d\nsoit a = nouveau Chien()\nmontre a.parler()"
        (Evaluator [])).state.output = [[.str "Wouf"]]
    ∧ (runCode 50
        "classe A \x7b fonction f() \x7b renvoie 1 \x7d fonction g() \x7b renvoie 2 \x7d \x7d\nclasse B herite de A \x7b fonction f() \x7b renvoie 3 \x7d \x7d\nsoit b = nouveau B()\nmontre b.f()\nmontre b.g()"
        (Evaluator [])).state.output = [[.num 3], [.num 2]]
    ∧ (runCode 50
        "classe A \x7b fonction f() \x7b renvoie 1 \x7d fonction g() \x7b renvoie 2 \x7d \x7d\nclasse B herite de A \x7b fonction f() \x7b renvoie 3 \x7d \x7d\nsoit b = nouveau B()\nsoit c = nouveau B()\nmontre b.f()\nmontre b.g()"
        (Evaluator [])).state.output = [[.num 3], [.num 2]] := by
  have hres : Resolves s.classes k (overrideInPlace base own) :=
    .inherits hclass htruthy hkey hown hbase
  have hbn := resolves_nodup hbase
  have hnodup := resolves_nodup hres
  refine ⟨?_, ?_, ?_, ?_, grows_evaluate, fun _ _ _ h1 h2 => grows_trans h1 h2,
    animal_example, inherited_example, two_instances_example⟩
  · obtain ⟨f0, hf0⟩ := getAllMethods_resolves s.classes k _ hres
    exact ⟨f0, fun f hf line =>
      instantiateClass_ok f k line s cname (some superName) own _ declLine declColumn hclass
        (hf0 f hf) hplain⟩
  · intro name mB hlast
    exact unique_of_find _ hnodup name mB (by rw [find_overrideInPlace base own hbn, hlast]; rfl)
  · intro name mA hlast hmem hname
    refine unique_of_find _ hnodup name mA ?_
    rw [find_overrideInPlace base own hbn, hlast]
    have := find_of_mem base hbn mA hmem
    rw [hname] at this
    exact this
  · intro ev leftNode args callLine callColumn line s0 s1 s2 values m properties1 hm hpub hleft
      hh1 hkept hh2 hargs hgrows
    obtain ⟨properties, hself, hnames, -, hprivate, hbound⟩ :=
      withInstance_facts k (overrideInPlace base own) s hplain hnodup
    obtain ⟨i, hi⟩ := List.getElem?_of_mem hm
    obtain ⟨hprop, hclosure⟩ := hbound i m hi
    obtain ⟨hk1, hk2⟩ := hkept properties hself
    exact evaluateMember_call ev leftNode m.methodKey args callLine callColumn line s0 s1 s2
      (s.heap.length + 1) s.heap.length (s.closures.length + i) (s.heap.length + 1)
      properties1 _ values m hleft hh1 (by rw [hk2, hprivate]) (by rw [hh2, hnames])
      (fun hc => by
        cases hp : m.isPrivate with
        | true => exact hpub hp
        | false =>
          rw [private_names_of_public _ (nodup_methodKey _ hplain hnodup) m hm hp] at hc
          cases hc)
      (by rw [hk1, hprop]) hargs (grows_getElem? hgrows _ _ hclosure)

/-- C21, witness: on the class table of `inheritanceExample`, `nouveau B()`
makes the instance of the resolved methods `f` of `B` and `g` of `A`; and in
the state `twoInstancesExample`, where a second instance of `B` was made after
the one bound to `b`, the call `b.f()` runs the method `f` of `B` on the
instance `b`. -/
theorem override_dispatch_witness :
    (∃ f0, ∀ f, f0 ≤ f → ∀ line,
      instantiateClass f (.str "B") line inheritanceExample
        = .ok (.ref (inheritanceExample.heap.length + 1))
          (withInstance "B"
            (overrideInPlace
              (overrideInPlace []
                [.FunctionDeclaration (.str "f") [] [] none 1 1,
                 .FunctionDeclaration (.str "g") [] [] none 1 2])
              [.FunctionDeclaration (.str "f") [] [] none 2 1])
            inheritanceExample))
    ∧ evaluateMember (evaluate 1) (.Identifier (.str "b") 5 8)
          (.CallExpression (.str (Node.FunctionDeclaration (.str "f") [] [] none 2 1).methodKey)
            [] 5 10) 5 twoInstancesExample
        = callMethod (evaluate 1) (.FunctionDeclaration (.str "f") [] [] none 2 1) []
            (.ref (inheritanceExample.heap.length + 1)) twoInstancesExample := by
  have e : overrideInPlace
      (overrideInPlace []
        [.FunctionDeclaration (.str "f") [] [] none 1 1,
         .FunctionDeclaration (.str "g") [] [] none 1 2])
      [.FunctionDeclaration (.str "f") [] [] none 2 1]
      = [.FunctionDeclaration (.str "f") [] [] none 2 1,
         .FunctionDeclaration (.str "g") [] [] none 1 2] := by rfl
  have h := override_dispatch inheritanceExample "B" "A" (.str "B") (.str "A")
    [.FunctionDeclaration (.str "f") [] [] none 2 1]
    (overrideInPlace []
      [.FunctionDeclaration (.str "f") [] [] none 1 1,
       .FunctionDeclaration (.str "g") [] [] none 1 2])
    2 1 rfl rfl rfl (by simp [Node.isMethod])
    (@Resolves.root _ "A" (.str "A") none
      [.FunctionDeclaration (.str "f") [] [] none 1 1,
       .FunctionDeclaration (.str "g") [] [] none 1 2] false 1 1 rfl (by simp)
      (by simp [Node.isMethod]))
    (by
      rw [e]
      intro m hm
      simp only [List.mem_cons, List.mem_singleton, List.not_mem_nil, or_false] at hm
      rcases hm with rfl | rfl <;> rfl)
  refine ⟨h.1, ?_⟩
  refine h.2.2.2.1 (evaluate 1) (.Identifier (.str "b") 5 8) [] 5 10 5 twoInstancesExample
    twoInstancesExample twoInstancesExample [] (.FunctionDeclaration (.str "f") [] [] none 2 1)
    [("__class__", .str "B"), ("__privateMethods__", .ref 0), ("f", .fn 0), ("g", .fn 1)]
    (by rw [e]; simp) (fun hp => absurd hp (by decide)) rfl rfl ?_ ?_ rfl ?_
  · intro properties0 h0
    rw [e] at h0
    have : properties0
        = [("__class__", .str "B"), ("__privateMethods__", .ref 0), ("f", .fn 0),
            ("g", .fn 1)] := by
      have h1 : (withInstance "B"
          [.FunctionDeclaration (.str "f") [] [] none 2 1,
           .FunctionDeclaration (.str "g") [] [] none 1 2] inheritanceExample).heap[
            inheritanceExample.heap.length + 1]?
          = some (.object [("__class__", .str "B"), ("__privateMethods__", .ref 0),
              ("f", .fn 0), ("g", .fn 1)]) := by rfl
      rw [h1] at h0
      cases h0
      rfl
    subst this
    exact ⟨rfl, rfl⟩
  · rw [e]
    rfl
  · rw [e]
    exact ⟨[(.FunctionDeclaration (.str "f") [] [] none 2 1, 3),
      (.FunctionDeclaration (.str "g") [] [] none 1 2, 3)], rfl⟩

/-- C24 (as amended): `nouveau N()`. When `N` is not in the class table the
result is an error (`Classe non définie`, or the TypeError of `getAllMethods`
when `N` is a name every object inherits from `Object.prototype`); when `N` was
declared with `abstrait` the result is the error of the abstract class;
otherwise, along a superclass chain that ends and when no resolved method is
named `__class__`, `__privateMethods__` or `__proto__`, it returns (given enough
fuel) a new instance: tagged with the class, holding under the name of each
resolved method a callable bound to that method and to the instance, and
recording exactly the names of the resolved methods declared `prive`, in their
order. When the superclass chain of a declared class that is not abstract ends
at an undeclared name of `Object.prototype`, `nouveau` fails with the TypeError
of `getAllMethods`. -/
theorem instantiation (k : String) (line : Nat) (s : State) :
    (s.classes.lookup k = none → k ∉ objectPrototypeKeys →
      ∀ fuel, instantiateClass fuel (.str k) line s
        = .stop (.error (lineTag line ++ "Classe non définie: " ++ k)) s)
    ∧ (s.classes.lookup k = none → k ∈ objectPrototypeKeys →
      ∀ fuel, instantiateClass fuel (.str k) line s = .stop (.error forEachOfUndefined) s)
    ∧ (∀ cname superClassName own declLine declColumn,
      s.classes.lookup k
        = some (.ClassDeclaration cname superClassName own true declLine declColumn) →
      ∀ fuel, instantiateClass fuel (.str k) line s
        = .stop (.error (lineTag line ++ "Impossible d'instancier la classe abstraite: " ++ k))
            s)
    ∧ (∀ cname superClassName own declLine declColumn ms,
      s.classes.lookup k
        = some (.ClassDeclaration cname superClassName own false declLine declColumn) →
      Resolves s.classes k ms → (∀ m ∈ ms, m.plainMethod = true) →
      (∃ f0, ∀ fuel, f0 ≤ fuel → instantiateClass fuel (.str k) line s
        = .ok (.ref (s.heap.length + 1)) (withInstance k ms s))
      ∧ ∃ properties,
        (withInstance k ms s).heap[s.heap.length + 1]? = some (.object properties)
        ∧ (withInstance k ms s).heap[s.heap.length]?
            = some (.array ((ms.filter Node.isPrivate).map fun m => .str m.methodKey))
        ∧ properties.lookup "__class__" = some (.str k)
        ∧ properties.lookup "__privateMethods__" = some (.ref s.heap.length)
        ∧ (∀ (i : Nat) (m : Node), ms[i]? = some m →
            properties.lookup m.methodKey = some (.fn (s.closures.length + i))
            ∧ (withInstance k ms s).closures[s.closures.length + i]?
                = some (m, s.heap.length + 1)))
    ∧ (∀ cname superClassName own declLine declColumn,
      s.classes.lookup k
        = some (.ClassDeclaration cname superClassName own false declLine declColumn) →
      EndsInherited s.classes k →
      ∃ f0, ∀ fuel, f0 ≤ fuel →
        instantiateClass fuel (.str k) line s = .stop (.error forEachOfUndefined) s) := by
  refine ⟨?_, ?_, ?_, ?_, ?_⟩
  · intro hnone hproto fuel
    simp [instantiateClass, TokenValue.toValue, TokenValue.key, Value.toKey, hnone, hproto]
  · intro hnone hproto fuel
    simp [instantiateClass, TokenValue.toValue, TokenValue.key, Value.toKey, hnone, hproto]
  · intro cname superClassName own declLine declColumn hclass fuel
    simp [instantiateClass, TokenValue.toValue, TokenValue.key, Value.toKey, hclass]
  · intro cname superClassName own declLine declColumn ms hclass hres hplain
    obtain ⟨f0, hf0⟩ := getAllMethods_resolves s.classes k ms hres
    exact ⟨⟨f0, fun fuel hf =>
      instantiateClass_ok fuel k line s cname superClassName own ms declLine declColumn hclass
        (hf0 fuel hf) hplain⟩,
      withInstance_facts k ms s hplain (resolves_nodup hres)⟩
  · intro cname superClassName own declLine declColumn hclass hends
    obtain ⟨f0, hf0⟩ := getAllMethods_endsInherited s.classes k hends
    refine ⟨f0, fun fuel hf => ?_⟩
    simp [instantiateClass, TokenValue.toValue, TokenValue.key, Value.toKey, hclass,
      hf0 fuel hf]

/-- C24, witness: the class `A` with the method `f` and the private method `s`,
declared and not abstract: `nouveau A()` returns the instance, which holds the
two callables and records `s` as private. -/
theorem instantiation_witness :
    (∃ f0, ∀ fuel, f0 ≤ fuel →
      instantiateClass fuel (.str "A") 3
          { Evaluator [] with
            classes := [("A", .ClassDeclaration (.str "A") none
              [.FunctionDeclaration (.str "f") [] [] (some (.str "public")) 1 1,
               .FunctionDeclaration (.str "s") [] [] (some (.str "prive")) 2 1] false 1 1)] }
        = .ok (.ref 1)
          { Evaluator [] with
            classes := [("A", .ClassDeclaration (.str "A") none
              [.FunctionDeclaration (.str "f") [] [] (some (.str "public")) 1 1,
               .FunctionDeclaration (.str "s") [] [] (some (.str "prive")) 2 1] false 1 1)]
            heap := [.array [.str "s"],
              .object [("__class__", .str "A"), ("__privateMethods__", .ref 0),
                ("f", .fn 0), ("s", .fn 1)]]
            closures :=
              [(.FunctionDeclaration (.str "f") [] [] (some (.str "public")) 1 1, 1),
               (.FunctionDeclaration (.str "s") [] [] (some (.str "prive")) 2 1, 1)] })
    ∧ (∀ fuel, instantiateClass fuel (.str "Z") 3 (Evaluator [])
        = .stop (.error (lineTag 3 ++ "Classe non définie: " ++ "Z")) (Evaluator [])) :=
  ⟨((instantiation "A" 3
      { Evaluator [] with
        classes := [("A", .ClassDeclaration (.str "A") none
          [.FunctionDeclaration (.str "f") [] [] (some (.str "public")) 1 1,
           .FunctionDeclaration (.str "s") [] [] (some (.str "prive")) 2 1] false 1 1)] }).2.2.2.1
      (.str "A") none
      [.FunctionDeclaration (.str "f") [] [] (some (.str "public")) 1 1,
       .FunctionDeclaration (.str "s") [] [] (some (.str "prive")) 2 1] 1 1
      [.FunctionDeclaration (.str "f") [] [] (some (.str "public")) 1 1,
       .FunctionDeclaration (.str "s") [] [] (some (.str "prive")) 2 1]
      rfl
      (@Resolves.root _ "A" (.str "A") none
        [.FunctionDeclaration (.str "f") [] [] (some (.str "public")) 1 1,
         .FunctionDeclaration (.str "s") [] [] (some (.str "prive")) 2 1] false 1 1 rfl
        (by simp) (by simp [Node.isMethod]))
      (by
        intro m hm
        simp only [List.mem_cons, List.mem_singleton, List.not_mem_nil, or_false] at hm
        rcases hm with rfl | rfl <;> rfl)).1,
    (instantiation "Z" 3 (Evaluator [])).1 rfl (by decide)⟩

set_option maxRecDepth 100000 in
/-- C24, counterexample: the class `A` is declared and is not abstract, and
`nouveau A()` fails: its method named `__privateMethods__` has taken the place of
the array of that name on the instance when the name of the `prive` method is
pushed. And the class `B`, declared and not abstract, names the superclass
`"toString"`, which is not declared: `nouveau B()` fails with the TypeError of
`getAllMethods`, for which `this.classes["toString"]` is the function every
object inherits. -/
theorem reserved_method_name_breaks_new :
    (runCode 50
      "classe A \x7b fonction __privateMethods__() \x7b \x7d prive fonction s() \x7b \x7d \x7d\nsoit o = nouveau A()"
      (Evaluator [])).signal?
      = some (.error "[Ligne 2, Col 10] instance.__privateMethods__.push is not a function")
    ∧ ((runCode 50
      "classe A \x7b fonction __privateMethods__() \x7b \x7d prive fonction s() \x7b \x7d \x7d\nsoit o = nouveau A()"
      (Evaluator [])).state.classes.lookup "A").isSome = true
    ∧ (runCode 50
      "classe B herite de \"toString\" \x7b fonction f() \x7b renvoie 1 \x7d \x7d\nsoit b = nouveau B()"
      (Evaluator [])).signal?
      = some (.error
          "[Ligne 2, Col 10] Cannot read properties of undefined (reading 'forEach')")
    ∧ ((runCode 50
      "classe B herite de \"toString\" \x7b fonction f() \x7b renvoie 1 \x7d \x7d\nsoit b = nouveau B()"
      (Evaluator [])).state.classes.lookup "B").isSome = true := by
  refine ⟨by decide, by rfl, by decide, by rfl⟩

set_option maxRecDepth 100000 in
theorem global_ceci_example :
    (runCode 50
        "classe A \x7b prive fonction s() \x7b renvoie 1 \x7d \x7d\nsoit ceci = nouveau A()\nmontre ceci.s()"
        (Evaluator [])).state.output = [[.num 1]]
    ∧ (runCode 50
        "classe A \x7b prive fonction s() \x7b renvoie 1 \x7d \x7d\nsoit ceci = nouveau A()\nfonction g() \x7b renvoie ceci.s() \x7d\nmontre g()"
        (Evaluator [])).state.output = [[.num 1]]
    ∧ (runCode 50
        "classe A \x7b prive fonction s() \x7b renvoie 1 \x7d \x7d\nsoit o = nouveau A()\nmontre o.s()"
        (Evaluator [])).signal?
        = some (.error
            "[Ligne 3] La méthode 's' est privée et ne peut être accédée de l'extérieur.")
    ∧ (runCode 50
        "classe A \x7b prive fonction s() \x7b renvoie 1 \x7d fonction p(x) \x7b renvoie x.s() \x7d \x7d\nsoit o = nouveau A()\nsoit u = nouveau A()\nmontre u.p(o)"
        (Evaluator [])).signal?
        = some (.error
            "[Ligne 1] La méthode 's' est privée et ne peut être accédée de l'extérieur.") := by
  refine ⟨by decide, by decide, by decide, by decide⟩

/-- C22: the guard of a `prive` method. The access `x.m` or `x.m(...)` to a
private member fails with the encapsulation error whenever the lookup of `ceci`
from the current environment does not yield the receiver (`guard`): so from the
top level, and from the method of another instance. But the lookup
(`this.env.get("ceci")`, evaluator.js:558) walks up to the global environment:
when the global variable that holds the instance is itself named `ceci`, the
lookup yields the receiver at the top level and inside every free function, and
the private method is called from outside, where the claim says the access
raises the encapsulation error. -/
theorem private_guard_and_global_ceci :
    (∀ (ev : Node → State → Result Value) (leftNode rightNode : Node) (name : String)
        (line : Nat) (s s1 : State) (self a : Nat) (properties : List (String × Value))
        (names : List Value),
        rightLabel rightNode = some (.str name) →
        ev leftNode s = .ok (.ref self) s1 →
        s1.heap[self]? = some (.object properties) →
        properties.lookup "__privateMethods__" = some (.ref a) →
        s1.heap[a]? = some (.array names) →
        names.contains (.str name) = true →
        Environment.get s1.envs.length s1.envs s1.env "ceci" ≠ .found (.ref self) →
        evaluateMember ev leftNode rightNode line s
          = .stop (.error (lineTag line ++ "La méthode '" ++ name
              ++ "' est privée et ne peut être accédée de l'extérieur.")) s1)
    ∧ (runCode 50
        "classe A \x7b prive fonction s() \x7b renvoie 1 \x7d \x7d\nsoit ceci = nouveau A()\nmontre ceci.s()"
        (Evaluator [])).state.output = [[.num 1]]
    ∧ (runCode 50
        "classe A \x7b prive fonction s() \x7b renvoie 1 \x7d \x7d\nsoit ceci = nouveau A()\nfonction g() \x7b renvoie ceci.s() \x7d\nmontre g()"
        (Evaluator [])).state.output = [[.num 1]]
    ∧ (runCode 50
        "classe A \x7b prive fonction s() \x7b renvoie 1 \x7d \x7d\nsoit o = nouveau A()\nmontre o.s()"
        (Evaluator [])).signal?
        = some (.error
            "[Ligne 3] La méthode 's' est privée et ne peut être accédée de l'extérieur.")
    ∧ (runCode 50
        "classe A \x7b prive fonction s() \x7b renvoie 1 \x7d fonction p(x) \x7b renvoie x.s() \x7d \x7d\nsoit o = nouveau A()\nsoit u = nouveau A()\nmontre u.p(o)"
        (Evaluator [])).signal?
        = some (.error
            "[Ligne 1] La méthode 's' est privée et ne peut être accédée de l'extérieur.") :=
  ⟨fun ev leftNode rightNode name line s s1 self a properties names h1 h2 h3 h4 h5 h6 h7 =>
      evaluateMember_private ev leftNode rightNode name line s s1 self a properties names
        h1 h2 h3 h4 h5 h6 h7,
    global_ceci_example.1, global_ceci_example.2.1, global_ceci_example.2.2.1,
    global_ceci_example.2.2.2⟩

/-- Lines 529-531 of `callMethod`: a name that no parameter has keeps its
binding. -/
theorem bindParameters_keeps (k : String) (v : Value) (params : List TokenValue) :
    ∀ (args : List Value) (acc frame : List (String × Value)),
      bindParameters params args acc = some frame →
      (∀ p ∈ params, p.key ≠ some k) → acc.lookup k = some v → frame.lookup k = some v := by
  induction params with
  | nil =>
    intro args acc frame h _ hk
    simp only [bindParameters, Option.some.injEq] at h
    subst h; exact hk
  | cons p ps ih =>
    intro args acc frame h hne hk
    simp only [bindParameters] at h
    cases hp : p.key with
    | none => simp [hp] at h
    | some kp =>
      simp only [hp] at h
      by_cases hq : kp = "__proto__"
      · simp [hq] at h
      · simp only [hq, if_false] at h
        refine ih _ _ _ h (fun q hq' => hne q (by simp [hq'])) ?_
        have : k ≠ kp := fun e => hne p (by simp) (by rw [hp, e])
        rw [lookup_dictSet, if_neg this]
        exact hk

/-- In the environment of a call, a name of the frame reads its binding. -/
theorem get_enterCall (frame : List (String × Value)) (s : State) (k : String) (v : Value)
    (h : frame.lookup k = some v) :
    Environment.get (enterCall frame s).envs.length (enterCall frame s).envs
      (enterCall frame s).env k = .found v := by
  simp [enterCall, Environment.get, Environment.has, Environment.read, h]

set_option maxRecDepth 100000 in
theorem private_call_example :
    (runCode 50
      "classe A \x7b prive fonction s() \x7b renvoie 1 \x7d fonction p() \x7b renvoie ceci.s() \x7d \x7d\nsoit o = nouveau A()\nmontre o.p()"
      (Evaluator [])).state.output = [[.num 1]] := by decide

set_option maxRecDepth 100000 in
theorem private_call_later_example :
    (runCode 50
      "classe A \x7b prive fonction s() \x7b renvoie 1 \x7d fonction p() \x7b soit t = 5\nrenvoie ceci.s() \x7d \x7d\nsoit o = nouveau A()\nmontre o.p()"
      (Evaluator [])).state.output = [[.num 1]] := by decide

/-- C23 (as amended): a public method `p` whose body gets to `renvoie ceci.s(...)`
with `ceci` still bound to the instance (the statements before it have completed
and have not bound `ceci` again), called on an instance that holds the method
`s`, private or not: the guard of the private method does not fire, `s` is
called on the instance, and the call of `p` returns what `s` returns. When no
parameter of `p` is named `ceci`, `ceci` is bound to the instance where the body
starts. The program with the class
`A { prive fonction s() { renvoie 1 } fonction p() { renvoie ceci.s() } }` and
`montre o.p()` for an instance `o` prints 1, and so it does when `soit t = 5`
stands before the `renvoie`. -/
theorem private_through_ceci (fuel : Nat) (s0 s1 s2 s3 : State) (self a id : Nat)
    (properties : List (String × Value)) (names : List Value)
    (pName : TokenValue) (params : List TokenValue) (visibility : Option TokenValue)
    (pre post : List Node)
    (sName : String) (sArgs : List Node) (sMethod : Node)
    (l1 c1 l2 c2 l3 c3 l4 c4 l5 c5 : Nat)
    (args values : List Value) (frame : List (String × Value)) (v : Value)
    (hframe : bindParameters params args [("ceci", .ref self)] = some frame)
    (hpre : runStatements (evaluate (fuel + 3)) pre (enterCall frame s0) = .ok () s1)
    (hceci : Environment.get s1.envs.length s1.envs s1.env "ceci" = .found (.ref self))
    (hself : s1.heap[self]? = some (.object properties))
    (hpriv : properties.lookup "__privateMethods__" = some (.ref a))
    (ha : s1.heap[a]? = some (.array names))
    (hprop : properties.lookup sName = some (.fn id))
    (hargs : evalAll (evaluate (fuel + 1)) sArgs s1 = .ok values s2)
    (hclosure : s2.closures[id]? = some (sMethod, self))
    (hs : callMethod (evaluate (fuel + 1)) sMethod values (.ref self) s2 = .ok v s3) :
    callMethod (evaluate (fuel + 3))
        (.FunctionDeclaration pName params
          (pre ++ .ReturnStatement
            (.BinaryExpression (.str ".") (.Identifier (.str "ceci") l1 c1)
              (.CallExpression (.str sName) sArgs l2 c2) l3 c3) l4 c4 :: post)
          visibility l5 c5)
        args (.ref self) s0
      = .ok v { s3 with env := s0.env }
    ∧ evaluate (fuel + 2)
        (.BinaryExpression (.str ".") (.Identifier (.str "ceci") l1 c1)
          (.CallExpression (.str sName) sArgs l2 c2) l3 c3) s1 = .ok v s3
    ∧ ((∀ p ∈ params, p.key ≠ some "ceci") →
        Environment.get (enterCall frame s0).envs.length (enterCall frame s0).envs
          (enterCall frame s0).env "ceci" = .found (.ref self))
    ∧ (runCode 50
      "classe A \x7b prive fonction s() \x7b renvoie 1 \x7d fonction p() \x7b renvoie ceci.s() \x7d \x7d\nsoit o = nouveau A()\nmontre o.p()"
      (Evaluator [])).state.output = [[.num 1]]
    ∧ (runCode 50
      "classe A \x7b prive fonction s() \x7b renvoie 1 \x7d fonction p() \x7b soit t = 5\nrenvoie ceci.s() \x7d \x7d\nsoit o = nouveau A()\nmontre o.p()"
      (Evaluator [])).state.output = [[.num 1]] := by
  have hleft : evaluate (fuel + 1) (.Identifier (.str "ceci") l1 c1) s1
      = .ok (.ref self) s1 := by
    simp [evaluate_succ, evalNode, TokenValue.key, TokenValue.toValue, Value.toKey, hceci,
      annotate]
  have hmember := evaluateMember_call (evaluate (fuel + 1)) (.Identifier (.str "ceci") l1 c1)
    sName sArgs l2 c2 l3 s1 s1 s2 self a id self
    properties names values sMethod hleft hself hpriv ha (fun _ => hceci) hprop hargs hclosure
  have hexpr : evaluate (fuel + 2)
      (.BinaryExpression (.str ".") (.Identifier (.str "ceci") l1 c1)
        (.CallExpression (.str sName) sArgs l2 c2) l3 c3) s1 = .ok v s3 := by
    rw [evaluate_succ]
    simp only [evalNode, if_true, hmember, hs, annotate]
  have hret : evaluate (fuel + 3)
      (.ReturnStatement
        (.BinaryExpression (.str ".") (.Identifier (.str "ceci") l1 c1)
          (.CallExpression (.str sName) sArgs l2 c2) l3 c3) l4 c4) s1
      = .stop (.returned v) s3 := by
    rw [evaluate_succ]
    simp only [evalNode, hexpr, Result.bind, annotate]
  refine ⟨?_, hexpr, ?_, private_call_example, private_call_later_example⟩
  · simp only [callMethod, hframe]
    rw [runBody_eq, runStatements_append_stop _ pre post _ _ s1 s3 _ hpre hret]
  · intro hparams
    exact get_enterCall frame s0 "ceci" (.ref self)
      (bindParameters_keeps "ceci" (.ref self) params args _ frame hframe hparams
        (by simp [List.lookup]))

/-- C23, witness: the method `p` of no parameter whose body is `renvoie ceci.s()`,
called on the instance of `instanceExample`, whose method `s` is private. -/
theorem private_through_ceci_witness :
    callMethod (evaluate 4)
        (.FunctionDeclaration (.str "p") []
          ([] ++ .ReturnStatement
            (.BinaryExpression (.str ".") (.Identifier (.str "ceci") 1 1)
              (.CallExpression (.str "s") [] 1 1) 1 1) 1 1 :: [])
          none 1 1)
        [] (.ref 1) instanceExample
      = .ok (.num 1)
          { ({ enterCall [("ceci", .ref 1)] (enterCall [("ceci", .ref 1)] instanceExample)
               with env := (enterCall [("ceci", .ref 1)] instanceExample).env } : State)
            with env := instanceExample.env } :=
  (private_through_ceci 1 instanceExample (enterCall [("ceci", .ref 1)] instanceExample)
    (enterCall [("ceci", .ref 1)] instanceExample)
    { enterCall [("ceci", .ref 1)] (enterCall [("ceci", .ref 1)] instanceExample)
      with env := (enterCall [("ceci", .ref 1)] instanceExample).env }
    1 0 0 [("__privateMethods__", .ref 0), ("s", .fn 0)] [.str "s"] (.str "p") [] none [] []
    "s" [] (.FunctionDeclaration (.str "s") []
        [.ReturnStatement (.Literal (.num "1") 1 1) 1 1] (some (.str "prive")) 1 1)
    1 1 1 1 1 1 1 1 1 1 [] [] [("ceci", .ref 1)] (.num 1) rfl rfl rfl rfl rfl rfl rfl rfl
    rfl rfl).1

set_option maxRecDepth 100000 in
/-- C23, counterexample: the public method `p` has a parameter named `ceci`. Its
body calls `ceci.s()`, and `callMethod` binds the parameters after `ceci`
(evaluator.js:528-531): called as `o.p()`, `ceci` is the absent argument in the
body, and the call fails instead of returning what `s` returns. -/
theorem parameter_named_ceci :
    (runCode 50
      "classe A \x7b prive fonction s() \x7b renvoie 1 \x7d fonction p(ceci) \x7b renvoie ceci.s() \x7d \x7d\nsoit o = nouveau A()\nmontre o.p()"
      (Evaluator [])).signal?
      = some (.error "[Ligne 1] Impossible d'accéder à 's' de null/undefined")
    ∧ (runCode 50
      "classe A \x7b prive fonction s() \x7b renvoie 1 \x7d fonction p(ceci) \x7b renvoie ceci.s() \x7d \x7d\nsoit o = nouveau A()\nmontre o.p()"
      (Evaluator [])).state.output = []
    ∧ bindParameters [.str "ceci"] [] [("ceci", .ref 1)] = some [("ceci", .undefined)] := by
  refine ⟨by decide, by decide, by decide⟩

/-! ## Totality of the parser -/

theorem good_bind {α β : Type} (r : Res α) (k : α → List Token → Res β)
    (c1 n1 c n : Nat) (hr : r.good c1 n1)
    (hk : ∀ a rest, rest.length + c1 ≤ n1 → (k a rest).good c n) : (r.bind k).good c n := by
  cases r with
  | ok a rest => exact hk a rest hr
  | fail e => trivial
  | outOfFuel => exact hr

theorem good_mono {α : Type} (r : Res α) (c1 n1 c n : Nat) (hr : r.good c1 n1)
    (h : ∀ l : Nat, l + c1 ≤ n1 → l + c ≤ n) : r.good c n := by
  cases r with
  | ok a rest => exact h _ hr
  | fail e => trivial
  | outOfFuel => exact hr

theorem good_expect (s : String) (e : ParseError) (toks : List Token) :
    (expect s e toks).good 1 toks.length := by
  cases toks with
  | nil => trivial
  | cons t rest =>
    simp only [expect]
    split
    · simp [Res.good]
    · trivial

theorem good_closeBrace (e : ParseError) (toks : List Token) :
    (closeBrace e toks).good 1 toks.length := by
  cases toks with
  | nil => trivial
  | cons t rest =>
    simp only [closeBrace]
    split
    · simp [Res.good]
    · trivial

theorem good_paramsTail : ∀ (n : Nat) (toks : List Token), toks.length ≤ n →
    (paramsTail toks).good 0 toks.length := by
  intro n
  induction n with
  | zero =>
    intro toks h
    have : toks = [] := List.length_eq_zero.mp (Nat.le_zero.mp h)
    subst this
    trivial
  | succ n ih =>
    intro toks h
    cases toks with
    | nil => trivial
    | cons t rest =>
      cases rest with
      | nil =>
        unfold paramsTail
        split <;> simp [Res.good]
      | cons p rest' =>
        unfold paramsTail
        split
        · simp only [List.length_cons] at h ⊢
          refine good_bind _ _ 0 rest'.length _ _ (ih rest' (by omega)) (fun a r hr => ?_)
          simp only [Res.good]; omega
        · simp [Res.good]

theorem good_parseParams (toks : List Token) : (parseParams toks).good 0 toks.length := by
  cases toks with
  | nil => trivial
  | cons t rest =>
    simp only [parseParams]
    split
    · simp [Res.good]
    · refine good_bind _ _ 0 rest.length _ _ (good_paramsTail _ rest (le_refl _))
        (fun a r hr => ?_)
      simp only [Res.good, List.length_cons]; omega

theorem good_parseIncludeStatement (toks : List Token) :
    (parseIncludeStatement toks).good 1 toks.length := by
  cases toks with
  | nil => trivial
  | cons t r1 =>
    cases r1 with
    | nil => trivial
    | cons p r2 =>
      simp only [parseIncludeStatement]
      split
      · trivial
      · simp only [Res.good, List.length_cons]; omega

theorem length_tail_le (l : List Token) : l.tail.length ≤ l.length := by
  cases l <;> simp

theorem good_ok {α : Type} (a : α) (rest : List Token) (c n : Nat) (h : rest.length + c ≤ n) :
    (Res.ok a rest : Res α).good c n := h

theorem step_primary (fuel : Nat) (h : ParserFuelled fuel) :
    Fuelled parsePrimary 1 2 (fuel + 1) := by
  intro toks hf
  cases toks with
  | nil => trivial
  | cons token r1 =>
    simp only [List.length_cons] at hf ⊢
    have htail := length_tail_le r1
    simp only [parsePrimary]
    split
    · refine good_bind _ _ 1 r1.length _ _ (h.expression r1 (by omega)) (fun a r2 h2 => ?_)
      refine good_bind _ _ 1 r2.length _ _ (good_expect _ _ r2) (fun _ r3 h3 => ?_)
      exact good_ok _ _ _ _ (by omega)
    split
    · exact good_ok _ _ _ _ (by omega)
    split
    · exact good_ok _ _ _ _ (by omega)
    split
    · cases r1 with
      | nil => trivial
      | cons nameToken r2 =>
        simp only [List.length_cons]
        refine good_bind _ _ 1 r2.length _ _ (good_expect _ _ r2) (fun _ r3 h3 => ?_)
        refine good_bind _ _ 1 r3.length _ _ (good_expect _ _ r3) (fun _ r4 h4 => ?_)
        exact good_ok _ _ _ _ (by omega)
    split
    · split
      · exact good_mono _ 1 r1.length _ _ (h.call token r1 (by omega)) (fun l hl => by omega)
      split
      · refine good_bind _ _ 1 r1.tail.length _ _ (h.expression r1.tail (by omega))
          (fun a r2 h2 => ?_)
        refine good_bind _ _ 1 r2.length _ _ (good_expect _ _ r2) (fun _ r3 h3 => ?_)
        exact good_ok _ _ _ _ (by omega)
      · exact good_ok _ _ _ _ (by omega)
    split
    · exact good_mono _ 1 (r1.length + 1) _ _ (h.listLiteral (token :: r1) (by simp; omega))
        (fun l hl => hl)
    split
    · exact good_mono _ 1 (r1.length + 1) _ _ (h.objectLiteral (token :: r1) (by simp; omega))
        (fun l hl => hl)
    · trivial

theorem step_expression (fuel : Nat) (h : ParserFuelled fuel) :
    Fuelled parseExpression 1 3 (fuel + 1) := by
  intro toks hf
  simp only [parseExpression]
  refine good_bind _ _ 1 toks.length _ _ (h.primary toks (by omega)) (fun left r1 h1 => ?_)
  cases r1 with
  | nil => exact good_ok _ _ _ _ (by simpa using h1)
  | cons operatorToken r2 =>
    simp only [List.length_cons] at h1 ⊢
    split
    · refine good_bind _ _ 1 r2.length _ _ (h.expression r2 (by omega)) (fun a r3 h3 => ?_)
      exact good_ok _ _ _ _ (by omega)
    · exact good_mono _ 0 (r2.length + 1) _ _
        (h.binary left (operatorToken :: r2) (by simp; omega)) (fun l hl => by omega)

theorem step_binary (fuel : Nat) (h : ParserFuelled fuel) (left : Node) :
    Fuelled (fun f toks => binaryLoop f left toks) 0 1 (fuel + 1) := by
  intro toks hf
  cases toks with
  | nil => simp [binaryLoop, Res.good]
  | cons operatorToken r1 =>
    simp only [List.length_cons] at hf ⊢
    simp only [binaryLoop]
    split
    · refine good_bind _ _ 1 r1.length _ _ (h.primary r1 (by omega)) (fun right r2 h2 => ?_)
      exact good_mono _ 0 r2.length _ _ (h.binary _ r2 (by omega)) (fun l hl => by omega)
    · exact good_ok _ _ _ _ (by simp)

theorem step_call (fuel : Nat) (h : ParserFuelled fuel) (callee : Token) :
    Fuelled (fun f toks => parseCallExpression f callee toks) 1 5 (fuel + 1) := by
  intro toks hf
  have htail := length_tail_le toks
  simp only [parseCallExpression]
  refine good_bind _ _ 0 toks.tail.length _ _ (h.expressions ")" toks.tail (by omega))
    (fun args r1 h1 => ?_)
  refine good_bind _ _ 1 r1.length _ _ (good_expect _ _ r1) (fun _ r2 h2 => ?_)
  exact good_ok _ _ _ _ (by omega)

theorem step_list (fuel : Nat) (h : ParserFuelled fuel) :
    Fuelled parseListLiteral 1 1 (fuel + 1) := by
  intro toks hf
  cases toks with
  | nil => trivial
  | cons startToken r1 =>
    simp only [List.length_cons] at hf ⊢
    simp only [parseListLiteral]
    refine good_bind _ _ 0 r1.length _ _ (h.expressions "]" r1 (by omega))
      (fun elements r2 h2 => ?_)
    refine good_bind _ _ 1 r2.length _ _ (good_expect _ _ r2) (fun _ r3 h3 => ?_)
    exact good_ok _ _ _ _ (by omega)

theorem step_expressions (fuel : Nat) (h : ParserFuelled fuel) (close : String) :
    Fuelled (fun f toks => expressionList f close toks) 0 4 (fuel + 1) := by
  intro toks hf
  cases toks with
  | nil => trivial
  | cons t rest =>
    simp only [List.length_cons] at hf ⊢
    simp only [expressionList]
    split
    · exact good_ok _ _ _ _ (by simp)
    · refine good_bind _ _ 1 (rest.length + 1) _ _
        (h.expression (t :: rest) (by simp; omega)) (fun first r h1 => ?_)
      refine good_bind _ _ 0 r.length _ _ (h.expressionsTail r (by omega))
        (fun more r2 h2 => ?_)
      exact good_ok _ _ _ _ (by omega)

theorem step_expressionsTail (fuel : Nat) (h : ParserFuelled fuel) :
    Fuelled expressionsTail 0 1 (fuel + 1) := by
  intro toks hf
  cases toks with
  | nil => trivial
  | cons t rest =>
    simp only [List.length_cons] at hf ⊢
    simp only [expressionsTail]
    split
    · refine good_bind _ _ 1 rest.length _ _ (h.expression rest (by omega))
        (fun e r h1 => ?_)
      refine good_bind _ _ 0 r.length _ _ (h.expressionsTail r (by omega))
        (fun es r2 h2 => ?_)
      exact good_ok _ _ _ _ (by omega)
    · exact good_ok _ _ _ _ (by simp)

theorem step_pair (fuel : Nat) (h : ParserFuelled fuel) :
    Fuelled parseObjectPair 1 1 (fuel + 1) := by
  intro toks hf
  cases toks with
  | nil => trivial
  | cons keyToken r1 =>
    simp only [List.length_cons] at hf ⊢
    simp only [parseObjectPair]
    split
    · trivial
    · refine good_bind _ _ 1 r1.length _ _ (good_expect _ _ r1) (fun _ r2 h2 => ?_)
      refine good_bind _ _ 1 r2.length _ _ (h.expression r2 (by omega)) (fun value r3 h3 => ?_)
      exact good_ok _ _ _ _ (by omega)

theorem step_pairsTail (fuel : Nat) (h : ParserFuelled fuel) :
    Fuelled objectPairsTail 0 1 (fuel + 1) := by
  intro toks hf
  cases toks with
  | nil => trivial
  | cons t rest =>
    simp only [List.length_cons] at hf ⊢
    simp only [objectPairsTail]
    split
    · refine good_bind _ _ 1 rest.length _ _ (h.pair rest (by omega)) (fun pair r h1 => ?_)
      refine good_bind _ _ 0 r.length _ _ (h.pairsTail r (by omega)) (fun pairs r2 h2 => ?_)
      exact good_ok _ _ _ _ (by omega)
    · exact good_ok _ _ _ _ (by simp)

theorem step_object (fuel : Nat) (h : ParserFuelled fuel) :
    Fuelled parseObjectLiteral 1 1 (fuel + 1) := by
  intro toks hf
  cases toks with
  | nil => trivial
  | cons startToken r1 =>
    simp only [List.length_cons] at hf ⊢
    simp only [parseObjectLiteral]
    refine good_bind _ _ 0 r1.length _ _ ?_ (fun pairs r4 h4 => ?_)
    · cases r1 with
      | nil => trivial
      | cons t r =>
        simp only [List.length_cons] at hf ⊢
        split
        · exact good_ok _ _ _ _ (by simp)
        · refine good_bind _ _ 1 (r.length + 1) _ _ (h.pair (t :: r) (by simp; omega))
            (fun pair r2 h2 => ?_)
          refine good_bind _ _ 0 r2.length _ _ (h.pairsTail r2 (by omega))
            (fun pairs r3 h3 => ?_)
          exact good_ok _ _ _ _ (by omega)
    · refine good_bind _ _ 1 r4.length _ _ (good_expect _ _ r4) (fun _ r5 h5 => ?_)
      exact good_ok _ _ _ _ (by omega)

theorem step_statements (fuel : Nat) (h : ParserFuelled fuel) :
    Fuelled parseStatements 0 5 (fuel + 1) := by
  intro toks hf
  simp only [parseStatements]
  split
  · refine good_bind _ _ 1 toks.length _ _ (h.statement toks (by omega)) (fun stmt r h1 => ?_)
    refine good_bind _ _ 0 r.length _ _ (h.statements r (by omega)) (fun stmts r2 h2 => ?_)
    exact good_ok _ _ _ _ (by omega)
  · exact good_ok _ _ _ _ (by simp)

theorem step_variable (fuel : Nat) (h : ParserFuelled fuel) :
    Fuelled parseVariableDeclaration 1 1 (fuel + 1) := by
  intro toks hf
  cases toks with
  | nil => trivial
  | cons startToken r1 =>
    cases r1 with
    | nil => trivial
    | cons identifier r2 =>
      simp only [parseVariableDeclaration]
      split
      · trivial
      · cases r2 with
        | nil => trivial
        | cons operator r3 =>
          simp only [List.length_cons] at hf ⊢
          split
          · refine good_bind _ _ 1 r3.length _ _ (h.expression r3 (by omega))
              (fun value r h1 => ?_)
            exact good_ok _ _ _ _ (by omega)
          · trivial

theorem step_printArgs (fuel : Nat) (h : ParserFuelled fuel) :
    Fuelled printArgs 0 1 (fuel + 1) := by
  intro toks hf
  cases toks with
  | nil => simp [printArgs, Res.good]
  | cons t rest =>
    simp only [List.length_cons] at hf ⊢
    simp only [printArgs]
    split
    · refine good_bind _ _ 1 rest.length _ _ (h.expression rest (by omega))
        (fun arg r h1 => ?_)
      refine good_bind _ _ 0 r.length _ _ (h.printArgs r (by omega)) (fun args r2 h2 => ?_)
      exact good_ok _ _ _ _ (by omega)
    · exact good_ok _ _ _ _ (by simp)

theorem step_print (fuel : Nat) (h : ParserFuelled fuel) :
    Fuelled parsePrintStatement 1 1 (fuel + 1) := by
  intro toks hf
  cases toks with
  | nil => trivial
  | cons startToken r1 =>
    simp only [List.length_cons] at hf ⊢
    simp only [parsePrintStatement]
    have htail := length_tail_le r1
    have hr2 : (if peekIs r1 "(" = true then r1.tail else r1).length ≤ r1.length := by
      split
      · exact htail
      · exact le_refl _
    refine good_bind _ _ 1 (if peekIs r1 "(" = true then r1.tail else r1).length _ _
      (h.expression _ (by omega)) (fun first r3 h3 => ?_)
    refine good_bind _ _ 0 r3.length _ _ (h.printArgs r3 (by omega)) (fun more r4 h4 => ?_)
    have h5 : (if (peekIs r1 "(" && peekIs r4 ")") = true then r4.tail else r4).length
        ≤ r4.length := by
      split
      · exact length_tail_le r4
      · exact le_refl _
    exact good_ok _ _ _ _ (by omega)

theorem step_return (fuel : Nat) (h : ParserFuelled fuel) :
    Fuelled parseReturnStatement 1 1 (fuel + 1) := by
  intro toks hf
  cases toks with
  | nil => trivial
  | cons startToken r1 =>
    simp only [List.length_cons] at hf ⊢
    simp only [parseReturnStatement]
    refine good_bind _ _ 1 r1.length _ _ (h.expression r1 (by omega)) (fun a r h1 => ?_)
    exact good_ok _ _ _ _ (by omega)

theorem step_throw (fuel : Nat) (h : ParserFuelled fuel) :
    Fuelled parseThrowStatement 1 1 (fuel + 1) := by
  intro toks hf
  cases toks with
  | nil => trivial
  | cons startToken r1 =>
    simp only [List.length_cons] at hf ⊢
    simp only [parseThrowStatement]
    refine good_bind _ _ 1 r1.length _ _ (h.expression r1 (by omega)) (fun a r h1 => ?_)
    exact good_ok _ _ _ _ (by omega)

theorem step_block (fuel : Nat) (h : ParserFuelled fuel) :
    Fuelled parseBlock 1 1 (fuel + 1) := by
  intro toks hf
  simp only [parseBlock]
  refine good_bind _ _ 1 toks.length _ _ (good_expect _ _ toks) (fun _ r1 h1 => ?_)
  refine good_bind _ _ 0 r1.length _ _ (h.statements r1 (by omega)) (fun body r2 h2 => ?_)
  refine good_bind _ _ 1 r2.length _ _ (good_closeBrace _ r2) (fun _ r3 h3 => ?_)
  exact good_ok _ _ _ _ (by omega)

/-- The body of `si`, `sinon` and `tantque`: a block in braces or one
statement. -/
theorem good_body (fuel : Nat) (h : ParserFuelled fuel) (e : ParseError) (r2 : List Token)
    (hf : 8 * r2.length + 5 ≤ fuel) :
    (if peekIs r2 "\x7b" = true then
        (parseStatements fuel r2.tail).bind fun body r3 =>
          (closeBrace e r3).bind fun _ r4 => Res.ok body r4
      else (parseStatement fuel r2).bind fun stmt r3 => Res.ok [stmt] r3).good 1 r2.length := by
  have htail := length_tail_le r2
  split
  · refine good_bind _ _ 0 r2.tail.length _ _ (h.statements r2.tail (by omega))
      (fun body r3 h3 => ?_)
    refine good_bind _ _ 1 r3.length _ _ (good_closeBrace _ r3) (fun _ r4 h4 => ?_)
    exact good_ok _ _ _ _ (by omega)
  · refine good_bind _ _ 1 r2.length _ _ (h.statement r2 (by omega)) (fun stmt r3 h3 => ?_)
    exact good_ok _ _ _ _ (by omega)

theorem step_if (fuel : Nat) (h : ParserFuelled fuel) :
    Fuelled parseIfStatement 1 1 (fuel + 1) := by
  intro toks hf
  cases toks with
  | nil => trivial
  | cons startToken r1 =>
    simp only [List.length_cons] at hf ⊢
    simp only [parseIfStatement]
    refine good_bind _ _ 1 r1.length _ _ (h.expression r1 (by omega))
      (fun condition r2 h2 => ?_)
    refine good_bind _ _ 1 r2.length _ _ (good_body fuel h _ r2 (by omega))
      (fun consequent r5 h5 => ?_)
    have ht1 := length_tail_le r5
    have ht2 := length_tail_le r5.tail
    refine good_bind _ _ 0 r5.length _ _ ?_ (fun alternate r8 h8 => ?_)
    · split
      · split
        · refine good_bind _ _ 0 r5.tail.tail.length _ _
            (h.statements r5.tail.tail (by omega)) (fun body r6 h6 => ?_)
          refine good_bind _ _ 1 r6.length _ _ (good_closeBrace _ r6) (fun _ r7 h7 => ?_)
          exact good_ok _ _ _ _ (by omega)
        · refine good_bind _ _ 1 r5.tail.length _ _ (h.statement r5.tail (by omega))
            (fun stmt r6 h6 => ?_)
          exact good_ok _ _ _ _ (by omega)
      · exact good_ok _ _ _ _ (by simp)
    · exact good_ok _ _ _ _ (by omega)

theorem step_while (fuel : Nat) (h : ParserFuelled fuel) :
    Fuelled parseWhileStatement 1 1 (fuel + 1) := by
  intro toks hf
  cases toks with
  | nil => trivial
  | cons startToken r1 =>
    simp only [List.length_cons] at hf ⊢
    simp only [parseWhileStatement]
    refine good_bind _ _ 1 r1.length _ _ (h.expression r1 (by omega))
      (fun condition r2 h2 => ?_)
    refine good_bind _ _ 1 r2.length _ _ (good_body fuel h _ r2 (by omega))
      (fun body r5 h5 => ?_)
    exact good_ok _ _ _ _ (by omega)

theorem step_function (fuel : Nat) (h : ParserFuelled fuel) :
    Fuelled parseFunctionDeclaration 1 1 (fuel + 1) := by
  intro toks hf
  cases toks with
  | nil => trivial
  | cons startToken r1 =>
    cases r1 with
    | nil => trivial
    | cons nameToken r2 =>
      simp only [List.length_cons] at hf ⊢
      simp only [parseFunctionDeclaration]
      split
      · trivial
      · refine good_bind _ _ 1 r2.length _ _ (good_expect _ _ r2) (fun _ r3 h3 => ?_)
        refine good_bind _ _ 0 r3.length _ _ (good_parseParams r3) (fun params r4 h4 => ?_)
        refine good_bind _ _ 1 r4.length _ _ (good_expect _ _ r4) (fun _ r5 h5 => ?_)
        refine good_bind _ _ 1 r5.length _ _ (good_expect _ _ r5) (fun _ r6 h6 => ?_)
        refine good_bind _ _ 0 r6.length _ _ (h.statements r6 (by omega)) (fun body r7 h7 => ?_)
        refine good_bind _ _ 1 r7.length _ _ (good_closeBrace _ r7) (fun _ r8 h8 => ?_)
        exact good_ok _ _ _ _ (by omega)

theorem step_class (fuel : Nat) (h : ParserFuelled fuel) :
    Fuelled parseClassDeclaration 1 1 (fuel + 1) := by
  intro toks hf
  cases toks with
  | nil => trivial
  | cons startToken r1 =>
    cases r1 with
    | nil => trivial
    | cons nameToken r2 =>
      simp only [List.length_cons] at hf ⊢
      simp only [parseClassDeclaration]
      split
      · trivial
      · have htail := length_tail_le r2
        refine good_bind _ _ 0 r2.length _ _ ?_ (fun superClassName r5 h5 => ?_)
        · split
          · refine good_bind _ _ 1 r2.tail.length _ _ (good_expect _ _ r2.tail)
              (fun _ r3 h3 => ?_)
            cases r3 with
            | nil => trivial
            | cons superToken r4 =>
              simp only [List.length_cons] at h3
              exact good_ok _ _ _ _ (by omega)
          · exact good_ok _ _ _ _ (by simp)
        · refine good_bind _ _ 1 r5.length _ _ (good_expect _ _ r5) (fun _ r6 h6 => ?_)
          refine good_bind _ _ 0 r6.length _ _ (h.classMembers r6 (by omega))
            (fun methods r7 h7 => ?_)
          refine good_bind _ _ 1 r7.length _ _ (good_closeBrace _ r7) (fun _ r8 h8 => ?_)
          exact good_ok _ _ _ _ (by omega)

theorem step_classMembers (fuel : Nat) (h : ParserFuelled fuel) :
    Fuelled classMembers 0 5 (fuel + 1) := by
  intro toks hf
  cases toks with
  | nil => simp [classMembers, Res.good]
  | cons t rest =>
    simp only [List.length_cons] at hf ⊢
    simp only [classMembers]
    split
    · exact good_ok _ _ _ _ (by simp)
    · have hr1 : (if (t.is "prive" || t.is "public") = true then rest else t :: rest).length
          ≤ rest.length + 1 := by
        split <;> simp
      refine good_bind _ _ 1
        (if (t.is "prive" || t.is "public") = true then rest else t :: rest).length _ _
        (h.statement _ (by omega)) (fun member r2 h2 => ?_)
      split
      · refine good_bind _ _ 0 r2.length _ _ (h.classMembers r2 (by omega))
          (fun members r3 h3 => ?_)
        exact good_ok _ _ _ _ (by omega)
      · cases r2 <;> trivial

theorem step_try (fuel : Nat) (h : ParserFuelled fuel) :
    Fuelled parseTryStatement 1 1 (fuel + 1) := by
  intro toks hf
  cases toks with
  | nil => trivial
  | cons startToken r1 =>
    simp only [List.length_cons] at hf ⊢
    simp only [parseTryStatement]
    refine good_bind _ _ 1 r1.length _ _ (h.block r1 (by omega)) (fun block r2 h2 => ?_)
    have ht2 := length_tail_le r2
    refine good_bind _ _ 0 r2.length _ _ ?_ (fun handler r7 h7 => ?_)
    · split
      · refine good_bind _ _ 1 r2.tail.length _ _ (good_expect _ _ r2.tail)
          (fun _ r3 h3 => ?_)
        cases r3 with
        | nil => trivial
        | cons paramToken r4 =>
          simp only [List.length_cons] at h3
          refine good_bind _ _ 1 r4.length _ _ (good_expect _ _ r4) (fun _ r5 h5 => ?_)
          refine good_bind _ _ 1 r5.length _ _ (h.block r5 (by omega)) (fun body r6 h6 => ?_)
          exact good_ok _ _ _ _ (by omega)
      · exact good_ok _ _ _ _ (by simp)
    · have ht7 := length_tail_le r7
      refine good_bind _ _ 0 r7.length _ _ ?_ (fun finalizer r9 h9 => ?_)
      · split
        · refine good_bind _ _ 1 r7.tail.length _ _ (h.block r7.tail (by omega))
            (fun body r8 h8 => ?_)
          exact good_ok _ _ _ _ (by omega)
        · exact good_ok _ _ _ _ (by simp)
      · exact good_ok _ _ _ _ (by omega)

theorem step_interfaceMembers (fuel : Nat) (h : ParserFuelled fuel) :
    Fuelled interfaceMembers 0 5 (fuel + 1) := by
  intro toks hf
  simp only [interfaceMembers]
  split
  · refine good_bind _ _ 1 toks.length _ _ (h.statement toks (by omega))
      (fun method r h1 => ?_)
    split
    · refine good_bind _ _ 0 r.length _ _ (h.interfaceMembers r (by omega))
        (fun methods r2 h2 => ?_)
      exact good_ok _ _ _ _ (by omega)
    · trivial
  · exact good_ok _ _ _ _ (by simp)

theorem step_interface (fuel : Nat) (h : ParserFuelled fuel) :
    Fuelled parseInterfaceDeclaration 1 1 (fuel + 1) := by
  intro toks hf
  cases toks with
  | nil => trivial
  | cons startToken r1 =>
    cases r1 with
    | nil => trivial
    | cons nameToken r2 =>
      simp only [List.length_cons] at hf ⊢
      simp only [parseInterfaceDeclaration]
      split
      · trivial
      · refine good_bind _ _ 1 r2.length _ _ (good_expect _ _ r2) (fun _ r3 h3 => ?_)
        refine good_bind _ _ 0 r3.length _ _ (h.interfaceMembers r3 (by omega))
          (fun methods r4 h4 => ?_)
        have := length_tail_le r4
        exact good_ok _ _ _ _ (by omega)

theorem step_statement (fuel : Nat) (h : ParserFuelled fuel) :
    Fuelled parseStatement 1 4 (fuel + 1) := by
  intro toks hf
  cases toks with
  | nil => trivial
  | cons token rest =>
    simp only [List.length_cons] at hf
    have hlen : (token :: rest).length = rest.length + 1 := rfl
    simp only [parseStatement]
    by_cases c0 : token.type = .KEYWORD ∧ token.is "soit" = true
    · rw [if_pos c0]
      exact h.variableDeclaration _ (by rw [hlen]; omega)
    rw [if_neg c0]
    by_cases c1 : token.type = .KEYWORD ∧ token.is "montre" = true
    · rw [if_pos c1]
      exact h.print _ (by rw [hlen]; omega)
    rw [if_neg c1]
    by_cases c2 : token.type = .KEYWORD ∧ token.is "si" = true
    · rw [if_pos c2]
      exact h.ifStatement _ (by rw [hlen]; omega)
    rw [if_neg c2]
    by_cases c3 : token.type = .KEYWORD ∧ token.is "tantque" = true
    · rw [if_pos c3]
      exact h.whileStatement _ (by rw [hlen]; omega)
    rw [if_neg c3]
    by_cases c4 : token.type = .KEYWORD ∧ token.is "fonction" = true
    · rw [if_pos c4]
      exact h.functionDeclaration _ (by rw [hlen]; omega)
    rw [if_neg c4]
    by_cases c5 : token.type = .KEYWORD ∧ token.is "renvoie" = true
    · rw [if_pos c5]
      exact h.returnStatement _ (by rw [hlen]; omega)
    rw [if_neg c5]
    by_cases c6 : token.type = .KEYWORD ∧ token.is "classe" = true
    · rw [if_pos c6]
      exact h.classDeclaration _ (by rw [hlen]; omega)
    rw [if_neg c6]
    by_cases c7 : token.type = .KEYWORD ∧ token.is "abstrait" = true
    · rw [if_pos c7]
      cases rest with
      | nil => trivial
      | cons next r =>
        simp only
        by_cases c8 : next.is "classe" = true
        · rw [if_pos c8]
          refine good_bind _ _ 1 (next :: r).length _ _
            (h.classDeclaration (next :: r) (by simp only [List.length_cons] at hf ⊢; omega))
            (fun cls r2 h2 => ?_)
          exact good_ok _ _ _ _ (by simp only [List.length_cons] at h2 ⊢; omega)
        · rw [if_neg c8]
          trivial
    rw [if_neg c7]
    by_cases c9 : token.type = .KEYWORD ∧ token.is "interface" = true
    · rw [if_pos c9]
      exact h.interfaceDeclaration _ (by rw [hlen]; omega)
    rw [if_neg c9]
    by_cases c10 : token.type = .KEYWORD ∧ token.is "essaye" = true
    · rw [if_pos c10]
      exact h.tryStatement _ (by rw [hlen]; omega)
    rw [if_neg c10]
    by_cases c11 : token.type = .KEYWORD ∧ token.is "lance" = true
    · rw [if_pos c11]
      exact h.throwStatement _ (by rw [hlen]; omega)
    rw [if_neg c11]
    by_cases c12 : token.type = .KEYWORD ∧ token.is "inclure" = true
    · rw [if_pos c12]
      exact good_parseIncludeStatement _
    rw [if_neg c12]
    refine good_bind _ _ 1 (token :: rest).length _ _
      (h.expression (token :: rest) (by rw [hlen]; omega)) (fun expr r h1 => ?_)
    exact good_ok _ _ _ _ h1

/-- Every method of the parser ends, on every fuel that covers the tokens. -/
theorem parserFuelled : ∀ fuel, ParserFuelled fuel := by
  intro fuel
  induction fuel with
  | zero =>
    constructor <;> intros <;> intro toks hf <;> omega
  | succ fuel ih =>
    exact ⟨step_primary fuel ih, step_expression fuel ih, step_binary fuel ih,
      step_call fuel ih, step_list fuel ih, step_object fuel ih, step_pair fuel ih,
      step_pairsTail fuel ih, step_expressions fuel ih, step_expressionsTail fuel ih,
      step_statement fuel ih, step_statements fuel ih, step_variable fuel ih,
      step_print fuel ih, step_printArgs fuel ih, step_if fuel ih, step_while fuel ih,
      step_function fuel ih, step_return fuel ih, step_class fuel ih,
      step_classMembers fuel ih, step_try fuel ih, step_throw fuel ih, step_block fuel ih,
      step_interface fuel ih, step_interfaceMembers fuel ih⟩

/-- The loop of `parse` ends on the fuel `parse` gives it. -/
theorem good_parseBody (n : Nat) : ∀ (fuel : Nat) (toks : List Token), toks.length ≤ n →
    8 * toks.length + 5 ≤ fuel → (parseBody fuel toks).good 0 toks.length := by
  induction n with
  | zero =>
    intro fuel toks hn hf
    have : toks = [] := List.length_eq_zero.mp (Nat.le_zero.mp hn)
    subst this
    obtain ⟨f, rfl⟩ : ∃ f, fuel = f + 1 := ⟨fuel - 1, by omega⟩
    simp [parseBody, Res.good]
  | succ n ih =>
    intro fuel toks hn hf
    obtain ⟨f, rfl⟩ : ∃ f, fuel = f + 1 := ⟨fuel - 1, by omega⟩
    cases toks with
    | nil => simp [parseBody, Res.good]
    | cons t rest =>
      simp only [List.length_cons] at hn hf ⊢
      simp only [parseBody]
      refine good_bind _ _ 1 (rest.length + 1) _ _
        ((parserFuelled f).statement (t :: rest) (by simp only [List.length_cons]; omega))
        (fun stmt r h1 => ?_)
      refine good_bind _ _ 0 r.length _ _ (ih f r (by omega) (by omega))
        (fun stmts r2 h2 => ?_)
      exact good_ok _ _ _ _ (by omega)

/-- The method `parse` is total: it returns a Program or throws an error. -/
theorem parse_ne_none (tokens : List Token) : parse tokens ≠ none := by
  have h := good_parseBody tokens.length (8 * tokens.length + 8) tokens (le_refl _) (by omega)
  unfold parse
  cases hb : parseBody (8 * tokens.length + 8) tokens with
  | ok body rest => simp
  | fail e => simp
  | outOfFuel => rw [hb] at h; exact absurd h (by simp [Res.good])

/-- C38: the front half of the pipeline. `tokenize` ends on every source (every
iteration of its loop consumes at least one character) and `parse` ends on every
token list, with a Program or with an error; every `parseStatement` that returns
has consumed at least one token. But an access past the end of the token list
can go unreported: the `this.eat()` that ends `parseInterfaceDeclaration`
(parser.js) takes the closing brace without a check, so the source
`interface I {`, whose tokens end before it, parses to a Program, where the
claim says that no such access goes unreported. -/
theorem front_end_total :
    (∀ input : String, tokenize input ≠ none)
    ∧ (∀ (c : Char) (cs : List Char) (line column : Nat) (tokens : List Token)
        (s : LexState), scanOne c cs line column tokens = .ok s →
        s.rest.length < (c :: cs).length)
    ∧ (∀ tokens : List Token, parse tokens ≠ none)
    ∧ (∀ (fuel : Nat) (toks rest : List Token) (stmt : Node),
        8 * toks.length + 4 ≤ fuel → parseStatement fuel toks = .ok stmt rest →
        rest.length < toks.length)
    ∧ tokenize "interface I \x7b"
        = some (.ok [⟨.KEYWORD, .str "interface", 1, 1⟩, ⟨.IDENTIFIER, .str "I", 1, 11⟩,
            ⟨.PUNCTUATION, .str "\x7b", 1, 13⟩])
    ∧ parseSource "interface I \x7b"
        = some (.ok (.Program [.InterfaceDeclaration (.str "I") [] 1 1])) := by
  refine ⟨tokenize_ne_none, ?_, parse_ne_none, ?_, by decide, rfl⟩
  · intro c cs line column tokens s h
    have := scanOne_rest_length h
    simp only [List.length_cons]
    omega
  · intro fuel toks rest stmt hf h
    have hg := (parserFuelled fuel).statement toks hf
    rw [h] at hg
    exact hg

/-! ## Call frames -/

theorem keeps_refl (b : Nat) (x : String) (s : State) : Keeps b x s s :=
  ⟨le_refl _, fun _ _ => ⟨rfl, rfl⟩⟩

theorem keeps_trans {b : Nat} {x : String} {s s1 s2 : State} (h1 : Keeps b x s s1)
    (h2 : Keeps b x s1 s2) : Keeps b x s s2 :=
  ⟨le_trans h1.1 h2.1, fun i hi =>
    ⟨(h2.2 i hi).1.trans (h1.2 i hi).1, (h2.2 i hi).2.trans (h1.2 i hi).2⟩⟩

theorem confined_same {α : Type} {b : Nat} {x : String} {s : State} (r : Result α)
    (hs : Inside b s) (h1 : r.state.envs = s.envs) (h2 : r.state.env = s.env) :
    Confined b x s r := by
  refine ⟨?_, ?_⟩
  · unfold Inside
    rw [h1, h2]
    exact hs
  · unfold Keeps
    rw [h1]
    exact ⟨le_refl _, fun _ _ => ⟨rfl, rfl⟩⟩

theorem confined_trans {α : Type} {b : Nat} {x : String} {s s1 : State} {r : Result α}
    (hk : Keeps b x s s1) (hr : Confined b x s1 r) : Confined b x s r :=
  ⟨hr.1, keeps_trans hk hr.2⟩

theorem confined_bind {α β : Type} {b : Nat} {x : String} {s : State} {r : Result α}
    {k : α → State → Result β} (hr : Confined b x s r)
    (hk : ∀ a s1, Inside b s1 → Confined b x s1 (k a s1)) : Confined b x s (r.bind k) := by
  cases r with
  | ok a s1 => exact confined_trans hr.2 (hk a s1 hr.1)
  | stop sig s1 => exact hr

/-- A heap of frames with the same parents, and the same frames defining `x`
before `b`, keeps the evaluation inside the call. -/
theorem confined_frames {b : Nat} {x : String} {s1 : State} {envs : List Environment}
    (h1 : Inside b s1) (hl : envs.length = s1.envs.length)
    (hp : ∀ i : Nat, (envs[i]?).map (fun e => e.parent) = (s1.envs[i]?).map (fun e => e.parent))
    (hd : ∀ i : Nat, i < b → defines envs x i = defines s1.envs x i) (value : Value) :
    Confined b x s1 (.ok value { s1 with envs := envs }) := by
  refine ⟨⟨h1.1, ?_, ?_⟩, ?_, ?_⟩
  · show s1.env < envs.length
    rw [hl]
    exact h1.2.1
  · intro i e hi he
    show ∃ p, e.parent = some p ∧ p < i ∧ (p = 0 ∨ b ≤ p)
    have he2 : envs[i]? = some e := he
    have h2 := hp i
    rw [he2] at h2
    cases h0 : s1.envs[i]? with
    | none => rw [h0] at h2; simp at h2
    | some e0 =>
      rw [h0] at h2
      simp only [Option.map_some', Option.some.injEq] at h2
      rw [h2]
      exact h1.2.2 i e0 hi h0
  · show s1.envs.length ≤ envs.length
    rw [hl]
  · intro i hi
    exact ⟨hp i, hd i hi⟩

theorem define_frames (x : String) {envs envs1 : List Environment} {id : Nat} {k : String}
    {v : Value} (h : Environment.define envs id k v = some envs1) :
    envs1.length = envs.length ∧
      (∀ i : Nat, (envs1[i]?).map (fun e => e.parent) = (envs[i]?).map (fun e => e.parent)) ∧
      (∀ i : Nat, defines envs1 x i = (defines envs x i || decide (i = id ∧ k = x))) := by
  unfold Environment.define at h
  by_cases hk : k = "__proto__"
  · rw [if_pos hk] at h
    cases h
  · rw [if_neg hk] at h
    cases he : envs[id]? with
    | none => rw [he] at h; cases h
    | some e =>
      rw [he] at h
      simp only [Option.some.injEq] at h
      subst h
      have hid : id < envs.length := (List.getElem?_eq_some_iff.mp he).1
      refine ⟨by simp, ?_, ?_⟩
      · intro i
        by_cases hi : i = id
        · subst hi
          rw [List.getElem?_set_self hid, he]
          rfl
        · rw [List.getElem?_set_ne (fun h => hi h.symm)]
      · intro i
        by_cases hi : i = id
        · subst hi
          simp only [defines, binding]
          rw [List.getElem?_set_self hid, he]
          simp only [Option.some_bind, lookup_dictSet]
          by_cases hkx : k = x
          · subst hkx
            simp
          · have : ¬ x = k := fun h => hkx h.symm
            simp [hkx, this]
        · simp only [defines, binding]
          rw [List.getElem?_set_ne (fun h => hi h.symm)]
          simp [hi]

theorem assign_frames (x : String) (hx : x ∉ objectPrototypeKeys) (k : String) (v : Value) :
    ∀ (fuel : Nat) (envs envs1 : List Environment) (id : Nat),
      Environment.assign fuel envs id k v = .done envs1 →
      envs1.length = envs.length ∧
        (∀ i : Nat, (envs1[i]?).map (fun e => e.parent) = (envs[i]?).map (fun e => e.parent)) ∧
        (∀ i : Nat, defines envs1 x i = defines envs x i) := by
  intro fuel
  induction fuel with
  | zero => intro envs envs1 id h; simp [Environment.assign] at h
  | succ n ih =>
    intro envs envs1 id h
    unfold Environment.assign at h
    cases he : envs[id]? with
    | none => rw [he] at h; simp at h
    | some e =>
      rw [he] at h
      simp only at h
      by_cases hh : e.has k = true
      · rw [if_pos hh] at h
        cases hd : Environment.define envs id k v with
        | none => rw [hd] at h; simp at h
        | some envs2 =>
          rw [hd] at h
          simp only [Assigned.done.injEq] at h
          subst h
          obtain ⟨h1, h2, h3⟩ := define_frames x hd
          refine ⟨h1, h2, fun i => ?_⟩
          rw [h3]
          by_cases hc : i = id ∧ k = x
          · obtain ⟨hi, hkx⟩ := hc
            subst hi hkx
            have : defines envs k i = true := by
              rw [← has_eq_defines envs i e k he hx]
              exact hh
            simp [this]
          · simp [hc]
      · rw [if_neg hh] at h
        cases hpar : e.parent with
        | none => rw [hpar] at h; simp at h
        | some p =>
          rw [hpar] at h
          exact ih envs envs1 p h

/-- Making a frame whose parent is the global environment or a frame of the
call, and making it current, keeps the evaluation inside the call. -/
theorem inside_push {b : Nat} (x : String) {s1 : State} (h1 : Inside b s1) (p : Nat)
    (hp : p < s1.envs.length) (hp2 : p = 0 ∨ b ≤ p) (frame : List (String × Value)) :
    Inside b { s1 with envs := s1.envs ++ [⟨frame, some p⟩], env := s1.envs.length } ∧
      Keeps b x s1 { s1 with envs := s1.envs ++ [⟨frame, some p⟩], env := s1.envs.length } := by
  have hb : b ≤ s1.envs.length := le_trans h1.1 (le_of_lt h1.2.1)
  refine ⟨⟨hb, by simp, ?_⟩, by simp, ?_⟩
  · intro i e hi he
    have he2 : (s1.envs ++ [⟨frame, some p⟩])[i]? = some e := he
    by_cases hlt : i < s1.envs.length
    · rw [List.getElem?_append_left hlt] at he2
      exact h1.2.2 i e hi he2
    · have hlen : i < (s1.envs ++ [(⟨frame, some p⟩ : Environment)]).length :=
        (List.getElem?_eq_some_iff.mp he2).1
      have hi2 : i = s1.envs.length := by
        simp at hlen
        omega
      subst hi2
      simp at he2
      subst he2
      exact ⟨p, rfl, hp, hp2⟩
  · intro i hi
    have hlt : i < s1.envs.length := lt_of_lt_of_le hi hb
    simp only [sameFrame, defines, binding]
    rw [List.getElem?_append_left hlt]
    exact ⟨rfl, rfl⟩

/-- Making the environment of the entry current again. -/
theorem inside_restore {b : Nat} {x : String} {s s1 : State} (hs : Inside b s)
    (h1 : Inside b s1) (hk : Keeps b x s s1) : Inside b { s1 with env := s.env } :=
  ⟨hs.1, lt_of_lt_of_le hs.2.1 hk.1, h1.2.2⟩

/-! ### The helpers of the evaluator stay inside the call -/

theorem callBuiltIn_frames (name : String) (args : List Value) (s : State) :
    (callBuiltIn name args s).state.envs = s.envs ∧
      (callBuiltIn name args s).state.env = s.env := by
  unfold callBuiltIn
  simp only []
  repeat' split
  all_goals exact ⟨rfl, rfl⟩

theorem bindMethods_frames (self : Nat) : ∀ (ms : List Node) (s : State),
    (bindMethods self ms s).state.envs = s.envs ∧ (bindMethods self ms s).state.env = s.env := by
  intro ms
  induction ms with
  | nil => intro s; exact ⟨rfl, rfl⟩
  | cons m rest ih =>
    intro s
    unfold bindMethods
    repeat' split
    all_goals first
      | exact ⟨rfl, rfl⟩
      | exact ih _
      | skip
    all_goals dsimp only
    all_goals repeat' split
    all_goals first
      | exact ⟨rfl, rfl⟩
      | exact ih _

theorem bind_frames {α β : Type} (r : Result α) (s : State) (k : α → State → Result β)
    (hr : r.state.envs = s.envs ∧ r.state.env = s.env)
    (hk : ∀ a s1, (k a s1).state.envs = s1.envs ∧ (k a s1).state.env = s1.env) :
    (r.bind k).state.envs = s.envs ∧ (r.bind k).state.env = s.env := by
  cases r with
  | ok a s1 => exact ⟨(hk a s1).1.trans hr.1, (hk a s1).2.trans hr.2⟩
  | stop sig s1 => exact hr

theorem instantiateClass_frames (fuel : Nat) (name : TokenValue) (line : Nat) (s : State) :
    (instantiateClass fuel name line s).state.envs = s.envs ∧
      (instantiateClass fuel name line s).state.env = s.env := by
  unfold instantiateClass
  repeat' split
  all_goals first
    | exact ⟨rfl, rfl⟩
    | exact bind_frames _ s _ (bindMethods_frames _ _ _) (fun _ _ => ⟨rfl, rfl⟩)

theorem confined_runStatements {b : Nat} {x : String} {ev : Node → State → Result Value}
    (hev : ∀ node s, Inside b s → Confined b x s (ev node s)) :
    ∀ (stmts : List Node) (s : State), Inside b s → Confined b x s (runStatements ev stmts s) := by
  intro stmts
  induction stmts with
  | nil => intro s hs; exact confined_same _ hs rfl rfl
  | cons stmt rest ih =>
    intro s hs
    unfold runStatements
    exact confined_bind (hev stmt s hs) fun _ s1 h1 => ih s1 h1

theorem confined_evalAll {b : Nat} {x : String} {ev : Node → State → Result Value}
    (hev : ∀ node s, Inside b s → Confined b x s (ev node s)) :
    ∀ (nodes : List Node) (s : State), Inside b s → Confined b x s (evalAll ev nodes s) := by
  intro nodes
  induction nodes with
  | nil => intro s hs; exact confined_same _ hs rfl rfl
  | cons n rest ih =>
    intro s hs
    unfold evalAll
    exact confined_bind (hev n s hs) fun v s1 h1 =>
      confined_bind (ih s1 h1) fun vs s2 h2 => confined_same _ h2 rfl rfl

theorem confined_evalPairs {b : Nat} {x : String} {ev : Node → State → Result Value}
    (hev : ∀ node s, Inside b s → Confined b x s (ev node s)) :
    ∀ (pairs : List (TokenValue × Node)) (acc : List (String × Value)) (s : State),
      Inside b s → Confined b x s (evalPairs ev pairs acc s) := by
  intro pairs
  induction pairs with
  | nil => intro acc s hs; exact confined_same _ hs rfl rfl
  | cons pair rest ih =>
    intro acc s hs
    obtain ⟨key, value⟩ := pair
    unfold evalPairs
    refine confined_bind (hev value s hs) fun v s1 h1 => ?_
    dsimp only
    split
    · exact confined_same _ h1 rfl rfl
    · split
      · exact confined_same _ h1 rfl rfl
      · exact ih _ s1 h1

theorem confined_whileLoop {b : Nat} {x : String} {ev : Node → State → Result Value}
    (hev : ∀ node s, Inside b s → Confined b x s (ev node s)) (condition : Node)
    (body : List Node) :
    ∀ (fuel : Nat) (s : State), Inside b s →
      Confined b x s (whileLoop ev fuel condition body s) := by
  intro fuel
  induction fuel with
  | zero => intro s hs; exact confined_same _ hs rfl rfl
  | succ n ih =>
    intro s hs
    unfold whileLoop
    refine confined_bind (hev condition s hs) fun c s1 h1 => ?_
    dsimp only
    split
    · exact confined_bind (confined_runStatements hev body s1 h1) fun _ s2 h2 => ih s2 h2
    · exact confined_same _ h1 rfl rfl

theorem confined_runBody {b : Nat} {x : String} {ev : Node → State → Result Value}
    (hev : ∀ node s, Inside b s → Confined b x s (ev node s)) (frame : List (String × Value))
    (body : List Node) (s : State) (hs : Inside b s) :
    Confined b x s (runBody ev frame body s) := by
  have hpush := inside_push x hs 0 (lt_of_le_of_lt (Nat.zero_le _) hs.2.1) (Or.inl rfl) frame
  have hr := confined_runStatements hev body _ hpush.1
  have hk : ∀ s2, Inside b s2 →
      Keeps b x { s with envs := s.envs ++ [⟨frame, some 0⟩], env := s.envs.length } s2 →
      Inside b { s2 with env := s.env } ∧ Keeps b x s { s2 with env := s.env } := by
    intro s2 h2 hk2
    have hks : Keeps b x s s2 := keeps_trans hpush.2 hk2
    exact ⟨inside_restore hs h2 hks, hks⟩
  unfold runBody
  dsimp only
  revert hr
  generalize runStatements ev body _ = r
  intro hr
  cases r with
  | ok u s2 => exact hk s2 hr.1 hr.2
  | stop sig s2 =>
    cases sig with
    | returned v => exact hk s2 hr.1 hr.2
    | _ => exact confined_trans hpush.2 hr

theorem confined_callUser {b : Nat} {x : String} {ev : Node → State → Result Value}
    (hev : ∀ node s, Inside b s → Confined b x s (ev node s)) (func : Node)
    (args : List Value) (s : State) (hs : Inside b s) :
    Confined b x s (callUser ev func args s) := by
  unfold callUser
  split
  · split
    · exact confined_same _ hs rfl rfl
    · exact confined_runBody hev _ _ s hs
  · exact confined_same _ hs rfl rfl

theorem confined_callMethod {b : Nat} {x : String} {ev : Node → State → Result Value}
    (hev : ∀ node s, Inside b s → Confined b x s (ev node s)) (methodNode : Node)
    (args : List Value) (self : Value) (s : State) (hs : Inside b s) :
    Confined b x s (callMethod ev methodNode args self s) := by
  unfold callMethod
  split
  · split
    · exact confined_same _ hs rfl rfl
    · exact confined_runBody hev _ _ s hs
  · exact confined_same _ hs rfl rfl

theorem confined_callFunction {b : Nat} {x : String} {ev : Node → State → Result Value}
    (hev : ∀ node s, Inside b s → Confined b x s (ev node s)) (name : TokenValue)
    (args : List Node) (line : Nat) (s : State) (hs : Inside b s) :
    Confined b x s (callFunction ev name args line s) := by
  unfold callFunction
  split
  · exact confined_same _ hs rfl rfl
  · split
    · split <;> exact confined_same _ hs rfl rfl
    · refine confined_bind (confined_evalAll hev args s hs) fun values s1 h1 => ?_
      split
      · exact confined_same _ h1 (callBuiltIn_frames _ _ _).1 (callBuiltIn_frames _ _ _).2
      · exact confined_callUser hev _ _ s1 h1

theorem confined_callOrRead {b : Nat} {x : String} {ev : Node → State → Result Value}
    (hev : ∀ node s, Inside b s → Confined b x s (ev node s)) (rightNode : Node)
    (labelValue left : Value) (s1 : State) (h1 : Inside b s1) :
    Confined b x s1 (evaluateMember.callOrRead ev rightNode labelValue left s1) := by
  unfold evaluateMember.callOrRead
  split
  · exact confined_same _ h1 rfl rfl
  · split
    · refine confined_bind (confined_evalAll hev _ s1 h1) fun values s2 h2 => ?_
      split
      · exact confined_callMethod hev _ _ _ s2 h2
      · exact confined_same _ h2 rfl rfl
    · exact confined_same _ h1 rfl rfl
  · exact confined_same _ h1 rfl rfl

theorem confined_evaluateMember {b : Nat} {x : String} {ev : Node → State → Result Value}
    (hev : ∀ node s, Inside b s → Confined b x s (ev node s)) (leftNode rightNode : Node)
    (line : Nat) (s : State) (hs : Inside b s) :
    Confined b x s (evaluateMember ev leftNode rightNode line s) := by
  unfold evaluateMember
  refine confined_bind (hev leftNode s hs) fun left s1 h1 => ?_
  dsimp only
  repeat' split
  all_goals first
    | exact confined_same _ h1 rfl rfl
    | exact confined_callOrRead hev _ _ _ s1 h1

theorem confined_evaluateBinary {b : Nat} {x : String} {ev : Node → State → Result Value}
    (hev : ∀ node s, Inside b s → Confined b x s (ev node s)) (operator : TokenValue)
    (leftNode rightNode : Node) (line : Nat) (s : State) (hs : Inside b s) :
    Confined b x s (evaluateBinary ev operator leftNode rightNode line s) := by
  unfold evaluateBinary
  refine confined_bind (hev leftNode s hs) fun left s1 h1 =>
    confined_bind (hev rightNode s1 h1) fun right s2 h2 => ?_
  have h := binaryOperation_same operator left right line s2
  exact confined_same _ h2 (by rw [h]) (by rw [h])

theorem confined_tryAndCatch {b : Nat} {x : String} {ev : Node → State → Result Value}
    (hev : ∀ node s, Inside b s → Confined b x s (ev node s)) (block : List Node)
    (handler : Option (TokenValue × List Node)) (finalizer : Option (List Node)) (s : State)
    (hs : Inside b s) : Confined b x s (tryAndCatch ev block handler finalizer s) := by
  have hr := confined_runStatements hev block s hs
  have hcaught : ∀ (errorValue : Value) (raised : Signal) (s1 : State), Inside b s1 →
      Keeps b x s s1 →
      Confined b x s
        (match handler with
          | some (param, body) =>
            match param.key with
            | none => .stop (.unsupported "catch parameter that is not a string") s1
            | some k =>
              if k = "__proto__" then .stop (.unsupported "catch parameter __proto__") s1
              else
                runStatements ev body
                  { s1 with envs := s1.envs ++ [⟨[(k, errorValue)], some s.env⟩],
                            env := s1.envs.length }
          | none => if finalizer.isNone then .stop raised s1 else .ok () s1 : Result Unit) := by
    intro errorValue raised s1 h1 hk
    split
    · split
      · exact ⟨h1, hk⟩
      · split
        · exact ⟨h1, hk⟩
        · have hpush := inside_push x h1 s.env (lt_of_lt_of_le hs.2.1 hk.1) (Or.inr hs.1)
            [(‹String›, errorValue)]
          exact confined_trans (keeps_trans hk hpush.2)
            (confined_runStatements hev _ _ hpush.1)
    · split
      · exact ⟨h1, hk⟩
      · exact ⟨h1, hk⟩
  unfold tryAndCatch
  dsimp only
  revert hr
  generalize runStatements ev block s = r
  intro hr
  cases r with
  | ok u s1 => exact hr
  | stop sig s1 =>
    cases sig with
    | thrown v line => exact hcaught v _ s1 hr.1 hr.2
    | error message => exact hcaught _ _ s1 hr.1 hr.2
    | _ => exact hr

theorem confined_finishTry {b : Nat} {x : String} {ev : Node → State → Result Value}
    (hev : ∀ node s, Inside b s → Confined b x s (ev node s)) (finalizer : Option (List Node))
    (s : State) (hs : Inside b s) (pending : Result Unit) (hp : Confined b x s pending) :
    Confined b x s (finishTry ev finalizer s.env pending) := by
  have hrestore : ∀ s4, Inside b s4 → Keeps b x s s4 →
      Inside b { s4 with env := s.env } ∧ Keeps b x s { s4 with env := s.env } :=
    fun s4 h4 hk => ⟨inside_restore hs h4 hk, hk⟩
  have hfin : ∀ (statements : List Node) (s1 : State), Inside b s1 → Keeps b x s s1 →
      Confined b x s (runStatements ev statements { s1 with env := s.env }) :=
    fun statements s1 h1 hk =>
      confined_trans (hrestore s1 h1 hk).2
        (confined_runStatements hev statements _ (hrestore s1 h1 hk).1)
  unfold finishTry
  cases pending with
  | ok u s1 =>
    dsimp only
    cases finalizer with
    | none => exact hrestore s1 hp.1 hp.2
    | some statements =>
      dsimp only [Result.state]
      have h := hfin statements s1 hp.1 hp.2
      revert h
      generalize runStatements ev statements _ = r
      intro h
      cases r with
      | ok u4 s4 => exact hrestore s4 h.1 h.2
      | stop sig4 s4 => exact h
  | stop sig s1 =>
    cases sig with
    | unsupported what => exact hp
    | outOfFuel => exact hp
    | _ =>
      dsimp only
      cases finalizer with
      | none => exact hrestore s1 hp.1 hp.2
      | some statements =>
        dsimp only [Result.state]
        have h := hfin statements s1 hp.1 hp.2
        revert h
        generalize runStatements ev statements _ = r
        intro h
        cases r with
        | ok u4 s4 => exact hrestore s4 h.1 h.2
        | stop sig4 s4 => exact h

theorem confined_evalTry {b : Nat} {x : String} {ev : Node → State → Result Value}
    (hev : ∀ node s, Inside b s → Confined b x s (ev node s)) (block : List Node)
    (handler : Option (TokenValue × List Node)) (finalizer : Option (List Node)) (s : State)
    (hs : Inside b s) : Confined b x s (evalTry ev block handler finalizer s) :=
  confined_finishTry hev finalizer s hs _ (confined_tryAndCatch hev block handler finalizer s hs)

theorem confined_evalInclude {b : Nat} {x : String} {ev : Node → State → Result Value}
    (hev : ∀ node s, Inside b s → Confined b x s (ev node s)) (path : TokenValue) (line : Nat)
    (s : State) (hs : Inside b s) : Confined b x s (evalInclude ev path line s) := by
  unfold evalInclude
  split
  · exact confined_same _ hs rfl rfl
  · dsimp only
    split
    · exact confined_same _ hs rfl rfl
    · split
      · exact confined_same _ hs rfl rfl
      · exact confined_same _ hs rfl rfl
      · split
        · exact confined_same _ hs rfl rfl
        · split <;> exact confined_same _ hs rfl rfl
        · rename_i ast _
          have h := hev ast s hs
          revert h
          generalize ev ast s = r
          intro h
          cases r with
          | ok v s1 => exact h
          | stop sig s1 => cases sig <;> exact h

theorem confined_evalNode {b : Nat} {x : String} (hx : x ∉ objectPrototypeKeys)
    {ev : Node → State → Result Value}
    (hev : ∀ node s, Inside b s → Confined b x s (ev node s)) (fuel : Nat) (node : Node)
    (s : State) (hs : Inside b s) : Confined b x s (evalNode ev fuel node s) := by
  cases node with
  | Program body =>
    simp only [evalNode]
    exact confined_bind (confined_runStatements hev body s hs) fun _ s1 h1 =>
      confined_same _ h1 rfl rfl
  | VariableDeclaration name value line column =>
    simp only [evalNode]
    refine confined_bind (hev value s hs) fun v s1 h1 => ?_
    cases hd : (name.key.bind fun k => Environment.define s1.envs s.env k v) with
    | none => exact confined_same _ h1 rfl rfl
    | some envs =>
      dsimp only
      cases hk : name.key with
      | none => rw [hk] at hd; simp at hd
      | some k =>
        rw [hk] at hd
        simp only [Option.some_bind] at hd
        obtain ⟨hl, hp, hdef⟩ := define_frames x hd
        refine confined_frames h1 hl hp (fun i hi => ?_) _
        rw [hdef]
        have : ¬ (i = s.env ∧ k = x) := fun h => by
          have := hs.1
          omega
        simp [this]
  | ExpressionStatement expression line column =>
    simp only [evalNode]
    exact hev expression s hs
  | PrintStatement args line column =>
    simp only [evalNode]
    exact confined_bind (confined_evalAll hev args s hs) fun _ s1 h1 =>
      confined_same _ h1 rfl rfl
  | IfStatement condition consequent alternate line column =>
    simp only [evalNode]
    refine confined_bind (hev condition s hs) fun c s1 h1 => ?_
    split
    · exact confined_bind (confined_runStatements hev consequent s1 h1) fun _ s2 h2 =>
        confined_same _ h2 rfl rfl
    · split
      · exact confined_bind (confined_runStatements hev _ s1 h1) fun _ s2 h2 =>
          confined_same _ h2 rfl rfl
      · exact confined_same _ h1 rfl rfl
  | WhileStatement condition body line column =>
    simp only [evalNode]
    exact confined_whileLoop hev condition body fuel s hs
  | FunctionDeclaration name params body visibility line column =>
    simp only [evalNode]
    split
    · split <;> exact confined_same _ hs rfl rfl
    · exact confined_same _ hs rfl rfl
  | ReturnStatement argument line column =>
    simp only [evalNode]
    exact confined_bind (hev argument s hs) fun _ s1 h1 => confined_same _ h1 rfl rfl
  | ClassDeclaration name superClassName methods isAbstract line column =>
    simp only [evalNode]
    split
    · split <;> exact confined_same _ hs rfl rfl
    · exact confined_same _ hs rfl rfl
  | InterfaceDeclaration name methods line column =>
    simp only [evalNode]
    exact confined_same _ hs rfl rfl
  | TryStatement block handler finalizer line column =>
    simp only [evalNode]
    exact confined_evalTry hev block handler finalizer s hs
  | ThrowStatement argument line column =>
    simp only [evalNode]
    exact confined_bind (hev argument s hs) fun _ s1 h1 => confined_same _ h1 rfl rfl
  | IncludeStatement path line column =>
    simp only [evalNode]
    exact confined_evalInclude hev path line s hs
  | CallExpression callee args line column =>
    simp only [evalNode]
    exact confined_callFunction hev callee args line s hs
  | BinaryExpression operator left right line column =>
    simp only [evalNode]
    split
    · exact confined_evaluateMember hev left right line s hs
    · exact confined_evaluateBinary hev operator left right line s hs
  | AssignmentExpression left right line column =>
    simp only [evalNode]
    refine confined_bind (hev right s hs) fun value s1 h1 => ?_
    split
    · split
      · exact confined_same _ h1 rfl rfl
      · rename_i k _
        cases ha : Environment.assign s1.envs.length s1.envs s1.env k value with
        | done envs =>
          obtain ⟨hl, hp, hdef⟩ := assign_frames x hx k value _ _ _ _ ha
          exact confined_frames h1 hl hp (fun i _ => hdef i) _
        | unbound => exact confined_same _ h1 rfl rfl
        | invalid => exact confined_same _ h1 rfl rfl
    · refine confined_bind (hev _ s1 h1) fun obj s2 h2 =>
        confined_bind (hev _ s2 h2) fun prop s3 h3 => ?_
      split
      · exact confined_same _ h3 rfl rfl
      · split <;> exact confined_same _ h3 rfl rfl
    · exact confined_same _ h1 rfl rfl
  | Literal value line column =>
    simp only [evalNode]
    split <;> exact confined_same _ hs rfl rfl
  | Identifier name line column =>
    simp only [evalNode]
    split
    · exact confined_same _ hs rfl rfl
    · split <;> exact confined_same _ hs rfl rfl
  | NewExpression className line column =>
    simp only [evalNode]
    exact confined_same _ hs (instantiateClass_frames _ _ _ _).1 (instantiateClass_frames _ _ _ _).2
  | ListLiteral elements line column =>
    simp only [evalNode]
    exact confined_bind (confined_evalAll hev elements s hs) fun _ s1 h1 =>
      confined_same _ h1 rfl rfl
  | ObjectLiteral pairs line column =>
    simp only [evalNode]
    exact confined_bind (confined_evalPairs hev pairs [] s hs) fun _ s1 h1 =>
      confined_same _ h1 rfl rfl
  | MemberExpression object property line column =>
    simp only [evalNode]
    refine confined_bind (hev object s hs) fun obj s1 h1 =>
      confined_bind (hev property s1 h1) fun idx s2 h2 => ?_
    split
    · exact confined_same _ h2 rfl rfl
    · split <;> exact confined_same _ h2 rfl rfl

/-- Whatever is evaluated inside the call of frame `b` stays inside it and keeps
the frames made before it. -/
theorem confined_evaluate {b : Nat} {x : String} (hx : x ∉ objectPrototypeKeys) :
    ∀ (fuel : Nat) (node : Node) (s : State), Inside b s → Confined b x s (evaluate fuel node s) := by
  intro fuel
  induction fuel with
  | zero => intro node s hs; exact confined_same _ hs rfl rfl
  | succ n ih =>
    intro node s hs
    have h := confined_evalNode hx ih n node s hs
    rw [evaluate_succ]
    unfold Confined
    rw [annotate_same]
    exact h

/-! ### Lookups after and inside a call -/

/-- A lookup that fails keeps failing while the frames keep their parents and
keep not defining the name. -/
theorem get_unbound_keeps (x : String) (hx : x ∉ objectPrototypeKeys)
    (envs envs1 : List Environment)
    (hsame : ∀ i : Nat, i < envs.length → sameFrame x envs envs1 i) :
    ∀ (fuel fuel1 id : Nat), fuel ≤ fuel1 → Environment.get fuel envs id x = .unbound →
      Environment.get fuel1 envs1 id x = .unbound := by
  intro fuel
  induction fuel with
  | zero => intro fuel1 id _ h; simp [Environment.get] at h
  | succ n ih =>
    intro fuel1 id hle h
    obtain ⟨m, rfl⟩ : ∃ m, fuel1 = m + 1 := ⟨fuel1 - 1, by omega⟩
    unfold Environment.get at h ⊢
    cases he : envs[id]? with
    | none => rw [he] at h; simp at h
    | some e =>
      rw [he] at h
      dsimp only at h
      have hid : id < envs.length := (List.getElem?_eq_some_iff.mp he).1
      obtain ⟨hpar, hdef⟩ := hsame id hid
      rw [he] at hpar
      cases he1 : envs1[id]? with
      | none => rw [he1] at hpar; simp at hpar
      | some e1 =>
        rw [he1] at hpar
        simp only [Option.map_some', Option.some.injEq] at hpar
        dsimp only
        by_cases hh : e.has x = true
        · rw [if_pos hh] at h
          cases h
        · rw [if_neg hh] at h
          have hh1 : ¬ e1.has x = true := by
            rw [has_eq_defines envs1 id e1 x he1 hx, hdef, ← has_eq_defines envs id e x he hx]
            exact hh
          rw [if_neg hh1, hpar]
          cases hp : e.parent with
          | none => rfl
          | some p =>
            rw [hp] at h
            exact ih m p (by omega) h

/-- Inside a call the chain of the current environment holds frames of the call
and the global environment only: when none of them defines the name, the lookup
fails. -/
theorem get_unbound_inside (x : String) (hx : x ∉ objectPrototypeKeys) (b : Nat)
    (envs : List Environment) (e0 : Environment) (h0 : envs[0]? = some e0)
    (hroot : e0.parent = none) (hglobal : defines envs x 0 = false)
    (hshape : ∀ (i : Nat) (e : Environment), b ≤ i → envs[i]? = some e →
      ∃ p, e.parent = some p ∧ p < i ∧ (p = 0 ∨ b ≤ p))
    (hnone : ∀ i : Nat, b ≤ i → defines envs x i = false) :
    ∀ (id fuel : Nat), (id = 0 ∨ b ≤ id) → id < envs.length → id < fuel →
      Environment.get fuel envs id x = .unbound := by
  intro id
  induction id using Nat.strong_induction_on with
  | _ id ih =>
    intro fuel hid hlen hfuel
    obtain ⟨m, rfl⟩ : ∃ m, fuel = m + 1 := ⟨fuel - 1, by omega⟩
    unfold Environment.get
    by_cases hz : id = 0
    · subst hz
      rw [h0]
      dsimp only
      have hh : ¬ e0.has x = true := by
        rw [has_eq_defines envs 0 e0 x h0 hx, hglobal]
        simp
      rw [if_neg hh, hroot]
    · have hb : b ≤ id := by
        cases hid with
        | inl h => exact absurd h hz
        | inr h => exact h
      have he : envs[id]? = some (envs.get ⟨id, hlen⟩) := List.getElem?_eq_getElem hlen
      rw [he]
      dsimp only
      obtain ⟨p, hp, hlt, hp0⟩ := hshape id _ hb he
      have hh : ¬ (envs.get ⟨id, hlen⟩).has x = true := by
        rw [has_eq_defines envs id _ x he hx, hnone id hb]
        simp
      rw [if_neg hh, hp]
      exact ih p hlt m hp0 (by omega) (by omega)

theorem evaluate_unbound (x : String) (fuel line column : Nat) (s : State)
    (h : Environment.get s.envs.length s.envs s.env x = .unbound) :
    evaluate (fuel + 1) (.Identifier (.str x) line column) s =
      .stop (.error (unboundMessage x (some line) (some column))) s := by
  have hk : (TokenValue.str x).key = some x := rfl
  rw [evaluate_succ]
  simp only [evalNode, hk, h]
  apply annotate_bracket
  unfold unboundMessage
  rw [String.append_assoc]
  exact positionTag_head _ _ _

/-- The state in which the body of a call starts is inside the call, and keeps
the frames of the caller. -/
theorem inside_enterCall (x : String) (frame : List (String × Value)) (s : State)
    (hpos : 0 < s.envs.length) :
    Inside s.envs.length (enterCall frame s) ∧ Keeps s.envs.length x s (enterCall frame s) := by
  refine ⟨⟨le_refl _, by simp [enterCall], ?_⟩, by simp [enterCall], ?_⟩
  · intro i e hi he
    have he2 : (s.envs ++ [(⟨frame, some 0⟩ : Environment)])[i]? = some e := he
    have hlen : i < (s.envs ++ [(⟨frame, some 0⟩ : Environment)]).length :=
      (List.getElem?_eq_some_iff.mp he2).1
    have hi2 : i = s.envs.length := by
      simp at hlen
      omega
    subst hi2
    simp at he2
    subst he2
    exact ⟨0, rfl, hpos, Or.inl rfl⟩
  · intro i hi
    simp only [sameFrame, defines, binding, enterCall]
    rw [List.getElem?_append_left hi]
    exact ⟨rfl, rfl⟩

theorem get_unbound_length (fuel : Nat) (envs : List Environment) (id : Nat) (x : String)
    (h : Environment.get fuel envs id x = .unbound) : id < envs.length := by
  cases fuel with
  | zero => simp [Environment.get] at h
  | succ n =>
    unfold Environment.get at h
    cases he : envs[id]? with
    | none => rw [he] at h; simp at h
    | some e => exact (List.getElem?_eq_some_iff.mp he).1

/-- A name that is not bound where a function is called is not bound there when
the call has returned. -/
theorem runBody_keeps_unbound (x : String) (hx : x ∉ objectPrototypeKeys) (fuel : Nat)
    (frame : List (String × Value)) (body : List Node) (s s1 : State) (v : Value)
    (hu : Environment.get s.envs.length s.envs s.env x = .unbound)
    (h : runBody (evaluate fuel) frame body s = .ok v s1) :
    Environment.get s1.envs.length s1.envs s1.env x = .unbound := by
  have hlt := get_unbound_length _ _ _ _ hu
  have hpos : 0 < s.envs.length := lt_of_le_of_lt (Nat.zero_le _) hlt
  obtain ⟨hin, hk⟩ := inside_enterCall x frame s hpos
  have hr := confined_runStatements (confined_evaluate hx fuel) body _ hin
  have hfin : ∀ s2, Keeps s.envs.length x (enterCall frame s) s2 →
      Environment.get s2.envs.length s2.envs s.env x = .unbound := by
    intro s2 hk2
    have hks := keeps_trans hk hk2
    exact get_unbound_keeps x hx s.envs s2.envs hks.2 _ _ _ hks.1 hu
  rw [runBody_eq] at h
  revert hr h
  generalize runStatements (evaluate fuel) body (enterCall frame s) = r
  intro h hr
  cases r with
  | ok u s2 =>
    dsimp only at h
    cases h
    exact hfin s2 hr.2
  | stop sig s2 =>
    cases sig with
    | returned w =>
      dsimp only at h
      cases h
      exact hfin s2 hr.2
    | _ =>
      dsimp only at h
      cases h

/-- Where the body of a call has got to, a name that neither a frame of the call
nor the global environment defines is not bound, whatever the frames of the
caller hold. -/
theorem body_lookup_unbound (x : String) (hx : x ∉ objectPrototypeKeys) (fuel : Nat)
    (frame : List (String × Value)) (pre : List Node) (s s2 : State) (e0 : Environment)
    (h0 : s.envs[0]? = some e0) (hroot : e0.parent = none) (hglobal : defines s.envs x 0 = false)
    (hpre : runStatements (evaluate fuel) pre (enterCall frame s) = .ok () s2)
    (hown : ∀ i : Nat, s.envs.length ≤ i → defines s2.envs x i = false) :
    Environment.get s2.envs.length s2.envs s2.env x = .unbound := by
  have hpos : 0 < s.envs.length := (List.getElem?_eq_some_iff.mp h0).1
  obtain ⟨hin, hk⟩ := inside_enterCall x frame s hpos
  have hr := confined_runStatements (confined_evaluate hx fuel) pre _ hin
  rw [hpre] at hr
  obtain ⟨hin2, hk2⟩ := hr
  have hin2 : Inside s.envs.length s2 := hin2
  have hks : Keeps s.envs.length x s s2 := keeps_trans hk hk2
  obtain ⟨hpar, hdef⟩ := hks.2 0 hpos
  rw [h0] at hpar
  cases he : s2.envs[0]? with
  | none => rw [he] at hpar; simp at hpar
  | some e2 =>
    rw [he] at hpar
    simp only [Option.map_some', Option.some.injEq] at hpar
    exact get_unbound_inside x hx s.envs.length s2.envs e2 he (hpar.trans hroot)
      (hdef.trans hglobal) hin2.2.2 hown s2.env s2.envs.length (Or.inr hin2.1) hin2.2.1 hin2.2.1

/-- A body that gets to `renvoie x` where `x` is not bound raises the
unbound-variable error. -/
theorem runBody_unbound (x : String) (fuel : Nat) (frame : List (String × Value))
    (pre post : List Node) (s s2 : State) (line column l2 c2 : Nat)
    (hpre : runStatements (evaluate (fuel + 2)) pre (enterCall frame s) = .ok () s2)
    (hu : Environment.get s2.envs.length s2.envs s2.env x = .unbound) :
    runBody (evaluate (fuel + 2)) frame
        (pre ++ .ReturnStatement (.Identifier (.str x) line column) l2 c2 :: post) s
      = .stop (.error (unboundMessage x (some line) (some column))) s2 := by
  have hstmt : evaluate (fuel + 2) (.ReturnStatement (.Identifier (.str x) line column) l2 c2) s2
      = .stop (.error (unboundMessage x (some line) (some column))) s2 := by
    rw [evaluate_succ]
    simp only [evalNode, evaluate_unbound x fuel line column s2 hu, Result.bind]
    apply annotate_bracket
    unfold unboundMessage
    rw [String.append_assoc]
    exact positionTag_head _ _ _
  rw [runBody_eq, runStatements_append_stop _ pre post _ _ s2 s2 _ hpre hstmt]

theorem callUser_keeps_unbound (x : String) (hx : x ∉ objectPrototypeKeys) (fuel : Nat)
    (f : Node) (args : List Value) (s s1 : State) (v : Value)
    (hu : Environment.get s.envs.length s.envs s.env x = .unbound)
    (h : callUser (evaluate fuel) f args s = .ok v s1) :
    Environment.get s1.envs.length s1.envs s1.env x = .unbound := by
  unfold callUser at h
  split at h
  · split at h
    · cases h
    · exact runBody_keeps_unbound x hx fuel _ _ s s1 v hu h
  · cases h

theorem callMethod_keeps_unbound (x : String) (hx : x ∉ objectPrototypeKeys) (fuel : Nat)
    (f : Node) (args : List Value) (self : Value) (s s1 : State) (v : Value)
    (hu : Environment.get s.envs.length s.envs s.env x = .unbound)
    (h : callMethod (evaluate fuel) f args self s = .ok v s1) :
    Environment.get s1.envs.length s1.envs s1.env x = .unbound := by
  unfold callMethod at h
  split at h
  · split at h
    · cases h
    · exact runBody_keeps_unbound x hx fuel _ _ s s1 v hu h
  · cases h

set_option maxRecDepth 100000 in
theorem local_after_call_example :
    (runCode 50 "fonction f() \x7b soit x = 1 \x7d\nf()\nmontre x" (Evaluator [])).signal?
      = some (.error "[Ligne 3, Col 8] Variable non définie: x") := by decide

set_option maxRecDepth 100000 in
theorem local_in_callee_example :
    (runCode 50
      "fonction g() \x7b renvoie x \x7d\nfonction f() \x7b soit x = 1\nrenvoie g() \x7d\nmontre f()"
      (Evaluator [])).signal?
      = some (.error "[Ligne 1, Col 24] Variable non définie: x") := by decide

set_option maxRecDepth 100000 in
theorem local_in_sibling_example :
    (runCode 50
      "fonction f() \x7b soit x = 1 \x7d\nfonction g() \x7b renvoie x \x7d\nf()\nmontre g()"
      (Evaluator [])).signal?
      = some (.error "[Ligne 2, Col 24] Variable non définie: x") := by decide

set_option maxRecDepth 100000 in
theorem local_in_body_example :
    (runCode 50 "fonction f() \x7b soit x = 1\nrenvoie x \x7d\nmontre f()"
      (Evaluator [])).state.output = [[.num 1]] := by decide

/-- C12 (amended): locals are confined to their call frame. For a name `x` that
is not a key of `Object.prototype` (the lexer makes no identifier of such a
name): (1) when `x` is not bound
where a user function or a method is called (at top level: no global `x`
exists) and the call returns, a lookup of `x` at the call site raises the
unbound-variable error, whatever the body has declared with `soit`; (2) when no
global `x` exists, a lookup of `x` at a point the body of a function or method
has reached without a frame of its own call defining `x` raises the
unbound-variable error, whatever the frames of the caller bind, and a body that
gets there to `renvoie x` ends the call with that error; the body of every call
starts in a new frame whose parent is the global environment (the frame 0),
whatever environment was current. The programs: `x` declared in `f` is unbound
after `f()`, unbound in `g` called from the body of `f`, unbound in `g` called
after `f()`, and bound in the body of `f`. -/
theorem locals_confined :
    (∀ x : String, x ∉ objectPrototypeKeys →
      (∀ (fuel fuel2 : Nat) (f : Node) (args : List Value) (s s1 : State) (v : Value)
          (line column : Nat),
          Environment.get s.envs.length s.envs s.env x = .unbound →
          callUser (evaluate fuel) f args s = .ok v s1 →
          evaluate (fuel2 + 1) (.Identifier (.str x) line column) s1
            = .stop (.error (unboundMessage x (some line) (some column))) s1)
      ∧ (∀ (fuel fuel2 : Nat) (f : Node) (args : List Value) (self : Value) (s s1 : State)
          (v : Value) (line column : Nat),
          Environment.get s.envs.length s.envs s.env x = .unbound →
          callMethod (evaluate fuel) f args self s = .ok v s1 →
          evaluate (fuel2 + 1) (.Identifier (.str x) line column) s1
            = .stop (.error (unboundMessage x (some line) (some column))) s1)
      ∧ (∀ (fuel fuel2 : Nat) (name : TokenValue) (params : List TokenValue)
          (args : List Value) (frame : List (String × Value)) (pre post : List Node)
          (visibility : Option TokenValue) (l c : Nat) (s s2 : State) (e0 : Environment)
          (line column l2 c2 : Nat),
          bindArguments params args [] = some frame →
          s.envs[0]? = some e0 → e0.parent = none → defines s.envs x 0 = false →
          runStatements (evaluate (fuel + 2)) pre (enterCall frame s) = .ok () s2 →
          (∀ i : Nat, s.envs.length ≤ i → defines s2.envs x i = false) →
          evaluate (fuel2 + 1) (.Identifier (.str x) line column) s2
              = .stop (.error (unboundMessage x (some line) (some column))) s2
            ∧ callUser (evaluate (fuel + 2))
                (.FunctionDeclaration name params
                  (pre ++ .ReturnStatement (.Identifier (.str x) line column) l2 c2 :: post)
                  visibility l c) args s
              = .stop (.error (unboundMessage x (some line) (some column))) s2)
      ∧ (∀ (fuel fuel2 : Nat) (name : TokenValue) (params : List TokenValue)
          (args : List Value) (self : Value) (frame : List (String × Value))
          (pre post : List Node) (visibility : Option TokenValue) (l c : Nat) (s s2 : State)
          (e0 : Environment) (line column l2 c2 : Nat),
          bindParameters params args [("ceci", self)] = some frame →
          s.envs[0]? = some e0 → e0.parent = none → defines s.envs x 0 = false →
          runStatements (evaluate (fuel + 2)) pre (enterCall frame s) = .ok () s2 →
          (∀ i : Nat, s.envs.length ≤ i → defines s2.envs x i = false) →
          evaluate (fuel2 + 1) (.Identifier (.str x) line column) s2
              = .stop (.error (unboundMessage x (some line) (some column))) s2
            ∧ callMethod (evaluate (fuel + 2))
                (.FunctionDeclaration name params
                  (pre ++ .ReturnStatement (.Identifier (.str x) line column) l2 c2 :: post)
                  visibility l c) args self s
              = .stop (.error (unboundMessage x (some line) (some column))) s2))
    ∧ (∀ w k : String, applyAlias w = .str k → k ∉ objectPrototypeKeys)
    ∧ (∀ (frame : List (String × Value)) (s : State),
        (enterCall frame s).envs[(enterCall frame s).env]? = some ⟨frame, some 0⟩)
    ∧ (∀ (ev : Node → State → Result Value) (frame : List (String × Value)) (body : List Node)
        (s : State),
        runBody ev frame body s =
          match runStatements ev body (enterCall frame s) with
          | .ok _ s2 => .ok .null { s2 with env := s.env }
          | .stop (.returned v) s2 => .ok v { s2 with env := s.env }
          | .stop sig s2 => .stop sig s2)
    ∧ (runCode 50 "fonction f() \x7b soit x = 1 \x7d\nf()\nmontre x" (Evaluator [])).signal?
        = some (.error "[Ligne 3, Col 8] Variable non définie: x")
    ∧ (runCode 50
        "fonction g() \x7b renvoie x \x7d\nfonction f() \x7b soit x = 1\nrenvoie g() \x7d\nmontre f()"
        (Evaluator [])).signal?
        = some (.error "[Ligne 1, Col 24] Variable non définie: x")
    ∧ (runCode 50
        "fonction f() \x7b soit x = 1 \x7d\nfonction g() \x7b renvoie x \x7d\nf()\nmontre g()"
        (Evaluator [])).signal?
        = some (.error "[Ligne 2, Col 24] Variable non définie: x")
    ∧ (runCode 50 "fonction f() \x7b soit x = 1\nrenvoie x \x7d\nmontre f()"
        (Evaluator [])).state.output = [[.num 1]] := by
  refine ⟨fun x hx => ⟨?_, ?_, ?_, ?_⟩, applyAlias_str, ?_, fun _ _ _ _ => rfl,
    local_after_call_example,
    local_in_callee_example, local_in_sibling_example, local_in_body_example⟩
  · intro fuel fuel2 f args s s1 v line column hu h
    exact evaluate_unbound x fuel2 line column s1
      (callUser_keeps_unbound x hx fuel f args s s1 v hu h)
  · intro fuel fuel2 f args self s s1 v line column hu h
    exact evaluate_unbound x fuel2 line column s1
      (callMethod_keeps_unbound x hx fuel f args self s s1 v hu h)
  · intro fuel fuel2 name params args frame pre post visibility l c s s2 e0 line column l2 c2
      hb h0 hroot hglobal hpre hown
    have hu := body_lookup_unbound x hx (fuel + 2) frame pre s s2 e0 h0 hroot hglobal hpre hown
    refine ⟨evaluate_unbound x fuel2 line column s2 hu, ?_⟩
    simp only [callUser, hb]
    exact runBody_unbound x fuel frame pre post s s2 line column l2 c2 hpre hu
  · intro fuel fuel2 name params args self frame pre post visibility l c s s2 e0 line column
      l2 c2 hb h0 hroot hglobal hpre hown
    have hu := body_lookup_unbound x hx (fuel + 2) frame pre s s2 e0 h0 hroot hglobal hpre hown
    refine ⟨evaluate_unbound x fuel2 line column s2 hu, ?_⟩
    simp only [callMethod, hb]
    exact runBody_unbound x fuel frame pre post s s2 line column l2 c2 hpre hu
  · intro frame s
    simp [enterCall]

/-- C12, witness: at top level, where `x` is not bound, the call of
`fonction f() { soit x = 1 }` returns and `x` is still not bound; and in the
body of a call whose frame binds `x`, the call of a function whose body is
`renvoie x` raises the unbound-variable error. -/
theorem locals_confined_witness :
    "x" ∉ objectPrototypeKeys
    ∧ Environment.get 1 (Evaluator []).envs 0 "x" = .unbound
    ∧ callUser (evaluate 3) declaresLocal [] (Evaluator [])
        = .ok .null { Evaluator [] with envs := [⟨[], none⟩, ⟨[("x", .num 1)], some 0⟩] }
    ∧ evaluate 1 (.Identifier (.str "x") 2 1)
          { Evaluator [] with envs := [⟨[], none⟩, ⟨[("x", .num 1)], some 0⟩] }
        = .stop (.error (unboundMessage "x" (some 2) (some 1)))
          { Evaluator [] with envs := [⟨[], none⟩, ⟨[("x", .num 1)], some 0⟩] }
    ∧ Environment.get 2 insideCallExample.envs insideCallExample.env "x" = .found (.num 1)
    ∧ callUser (evaluate 2)
        (.FunctionDeclaration (.str "g") []
          ([] ++ .ReturnStatement (.Identifier (.str "x") 1 24) 1 16 :: []) none 1 1) []
        insideCallExample
        = .stop (.error (unboundMessage "x" (some 1) (some 24)))
          (enterCall [] insideCallExample) :=
  ⟨by decide, rfl, rfl,
    (locals_confined.1 "x" (by decide)).1 3 0 declaresLocal [] (Evaluator []) _ .null 2 1 rfl rfl,
    rfl,
    ((locals_confined.1 "x" (by decide)).2.2.1 0 0 (.str "g") [] [] [] [] [] none 1 1
      insideCallExample (enterCall [] insideCallExample) ⟨[], none⟩ 1 24 1 16 rfl rfl rfl rfl rfl
      (by
        intro i hi
        rcases i with _ | _ | _ | n
        · simp [insideCallExample, Evaluator] at hi
        · simp [insideCallExample, Evaluator] at hi
        · rfl
        · rfl)).2⟩

set_option maxRecDepth 100000 in
/-- C12, counterexample: no global `x` exists and the body of `f` declares `x`
with `soit`, yet after the call of `f` has returned in the body of `h`, which
has declared its own `x`, the lookup of `x` at the call site gives 2; and the
lookup of `x` in the body of `g`, called from the body of `f`, gives the
argument 7 of its own parameter `x`. -/
theorem caller_local_stays_visible :
    (runCode 50
      "fonction f() \x7b soit x = 1 \x7d\nfonction h() \x7b soit x = 2\nf()\nrenvoie x \x7d\nmontre h()"
      (Evaluator [])).state.output = [[.num 2]]
    ∧ (runCode 50
      "fonction f() \x7b soit x = 1 \x7d\nfonction h() \x7b soit x = 2\nf()\nrenvoie x \x7d\nmontre h()"
      (Evaluator [])).signal? = none
    ∧ (runCode 50
      "fonction g(x) \x7b renvoie x \x7d\nfonction f() \x7b soit x = 1\nrenvoie g(7) \x7d\nmontre f()"
      (Evaluator [])).state.output = [[.num 7]]
    ∧ (runCode 50
      "fonction g(x) \x7b renvoie x \x7d\nfonction f() \x7b soit x = 1\nrenvoie g(7) \x7d\nmontre f()"
      (Evaluator [])).signal? = none := by
  refine ⟨by decide, by decide, by decide, by decide⟩

/-- C38, witness: the statement `montre 1` is parsed on the fuel `parse` gives
its two tokens, and both are consumed. -/
theorem front_end_total_witness :
    8 * [(⟨.KEYWORD, .str "montre", 1, 1⟩ : Token), ⟨.NUMBER, .num "1", 1, 8⟩].length + 4 ≤ 24
    ∧ parseStatement 24 [⟨.KEYWORD, .str "montre", 1, 1⟩, ⟨.NUMBER, .num "1", 1, 8⟩]
        = .ok (.PrintStatement [.Literal (.num "1") 1 8] 1 1) []
    ∧ ([] : List Token).length
        < [(⟨.KEYWORD, .str "montre", 1, 1⟩ : Token), ⟨.NUMBER, .num "1", 1, 8⟩].length :=
  ⟨by decide, rfl,
    front_end_total.2.2.2.1 24 [⟨.KEYWORD, .str "montre", 1, 1⟩, ⟨.NUMBER, .num "1", 1, 8⟩] []
      (.PrintStatement [.Literal (.num "1") 1 8] 1 1) (by decide) rfl⟩




end Bhilal
